import Mathlib

/-! # Monkey maze: picture transforms, activation solver, maze generation and cropping

A shallow embedding of `src/src/MazeGame.js`.  JavaScript arrays are lists,
positions are pairs of integers (`getNeighbors` produces `-1`), in-place
mutation is explicit state passing, and a random stream is a function from the
draw number to the draw.  Finite JavaScript numbers are modelled by integers.
-/

set_option autoImplicit false

namespace MonkeyMaze

/-! ## Pictures (`applyOperationsToPicture`, `arePicturesEqual`) -/

/-- A numeric property of a picture element as JavaScript sees it: missing
(`undefined`), `NaN`, or a finite number. -/
inductive JSNum where
  | undefined : JSNum
  | nan : JSNum
  | num (n : Int) : JSNum
  deriving DecidableEq, Repr

/-- The bound `2 ^ 53` up to which every integer is a double and sums of integers are exact
in double arithmetic. -/
def maxExactInt : Int := 9007199254740992

/-- The `===` of JavaScript on numeric properties: `NaN` is not equal to itself. -/
def JSNum.strictEq : JSNum → JSNum → Bool
  | .nan, _ => false
  | _, .nan => false
  | a, b => decide (a = b)

/-- The expression `(a + k) % 360` of JavaScript: `undefined + k` is `NaN`, and `%` keeps
the sign of the dividend.  The sum is the sum of integers; the sum of doubles agrees with it
as long as `a + k` stays within `maxExactInt` in absolute value (beyond it the double sum is
rounded, e.g. `2 ^ 53 + 45` to `2 ^ 53 + 44`). -/
def JSNum.addMod360 (a : JSNum) (k : Int) : JSNum :=
  match a with
  | .num n => .num (Int.tmod (n + k) 360)
  | _ => .nan

/-- An element of a picture; `shape` and `color` are strings or missing. -/
structure Element where
  shape : Option String
  width : JSNum
  height : JSNum
  radius : JSNum
  color : Option String
  offsetX : JSNum
  offsetY : JSNum
  rotationAngle : JSNum
  x : JSNum
  y : JSNum
  deriving DecidableEq, Repr

/-- A picture: the ordered `elements` array. -/
structure Picture where
  elements : List Element
  deriving DecidableEq, Repr

/-- One entry of the `operations` array handed to `applyOperationsToPicture`. -/
structure PictureOp where
  action : String
  elementIndex : Int
  deriving DecidableEq, Repr

/-- The read `elements[elementIndex]`: `undefined` (here `none`) outside the array. -/
def elementAt (elements : List Element) (elementIndex : Int) : Option Element :=
  if 0 ≤ elementIndex then elements[elementIndex.toNat]? else none

/-- The body of the `forEach` of `applyOperationsToPicture`, on the copied elements. -/
def applyOperation (elements : List Element) (op : PictureOp) : List Element :=
  match elementAt elements op.elementIndex with
  | some element =>
    if op.action = "addRotate45" then
      elements.set op.elementIndex.toNat
        { element with rotationAngle := element.rotationAngle.addMod360 45 }
    else if op.action = "rotate180" then
      elements.set op.elementIndex.toNat
        { element with rotationAngle := element.rotationAngle.addMod360 180 }
    else elements
  | none => elements

/-- The function `applyOperationsToPicture`: copy every element, then run the operations in
order on the copy. -/
def applyOperationsToPicture (picture : Picture) (operations : List PictureOp) : Picture :=
  { elements := operations.foldl applyOperation (picture.elements.map fun element => element) }

/-- The comparison of one element with its counterpart inside `arePicturesEqual`. -/
def elementsEqual (element goalElement : Element) : Bool :=
  decide (element.shape = goalElement.shape) &&
  element.width.strictEq goalElement.width &&
  element.height.strictEq goalElement.height &&
  element.radius.strictEq goalElement.radius &&
  decide (element.color = goalElement.color) &&
  element.offsetX.strictEq goalElement.offsetX &&
  element.offsetY.strictEq goalElement.offsetY &&
  element.rotationAngle.strictEq goalElement.rotationAngle &&
  element.x.strictEq goalElement.x &&
  element.y.strictEq goalElement.y

/-- The function `arePicturesEqual`: equal lengths, then element by element. -/
def arePicturesEqual (picture1 picture2 : Picture) : Bool :=
  if picture1.elements.length ≠ picture2.elements.length then false
  else (List.zip picture1.elements picture2.elements).all fun p => elementsEqual p.1 p.2

/-! ### The reference fold of the specification -/

/-- The rotation the specification describes: add `k` degrees modulo 360. -/
def specRotate (k : Int) (a : JSNum) : JSNum :=
  match a with
  | .num n => .num ((n + k) % 360)
  | _ => .nan

/-- One step of the reference fold: an operation whose target index is in range rotates that
element (`addRotate45` by 45, `rotate180` by 180) and touches nothing else; any other operation
changes nothing. -/
def specApplyOne (elements : List Element) (op : PictureOp) : List Element :=
  if 0 ≤ op.elementIndex ∧ op.elementIndex < elements.length then
    if op.action = "addRotate45" then
      elements.modify (fun e => { e with rotationAngle := specRotate 45 e.rotationAngle })
        op.elementIndex.toNat
    else if op.action = "rotate180" then
      elements.modify (fun e => { e with rotationAngle := specRotate 180 e.rotationAngle })
        op.elementIndex.toNat
    else elements
  else elements

/-- The reference fold over the operation list. -/
def specApply (picture : Picture) (operations : List PictureOp) : Picture :=
  { elements := operations.foldl specApplyOne picture.elements }

/-- No numeric property of the element is `NaN`. -/
def Element.noNaN (e : Element) : Prop :=
  e.width ≠ .nan ∧ e.height ≠ .nan ∧ e.radius ≠ .nan ∧ e.offsetX ≠ .nan ∧ e.offsetY ≠ .nan ∧
    e.rotationAngle ≠ .nan ∧ e.x ≠ .nan ∧ e.y ≠ .nan

/-- Every rotation angle of the picture that is a number is non-negative. -/
def Picture.anglesNonneg (p : Picture) : Prop :=
  ∀ e ∈ p.elements, ∀ n : Int, e.rotationAngle = .num n → 0 ≤ n

/-- Every rotation angle of the picture that is a number is non-negative and small enough for
the sums `angle + 45` and `angle + 180` to be exact in double arithmetic; the angles of the data
model, which lie in `[0, 360)`, are of this kind. -/
def Picture.anglesExact (p : Picture) : Prop :=
  ∀ e ∈ p.elements, ∀ n : Int, e.rotationAngle = .num n → 0 ≤ n ∧ n + 180 ≤ maxExactInt


/-! ## Grid cells and node details -/

/-- A value stored in a maze cell: a number (`0` blocked, `1` open, or the numeric `mazeName`
of an operation node), a string (`'s'`, `'g'` or a string `mazeName`), or `null` (outside a
crop rectangle). -/
inductive Cell where
  | num (n : Int) : Cell
  | str (s : String) : Cell
  | null : Cell
  deriving DecidableEq, Repr

/-- A grid position `[row, col]`. -/
abbrev Pos := Int × Int

/-- The maze: an array of rows of cells. -/
abbrev Maze := List (List Cell)

/-- The adjacency matrix: an array of rows of numbers. -/
abbrev AdjMatrix := List (List Int)

/-- One entry of the `operations` list of an operation node. -/
structure Operation where
  type : String
  params : Option (Pos × Pos)
  targetElementIndex : List Int
  deriving DecidableEq, Repr

/-- The record `nodeDetails.operation[key]`. -/
structure OperationNode where
  positions : List Pos
  quantity : Int
  mazeName : Cell
  operations : List Operation
  predefinedPositions : Option (List Pos)
  deriving DecidableEq, Repr

/-- The registry `nodeDetails`: `start` is `nodeDetails.start.positions[0]`, `goal` is
`nodeDetails.goal.positions`, and `operation` lists the entries of `nodeDetails.operation` in
the order in which `for (key in ...)` and `Object.keys` enumerate them. -/
structure NodeDetails where
  start : Pos
  goal : List Pos
  operation : List (String × OperationNode)
  deriving DecidableEq, Repr

/-! ## The activation solver (`findNextNodesToActivate`) -/

/-- An entry of `availableNodes`. -/
structure AvailableNode where
  node : String
  operations : List Operation
  position : Pos
  deriving DecidableEq, Repr

/-- An entry of `operationNodes`. -/
structure SolverNode where
  nodeKey : String
  operations : List Operation
  deriving DecidableEq, Repr

/-- An entry of the result of `findNextNodesToActivate`. -/
structure NextNode where
  node : String
  position : Pos
  deriving DecidableEq, Repr

/-- The value of `1 << k`: the shift count is taken modulo 32 and the result is a signed
32-bit integer. -/
def shiftLeftOne (k : Nat) : Int :=
  if k % 32 = 31 then -2147483648 else ((2 ^ (k % 32) : Nat) : Int)

/-- The test `i & (1 << j)` of `generateSubsets` for a non-negative `i` below `2 ^ 31`:
bit `j % 32` of `i` is set. -/
def maskBit (i j : Nat) : Bool :=
  i.testBit (j % 32)

/-- The inner loop of `generateSubsets`: the elements `arr[j]` whose bit is set in `i`. -/
def subsetOfMask {α : Type} (arr : List α) (i : Nat) : List α :=
  ((List.range arr.length).filter fun j => maskBit i j).filterMap fun j => arr[j]?

/-- The function `generateSubsets`: one subset for every `i` with `0 ≤ i < (1 << len)`. -/
def generateSubsets {α : Type} (arr : List α) : List (List α) :=
  (List.range (shiftLeftOne arr.length).toNat).map fun i => subsetOfMask arr i

/-- The function `permute`: insert the first element at every place of every permutation of
the rest. -/
def permute {α : Type} : List α → List (List α)
  | [] => [[]]
  | [a] => [[a]]
  | firstElement :: b :: rest =>
    (permute (b :: rest)).flatMap fun smallerPermutation =>
      (List.range (smallerPermutation.length + 1)).map fun j =>
        smallerPermutation.take j ++ [firstElement] ++ smallerPermutation.drop j

/-- The triple loop that fills `availableNodes`: rows, then columns, then the keys of
`nodeDetails.operation`. -/
def availableNodes (maze : Maze) (operation : List (String × OperationNode)) :
    List AvailableNode :=
  (List.zip (List.range maze.length) maze).flatMap fun rowEntry =>
    (List.zip (List.range rowEntry.2.length) rowEntry.2).flatMap fun colEntry =>
      (operation.filter fun entry => decide (entry.2.mazeName = colEntry.2)).map fun entry =>
        { node := entry.1, operations := entry.2.operations,
          position := ((rowEntry.1 : Int), (colEntry.1 : Int)) }

/-- The list `operationNodes`: the available nodes without their `addEdge` operations. -/
def operationNodes (available : List AvailableNode) : List SolverNode :=
  available.map fun node =>
    { nodeKey := node.node, operations := node.operations.filter fun op => op.type ≠ "addEdge" }

/-- The operations of an ordering, flattened over the target indices of every operation. -/
def orderOperations (order : List SolverNode) : List PictureOp :=
  order.flatMap fun opNode => opNode.operations.flatMap fun op =>
    op.targetElementIndex.map fun index => { action := op.type, elementIndex := index }

/-- The filter predicate that selects `validGoalOrders`. -/
def isValidOrder (currentPicture goalPicture : Picture) (order : List SolverNode) : Bool :=
  arePicturesEqual (applyOperationsToPicture currentPicture (orderOperations order)) goalPicture

/-- The function `findNextNodesToActivate`. -/
def findNextNodesToActivate (maze : Maze) (currentPicture goalPicture : Picture)
    (nodeDetails : NodeDetails) : List NextNode :=
  let available := availableNodes maze nodeDetails.operation
  let allSubsets := generateSubsets (operationNodes available)
  let allPossibleGoalOrders := allSubsets.flatMap fun subset => permute subset
  let validGoalOrders := allPossibleGoalOrders.filter (isValidOrder currentPicture goalPicture)
  validGoalOrders.flatMap fun order =>
    order.flatMap fun opNode =>
      (available.filter fun node => decide (node.node = opNode.nodeKey)).map fun node =>
        { node := opNode.nodeKey, position := node.position }

/-- The rectangle of the solver scenario: a `rect` element at rotation angle 0. -/
def scenarioRect : Element :=
  { shape := some "rect", width := .num 30, height := .num 10, radius := .undefined,
    color := some "#3ba6ff", offsetX := .num 0, offsetY := .num 5, rotationAngle := .num 0,
    x := .num 100, y := .num 50 }

/-- The operation node of the solver scenario: its only operation is `rotate180` on element 0. -/
def scenarioOperationNode : OperationNode :=
  { positions := [(1, 0)]
    quantity := 1
    mazeName := .num 3
    operations := [{ type := "rotate180", params := none, targetElementIndex := [0] }]
    predefinedPositions := none }

/-- The node details of the solver scenario: one operation node type. -/
def scenarioNodeDetails : NodeDetails :=
  { start := (0, 0), goal := [(1, 1)], operation := [("node2", scenarioOperationNode)] }

/-- The grid of the solver scenario: the operation node is placed at `[1, 0]`. -/
def scenarioMaze : Maze := [[.str "s", .num 1], [.num 3, .str "g"]]

/-! ## Grid and matrix access -/

/-- The function `getNeighbors`: up, down, left, right. -/
def getNeighbors (pos : Pos) : List Pos :=
  [(pos.1 - 1, pos.2), (pos.1 + 1, pos.2), (pos.1, pos.2 - 1), (pos.1, pos.2 + 1)]

/-- The function `isValidMatrixIndex`. -/
def isValidMatrixIndex (pos : Pos) (ROWS COLS : Nat) : Bool :=
  decide (0 ≤ pos.1) && decide (pos.1 < ROWS) && decide (0 ≤ pos.2) && decide (pos.2 < COLS)

/-- The read `maze[row][col]`; `none` is `undefined`. -/
def cellAt (maze : Maze) (pos : Pos) : Option Cell :=
  if 0 ≤ pos.1 ∧ 0 ≤ pos.2 then (maze[pos.1.toNat]?).bind fun row => row[pos.2.toNat]?
  else none

/-- The write `maze[row][col] = value` on a cell of the grid (a write outside the grid is not
modelled and leaves the grid as it is). -/
def setCell (maze : Maze) (pos : Pos) (value : Cell) : Maze :=
  if 0 ≤ pos.1 ∧ 0 ≤ pos.2 then
    maze.modify (fun row => row.set pos.2.toNat value) pos.1.toNat
  else maze

/-- The function `isValid`: inside the bounds and `maze[row][col] !== 0`. -/
def isValid (maze : Maze) (pos : Pos) (ROWS COLS : Nat) : Bool :=
  isValidMatrixIndex pos ROWS COLS && decide (cellAt maze pos ≠ some (.num 0))

/-- The read `adjMatrix[i][j]`; `none` is `undefined`. -/
def entryAt (adjMatrix : AdjMatrix) (i j : Int) : Option Int :=
  if 0 ≤ i ∧ 0 ≤ j then (adjMatrix[i.toNat]?).bind fun row => row[j.toNat]?
  else none

/-- The write `adjMatrix[i][j] = value` on an entry of the matrix (a write outside the matrix is
not modelled and leaves the matrix as it is). -/
def setEntry (adjMatrix : AdjMatrix) (i j : Int) (value : Int) : AdjMatrix :=
  if 0 ≤ i ∧ 0 ≤ j then
    adjMatrix.modify (fun row => row.set j.toNat value) i.toNat
  else adjMatrix

/-- The two writes `adjMatrix[i][j] = value; adjMatrix[j][i] = value`. -/
def setBoth (adjMatrix : AdjMatrix) (i j : Int) (value : Int) : AdjMatrix :=
  setEntry (setEntry adjMatrix i j value) j i value

/-- The index `pos[0] * COLS + pos[1]` of a cell in the matrix. -/
def cellIndex (pos : Pos) (COLS : Nat) : Int :=
  pos.1 * COLS + pos.2

/-- The cells in the order of the loops `for row ... for col ...`. -/
def allCells (ROWS COLS : Nat) : List Pos :=
  (List.range ROWS).flatMap fun (row : Nat) =>
    (List.range COLS).map fun (col : Nat) => ((row : Int), (col : Int))

/-- The grid of `ROWS` rows and `COLS` columns in which every cell is open. -/
def openGrid (ROWS COLS : Nat) : Maze :=
  List.replicate ROWS (List.replicate COLS (.num 1))

/-! ## Random streams -/

/-- One draw of a random generator: the number `num / (num + gap + 1)` of `[0, 1)`. -/
structure Draw where
  num : Nat
  gap : Nat
  deriving DecidableEq, Repr

/-- The value `Math.floor(draw * n)`. -/
def Draw.floorMul (d : Draw) (n : Nat) : Nat :=
  d.num * n / (d.num + d.gap + 1)

/-- A probability parameter (`connectivity_sparsity`): the number `num / (den + 1)`. -/
structure Sparsity where
  num : Int
  den : Nat
  deriving DecidableEq, Repr

/-- The test `draw < removalProb`. -/
def Draw.lt (d : Draw) (p : Sparsity) : Bool :=
  decide ((d.num : Int) * (p.den + 1) < p.num * (d.num + d.gap + 1))

/-- The sources of randomness: the stream `seedrandom(seed)` of every seed, and the draws of
`Math.random()` in the order of the calls. -/
structure RandomEnv where
  seedrandom : String → Nat → Draw
  mathRandom : Nat → Draw

/-- The test `seed ? ... : ...`: a seed is used when it is a non-empty string. -/
def seedTruthy (seed : Option String) : Bool :=
  match seed with
  | some s => decide (s ≠ "")
  | none => false

/-- The generator `seed ? seedrandom(seed) : Math.random` when `mathPos` draws of `Math.random`
have been consumed: its `k`-th draw. -/
def rngOf (env : RandomEnv) (seed : Option String) (mathPos : Nat) : Nat → Draw :=
  match seed with
  | some s => if s ≠ "" then env.seedrandom s else fun k => env.mathRandom (mathPos + k)
  | none => fun k => env.mathRandom (mathPos + k)

/-- The number of consumed `Math.random` draws after `used` draws of the generator chosen by
`seed`. -/
def advance (seed : Option String) (mathPos used : Nat) : Nat :=
  if seedTruthy seed then mathPos else mathPos + used

/-! ## Breadth-first search loops -/

/-- The inner `for` loop of every search: each candidate whose key (its string, or its index)
is not yet in the visited set is marked and pushed on the queue. -/
def enqueueAll {α κ : Type} [DecidableEq κ] (key : α → κ) :
    List α → List κ → List α → List κ × List α
  | [], visited, queue => (visited, queue)
  | n :: rest, visited, queue =>
    if key n ∈ visited then enqueueAll key rest visited queue
    else enqueueAll key rest (visited ++ [key n]) (queue ++ [n])

/-- The `while (queue.length > 0)` loop of every search: take the head of the queue, stop with
`true` when it satisfies `stop`, otherwise enqueue those of its successors that are new.  The
result is the answer and the visited set in the order of discovery. -/
def bfsLoop {α κ : Type} [DecidableEq κ] (key : α → κ) (succ : α → List α) (stop : α → Bool) :
    Nat → List κ → List α → Bool × List κ
  | 0, visited, _ => (false, visited)
  | _ + 1, visited, [] => (false, visited)
  | fuel + 1, visited, current :: queue =>
    if stop current then (true, visited)
    else
      let next := enqueueAll key (succ current) visited queue
      bfsLoop key succ stop fuel next.1 next.2

/-- The neighbours that `bfsDirection` and `generatePath` may step on. -/
def validNeighbors (maze : Maze) (ROWS COLS : Nat) (current : Pos) : List Pos :=
  (getNeighbors current).filter fun neighbor => isValid maze neighbor ROWS COLS

/-- The function `bfs` of `MazeGame.js` (its inner `bfsDirection` from `start` to `goal`; the
adjacency matrix is not read). -/
def bfs (maze : Maze) (start goal : Pos) (ROWS COLS : Nat) : Bool :=
  (bfsLoop (fun pos => pos) (validNeighbors maze ROWS COLS)
    (fun current => decide (current = goal)) (ROWS * COLS + 1) [start] [start]).1

/-- The neighbours that `bfsCheck` may step on: inside the bounds and joined by a matrix edge. -/
def edgeNeighbors (adjMatrix : AdjMatrix) (ROWS COLS : Nat) (current : Pos) : List Pos :=
  (getNeighbors current).filter fun neighbor =>
    isValidMatrixIndex neighbor ROWS COLS &&
      decide (entryAt adjMatrix (cellIndex current COLS) (cellIndex neighbor COLS) = some 1)

/-- The function `bfsCheck`; its parameter `maze` is never read and is not a parameter here. -/
def bfsCheck (adjMatrix : AdjMatrix) (start goal : Pos) (ROWS COLS : Nat) : Bool :=
  (bfsLoop (fun pos => pos) (edgeNeighbors adjMatrix ROWS COLS)
    (fun current => decide (current = goal)) (ROWS * COLS + 1) [start] [start]).1

/-- The length `adjMatrix[node].length`. -/
def rowLength (adjMatrix : AdjMatrix) (node : Nat) : Nat :=
  match adjMatrix[node]? with
  | some row => row.length
  | none => 0

/-- The neighbours of a node in `isGraphConnected`: every column that holds a 1. -/
def matrixNeighbors (adjMatrix : AdjMatrix) (node : Nat) : List Nat :=
  (List.range (rowLength adjMatrix node)).filter fun neighbor =>
    decide (entryAt adjMatrix node neighbor = some 1)

/-- The function `isGraphConnected`: the search from node 0 counts `ROWS * COLS` nodes. -/
def isGraphConnected (adjMatrix : AdjMatrix) (ROWS COLS : Nat) : Bool :=
  decide ((bfsLoop (fun node => node) (matrixNeighbors adjMatrix) (fun _ => false)
    (ROWS * COLS + 1) [0] [0]).2.length = ROWS * COLS)

/-! ## Maze generation (`generateMaze`) -/

/-- The function `updateAdjacencyMatrix`: join `pos` to (or with `remove`, cut it from) every
neighbour inside the bounds. -/
def updateAdjacencyMatrix (adjMatrix : AdjMatrix) (pos : Pos) (remove : Bool)
    (ROWS COLS : Nat) : AdjMatrix :=
  (getNeighbors pos).foldl (fun adj neighbor =>
    if isValidMatrixIndex neighbor ROWS COLS then
      setBoth adj (cellIndex pos COLS) (cellIndex neighbor COLS) (if remove then 0 else 1)
    else adj) adjMatrix

/-- The first loop of `generateMaze`: an edge between every two neighbouring cells that are both
not blocked. -/
def initialAdjMatrix (maze : Maze) (ROWS COLS : Nat) : AdjMatrix :=
  (allCells ROWS COLS).foldl (fun adj pos =>
    (getNeighbors pos).foldl (fun adj neighbor =>
      if isValidMatrixIndex neighbor ROWS COLS && decide (cellAt maze pos ≠ some (.num 0)) &&
          decide (cellAt maze neighbor ≠ some (.num 0)) then
        setEntry adj (cellIndex pos COLS) (cellIndex neighbor COLS) 1
      else adj) adj)
    (List.replicate (ROWS * COLS) (List.replicate (ROWS * COLS) 0))

/-- The edge list of `removeEdgesOnly` before the shuffle. -/
def collectEdges (adjMatrix : AdjMatrix) (ROWS COLS : Nat) : List (Int × Int) :=
  (allCells ROWS COLS).flatMap fun pos =>
    ((getNeighbors pos).filter fun neighbor =>
      isValidMatrixIndex neighbor ROWS COLS &&
        decide (entryAt adjMatrix (cellIndex pos COLS) (cellIndex neighbor COLS) = some 1)).map
      fun neighbor => (cellIndex pos COLS, cellIndex neighbor COLS)

/-- The swap `[list[i], list[j]] = [list[j], list[i]]`. -/
def swapAt {α : Type} (list : List α) (i j : Nat) : List α :=
  match list[i]?, list[j]? with
  | some a, some b => (list.set i b).set j a
  | _, _ => list

/-- The shuffle loop `for (i = length - 1; i > 0; i--)`, started at index `i` with the `k`-th
draw of the generator. -/
def shuffleLoop {α : Type} (rng : Nat → Draw) : Nat → Nat → List α → List α
  | 0, _, list => list
  | i + 1, k, list => shuffleLoop rng i (k + 1) (swapAt list (i + 1) ((rng k).floorMul (i + 2)))

/-- One round of the removal loop of `removeEdgesOnly`: with a draw below `removalProb` the edge
is deleted, and restored when the graph is no longer connected. -/
def removeEdgeStep (ROWS COLS : Nat) (removalProb : Sparsity) (adjMatrix : AdjMatrix)
    (edge : Int × Int) (draw : Draw) : AdjMatrix :=
  if draw.lt removalProb then
    let removed := setBoth adjMatrix edge.1 edge.2 0
    if !isGraphConnected removed ROWS COLS then setBoth removed edge.1 edge.2 1 else removed
  else adjMatrix

/-- The removal loop of `removeEdgesOnly` over the shuffled edges, from the `k`-th draw on. -/
def removeEdgeLoop (ROWS COLS : Nat) (removalProb : Sparsity) (rng : Nat → Draw) :
    List (Int × Int) → Nat → AdjMatrix → AdjMatrix
  | [], _, adjMatrix => adjMatrix
  | edge :: rest, k, adjMatrix =>
    removeEdgeLoop ROWS COLS removalProb rng rest (k + 1)
      (removeEdgeStep ROWS COLS removalProb adjMatrix edge (rng k))

/-- The function `removeEdgesOnly`: the new matrix and the number of draws it consumed. -/
def removeEdgesOnly (adjMatrix : AdjMatrix) (removalProb : Sparsity) (rng : Nat → Draw)
    (ROWS COLS : Nat) : AdjMatrix × Nat :=
  let edgeList := collectEdges adjMatrix ROWS COLS
  let shuffled := shuffleLoop rng (edgeList.length - 1) 0 edgeList
  (removeEdgeLoop ROWS COLS removalProb rng shuffled (edgeList.length - 1) adjMatrix,
    (edgeList.length - 1) + edgeList.length)

/-- The helper `findConnectedComponents` of `ensureFullConnectivity`: one search over the cells
that are not blocked from every cell not yet visited.  Every cell it marks lies inside the
bounds, where the index `x * COLS + y` names the cell, so the visited array is kept by cell. -/
def findConnectedComponents (maze : Maze) (ROWS COLS : Nat) : List (List Pos) :=
  ((allCells ROWS COLS).foldl (fun (state : List Pos × List (List Pos)) pos =>
    if pos ∉ state.1 ∧ cellAt maze pos ≠ some (.num 0) then
      let visited := (bfsLoop (fun cell => cell) (validNeighbors maze ROWS COLS)
        (fun _ => false) (ROWS * COLS + 1) (state.1 ++ [pos]) [pos]).2
      (visited, state.2 ++ [visited.drop state.1.length])
    else state) ([], [])).2

/-- The Manhattan distance `Math.abs(ax - bx) + Math.abs(ay - by)`. -/
def manhattan (a b : Pos) : Nat :=
  (a.1 - b.1).natAbs + (a.2 - b.2).natAbs

/-- The search for `bestPair`: the first pair with the least distance. -/
def bestPair (componentA componentB : List Pos) : Option (Pos × Pos) :=
  (componentA.foldl (fun (best : Option (Nat × Pos × Pos)) a =>
    componentB.foldl (fun (best : Option (Nat × Pos × Pos)) b =>
      match best with
      | none => some (manhattan a b, a, b)
      | some (minDist, pair) =>
        if manhattan a b < minDist then some (manhattan a b, a, b) else some (minDist, pair))
      best) none).map fun best => best.2

/-- Open one cell of a corridor: `maze[x][y] = 1; updateAdjacencyMatrix(adjMatrix, [x, y])`. -/
def openCell (ROWS COLS : Nat) (state : Maze × AdjMatrix) (pos : Pos) : Maze × AdjMatrix :=
  (setCell state.1 pos (.num 1), updateAdjacencyMatrix state.2 pos false ROWS COLS)

/-- The `while (x !== bx || y !== by)` loop of the L-shaped corridor: rows first, then columns;
the target cell itself is not opened. -/
def corridorCells : Nat → Pos → Pos → List Pos
  | 0, _, _ => []
  | fuel + 1, (x, y), (bx, byy) =>
    if x ≠ bx ∨ y ≠ byy then
      (x, y) :: corridorCells fuel
        (if x ≠ bx then (if x < bx then x + 1 else x - 1, y)
          else (x, if y < byy then y + 1 else y - 1)) (bx, byy)
    else []

/-- The cells opened between the two cells of a best pair. -/
def carveCells (a b : Pos) : List Pos :=
  if a.1 = b.1 then
    (List.range ((max a.2 b.2 - min a.2 b.2).toNat + 1)).map fun (k : Nat) =>
      (a.1, min a.2 b.2 + (k : Int))
  else if a.2 = b.2 then
    (List.range ((max a.1 b.1 - min a.1 b.1).toNat + 1)).map fun (k : Nat) =>
      (min a.1 b.1 + (k : Int), a.2)
  else corridorCells (manhattan a b) a b

/-- The function `ensureFullConnectivity` of `generateMaze`. -/
def ensureFullConnectivity (maze : Maze) (adjMatrix : AdjMatrix) (ROWS COLS : Nat) :
    Maze × AdjMatrix :=
  let components := findConnectedComponents maze ROWS COLS
  if components.length ≤ 1 then (maze, adjMatrix)
  else
    (List.zip components components.tail).foldl (fun state pair =>
      match bestPair pair.1 pair.2 with
      | some (a, b) => (carveCells a b).foldl (openCell ROWS COLS) state
      | none => state) (maze, adjMatrix)

/-- The revert test of `removeEdgesOrNodes`: `goals.every(goal => !bfs(...))`. -/
def noGoalReachable (maze : Maze) (start : Pos) (goals : List Pos) (ROWS COLS : Nat) : Bool :=
  goals.all fun goal => !bfs maze start goal ROWS COLS

/-- The treatment of one selected cell in `removeEdgesOrNodes`: every edge to a neighbour is
deleted, and restored when no goal can be reached from the start any more. -/
def severCell (maze : Maze) (start : Pos) (goals : List Pos) (ROWS COLS : Nat)
    (adjMatrix : AdjMatrix) (pos : Pos) : AdjMatrix :=
  (getNeighbors pos).foldl (fun adj neighbor =>
    if isValidMatrixIndex neighbor ROWS COLS &&
        decide (entryAt adj (cellIndex pos COLS) (cellIndex neighbor COLS) = some 1) then
      let removed := setBoth adj (cellIndex pos COLS) (cellIndex neighbor COLS) 0
      if noGoalReachable maze start goals ROWS COLS then
        setBoth removed (cellIndex pos COLS) (cellIndex neighbor COLS) 1
      else removed
    else adj) adjMatrix

/-- The loop of `removeEdgesOrNodes` over the cells, one draw for each cell, from the `k`-th
draw on. -/
def removeEdgesOrNodesLoop (maze : Maze) (start : Pos) (goals : List Pos)
    (removalProb : Sparsity) (rng : Nat → Draw) (ROWS COLS : Nat) :
    List Pos → Nat → AdjMatrix → AdjMatrix
  | [], _, adjMatrix => adjMatrix
  | pos :: rest, k, adjMatrix =>
    removeEdgesOrNodesLoop maze start goals removalProb rng ROWS COLS rest (k + 1)
      (if (rng k).lt removalProb then severCell maze start goals ROWS COLS adjMatrix pos
        else adjMatrix)

/-- The function `removeEdgesOrNodes`: the new matrix and the number of draws it consumed. -/
def removeEdgesOrNodes (maze : Maze) (adjMatrix : AdjMatrix) (start : Pos) (goals : List Pos)
    (removalProb : Sparsity) (rng : Nat → Draw) (ROWS COLS : Nat) : AdjMatrix × Nat :=
  (removeEdgesOrNodesLoop maze start goals removalProb rng ROWS COLS (allCells ROWS COLS) 0
    adjMatrix, ROWS * COLS)

/-- The sum `adjMatrix[currentIdx].reduce((a, b) => a + b)`. -/
def rowSum (adjMatrix : AdjMatrix) (i : Int) : Int :=
  if 0 ≤ i then
    match adjMatrix[i.toNat]? with
    | some row => row.sum
    | none => 0
  else 0

/-- The function `removeIsolatedNodes`: a cell without any edge becomes blocked. -/
def removeIsolatedNodes (maze : Maze) (adjMatrix : AdjMatrix) (ROWS COLS : Nat) : Maze :=
  (allCells ROWS COLS).foldl (fun mz pos =>
    if rowSum adjMatrix (cellIndex pos COLS) = 0 then setCell mz pos (.num 0) else mz) maze

/-- The loop `for (i = 0; i < ROWS * COLS; i++)` that clears row and column `idx`. -/
def clearNode (adjMatrix : AdjMatrix) (idx : Int) (ROWS COLS : Nat) : AdjMatrix :=
  (List.range (ROWS * COLS)).foldl (fun adj (i : Nat) => setBoth adj idx (i : Int) 0) adjMatrix

/-- The treatment of one cell in `removeInvalidEdges`. -/
def removeInvalidEdgesAt (maze : Maze) (ROWS COLS : Nat) (adjMatrix : AdjMatrix) (pos : Pos) :
    AdjMatrix :=
  if !(getNeighbors pos).any (fun neighbor => isValid maze neighbor ROWS COLS) then
    clearNode adjMatrix (cellIndex pos COLS) ROWS COLS
  else
    let adj1 := (getNeighbors pos).foldl (fun adj neighbor =>
      if !isValid maze neighbor ROWS COLS && isValidMatrixIndex pos ROWS COLS &&
          isValidMatrixIndex neighbor ROWS COLS then
        setBoth adj (cellIndex pos COLS) (cellIndex neighbor COLS) 0
      else adj) adjMatrix
    (List.range (ROWS * COLS)).foldl (fun adj (i : Nat) =>
      if entryAt adj (cellIndex pos COLS) (i : Int) = some 1 ∧
          isValid maze (Int.ofNat (i / COLS), Int.ofNat (i % COLS)) ROWS COLS = false then
        setBoth adj (cellIndex pos COLS) (i : Int) 0
      else adj) adj1

/-- The function `removeInvalidEdges`. -/
def removeInvalidEdges (maze : Maze) (adjMatrix : AdjMatrix) (ROWS COLS : Nat) : AdjMatrix :=
  (allCells ROWS COLS).foldl (removeInvalidEdgesAt maze ROWS COLS) adjMatrix

/-- The treatment of one cell in `removeUnreachableNodes`; the test `[...start].includes(idx)`
compares the index of the cell with the row and with the column of the start, and `bfsCheck` is
called with its default bounds 7 and 7. -/
def removeUnreachableAt (start : Pos) (ROWS COLS : Nat) (state : Maze × AdjMatrix) (pos : Pos) :
    Maze × AdjMatrix :=
  if ¬ (cellIndex pos COLS = start.1 ∨ cellIndex pos COLS = start.2) ∧
      bfsCheck state.2 pos start 7 7 = false then
    (setCell state.1 pos (.num 0),
      (getNeighbors pos).foldl (fun adj neighbor =>
        if isValidMatrixIndex neighbor ROWS COLS then
          setBoth adj (cellIndex pos COLS) (cellIndex neighbor COLS) 0
        else adj) state.2)
  else state

/-- The function `removeUnreachableNodes`. -/
def removeUnreachableNodes (maze : Maze) (adjMatrix : AdjMatrix) (start : Pos)
    (ROWS COLS : Nat) : Maze × AdjMatrix :=
  (allCells ROWS COLS).foldl (removeUnreachableAt start ROWS COLS) (maze, adjMatrix)

/-- The `while` loop of `generatePath`: the queue holds pairs of a cell and the path to it, and
the start is not marked as visited. -/
def generatePathLoop (maze : Maze) (goal : Pos) (ROWS COLS : Nat) :
    Nat → List Pos → List (Pos × List Pos) → List Pos
  | 0, _, _ => []
  | _ + 1, _, [] => []
  | fuel + 1, visited, (current, path) :: queue =>
    if current = goal then path
    else
      let fresh := enqueueAll (fun pos => pos) (validNeighbors maze ROWS COLS current) visited []
      generatePathLoop maze goal ROWS COLS fuel fresh.1
        (queue ++ fresh.2.map fun neighbor => (neighbor, path ++ [neighbor]))

/-- The function `generatePath`. -/
def generatePath (maze : Maze) (start goal : Pos) (ROWS COLS : Nat) : List Pos :=
  generatePathLoop maze goal ROWS COLS (ROWS * COLS + 1) [] [(start, [start])]

/-- The function `ensurePath`, which works with its default bounds 7 and 7. On a grid with
fewer than 7 rows the search of the code can read `maze[row]` for a row past the grid and throw;
here such a read finds no cell and the neighbour counts as not open, so the statements about
`ensurePath` describe the code on grids of at least 7 rows. -/
def ensurePath (state : Maze × AdjMatrix) (start goal : Pos) : Maze × AdjMatrix :=
  if !bfs state.1 start goal 7 7 then
    ((generatePath state.1 start goal 7 7).foldl (fun mz pos => setCell mz pos (.num 1)) state.1,
      updateAdjacencyMatrix (updateAdjacencyMatrix state.2 start false 7 7) goal false 7 7)
  else state

/-- The pairs `(criticalNodes[i], criticalNodes[j])` with `i < j` in the order of the loops. -/
def orderedPairs {α : Type} : List α → List (α × α)
  | [] => []
  | a :: rest => (rest.map fun b => (a, b)) ++ orderedPairs rest

/-- The function `ensureConnectivity`. -/
def ensureConnectivity (maze : Maze) (adjMatrix : AdjMatrix) (criticalNodes : List Pos) :
    Maze × AdjMatrix :=
  (orderedPairs criticalNodes).foldl (fun state pair => ensurePath state pair.1 pair.2)
    (maze, adjMatrix)

/-- The guarded write of `updateMazeWithNodeNames`:
`if (row < maze.length && col < maze[0].length) updatedMaze[row][col] = name`. A negative row
passes the guard and the code throws on `updatedMaze[row]`; here the write is then dropped, so
the statements about named grids describe the code for positions with a row of at least 0. -/
def nameCell (maze : Maze) (updatedMaze : Maze) (pos : Pos) (name : Cell) : Maze :=
  if pos.1 < maze.length ∧ pos.2 < (maze.headD []).length then setCell updatedMaze pos name
  else updatedMaze

/-- The function `updateMazeWithNodeNames`. -/
def updateMazeWithNodeNames (maze : Maze) (nodeDetails : NodeDetails) (operations : Bool) :
    Maze :=
  let withStart := nameCell maze maze nodeDetails.start (.str "s")
  let withGoals := nodeDetails.goal.foldl (fun mz goal => nameCell maze mz goal (.str "g"))
    withStart
  if operations then
    nodeDetails.operation.foldl (fun mz entry =>
      entry.2.positions.foldl (fun mz pos => nameCell maze mz pos entry.2.mazeName) mz) withGoals
  else withGoals

/-- The loop of `placeOperationNodes` over `predefinedPositions`: a position inside the grid whose
cell is open is taken, and the loop breaks as soon as `numNodes` positions are recorded. -/
def placePredefined (numNodes : Int) (nodeType : Cell) :
    List Pos → Maze → List Pos → Maze × List Pos
  | [], maze, positions => (maze, positions)
  | pos :: rest, maze, positions =>
    if 0 ≤ pos.1 ∧ pos.1 < maze.length ∧ 0 ≤ pos.2 ∧ pos.2 < (maze.headD []).length ∧
        cellAt maze pos = some (.num 1) then
      if ((positions ++ [pos]).length : Int) ≥ numNodes then
        (setCell maze pos nodeType, positions ++ [pos])
      else placePredefined numNodes nodeType rest (setCell maze pos nodeType) (positions ++ [pos])
    else placePredefined numNodes nodeType rest maze positions

/-- The open cells of the grid in row-major order (`availablePositions`). -/
def openPositions (maze : Maze) : List Pos :=
  (allCells maze.length (maze.headD []).length).filter fun pos => cellAt maze pos = some (.num 1)

/-- The `while` loop of `placeOperationNodes`: draw an index, splice the position out of the
pool, mark the cell.  The result carries the number of draws consumed. -/
def placeRandom (numNodes : Int) (nodeType : Cell) (rng : Nat → Draw) :
    Nat → Nat → List Pos → Maze → List Pos → Maze × List Pos × Nat
  | 0, k, _, maze, positions => (maze, positions, k)
  | fuel + 1, k, available, maze, positions =>
    if (positions.length : Int) < numNodes ∧ available.length > 0 then
      let randomIndex := (rng k).floorMul available.length
      match available[randomIndex]? with
      | some pos =>
        placeRandom numNodes nodeType rng fuel (k + 1) (available.eraseIdx randomIndex)
          (setCell maze pos nodeType) (positions ++ [pos])
      | none => (maze, positions, k)
    else (maze, positions, k)

/-- The function `placeOperationNodes`: the marked grid, the recorded positions and the number
of draws consumed. -/
def placeOperationNodes (maze : Maze) (numNodes : Int) (nodeType : Cell)
    (predefinedPositions : Option (List Pos)) (rng : Nat → Draw) : Maze × List Pos × Nat :=
  let placed := placePredefined numNodes nodeType (predefinedPositions.getD []) maze []
  let available := openPositions placed.1
  placeRandom numNodes nodeType rng available.length 0 available placed.1 placed.2

/-- The value returned by `generateMaze`. -/
structure MazeData where
  maze : Maze
  nodeDetails : NodeDetails
  adjMatrix : AdjMatrix
  deriving DecidableEq, Repr

/-- The loop of `generateMaze` over `Object.keys(nodeDetails.operation)`: every operation node
type is placed with a fresh generator `seed ? seedrandom(seed) : Math.random`. -/
def placeAllOperations (env : RandomEnv) (operation_node_seed : Option String) :
    List (String × OperationNode) → Maze → Nat → Maze × List (String × OperationNode) × Nat
  | [], maze, mathPos => (maze, [], mathPos)
  | (key, operation) :: rest, maze, mathPos =>
    let placed := placeOperationNodes maze operation.quantity operation.mazeName
      operation.predefinedPositions (rngOf env operation_node_seed mathPos)
    let others := placeAllOperations env operation_node_seed rest placed.1
      (advance operation_node_seed mathPos placed.2.2)
    (others.1, (key, { operation with positions := placed.2.1 }) :: others.2.1, others.2.2)

/-- The grid and the matrix of one round of the `while (true)` loop of `generateMaze`, before
the node names are written; the third component counts the consumed `Math.random` draws. -/
def generateBase (env : RandomEnv) (nodeDetails : NodeDetails) (connectivity_sparsity : Sparsity)
    (maze_seed : Option String) (mazeStructure : Option Maze) (fullyConnected : Bool)
    (ROWS COLS : Nat) (mathPos : Nat) : Maze × AdjMatrix × Nat :=
  let maze := match mazeStructure with
    | some given => given.map fun row => row
    | none => openGrid ROWS COLS
  let adjMatrix := initialAdjMatrix maze ROWS COLS
  let start := nodeDetails.start
  let goals := nodeDetails.goal
  if fullyConnected then
    let removed := removeEdgesOnly adjMatrix connectivity_sparsity
      (rngOf env maze_seed mathPos) ROWS COLS
    let connected := ensureFullConnectivity maze removed.1 ROWS COLS
    (connected.1, connected.2, advance maze_seed mathPos removed.2)
  else
    let removed := removeEdgesOrNodes maze adjMatrix start goals connectivity_sparsity
      (rngOf env maze_seed mathPos) ROWS COLS
    let maze1 := removeIsolatedNodes maze removed.1 ROWS COLS
    let adj1 := removeInvalidEdges maze1 removed.1 ROWS COLS
    let unreachable := removeUnreachableNodes maze1 adj1 start ROWS COLS
    let ensured := ensureConnectivity unreachable.1 unreachable.2 (start :: goals)
    (ensured.1, removeInvalidEdges ensured.1 ensured.2 ROWS COLS,
      advance maze_seed mathPos removed.2)

/-- One round of the `while (true)` loop of `generateMaze`: the candidate it builds, whether the
final check `goals.every(goal => bfs(...))` accepts it, and the consumed `Math.random` draws. -/
def generateAttempt (env : RandomEnv) (nodeDetails : NodeDetails)
    (connectivity_sparsity : Sparsity) (maze_seed operation_node_seed : Option String)
    (mazeStructure : Option Maze) (fullyConnected : Bool) (ROWS COLS : Nat) (mathPos : Nat) :
    MazeData × Bool × Nat :=
  let base := generateBase env nodeDetails connectivity_sparsity maze_seed mazeStructure
    fullyConnected ROWS COLS mathPos
  let named := updateMazeWithNodeNames base.1 nodeDetails false
  let placed := placeAllOperations env operation_node_seed nodeDetails.operation named base.2.2
  ({ maze := placed.1, nodeDetails := { nodeDetails with operation := placed.2.1 },
     adjMatrix := base.2.1 },
    nodeDetails.goal.all (fun goal => bfs placed.1 nodeDetails.start goal ROWS COLS),
    placed.2.2)

/-- The function `generateMaze`, with a bound on the number of rounds of its `while (true)` loop:
`none` when no round within the bound passes the final check. With `fullyConnected = false` the
round goes through `ensurePath` and its bounds 7 and 7, so on a grid with fewer than 7 rows the
code can throw where this function returns a value; with `fullyConnected = true` that path is not
taken. -/
def generateMaze (env : RandomEnv) (nodeDetails : NodeDetails) (connectivity_sparsity : Sparsity)
    (maze_seed operation_node_seed : Option String) (mazeStructure : Option Maze)
    (fullyConnected : Bool) (ROWS COLS : Nat) : Nat → Nat → Option MazeData
  | 0, _ => none
  | fuel + 1, mathPos =>
    let attempt := generateAttempt env nodeDetails connectivity_sparsity maze_seed
      operation_node_seed mazeStructure fullyConnected ROWS COLS mathPos
    if attempt.2.1 then some attempt.1
    else generateMaze env { nodeDetails with operation := attempt.1.nodeDetails.operation }
      connectivity_sparsity maze_seed operation_node_seed mazeStructure fullyConnected ROWS COLS
      fuel attempt.2.2

/-! ## Cropping (`cropAndAdjustMaze`) -/

/-- The crop rectangle `[x1, y1, x2, y2]`. -/
structure CropRect where
  x1 : Int
  y1 : Int
  x2 : Int
  y2 : Int
  deriving DecidableEq, Repr

/-- The test `row >= y1 && row <= y2 && col >= x1 && col <= x2`. -/
def CropRect.contains (rect : CropRect) (pos : Pos) : Bool :=
  decide (pos.1 ≥ rect.y1) && decide (pos.1 ≤ rect.y2) && decide (pos.2 ≥ rect.x1) &&
    decide (pos.2 ≤ rect.x2)

/-- The first step of `cropAndAdjustMaze`: inside the rectangle a cell becomes 1 or 0, outside
it becomes `null`; the grid keeps its size. -/
def cropCells (maze : Maze) (rect : CropRect) : Maze :=
  (List.zip (List.range maze.length) maze).map fun rowEntry =>
    (List.zip (List.range rowEntry.2.length) rowEntry.2).map fun colEntry =>
      if rect.contains ((rowEntry.1 : Int), (colEntry.1 : Int)) then
        (if colEntry.2 ≠ .num 0 then Cell.num 1 else Cell.num 0)
      else Cell.null

/-- The helper `markInactiveNodes`: every row and column of a cell outside the rectangle is
cleared. -/
def markInactiveNodes (adjMatrix : AdjMatrix) (rect : CropRect) (ROWS COLS : Nat) : AdjMatrix :=
  (allCells ROWS COLS).foldl (fun adj pos =>
    if rect.contains pos then adj else clearNode adj (cellIndex pos COLS) ROWS COLS)
    (adjMatrix.map fun row => row)

/-- The index `(row - y1) * COLS + (col - x1)` used inside the crop. -/
def cropIndex (rect : CropRect) (COLS : Nat) (pos : Pos) : Int :=
  (pos.1 - rect.y1) * COLS + (pos.2 - rect.x1)

/-- The neighbours the crop search may step on: inside the rectangle and joined by an entry 1 at
the crop indices. -/
def cropNeighbors (adjMatrix : AdjMatrix) (rect : CropRect) (COLS : Nat) (current : Pos) :
    List Pos :=
  (getNeighbors current).filter fun neighbor =>
    rect.contains neighbor &&
      decide (entryAt adjMatrix (cropIndex rect COLS current) (cropIndex rect COLS neighbor)
        = some 1)

/-- The number of cells of the rectangle. -/
def CropRect.size (rect : CropRect) : Nat :=
  (rect.y2 - rect.y1 + 1).toNat * (rect.x2 - rect.x1 + 1).toNat

/-- The helper `getAllConnectedNodes` of the crop: the set of visited crop indices. -/
def getAllConnectedNodes (startNode : Pos) (adjMatrix : AdjMatrix) (rect : CropRect)
    (COLS : Nat) : List Int :=
  (bfsLoop (cropIndex rect COLS) (cropNeighbors adjMatrix rect COLS) (fun _ => false)
    (rect.size + 1) [cropIndex rect COLS startNode] [startNode]).2

/-- The cells of the rectangle in the order of the loops `for row = y1 .. y2, col = x1 .. x2`. -/
def rectCells (rect : CropRect) : List Pos :=
  (List.range (rect.y2 - rect.y1 + 1).toNat).flatMap fun (i : Nat) =>
    (List.range (rect.x2 - rect.x1 + 1).toNat).map fun (j : Nat) =>
      (rect.y1 + (i : Int), rect.x1 + (j : Int))

/-- The read `croppedMaze[row - y1][col - x1]`. -/
def croppedAt (croppedMaze : Maze) (rect : CropRect) (pos : Pos) : Option Cell :=
  cellAt croppedMaze (pos.1 - rect.y1, pos.2 - rect.x1)

/-- The search for a neighbour to wire an unreached cell to: the first neighbour inside the
rectangle that is reached and open. -/
def wireCell (croppedMaze : Maze) (rect : CropRect) (COLS : Nat)
    (state : AdjMatrix × List Int) (pos : Pos) : AdjMatrix × List Int :=
  if cropIndex rect COLS pos ∉ state.2 ∧ croppedAt croppedMaze rect pos = some (.num 1) then
    match (getNeighbors pos).find? fun neighbor =>
        rect.contains neighbor && decide (cropIndex rect COLS neighbor ∈ state.2) &&
          decide (croppedAt croppedMaze rect neighbor = some (.num 1)) with
    | some neighbor =>
      let adj := setBoth state.1 (cropIndex rect COLS pos) (cropIndex rect COLS neighbor) 1
      (adj, getAllConnectedNodes (rect.y1, rect.x1) adj rect COLS)
    | none => state
  else state

/-- The helper `ensureFullConnectivity` of the crop. -/
def cropEnsureFullConnectivity (croppedMaze : Maze) (adjMatrix : AdjMatrix) (rect : CropRect)
    (COLS : Nat) : AdjMatrix :=
  ((rectCells rect).foldl (wireCell croppedMaze rect COLS)
    (adjMatrix, getAllConnectedNodes (rect.y1, rect.x1) adjMatrix rect COLS)).1

/-- The list `availablePositions` of the crop: the open cells of the rectangle, in coordinates
relative to its corner. -/
def cropAvailable (croppedMaze : Maze) (rect : CropRect) : List Pos :=
  ((rectCells rect).filter fun pos => croppedAt croppedMaze rect pos = some (.num 1)).map
    fun pos => (pos.1 - rect.y1, pos.2 - rect.x1)

/-- The call `array.reduce(f)` without an initial value: `none` on the empty array, where
JavaScript throws. -/
def reduce1 {α : Type} (f : α → α → α) : List α → Option α
  | [] => none
  | a :: rest => some (rest.foldl f a)

/-- The relocation of the start: kept inside the rectangle, otherwise the available position
with the least `row + col` (the last one among equals). -/
def cropStart (croppedMaze : Maze) (rect : CropRect) (start : Pos) : Option Pos :=
  if rect.contains start then some start
  else reduce1 (fun prev curr => if prev.1 + prev.2 < curr.1 + curr.2 then prev else curr)
    (cropAvailable croppedMaze rect)

/-- The relocation of one goal: kept inside the rectangle, otherwise the available position
with the greatest `row + col` (the last one among equals).  The pool is rebuilt for every goal,
and the loop that would add further goals never runs. -/
def cropGoal (croppedMaze : Maze) (rect : CropRect) (pos : Pos) : Option Pos :=
  if rect.contains pos then some pos
  else reduce1 (fun prev curr => if prev.1 + prev.2 > curr.1 + curr.2 then prev else curr)
    (cropAvailable croppedMaze rect)

/-- The value returned by `cropAndAdjustMaze`. -/
structure CropResult where
  croppedMaze : Maze
  croppedAdjMatrix : AdjMatrix
  nodeDetails : NodeDetails
  deriving DecidableEq, Repr

/-- The function `cropAndAdjustMaze`; `none` when a `reduce` over an empty list of available
positions throws. -/
def cropAndAdjustMaze (maze : Maze) (adjMatrix : AdjMatrix) (nodeDetails : NodeDetails)
    (rect : CropRect) (ROWS COLS : Nat) : Option CropResult :=
  let croppedMaze := cropCells maze rect
  let updatedAdjMatrix := cropEnsureFullConnectivity croppedMaze
    (markInactiveNodes adjMatrix rect ROWS COLS) rect COLS
  match cropStart croppedMaze rect nodeDetails.start with
  | none => none
  | some start =>
    match nodeDetails.goal.mapM (cropGoal croppedMaze rect) with
    | none => none
    | some goals =>
      let details := { nodeDetails with start := start, goal := goals }
      some { croppedMaze := updateMazeWithNodeNames croppedMaze details false,
             croppedAdjMatrix := updatedAdjMatrix,
             nodeDetails := details }

/-- The crop rectangle `[0, 0, COLS - 1, ROWS - 1]` that covers the whole grid. -/
def wholeGrid (ROWS COLS : Nat) : CropRect :=
  { x1 := 0, y1 := 0, x2 := (COLS : Int) - 1, y2 := (ROWS : Int) - 1 }

/-- The crop rectangle `[0, 0, x2, y2]` whose corner is the corner of the grid. -/
def originRect (x2 y2 : Int) : CropRect :=
  { x1 := 0, y1 := 0, x2 := x2, y2 := y2 }

/-! ## Edge edits (`addEdge`, `delEdge`) -/

/-- The function `addEdge` on `nodes = [node1, node2]`: the matrix after the call, and the
message of the error it throws, if any. -/
def addEdge (adjMatrix : AdjMatrix) (node1 node2 : Pos) (ROWS COLS : Nat) :
    AdjMatrix × Option String :=
  if isValidMatrixIndex node1 ROWS COLS && isValidMatrixIndex node2 ROWS COLS then
    (setBoth adjMatrix (cellIndex node1 COLS) (cellIndex node2 COLS) 1, none)
  else (adjMatrix, some "One or both of the nodes are out of bounds")

/-- The function `delEdge` on `nodes = [node1, node2]`: the matrix after the call, and the
message of the error it throws, if any. -/
def delEdge (adjMatrix : AdjMatrix) (node1 node2 : Pos) (ROWS COLS : Nat) :
    AdjMatrix × Option String :=
  if isValidMatrixIndex node1 ROWS COLS && isValidMatrixIndex node2 ROWS COLS then
    (setBoth adjMatrix (cellIndex node1 COLS) (cellIndex node2 COLS) 0, none)
  else (adjMatrix, some "One or both of the nodes are out of bounds")

/-! ## Manual changes (`applyManualChanges`) -/

/-- An entry of the change log by its `type`: `'node'` with its `position` (if any) and
`action`, `'edge'` with its `from` and `to` (`none` when not an array) and `action`,
`'deactivate_all_edges'`, or any other type. -/
inductive ManualChange where
  | node (position : Option Pos) (action : String) : ManualChange
  | edge (fromCell toCell : Option Pos) (action : String) : ManualChange
  | deactivateAllEdges : ManualChange
  | other : ManualChange
  deriving DecidableEq, Repr

/-- What `applyManualChanges` reads of its `settings`: the positions and the `mazeName` of the
start and of the goal. -/
structure ManualSettings where
  startPositions : List Pos
  startName : Cell
  goalPositions : List Pos
  goalName : Cell
  deriving DecidableEq, Repr

/-- The branch `'deactivate_all'`: start cells and goal cells get their `mazeName`, every other
cell becomes 0. -/
def deactivateAll (maze : Maze) (settings : ManualSettings) : Maze :=
  (List.zip (List.range maze.length) maze).map fun rowEntry =>
    (List.zip (List.range rowEntry.2.length) rowEntry.2).map fun colEntry =>
      if settings.startPositions.any
          (fun pos => decide (pos = ((rowEntry.1 : Int), (colEntry.1 : Int)))) then
        settings.startName
      else if settings.goalPositions.any
          (fun pos => decide (pos = ((rowEntry.1 : Int), (colEntry.1 : Int)))) then
        settings.goalName
      else Cell.num 0

/-- One round of the `forEach` of `applyManualChanges` on the pair of the grid and the matrix.
The function is modelled for a grid with at least one row and for a call that passes
`settings`. -/
def applyManualChange (settings : ManualSettings) (state : Maze × AdjMatrix)
    (change : ManualChange) : Maze × AdjMatrix :=
  match change with
  | .node (some position) action =>
    if position.1 ≥ 0 ∧ position.1 < state.1.length ∧ position.2 ≥ 0 ∧
        position.2 < (state.1.headD []).length then
      if action = "toggle" then
        (setCell state.1 position
          (if cellAt state.1 position = some (.num 1) then .num 0 else .num 1), state.2)
      else state
    else state
  | .node none action =>
    if action = "deactivate_all" then (deactivateAll state.1 settings, state.2) else state
  | .edge (some fromCell) (some toCell) action =>
    let fromIndex := fromCell.1 * ((state.1.headD []).length : Int) + fromCell.2
    let toIndex := toCell.1 * ((state.1.headD []).length : Int) + toCell.2
    if fromIndex ≥ 0 ∧ fromIndex < state.2.length ∧ toIndex ≥ 0 ∧ toIndex < state.2.length then
      if action = "add" then (state.1, setBoth state.2 fromIndex toIndex 1)
      else if action = "delete" then (state.1, setBoth state.2 fromIndex toIndex 0)
      else state
    else state
  | .edge _ _ _ => state
  | .deactivateAllEdges => (state.1, state.2.map fun row => row.map fun _ => 0)
  | .other => state

/-- The function `applyManualChanges`. -/
def applyManualChanges (mazeData : Maze × AdjMatrix) (manualChanges : List ManualChange)
    (settings : ManualSettings) : Maze × AdjMatrix :=
  manualChanges.foldl (applyManualChange settings) mazeData

/-! ## Specification predicates -/

/-- The grid has `ROWS` rows of `COLS` cells each. -/
def hasShape (maze : Maze) (ROWS COLS : Nat) : Prop :=
  maze.map List.length = List.replicate ROWS COLS

/-- Every cell of the grid is blocked (0) or open (1). -/
def isPlainGrid (maze : Maze) : Prop :=
  ∀ (p : Pos) (c : Cell), cellAt maze p = some c → c = .num 0 ∨ c = .num 1

/-- The matrix has `n` rows of `n` entries each. -/
def isSquare (adjMatrix : AdjMatrix) (n : Nat) : Prop :=
  adjMatrix.map List.length = List.replicate n n

/-- Every edge of the first matrix is an edge of the second. -/
def edgesLe (adj1 adj2 : AdjMatrix) : Prop :=
  ∀ i j : Int, entryAt adj1 i j = some 1 → entryAt adj2 i j = some 1

/-- The edges of the matrix go both ways. -/
def isSymmetric (adjMatrix : AdjMatrix) : Prop :=
  ∀ i j : Int, entryAt adjMatrix i j = some 1 → entryAt adjMatrix j i = some 1

/-- The reachability relation of a search: `b` can be reached from `a` along successor steps. -/
def Reach {α : Type} (succ : α → List α) : α → α → Prop :=
  Relation.ReflTransGen fun a b => b ∈ succ a

/-- The rectangle lies inside a grid of `ROWS` rows and `COLS` columns. -/
def CropRect.inBounds (rect : CropRect) (ROWS COLS : Nat) : Prop :=
  0 ≤ rect.x1 ∧ 0 ≤ rect.y1 ∧ rect.x2 < COLS ∧ rect.y2 < ROWS

/-- The cell is inside the rectangle and not blocked. -/
def isOpenInRect (maze : Maze) (rect : CropRect) (p : Pos) : Prop :=
  rect.contains p = true ∧ ∃ v, cellAt maze p = some v ∧ v ≠ Cell.num 0

/-- The cells among which the crop relocates the start and the goals: the cells inside the
rectangle that are not blocked and whose row is at most `y2 - y1` and whose column is at most
`x2 - x1`. -/
def isCropCandidate (maze : Maze) (rect : CropRect) (p : Pos) : Prop :=
  isOpenInRect maze rect p ∧ p.1 ≤ rect.y2 - rect.y1 ∧ p.2 ≤ rect.x2 - rect.x1

/-- Two cells are 4-directionally adjacent. -/
def adjacent4 (a b : Pos) : Prop :=
  (a.1 - b.1).natAbs + (a.2 - b.2).natAbs = 1

/-- One step of a walk over cells as the specification words it: to an adjacent cell that is
inside the bounds and not blocked. -/
def cellStep (maze : Maze) (ROWS COLS : Nat) (a b : Pos) : Prop :=
  adjacent4 a b ∧ isValidMatrixIndex b ROWS COLS = true ∧ cellAt maze b ≠ some (.num 0)

/-- One step of a walk over matrix edges between adjacent cells: to an adjacent cell inside the
bounds that the matrix joins to the current cell. -/
def edgeStep (adjMatrix : AdjMatrix) (ROWS COLS : Nat) (a b : Pos) : Prop :=
  adjacent4 a b ∧ isValidMatrixIndex b ROWS COLS = true ∧
    entryAt adjMatrix (cellIndex a COLS) (cellIndex b COLS) = some 1

/-- The acceptance of predefined positions as the specification words it, without a bound on
their number: a position is accepted when it is inside the grid and open at the moment it is
considered, and it then gets the role tag. -/
def specAcceptedPredefined (nodeType : Cell) : List Pos → Maze → List Pos
  | [], _ => []
  | pos :: rest, maze =>
    if 0 ≤ pos.1 ∧ pos.1 < maze.length ∧ 0 ≤ pos.2 ∧ pos.2 < (maze.headD []).length ∧
        cellAt maze pos = some (.num 1) then
      pos :: specAcceptedPredefined nodeType rest (setCell maze pos nodeType)
    else specAcceptedPredefined nodeType rest maze

/-! ## The search of `maze.js` -/

/-- The constant `ROWS` of `maze.js`. -/
def MazeJs.ROWS : Nat := 7

/-- The constant `COLS` of `maze.js`. -/
def MazeJs.COLS : Nat := 7

/-- The function `get_neighbors` of `maze.js`. -/
def MazeJs.get_neighbors (pos : Pos) : List Pos :=
  [(pos.1 - 1, pos.2), (pos.1 + 1, pos.2), (pos.1, pos.2 - 1), (pos.1, pos.2 + 1)]

/-- The function `is_valid` of `maze.js`: inside the bounds and
`[1, 2, 3].includes(maze[pos[0]][pos[1]])`. -/
def MazeJs.is_valid (maze : Maze) (pos : Pos) : Bool :=
  decide (0 ≤ pos.1) && decide (pos.1 < MazeJs.ROWS) && decide (0 ≤ pos.2) &&
    decide (pos.2 < MazeJs.COLS) &&
    [some (Cell.num 1), some (Cell.num 2), some (Cell.num 3)].contains (cellAt maze pos)

/-- The neighbours that `bfs_direction` of `maze.js` may step on. -/
def MazeJs.valid_neighbors (maze : Maze) (current : Pos) : List Pos :=
  (MazeJs.get_neighbors current).filter fun neighbor => MazeJs.is_valid maze neighbor

/-- The function `bfs_direction` of `maze.js` on the grid `maze`. -/
def MazeJs.bfs_direction (maze : Maze) (start goal : Pos) : Bool :=
  (bfsLoop (fun pos => pos) (MazeJs.valid_neighbors maze)
    (fun current => decide (current.1 = goal.1 ∧ current.2 = goal.2))
    (MazeJs.ROWS * MazeJs.COLS + 1) [start] [start]).1

/-- The function `bfs` of `maze.js`:
`bfs_direction(start, goal) && bfs_direction(goal, start)`. -/
def MazeJs.bfs (maze : Maze) (start goal : Pos) : Bool :=
  MazeJs.bfs_direction maze start goal && MazeJs.bfs_direction maze goal start

/-- The adjacency-matrix invariant as the specification words it: an entry is 1 only between
4-directionally adjacent cells inside the bounds, the matrix is symmetric, and the entries of
the diagonal are 0. -/
def adjInvariant (adjMatrix : AdjMatrix) (ROWS COLS : Nat) : Prop :=
  (∀ i j : Int, entryAt adjMatrix i j = some 1 →
    ∃ a b : Pos, isValidMatrixIndex a ROWS COLS = true ∧
      isValidMatrixIndex b ROWS COLS = true ∧ cellIndex a COLS = i ∧ cellIndex b COLS = j ∧
      adjacent4 a b) ∧
  (∀ i j : Int, entryAt adjMatrix i j = entryAt adjMatrix j i) ∧
  (∀ (i : Int) (v : Int), entryAt adjMatrix i i = some v → v = 0)

/-- A path over cells as the specification words it: the list starts at `a`, ends at `b`, and
every step goes to a 4-directionally adjacent cell that is inside the bounds and not
blocked. -/
def isCellPath (maze : Maze) (ROWS COLS : Nat) (a b : Pos) (path : List Pos) : Prop :=
  ∃ rest : List Pos, path = a :: rest ∧ List.Chain (cellStep maze ROWS COLS) a rest ∧
    (a :: rest).getLast? = some b

/-- The function `unpackNextNodes`: the goal positions when no node is returned, otherwise the
positions of the returned nodes. -/
def unpackNextNodes (nextNodes : List NextNode) (goalPositions : List Pos) : List Pos :=
  if nextNodes.length = 0 then goalPositions else nextNodes.map fun node => node.position

/-! ## Concrete inputs -/

/-- The start and the two goals of the shipped configuration, without operation nodes. -/
def defaultNodeDetails : NodeDetails :=
  { start := (0, 0), goal := [(4, 4), (6, 6)], operation := [] }

/-- A random environment whose seeded streams and whose `Math.random` always draw 0. -/
def zeroEnv : RandomEnv :=
  { seedrandom := fun _ _ => { num := 0, gap := 0 }, mathRandom := fun _ => { num := 0, gap := 0 } }

/-- The environment `zeroEnv` with a `Math.random` that always draws 1/2. -/
def halfEnv : RandomEnv :=
  { seedrandom := fun _ _ => { num := 0, gap := 0 }, mathRandom := fun _ => { num := 1, gap := 0 } }

/-- An operation node type of quantity 1 and `mazeName` 2 without operations. -/
def plainOperationNode : OperationNode :=
  { positions := []
    quantity := 1
    mazeName := .num 2
    operations := []
    predefinedPositions := none }

/-- A configuration for a 2 by 2 grid: start `[0, 0]`, one goal `[0, 1]`, one operation node. -/
def smallNodeDetails : NodeDetails :=
  { start := (0, 0), goal := [(0, 1)], operation := [("node1", plainOperationNode)] }

/-- A start and one goal next to it, without operation nodes. -/
def nearNodeDetails : NodeDetails :=
  { start := (0, 0), goal := [(0, 1)], operation := [] }

/-- A start on an open cell and one goal on the blocked cell of the grid `[[1, 1], [1, 0]]`. -/
def cornerNodeDetails : NodeDetails :=
  { start := (0, 0), goal := [(1, 1)], operation := [] }

/-- A random environment whose seeded streams draw 0 in the first 49 draws and 3/4 afterwards,
and whose `Math.random` always draws 0. -/
def steppedEnv : RandomEnv :=
  { seedrandom := fun _ k => if k < 49 then { num := 0, gap := 0 } else { num := 3, gap := 0 }
    mathRandom := fun _ => { num := 0, gap := 0 } }

/-! # Theorems -/

/-! ## Pictures -/

theorem applyOperations_fold (p : Picture) (ops : List PictureOp) :
    (applyOperationsToPicture p ops).elements = ops.foldl applyOperation p.elements := by
  simp [applyOperationsToPicture]

theorem applyOperation_length (els : List Element) (op : PictureOp) :
    (applyOperation els op).length = els.length := by
  unfold applyOperation
  split
  · split_ifs <;> simp
  · rfl

theorem foldl_applyOperation_length (ops : List PictureOp) (els : List Element) :
    (ops.foldl applyOperation els).length = els.length := by
  induction ops generalizing els with
  | nil => rfl
  | cons op ops ih => simp [List.foldl_cons, ih, applyOperation_length]

theorem elementAt_eq_some {els : List Element} {i : Int} {e : Element}
    (h : elementAt els i = some e) :
    0 ≤ i ∧ i.toNat < els.length ∧ els[i.toNat]? = some e := by
  unfold elementAt at h
  split_ifs at h with h0
  exact ⟨h0, (List.getElem?_eq_some.mp h).1, h⟩

theorem elementAt_eq_none {els : List Element} {i : Int} (h : elementAt els i = none) :
    i < 0 ∨ (els.length : Int) ≤ i := by
  unfold elementAt at h
  split_ifs at h with h0
  · right
    have := List.getElem?_eq_none_iff.mp h
    omega
  · left; omega

theorem strictEq_self {a : JSNum} (h : a ≠ .nan) : a.strictEq a = true := by
  cases a <;> simp_all [JSNum.strictEq]

theorem elementsEqual_self {e : Element} (h : e.noNaN) : elementsEqual e e = true := by
  obtain ⟨h1, h2, h3, h4, h5, h6, h7, h8⟩ := h
  simp [elementsEqual, strictEq_self, h1, h2, h3, h4, h5, h6, h7, h8]

theorem tmod_add_nonneg {n k : Int} (hn : 0 ≤ n) (hk : 0 ≤ k) :
    Int.tmod (n + k) 360 = (n + k) % 360 := by
  have h : 0 ≤ n + k := by omega
  rw [Int.tmod_eq_emod h (by decide)]

theorem addMod360_eq_specRotate (a : JSNum) (k : Int) (hk : 0 ≤ k)
    (ha : ∀ n : Int, a = .num n → 0 ≤ n) : a.addMod360 k = specRotate k a := by
  cases a with
  | undefined => rfl
  | nan => rfl
  | num n => simp [JSNum.addMod360, specRotate, tmod_add_nonneg (ha n rfl) hk]

theorem set_eq_modify {els : List Element} {n : Nat} {e : Element} (f : Element → Element)
    (h : els[n]? = some e) : els.set n (f e) = els.modify f n := by
  rw [List.modify_eq_set_get?, List.get?_eq_getElem?, h]
  rfl

theorem applyOperation_eq_spec {els : List Element} (op : PictureOp)
    (h : ∀ e ∈ els, ∀ n : Int, e.rotationAngle = .num n → 0 ≤ n) :
    applyOperation els op = specApplyOne els op := by
  unfold applyOperation specApplyOne
  cases hget : elementAt els op.elementIndex with
  | none =>
    have := elementAt_eq_none hget
    have hno : ¬ (0 ≤ op.elementIndex ∧ op.elementIndex < els.length) := by omega
    simp [hno]
  | some e =>
    obtain ⟨h0, hlt, hsome⟩ := elementAt_eq_some hget
    have hin : 0 ≤ op.elementIndex ∧ op.elementIndex < els.length := by omega
    have hmem : e ∈ els := List.getElem?_mem hsome
    have h45 := addMod360_eq_specRotate e.rotationAngle 45 (by decide) (h e hmem)
    have h180 := addMod360_eq_specRotate e.rotationAngle 180 (by decide) (h e hmem)
    simp only [hin, and_self, if_true]
    split_ifs
    · rw [h45]
      exact set_eq_modify (fun e => { e with rotationAngle := specRotate 45 e.rotationAngle }) hsome
    · rw [h180]
      exact set_eq_modify (fun e => { e with rotationAngle := specRotate 180 e.rotationAngle }) hsome
    · rfl

theorem applyOperation_anglesNonneg {els : List Element} (op : PictureOp)
    (h : ∀ e ∈ els, ∀ n : Int, e.rotationAngle = .num n → 0 ≤ n) :
    ∀ e ∈ applyOperation els op, ∀ n : Int, e.rotationAngle = .num n → 0 ≤ n := by
  have key : ∀ (e0 : Element) (k : Int), 0 ≤ k → e0 ∈ els → ∀ i : Nat,
      ∀ e ∈ els.set i { e0 with rotationAngle := e0.rotationAngle.addMod360 k },
      ∀ n : Int, e.rotationAngle = .num n → 0 ≤ n := by
    intro e0 k hk he0 i e he n hn
    rcases List.mem_or_eq_of_mem_set he with hmem | heq
    · exact h e hmem n hn
    · subst heq
      cases hr : e0.rotationAngle with
      | undefined => simp [hr, JSNum.addMod360] at hn
      | nan => simp [hr, JSNum.addMod360] at hn
      | num m =>
        have hm := h e0 he0 m hr
        simp only [hr, JSNum.addMod360, JSNum.num.injEq] at hn
        rw [tmod_add_nonneg hm hk] at hn
        omega
  unfold applyOperation
  cases hget : elementAt els op.elementIndex with
  | none => simpa using h
  | some e0 =>
    have hmem : e0 ∈ els := List.getElem?_mem (elementAt_eq_some hget).2.2
    simp only
    split_ifs
    · exact key e0 45 (by decide) hmem _
    · exact key e0 180 (by decide) hmem _
    · exact h

theorem foldl_applyOperation_eq_spec (ops : List PictureOp) (els : List Element)
    (h : ∀ e ∈ els, ∀ n : Int, e.rotationAngle = .num n → 0 ≤ n) :
    ops.foldl applyOperation els = ops.foldl specApplyOne els := by
  induction ops generalizing els with
  | nil => rfl
  | cons op ops ih =>
    simp only [List.foldl_cons]
    rw [← applyOperation_eq_spec op h]
    exact ih _ (applyOperation_anglesNonneg op h)

theorem applyOperation_out_of_range (els : List Element) (op : PictureOp)
    (h : op.elementIndex < 0 ∨ (els.length : Int) ≤ op.elementIndex) :
    applyOperation els op = els := by
  unfold applyOperation
  cases hget : elementAt els op.elementIndex with
  | none => rfl
  | some e =>
    have := elementAt_eq_some hget
    omega

theorem foldl_applyOperation_out_of_range (ops : List PictureOp) (els : List Element)
    (h : ∀ op ∈ ops, op.elementIndex < 0 ∨ (els.length : Int) ≤ op.elementIndex) :
    ops.foldl applyOperation els = els := by
  induction ops with
  | nil => rfl
  | cons op ops ih =>
    simp only [List.foldl_cons]
    rw [applyOperation_out_of_range els op (h op (List.mem_cons_self _ _))]
    exact ih fun o ho => h o (List.mem_cons_of_mem _ ho)

theorem applyOperation_other (els : List Element) (op : PictureOp) (j : Nat)
    (h : (j : Int) ≠ op.elementIndex) : (applyOperation els op)[j]? = els[j]? := by
  unfold applyOperation
  cases hget : elementAt els op.elementIndex with
  | none => rfl
  | some e =>
    have h0 := (elementAt_eq_some hget).1
    have hne : op.elementIndex.toNat ≠ j := by omega
    simp only
    split_ifs
    · exact List.getElem?_set_ne hne
    · exact List.getElem?_set_ne hne
    · rfl

theorem applyOperation_target (els : List Element) (op : PictureOp) (j : Nat) (e' : Element)
    (h : (applyOperation els op)[j]? = some e') :
    ∃ e, els[j]? = some e ∧ e' = { e with rotationAngle := e'.rotationAngle } := by
  by_cases hj : (j : Int) = op.elementIndex
  · unfold applyOperation at h
    cases hget : elementAt els op.elementIndex with
    | none =>
      rw [hget] at h
      exact ⟨e', h, rfl⟩
    | some e =>
      obtain ⟨h0, hlt, hsome⟩ := elementAt_eq_some hget
      have hji : op.elementIndex.toNat = j := by omega
      rw [hget] at h
      rw [hji] at hsome hlt
      refine ⟨e, hsome, ?_⟩
      simp only [hji] at h
      split_ifs at h
      · rw [List.getElem?_set_self hlt] at h
        cases h; rfl
      · rw [List.getElem?_set_self hlt] at h
        cases h; rfl
      · rw [hsome] at h
        cases h; rfl
  · rw [applyOperation_other els op j hj] at h
    exact ⟨e', h, rfl⟩

/-- C1. Composition law: applying `opsA` and then `opsB` gives the same picture (same elements,
same fields, same order) as applying `opsA ++ opsB` at once. -/
theorem applyOperationsToPicture_append (p : Picture) (opsA opsB : List PictureOp) :
    applyOperationsToPicture (applyOperationsToPicture p opsA) opsB =
      applyOperationsToPicture p (opsA ++ opsB) := by
  simp [applyOperationsToPicture, List.foldl_append]

/-- C2. Identity law: a picture none of whose numeric properties is `NaN` is equal, for
`arePicturesEqual`, to the result of applying the empty operation list to it. -/
theorem arePicturesEqual_apply_nil (p : Picture) (h : ∀ e ∈ p.elements, e.noNaN) :
    arePicturesEqual p (applyOperationsToPicture p []) = true := by
  have hz : ∀ els : List Element, (∀ e ∈ els, e.noNaN) →
      (List.zip els els).all (fun q => elementsEqual q.1 q.2) = true := by
    intro els
    induction els with
    | nil => intro _; rfl
    | cons e els ih =>
      intro hall
      simp only [List.zip_cons_cons, List.all_cons, Bool.and_eq_true]
      exact ⟨elementsEqual_self (hall e (List.mem_cons_self _ _)),
        ih fun e' he' => hall e' (List.mem_cons_of_mem _ he')⟩
  simp only [arePicturesEqual, applyOperationsToPicture, List.foldl_nil, List.map_id',
    ne_eq, not_true_eq_false, if_false]
  exact hz _ h

/-- C3. On a picture whose numeric rotation angles are non-negative and at most `2 ^ 53 - 180`
(the range in which the sums of the code are exact in double arithmetic; it contains the angles
`[0, 360)` of the data model), `applyOperationsToPicture` is the reference fold of the
specification; the element count is preserved, operations whose index is out of range change
nothing, and one operation leaves every element but its target, and every field of the target
but `rotationAngle`, as it was. -/
theorem applyOperationsToPicture_eq_specApply (p : Picture) (ops : List PictureOp)
    (h : p.anglesExact) :
    applyOperationsToPicture p ops = specApply p ops ∧
    (applyOperationsToPicture p ops).elements.length = p.elements.length ∧
    ((∀ op ∈ ops, op.elementIndex < 0 ∨ (p.elements.length : Int) ≤ op.elementIndex) →
      applyOperationsToPicture p ops = p) ∧
    (∀ (op : PictureOp) (j : Nat), (j : Int) ≠ op.elementIndex →
      (applyOperationsToPicture p [op]).elements[j]? = p.elements[j]?) ∧
    (∀ (op : PictureOp) (j : Nat) (e' : Element),
      (applyOperationsToPicture p [op]).elements[j]? = some e' →
      ∃ e, p.elements[j]? = some e ∧ e' = { e with rotationAngle := e'.rotationAngle }) := by
  refine ⟨?_, ?_, ?_, ?_, ?_⟩
  · simp only [applyOperationsToPicture, specApply, List.map_id']
    rw [foldl_applyOperation_eq_spec ops p.elements (fun e he n hn => (h e he n hn).1)]
  · rw [applyOperations_fold, foldl_applyOperation_length]
  · intro hout
    have := foldl_applyOperation_out_of_range ops p.elements hout
    cases p
    simp_all [applyOperationsToPicture]
  · intro op j hj
    simpa [applyOperationsToPicture] using applyOperation_other p.elements op j hj
  · intro op j e' he
    exact applyOperation_target p.elements op j e'
      (by simpa [applyOperationsToPicture] using he)

theorem arePicturesEqual_apply_nil_witness :
    (∀ e ∈ (⟨[scenarioRect]⟩ : Picture).elements, e.noNaN) ∧
    arePicturesEqual ⟨[scenarioRect]⟩ (applyOperationsToPicture ⟨[scenarioRect]⟩ []) = true :=
  ⟨by simp [Element.noNaN, scenarioRect],
    arePicturesEqual_apply_nil ⟨[scenarioRect]⟩ (by simp [Element.noNaN, scenarioRect])⟩

theorem applyOperationsToPicture_eq_specApply_witness :
    (⟨[scenarioRect]⟩ : Picture).anglesExact ∧
    applyOperationsToPicture ⟨[scenarioRect]⟩ [⟨"addRotate45", 0⟩, ⟨"rotate180", 0⟩] =
      specApply ⟨[scenarioRect]⟩ [⟨"addRotate45", 0⟩, ⟨"rotate180", 0⟩] :=
  ⟨by simp [Picture.anglesExact, scenarioRect, maxExactInt],
    (applyOperationsToPicture_eq_specApply ⟨[scenarioRect]⟩ _
      (by simp [Picture.anglesExact, scenarioRect, maxExactInt])).1⟩

/-! ## The activation solver -/

theorem permute_cons {α : Type} (a : α) (rest : List α) :
    permute (a :: rest) = (permute rest).flatMap fun sp =>
      (List.range (sp.length + 1)).map fun j => sp.take j ++ [a] ++ sp.drop j := by
  cases rest with
  | nil => rfl
  | cons b rest => rfl

theorem mem_permute {α : Type} (arr l : List α) : l ∈ permute arr ↔ l.Perm arr := by
  induction arr generalizing l with
  | nil => simp [permute]
  | cons a rest ih =>
    rw [permute_cons]
    simp only [List.mem_flatMap, List.mem_map, List.mem_range]
    constructor
    · rintro ⟨sp, hsp, j, _, rfl⟩
      have h1 : (sp.take j ++ [a] ++ sp.drop j).Perm (a :: (sp.take j ++ sp.drop j)) := by
        rw [List.append_assoc]
        exact List.perm_middle
      rw [List.take_append_drop] at h1
      exact h1.trans (((ih sp).mp hsp).cons a)
    · intro h
      have ha : a ∈ l := h.symm.subset (List.mem_cons_self _ _)
      obtain ⟨s, t, rfl⟩ := List.append_of_mem ha
      have h2 : (s ++ t).Perm rest := (List.perm_middle.symm.trans h).cons_inv
      refine ⟨s ++ t, (ih _).mpr h2, s.length, ?_, ?_⟩
      · simp; omega
      · simp

theorem subsetOfMask_nil {α : Type} (i : Nat) : subsetOfMask ([] : List α) i = [] := rfl

theorem subsetOfMask_cons {α : Type} (a : α) (arr : List α) (i : Nat)
    (h : arr.length + 1 ≤ 32) :
    subsetOfMask (a :: arr) i =
      (if i.testBit 0 then [a] else []) ++ subsetOfMask arr (i / 2) := by
  unfold subsetOfMask
  have hcongr : List.filter ((fun j => maskBit i j) ∘ Nat.succ) (List.range arr.length) =
      List.filter (fun j => maskBit (i / 2) j) (List.range arr.length) := by
    apply List.filter_congr
    intro j hj
    have hj' : j < arr.length := List.mem_range.mp hj
    simp only [Function.comp, maskBit]
    rw [Nat.mod_eq_of_lt (by omega : j.succ < 32), Nat.mod_eq_of_lt (by omega : j < 32)]
    exact Nat.testBit_succ i j
  have h0 : maskBit i 0 = i.testBit 0 := rfl
  rw [List.length_cons, List.range_succ_eq_map, List.filter_cons, List.filter_map, hcongr, h0]
  have hfm : ((fun j => (a :: arr)[j]?) ∘ Nat.succ) = fun j => arr[j]? := by
    funext j
    simp [Function.comp]
  cases hb : i.testBit 0
  · simp [List.filterMap_map, hfm]
  · simp [List.filterMap_map, hfm]

theorem subsetOfMask_sublist {α : Type} (arr : List α) (h : arr.length ≤ 32) (i : Nat) :
    (subsetOfMask arr i).Sublist arr := by
  induction arr generalizing i with
  | nil => simp [subsetOfMask_nil]
  | cons a arr ih =>
    rw [subsetOfMask_cons a arr i (by simpa using h)]
    have := ih (by simp at h; omega) (i / 2)
    cases hb : i.testBit 0
    · simpa using this.cons a
    · simpa using this.cons₂ a

theorem exists_mask_of_sublist {α : Type} {l arr : List α} (hs : l.Sublist arr)
    (h : arr.length ≤ 32) : ∃ i, i < 2 ^ arr.length ∧ subsetOfMask arr i = l := by
  induction hs with
  | slnil => exact ⟨0, by simp, rfl⟩
  | @cons l arr a _ ih =>
    obtain ⟨i, hi, hl⟩ := ih (by simp at h; omega)
    refine ⟨2 * i, ?_, ?_⟩
    · rw [List.length_cons, pow_succ]; omega
    · rw [subsetOfMask_cons a arr _ (by simpa using h)]
      have h1 : (2 * i).testBit 0 = false := by simp [Nat.testBit_zero]
      have h2 : 2 * i / 2 = i := by omega
      rw [h1, h2, hl]; rfl
  | @cons₂ l arr a _ ih =>
    obtain ⟨i, hi, hl⟩ := ih (by simp at h; omega)
    refine ⟨2 * i + 1, ?_, ?_⟩
    · rw [List.length_cons, pow_succ]; omega
    · rw [subsetOfMask_cons a arr _ (by simpa using h)]
      have h1 : (2 * i + 1).testBit 0 = true := by simp [Nat.testBit_zero]; omega
      have h2 : (2 * i + 1) / 2 = i := by omega
      rw [h1, h2, hl]; rfl

theorem shiftLeftOne_of_le {k : Nat} (h : k ≤ 30) : (shiftLeftOne k).toNat = 2 ^ k := by
  unfold shiftLeftOne
  have h1 : k % 32 = k := Nat.mod_eq_of_lt (by omega)
  rw [h1, if_neg (by omega)]
  exact Int.toNat_natCast _

theorem mem_generateSubsets {α : Type} (arr l : List α) (h : arr.length ≤ 30) :
    l ∈ generateSubsets arr ↔ l.Sublist arr := by
  unfold generateSubsets
  rw [shiftLeftOne_of_le h]
  simp only [List.mem_map, List.mem_range]
  constructor
  · rintro ⟨i, _, rfl⟩
    exact subsetOfMask_sublist arr (by omega) i
  · intro hs
    exact exists_mask_of_sublist hs (by omega)

theorem mem_availableNodes (maze : Maze) (operation : List (String × OperationNode))
    (a : AvailableNode) :
    a ∈ availableNodes maze operation ↔
      ∃ (r c : Nat) (row : List Cell) (entry : String × OperationNode),
        maze[r]? = some row ∧ row[c]? = some entry.2.mazeName ∧ entry ∈ operation ∧
        a = { node := entry.1, operations := entry.2.operations,
              position := ((r : Int), (c : Int)) } := by
  have hz : ∀ {β : Type} (l : List β) (p : Nat × β),
      p ∈ List.zip (List.range l.length) l ↔ l[p.1]? = some p.2 := by
    intro β l p
    rw [List.mem_iff_getElem?]
    constructor
    · rintro ⟨n, hn⟩
      rw [List.getElem?_zip_eq_some] at hn
      obtain ⟨h1, h2⟩ := hn
      rw [List.getElem?_range] at h1
      · cases h1; exact h2
      · by_contra hlt
        rw [List.getElem?_eq_none (by simpa using hlt)] at h1
        cases h1
    · intro h
      refine ⟨p.1, ?_⟩
      rw [List.getElem?_zip_eq_some]
      have hlt := (List.getElem?_eq_some.mp h).1
      exact ⟨by rw [List.getElem?_range hlt], h⟩
  unfold availableNodes
  simp only [List.mem_flatMap, List.mem_map, List.mem_filter, decide_eq_true_eq, hz]
  constructor
  · rintro ⟨⟨r, row⟩, hr, ⟨c, v⟩, hc, entry, ⟨he, hv⟩, rfl⟩
    exact ⟨r, c, row, entry, hr, by simpa [hv] using hc, he, rfl⟩
  · rintro ⟨r, c, row, entry, hr, hc, he, rfl⟩
    exact ⟨(r, row), hr, (c, entry.2.mazeName), hc, entry, ⟨he, rfl⟩, rfl⟩

theorem mem_findNextNodesToActivate (maze : Maze) (currentPicture goalPicture : Picture)
    (nodeDetails : NodeDetails)
    (hsmall : (availableNodes maze nodeDetails.operation).length ≤ 30)
    (key : String) (pos : Pos) :
    ({ node := key, position := pos } : NextNode) ∈
        findNextNodesToActivate maze currentPicture goalPicture nodeDetails ↔
      (∃ (r c : Nat) (row : List Cell) (opNode : OperationNode),
        pos = ((r : Int), (c : Int)) ∧ maze[r]? = some row ∧ row[c]? = some opNode.mazeName ∧
        (key, opNode) ∈ nodeDetails.operation) ∧
      ∃ order : List SolverNode,
        order.Subperm (operationNodes (availableNodes maze nodeDetails.operation)) ∧
        (∃ n ∈ order, n.nodeKey = key) ∧
        isValidOrder currentPicture goalPicture order = true := by
  have hlen : (operationNodes (availableNodes maze nodeDetails.operation)).length ≤ 30 := by
    simpa [operationNodes] using hsmall
  unfold findNextNodesToActivate
  simp only [List.mem_flatMap, List.mem_filter, List.mem_map, decide_eq_true_eq,
    mem_generateSubsets _ _ hlen, mem_permute, mem_availableNodes]
  constructor
  · rintro ⟨order, ⟨⟨subset, hsub, hperm⟩, hvalid⟩, opNode, hop, node,
      ⟨⟨r, c, row, entry, hr, hc, he, rfl⟩, hkey⟩, hEq⟩
    simp only [NextNode.mk.injEq] at hEq
    obtain ⟨hk, hp⟩ := hEq
    simp only at hkey
    refine ⟨⟨r, c, row, entry.2, hp.symm, hr, hc, ?_⟩, order, ⟨subset, hperm.symm, hsub⟩,
      ⟨opNode, hop, hk⟩, hvalid⟩
    have : entry.1 = key := hkey.trans hk
    rw [← this]
    exact he
  · rintro ⟨⟨r, c, row, opN, rfl, hr, hc, he⟩, order, ⟨subset, hperm, hsub⟩,
      ⟨n, hn, rfl⟩, hvalid⟩
    exact ⟨order, ⟨⟨subset, hsub, hperm.symm⟩, hvalid⟩, n, hn,
      { node := n.nodeKey, operations := opN.operations, position := ((r : Int), (c : Int)) },
      ⟨⟨r, c, row, (n.nodeKey, opN), hr, hc, he, rfl⟩, rfl⟩, rfl⟩

/-- C4. With at most 30 operation-node cells on the grid, `findNextNodesToActivate` returns the
pair of a node key and a position exactly when the position is a grid cell that holds the
`mazeName` of that key and the key occurs in an ordering (a permutation of a sublist of the
placed operation nodes) whose operations without `addEdge` turn `currentPicture` into a picture
equal to `goalPicture`; for one rectangle at angle 0, one placed `rotate180` node and the goal at
angle 180 the result is exactly that node. -/
theorem findNextNodesToActivate_spec :
    (∀ (maze : Maze) (currentPicture goalPicture : Picture) (nodeDetails : NodeDetails),
      (availableNodes maze nodeDetails.operation).length ≤ 30 →
      ∀ (key : String) (pos : Pos),
        (({ node := key, position := pos } : NextNode) ∈
            findNextNodesToActivate maze currentPicture goalPicture nodeDetails ↔
          (∃ (r c : Nat) (row : List Cell) (opNode : OperationNode),
            pos = ((r : Int), (c : Int)) ∧ maze[r]? = some row ∧
            row[c]? = some opNode.mazeName ∧ (key, opNode) ∈ nodeDetails.operation) ∧
          ∃ order : List SolverNode,
            order.Subperm (operationNodes (availableNodes maze nodeDetails.operation)) ∧
            (∃ n ∈ order, n.nodeKey = key) ∧
            isValidOrder currentPicture goalPicture order = true)) ∧
    findNextNodesToActivate scenarioMaze ⟨[scenarioRect]⟩
        ⟨[{ scenarioRect with rotationAngle := .num 180 }]⟩ scenarioNodeDetails =
      [{ node := "node2", position := (1, 0) }] :=
  ⟨fun maze cur goal nd h key pos => mem_findNextNodesToActivate maze cur goal nd h key pos,
    by decide⟩

theorem findNextNodesToActivate_spec_witness :
    (availableNodes scenarioMaze scenarioNodeDetails.operation).length ≤ 30 ∧
    ((({ node := "node2", position := (1, 0) } : NextNode) ∈
        findNextNodesToActivate scenarioMaze ⟨[scenarioRect]⟩
          ⟨[{ scenarioRect with rotationAngle := .num 180 }]⟩ scenarioNodeDetails) ↔
      (∃ (r c : Nat) (row : List Cell) (opNode : OperationNode),
        ((1, 0) : Pos) = ((r : Int), (c : Int)) ∧ scenarioMaze[r]? = some row ∧
        row[c]? = some opNode.mazeName ∧ ("node2", opNode) ∈ scenarioNodeDetails.operation) ∧
      ∃ order : List SolverNode,
        order.Subperm
          (operationNodes (availableNodes scenarioMaze scenarioNodeDetails.operation)) ∧
        (∃ n ∈ order, n.nodeKey = "node2") ∧
        isValidOrder ⟨[scenarioRect]⟩ ⟨[{ scenarioRect with rotationAngle := .num 180 }]⟩
          order = true) :=
  ⟨by decide, findNextNodesToActivate_spec.1 scenarioMaze ⟨[scenarioRect]⟩
    ⟨[{ scenarioRect with rotationAngle := .num 180 }]⟩ scenarioNodeDetails (by decide)
    "node2" (1, 0)⟩

/-! ## The search loops -/

theorem enqueueAll_spec {α κ : Type} [DecidableEq κ] (key : α → κ) (cands : List α) :
    ∀ (visited : List κ) (queue : List α),
      ∃ new : List α,
        enqueueAll key cands visited queue = (visited ++ new.map key, queue ++ new) ∧
        (∀ n ∈ new, n ∈ cands ∧ key n ∉ visited) ∧
        (visited.Nodup → (visited ++ new.map key).Nodup) ∧
        (∀ n ∈ cands, key n ∈ visited ++ new.map key) := by
  induction cands with
  | nil =>
    intro visited queue
    exact ⟨[], by simp [enqueueAll], by simp, by simp, by simp⟩
  | cons n rest ih =>
    intro visited queue
    by_cases hn : key n ∈ visited
    · obtain ⟨new, h1, h2, h3, h4⟩ := ih visited queue
      refine ⟨new, ?_, ?_, h3, ?_⟩
      · simp [enqueueAll, hn, h1]
      · intro m hm
        exact ⟨List.mem_cons_of_mem _ (h2 m hm).1, (h2 m hm).2⟩
      · intro m hm
        rcases List.mem_cons.mp hm with rfl | hm
        · exact List.mem_append_left _ hn
        · exact h4 m hm
    · obtain ⟨new, h1, h2, h3, h4⟩ := ih (visited ++ [key n]) (queue ++ [n])
      refine ⟨n :: new, ?_, ?_, ?_, ?_⟩
      · simp [enqueueAll, hn, h1]
      · intro m hm
        rcases List.mem_cons.mp hm with rfl | hm
        · exact ⟨List.mem_cons_self _ _, hn⟩
        · refine ⟨List.mem_cons_of_mem _ (h2 m hm).1, fun hv => (h2 m hm).2 ?_⟩
          exact List.mem_append_left _ hv
      · intro hnd
        have hnd' : (visited ++ [key n]).Nodup := by
          rw [List.nodup_append]
          refine ⟨hnd, by simp, ?_⟩
          intro a ha hb
          simp at hb
          subst hb
          exact hn ha
        simpa using h3 hnd'
      · intro m hm
        rcases List.mem_cons.mp hm with rfl | hm
        · simp
        · simpa using h4 m hm

theorem bfsLoop_spec {α κ : Type} [DecidableEq κ] (key : α → κ) (succ : α → List α)
    (stop : α → Bool) (P : α → Prop) (InK : κ → Prop) (B : Nat)
    (hP : ∀ a, P a → ∀ b ∈ succ a, P b)
    (hinj : ∀ a b, P a → P b → key a = key b → a = b)
    (hK : ∀ a, P a → InK (key a))
    (hB : ∀ l : List κ, l.Nodup → (∀ k ∈ l, InK k) → l.length ≤ B) :
    ∀ (fuel : Nat) (visited : List κ) (queue : List α),
      visited.Nodup → (∀ k ∈ visited, InK k) →
      (∀ q ∈ queue, P q ∧ key q ∈ visited) →
      (∀ a, P a → key a ∈ visited → a ∉ queue →
        stop a = false ∧ ∀ b ∈ succ a, key b ∈ visited) →
      queue.length + B ≤ fuel + visited.length →
      ((bfsLoop key succ stop fuel visited queue).1 = true →
          ∃ a, stop a = true ∧ ∃ q ∈ queue, Reach succ q a) ∧
      ((bfsLoop key succ stop fuel visited queue).1 = false →
          ∀ a, P a → key a ∈ (bfsLoop key succ stop fuel visited queue).2 →
            stop a = false ∧
            ∀ b ∈ succ a, key b ∈ (bfsLoop key succ stop fuel visited queue).2) ∧
      (∀ k ∈ visited, k ∈ (bfsLoop key succ stop fuel visited queue).2) ∧
      (bfsLoop key succ stop fuel visited queue).2.Nodup ∧
      (∀ k ∈ (bfsLoop key succ stop fuel visited queue).2, InK k) ∧
      (∀ k ∈ (bfsLoop key succ stop fuel visited queue).2,
          k ∈ visited ∨ ∃ a, key a = k ∧ ∃ q ∈ queue, Reach succ q a) := by
  intro fuel
  induction fuel with
  | zero =>
    intro visited queue hnd hin hq hcl hfuel
    have hlen := hB visited hnd hin
    have hq0 : queue = [] := by
      cases queue with
      | nil => rfl
      | cons a t => simp at hfuel; omega
    subst hq0
    refine ⟨by simp [bfsLoop], ?_, by simp [bfsLoop], by simpa [bfsLoop] using hnd,
      by simpa [bfsLoop] using hin, by simp [bfsLoop]⟩
    intro _ a hPa hka
    exact hcl a hPa (by simpa [bfsLoop] using hka) (by simp)
  | succ fuel ih =>
    intro visited queue hnd hin hq hcl hfuel
    cases queue with
    | nil =>
      refine ⟨by simp [bfsLoop], ?_, by simp [bfsLoop], by simpa [bfsLoop] using hnd,
        by simpa [bfsLoop] using hin, by simp [bfsLoop]⟩
      intro _ a hPa hka
      exact hcl a hPa (by simpa [bfsLoop] using hka) (by simp)
    | cons current tail =>
      by_cases hstop : stop current = true
      · have hr : bfsLoop key succ stop (fuel + 1) visited (current :: tail) = (true, visited) := by
          simp [bfsLoop, hstop]
        rw [hr]
        refine ⟨fun _ => ⟨current, hstop, current, List.mem_cons_self _ _,
          Relation.ReflTransGen.refl⟩, by simp, fun k hk => hk, hnd, hin,
          fun k hk => Or.inl hk⟩
      · have hstop' : stop current = false := by simpa using hstop
        obtain ⟨new, hnew, hn2, hn3, hn4⟩ := enqueueAll_spec key (succ current) visited tail
        have hr : bfsLoop key succ stop (fuel + 1) visited (current :: tail) =
            bfsLoop key succ stop fuel (visited ++ new.map key) (tail ++ new) := by
          simp [bfsLoop, hstop', hnew]
        have hPc : P current := (hq current (List.mem_cons_self _ _)).1
        have hPnew : ∀ n ∈ new, P n := fun n hn => hP current hPc n (hn2 n hn).1
        have hnd' := hn3 hnd
        have hin' : ∀ k ∈ visited ++ new.map key, InK k := by
          intro k hk
          rcases List.mem_append.mp hk with hk | hk
          · exact hin k hk
          · obtain ⟨n, hn, rfl⟩ := List.mem_map.mp hk
            exact hK n (hPnew n hn)
        have hq' : ∀ q ∈ tail ++ new, P q ∧ key q ∈ visited ++ new.map key := by
          intro q hq1
          rcases List.mem_append.mp hq1 with hq1 | hq1
          · exact ⟨(hq q (List.mem_cons_of_mem _ hq1)).1,
              List.mem_append_left _ (hq q (List.mem_cons_of_mem _ hq1)).2⟩
          · exact ⟨hPnew q hq1, List.mem_append_right _ (List.mem_map_of_mem key hq1)⟩
        have hcl' : ∀ a, P a → key a ∈ visited ++ new.map key → a ∉ tail ++ new →
            stop a = false ∧ ∀ b ∈ succ a, key b ∈ visited ++ new.map key := by
          intro a hPa hka hnq
          rcases List.mem_append.mp hka with hka | hka
          · by_cases hac : a = current
            · subst hac
              exact ⟨hstop', hn4⟩
            · have hnq' : a ∉ current :: tail := by
                intro hmem
                rcases List.mem_cons.mp hmem with h | h
                · exact hac h
                · exact hnq (List.mem_append_left _ h)
              obtain ⟨h1, h2⟩ := hcl a hPa hka hnq'
              exact ⟨h1, fun b hb => List.mem_append_left _ (h2 b hb)⟩
          · obtain ⟨n, hn, hkey⟩ := List.mem_map.mp hka
            have : a = n := hinj a n hPa (hPnew n hn) hkey.symm
            subst this
            exact absurd (List.mem_append_right _ hn) hnq
        have hfuel' : (tail ++ new).length + B ≤ fuel + (visited ++ new.map key).length := by
          simp only [List.length_append, List.length_map, List.length_cons] at hfuel ⊢
          omega
        obtain ⟨r1, r2, r3, r4, r5, r6⟩ := ih _ _ hnd' hin' hq' hcl' hfuel'
        rw [hr]
        have hreach : ∀ q ∈ tail ++ new, ∃ q0 ∈ current :: tail, Reach succ q0 q := by
          intro q hq1
          rcases List.mem_append.mp hq1 with hq1 | hq1
          · exact ⟨q, List.mem_cons_of_mem _ hq1, Relation.ReflTransGen.refl⟩
          · exact ⟨current, List.mem_cons_self _ _,
              Relation.ReflTransGen.single (hn2 q hq1).1⟩
        refine ⟨?_, r2, fun k hk => r3 k (List.mem_append_left _ hk), r4, r5, ?_⟩
        · intro ht
          obtain ⟨a, ha, q, hq1, hqa⟩ := r1 ht
          obtain ⟨q0, hq0, hq0q⟩ := hreach q hq1
          exact ⟨a, ha, q0, hq0, hq0q.trans hqa⟩
        · intro k hk
          rcases r6 k hk with h | ⟨a, ha, q, hq1, hqa⟩
          · rcases List.mem_append.mp h with h | h
            · exact Or.inl h
            · obtain ⟨n, hn, rfl⟩ := List.mem_map.mp h
              exact Or.inr ⟨n, rfl, current, List.mem_cons_self _ _,
                Relation.ReflTransGen.single (hn2 n hn).1⟩
          · obtain ⟨q0, hq0, hq0q⟩ := hreach q hq1
            exact Or.inr ⟨a, ha, q0, hq0, hq0q.trans hqa⟩

/-! ## Cells of the grid -/

theorem isValidMatrixIndex_iff (pos : Pos) (ROWS COLS : Nat) :
    isValidMatrixIndex pos ROWS COLS = true ↔
      0 ≤ pos.1 ∧ pos.1 < ROWS ∧ 0 ≤ pos.2 ∧ pos.2 < COLS := by
  simp [isValidMatrixIndex, and_assoc]

theorem mem_allCells (pos : Pos) (ROWS COLS : Nat) :
    pos ∈ allCells ROWS COLS ↔ isValidMatrixIndex pos ROWS COLS = true := by
  rw [isValidMatrixIndex_iff]
  unfold allCells
  simp only [List.mem_flatMap, List.mem_map, List.mem_range]
  constructor
  · rintro ⟨r, hr, c, hc, rfl⟩
    simp only
    omega
  · rintro ⟨h1, h2, h3, h4⟩
    refine ⟨pos.1.toNat, by omega, pos.2.toNat, by omega, ?_⟩
    apply Prod.ext <;> simp <;> omega

theorem length_allCells (ROWS COLS : Nat) : (allCells ROWS COLS).length = ROWS * COLS := by
  unfold allCells
  induction ROWS with
  | zero => simp
  | succ n ih =>
    rw [List.range_succ, List.flatMap_append, List.length_append, ih]
    simp [Nat.succ_mul]

theorem length_le_of_nodup_cells {ROWS COLS : Nat} (start : Pos) (l : List Pos)
    (hnd : l.Nodup)
    (hin : ∀ k ∈ l, k = start ∨ isValidMatrixIndex k ROWS COLS = true) :
    l.length ≤ ROWS * COLS + 1 := by
  have hsub : l ⊆ start :: allCells ROWS COLS := by
    intro k hk
    rcases hin k hk with h | h
    · exact h ▸ List.mem_cons_self _ _
    · exact List.mem_cons_of_mem _ ((mem_allCells k ROWS COLS).mpr h)
  have := (hnd.subperm hsub).length_le
  simpa [length_allCells] using this

theorem length_le_of_nodup_valid {ROWS COLS : Nat} (l : List Pos) (hnd : l.Nodup)
    (hin : ∀ k ∈ l, isValidMatrixIndex k ROWS COLS = true) : l.length ≤ ROWS * COLS := by
  have hsub : l ⊆ allCells ROWS COLS := fun k hk => (mem_allCells k ROWS COLS).mpr (hin k hk)
  have := (hnd.subperm hsub).length_le
  simpa [length_allCells] using this

theorem mem_getNeighbors (a b : Pos) :
    b ∈ getNeighbors a ↔
      (b.1 = a.1 - 1 ∧ b.2 = a.2) ∨ (b.1 = a.1 + 1 ∧ b.2 = a.2) ∨
      (b.1 = a.1 ∧ b.2 = a.2 - 1) ∨ (b.1 = a.1 ∧ b.2 = a.2 + 1) := by
  obtain ⟨a1, a2⟩ := a
  obtain ⟨b1, b2⟩ := b
  simp [getNeighbors, Prod.ext_iff]

theorem mem_getNeighbors_symm {a b : Pos} (h : b ∈ getNeighbors a) : a ∈ getNeighbors b := by
  rw [mem_getNeighbors] at h ⊢
  omega

theorem mem_validNeighbors (maze : Maze) (ROWS COLS : Nat) (a b : Pos) :
    b ∈ validNeighbors maze ROWS COLS a ↔
      b ∈ getNeighbors a ∧ isValid maze b ROWS COLS = true := by
  simp [validNeighbors, List.mem_filter]

theorem isValid_inBounds {maze : Maze} {pos : Pos} {ROWS COLS : Nat}
    (h : isValid maze pos ROWS COLS = true) : isValidMatrixIndex pos ROWS COLS = true := by
  simp only [isValid, Bool.and_eq_true] at h
  exact h.1

theorem closure_reach {α κ : Type} (key : α → κ) (succ : α → List α) (P : α → Prop)
    (hP : ∀ a, P a → ∀ b ∈ succ a, P b) (V : List κ)
    (hcl : ∀ a, P a → key a ∈ V → ∀ b ∈ succ a, key b ∈ V) {s w : α}
    (hs : P s) (hsV : key s ∈ V) (h : Reach succ s w) : P w ∧ key w ∈ V := by
  induction h with
  | refl => exact ⟨hs, hsV⟩
  | tail _ hstep ih => exact ⟨hP _ ih.1 _ hstep, hcl _ ih.1 ih.2 _ hstep⟩

/-- The search `bfs` answers `true` exactly when the goal can be reached from the start through
cells that are inside the bounds and not blocked. -/
theorem bfs_iff_reach (maze : Maze) (start goal : Pos) (ROWS COLS : Nat) :
    bfs maze start goal ROWS COLS = true ↔ Reach (validNeighbors maze ROWS COLS) start goal := by
  have hspec := bfsLoop_spec (fun pos : Pos => pos) (validNeighbors maze ROWS COLS)
    (fun current => decide (current = goal))
    (fun a => a = start ∨ isValidMatrixIndex a ROWS COLS = true)
    (fun a => a = start ∨ isValidMatrixIndex a ROWS COLS = true) (ROWS * COLS + 1)
    (fun a _ b hb => Or.inr (isValid_inBounds ((mem_validNeighbors _ _ _ _ _).mp hb).2))
    (fun a b _ _ h => h) (fun a h => h)
    (fun l hnd hin => length_le_of_nodup_cells start l hnd hin)
    (ROWS * COLS + 1) [start] [start] (by simp) (by simp) (by simp)
    (by intro a _ ha hna; simp at ha hna; exact absurd ha hna) (by simp; omega)
  obtain ⟨h1, h2, h3, -, -, -⟩ := hspec
  unfold bfs
  constructor
  · intro h
    obtain ⟨a, ha, q, hq, hreach⟩ := h1 h
    simp at ha hq
    subst ha hq
    exact hreach
  · intro hreach
    by_contra hne
    have hfalse : (bfsLoop (fun pos : Pos => pos) (validNeighbors maze ROWS COLS)
        (fun current => decide (current = goal)) (ROWS * COLS + 1) [start] [start]).1 = false := by
      simpa using hne
    have hcl := h2 hfalse
    have hgoal := closure_reach (fun pos : Pos => pos) (validNeighbors maze ROWS COLS)
      (fun a => a = start ∨ isValidMatrixIndex a ROWS COLS = true)
      (fun a _ b hb => Or.inr (isValid_inBounds ((mem_validNeighbors _ _ _ _ _).mp hb).2))
      _ (fun a hPa ha => (hcl a hPa ha).2) (Or.inl rfl) (h3 start (by simp)) hreach
    have := (hcl goal hgoal.1 hgoal.2).1
    simp at this

/-! ## Reads and writes of the grid and of the matrix -/

theorem bind_getElem?_modify_set {β : Type} (m : List (List β)) (i j k l : Nat) (v : β) :
    ((m.modify (fun row => row.set j v) i)[k]?).bind (fun row => row[l]?) =
      if k = i ∧ l = j then ((m[i]?).bind fun row => row[j]?).map (fun _ => v)
      else (m[k]?).bind fun row => row[l]? := by
  rw [List.getElem?_modify]
  by_cases hk : k = i
  · subst hk
    cases hrow : m[k]? with
    | none => simp
    | some row =>
      by_cases hl : l = j
      · subst hl
        simp [List.getElem?_set', Function.const]
        rfl
      · have : ¬ j = l := fun h => hl h.symm
        simp [hl, List.getElem?_set', this]
  · have : ¬ i = k := fun h => hk h.symm
    cases hrow : m[k]? <;> simp [hk, this]

theorem entryAt_setEntry (adj : AdjMatrix) (i j k l : Int) (v : Int) :
    entryAt (setEntry adj i j v) k l =
      if k = i ∧ l = j then (entryAt adj i j).map (fun _ => v) else entryAt adj k l := by
  unfold setEntry
  by_cases hij : 0 ≤ i ∧ 0 ≤ j
  · rw [if_pos hij]
    unfold entryAt
    by_cases hkl : 0 ≤ k ∧ 0 ≤ l
    · rw [if_pos hkl, if_pos hij, bind_getElem?_modify_set]
      have h1 : (k.toNat = i.toNat ∧ l.toNat = j.toNat) ↔ (k = i ∧ l = j) := by omega
      simp only [h1, hkl, and_self, if_true]
    · rw [if_neg hkl, if_neg hkl]
      have : ¬ (k = i ∧ l = j) := by omega
      rw [if_neg this]
  · rw [if_neg hij]
    by_cases h : k = i ∧ l = j
    · obtain ⟨rfl, rfl⟩ := h
      simp [entryAt, hij]
    · rw [if_neg h]

theorem cellAt_setCell (maze : Maze) (p q : Pos) (v : Cell) :
    cellAt (setCell maze p v) q =
      if q = p then (cellAt maze p).map (fun _ => v) else cellAt maze q := by
  obtain ⟨i, j⟩ := p
  obtain ⟨k, l⟩ := q
  unfold setCell
  simp only
  by_cases hij : 0 ≤ i ∧ 0 ≤ j
  · rw [if_pos hij]
    unfold cellAt
    simp only
    by_cases hkl : 0 ≤ k ∧ 0 ≤ l
    · rw [if_pos hkl, if_pos hij, bind_getElem?_modify_set]
      have h1 : (k.toNat = i.toNat ∧ l.toNat = j.toNat) ↔ ((k, l) = (i, j)) := by
        simp only [Prod.mk.injEq]; omega
      simp only [h1, hkl, and_self, if_true]
    · rw [if_neg hkl, if_neg hkl]
      have : ¬ ((k, l) = (i, j)) := by simp only [Prod.mk.injEq]; omega
      rw [if_neg this]
  · rw [if_neg hij]
    by_cases h : (k, l) = (i, j)
    · simp only [Prod.mk.injEq] at h
      obtain ⟨rfl, rfl⟩ := h
      simp [cellAt, hij]
    · rw [if_neg h]

theorem entryAt_setBoth (adj : AdjMatrix) (i j k l : Int) (v : Int) :
    entryAt (setBoth adj i j v) k l =
      if (k = i ∧ l = j) ∨ (k = j ∧ l = i) then (entryAt adj k l).map (fun _ => v)
      else entryAt adj k l := by
  unfold setBoth
  simp only [entryAt_setEntry]
  by_cases h1 : k = i <;> by_cases h2 : l = j <;> by_cases h3 : k = j <;> by_cases h4 : l = i <;>
    simp [h1, h2, h3, h4] <;> (try subst_vars) <;> (try simp_all) <;>
    (cases entryAt adj _ _ <;> simp)

theorem length_setEntry (adj : AdjMatrix) (i j : Int) (v : Int) :
    (setEntry adj i j v).length = adj.length := by
  unfold setEntry
  split_ifs <;> simp

theorem length_setCell (maze : Maze) (p : Pos) (v : Cell) :
    (setCell maze p v).length = maze.length := by
  unfold setCell
  split_ifs <;> simp

/-! ## Shape of the grid -/

theorem getElem?_map_zip_range {β γ : Type} (l : List β) (f : Nat × β → γ) (i : Nat) :
    ((List.zip (List.range l.length) l).map f)[i]? = (l[i]?).map fun b => f (i, b) := by
  rw [List.getElem?_map]
  by_cases h : i < l.length
  · have h1 : (List.zip (List.range l.length) l)[i]? = some (i, l[i]) := by
      rw [List.getElem?_zip_eq_some]
      exact ⟨by rw [List.getElem?_range h], by simp [h]⟩
    rw [h1]
    simp [h]
  · have h1 : (List.zip (List.range l.length) l)[i]? = none := by
      apply List.getElem?_eq_none
      simp; omega
    rw [h1]
    simp [List.getElem?_eq_none (by omega : l.length ≤ i)]

theorem map_length_modify_set {β : Type} (m : List (List β)) (i j : Nat) (v : β) :
    (m.modify (fun row => row.set j v) i).map List.length = m.map List.length := by
  apply List.ext_getElem?
  intro k
  simp only [List.getElem?_map, List.getElem?_modify]
  cases m[k]? with
  | none => rfl
  | some row => by_cases h : i = k <;> simp [h]

theorem map_length_setCell (maze : Maze) (p : Pos) (v : Cell) :
    (setCell maze p v).map List.length = maze.map List.length := by
  unfold setCell
  split_ifs
  · exact map_length_modify_set _ _ _ _
  · rfl

theorem map_length_nameCell (maze updated : Maze) (p : Pos) (v : Cell) :
    (nameCell maze updated p v).map List.length = updated.map List.length := by
  unfold nameCell
  split_ifs
  · exact map_length_setCell _ _ _
  · rfl

theorem map_length_foldl_nameCell (maze : Maze) (v : Cell) (ps : List Pos) (updated : Maze) :
    (ps.foldl (fun mz p => nameCell maze mz p v) updated).map List.length =
      updated.map List.length := by
  induction ps generalizing updated with
  | nil => rfl
  | cons p ps ih => simp only [List.foldl_cons]; rw [ih, map_length_nameCell]

theorem map_length_updateMazeWithNodeNames (maze : Maze) (nd : NodeDetails) :
    (updateMazeWithNodeNames maze nd false).map List.length = maze.map List.length := by
  simp only [updateMazeWithNodeNames, Bool.false_eq_true, if_false]
  rw [map_length_foldl_nameCell, map_length_nameCell]

theorem map_length_cropCells (maze : Maze) (rect : CropRect) :
    (cropCells maze rect).map List.length = maze.map List.length := by
  apply List.ext_getElem?
  intro i
  unfold cropCells
  rw [List.getElem?_map, getElem?_map_zip_range, List.getElem?_map]
  cases maze[i]? with
  | none => rfl
  | some row => simp

theorem cellAt_cropCells (maze : Maze) (rect : CropRect) (q : Pos) :
    cellAt (cropCells maze rect) q =
      (cellAt maze q).map fun value =>
        if rect.contains q then (if value ≠ .num 0 then Cell.num 1 else Cell.num 0)
        else Cell.null := by
  obtain ⟨r, c⟩ := q
  unfold cellAt
  simp only
  by_cases h : 0 ≤ r ∧ 0 ≤ c
  · rw [if_pos h, if_pos h]
    unfold cropCells
    rw [getElem?_map_zip_range]
    cases maze[r.toNat]? with
    | none => rfl
    | some row =>
      simp only [Option.map_some', Option.some_bind]
      rw [getElem?_map_zip_range]
      have hr : ((r.toNat : Nat) : Int) = r := Int.toNat_of_nonneg h.1
      have hc : ((c.toNat : Nat) : Int) = c := Int.toNat_of_nonneg h.2
      simp only [hr, hc]
  · rw [if_neg h, if_neg h]
    rfl

/-! ## Start and goal names -/

theorem cellAt_nameCell (maze updated : Maze) (p q : Pos) (v : Cell) :
    cellAt (nameCell maze updated p v) q =
      if q = p ∧ p.1 < maze.length ∧ p.2 < (maze.headD []).length then
        (cellAt updated q).map (fun _ => v)
      else cellAt updated q := by
  unfold nameCell
  by_cases hg : p.1 < maze.length ∧ p.2 < (maze.headD []).length
  · rw [if_pos hg, cellAt_setCell]
    by_cases hq : q = p
    · subst hq
      rw [if_pos rfl, if_pos ⟨rfl, hg⟩]
    · rw [if_neg hq, if_neg fun h => hq h.1]
  · rw [if_neg hg, if_neg fun h => hg h.2]

theorem cellAt_foldl_nameCell (maze : Maze) (v : Cell) (ps : List Pos) (updated : Maze)
    (q : Pos) :
    cellAt (ps.foldl (fun mz p => nameCell maze mz p v) updated) q =
      if q ∈ ps ∧ q.1 < maze.length ∧ q.2 < (maze.headD []).length then
        (cellAt updated q).map (fun _ => v)
      else cellAt updated q := by
  induction ps generalizing updated with
  | nil => simp
  | cons p ps ih =>
    simp only [List.foldl_cons]
    rw [ih, cellAt_nameCell]
    by_cases hqp : q = p
    · subst hqp
      by_cases hg : q.1 < maze.length ∧ q.2 < (maze.headD []).length
      · have e1 : (q = q ∧ q.1 < (maze.length : Int) ∧ q.2 < ((maze.headD []).length : Int)) :=
          ⟨rfl, hg⟩
        have e2 : (q ∈ q :: ps ∧ q.1 < (maze.length : Int) ∧
            q.2 < ((maze.headD []).length : Int)) := ⟨List.mem_cons_self _ _, hg⟩
        rw [if_pos e1, if_pos e2]
        by_cases hm : q ∈ ps
        · rw [if_pos ⟨hm, hg⟩]
          cases cellAt updated q <;> rfl
        · rw [if_neg fun h => hm h.1]
      · have e1 : ¬ (q = q ∧ q.1 < (maze.length : Int) ∧ q.2 < ((maze.headD []).length : Int)) :=
          fun h => hg h.2
        have e2 : ¬ (q ∈ q :: ps ∧ q.1 < (maze.length : Int) ∧
            q.2 < ((maze.headD []).length : Int)) := fun h => hg h.2
        have e3 : ¬ (q ∈ ps ∧ q.1 < (maze.length : Int) ∧
            q.2 < ((maze.headD []).length : Int)) := fun h => hg h.2
        rw [if_neg e1, if_neg e2, if_neg e3]
    · have e1 : ¬ (q = p ∧ p.1 < (maze.length : Int) ∧ p.2 < ((maze.headD []).length : Int)) :=
        fun h => hqp h.1
      rw [if_neg e1]
      by_cases h : q ∈ ps ∧ q.1 < maze.length ∧ q.2 < (maze.headD []).length
      · have e2 : (q ∈ p :: ps ∧ q.1 < (maze.length : Int) ∧
            q.2 < ((maze.headD []).length : Int)) := ⟨List.mem_cons_of_mem _ h.1, h.2⟩
        rw [if_pos h, if_pos e2]
      · have e2 : ¬ (q ∈ p :: ps ∧ q.1 < (maze.length : Int) ∧
            q.2 < ((maze.headD []).length : Int)) :=
          fun h' => h ⟨(List.mem_cons.mp h'.1).resolve_left hqp, h'.2⟩
        rw [if_neg h, if_neg e2]

theorem cellAt_updateMazeWithNodeNames (maze : Maze) (nd : NodeDetails) (q : Pos) :
    cellAt (updateMazeWithNodeNames maze nd false) q =
      if q ∈ nd.goal ∧ q.1 < maze.length ∧ q.2 < (maze.headD []).length then
        (cellAt maze q).map (fun _ => Cell.str "g")
      else if q = nd.start ∧ nd.start.1 < maze.length ∧ nd.start.2 < (maze.headD []).length then
        (cellAt maze q).map (fun _ => Cell.str "s")
      else cellAt maze q := by
  simp only [updateMazeWithNodeNames, Bool.false_eq_true, if_false]
  rw [cellAt_foldl_nameCell, cellAt_nameCell]
  by_cases hg : q ∈ nd.goal ∧ q.1 < maze.length ∧ q.2 < (maze.headD []).length
  · rw [if_pos hg, if_pos hg]
    split_ifs <;> cases cellAt maze q <;> rfl
  · rw [if_neg hg, if_neg hg]

/-! ## Cropping: shape of the result -/

theorem cropAndAdjustMaze_eq_some {maze : Maze} {adj : AdjMatrix} {nd : NodeDetails}
    {rect : CropRect} {ROWS COLS : Nat} {r : CropResult}
    (h : cropAndAdjustMaze maze adj nd rect ROWS COLS = some r) :
    ∃ start goals,
      cropStart (cropCells maze rect) rect nd.start = some start ∧
      nd.goal.mapM (cropGoal (cropCells maze rect) rect) = some goals ∧
      r.nodeDetails = { nd with start := start, goal := goals } ∧
      r.croppedMaze = updateMazeWithNodeNames (cropCells maze rect)
        { nd with start := start, goal := goals } false ∧
      r.croppedAdjMatrix = cropEnsureFullConnectivity (cropCells maze rect)
        (markInactiveNodes adj rect ROWS COLS) rect COLS := by
  unfold cropAndAdjustMaze at h
  simp only at h
  cases hs : cropStart (cropCells maze rect) rect nd.start with
  | none => rw [hs] at h; cases h
  | some start =>
    rw [hs] at h
    cases hg : nd.goal.mapM (cropGoal (cropCells maze rect) rect) with
    | none => rw [hg] at h; cases h
    | some goals =>
      rw [hg] at h
      simp only [Option.some.injEq] at h
      subst h
      exact ⟨start, goals, rfl, rfl, rfl, rfl, rfl⟩

/-- C10 (as amended). The grid returned by `cropAndAdjustMaze` keeps the size of the input grid:
as many rows, each of its old length.  A cell of the grid outside the rectangle that is neither
the returned start nor a returned goal is `null`, and no cell inside the rectangle is `null`. -/
theorem cropAndAdjustMaze_shape (maze : Maze) (adj : AdjMatrix) (nd : NodeDetails)
    (rect : CropRect) (ROWS COLS : Nat) (r : CropResult)
    (h : cropAndAdjustMaze maze adj nd rect ROWS COLS = some r) :
    r.croppedMaze.length = maze.length ∧
    r.croppedMaze.map List.length = maze.map List.length ∧
    (∀ q : Pos, rect.contains q = false → q ≠ r.nodeDetails.start → q ∉ r.nodeDetails.goal →
      cellAt maze q ≠ none → cellAt r.croppedMaze q = some Cell.null) ∧
    (∀ q : Pos, rect.contains q = true → cellAt r.croppedMaze q ≠ some Cell.null) := by
  obtain ⟨start, goals, -, -, hnd, hmaze, -⟩ := cropAndAdjustMaze_eq_some h
  have hlen : r.croppedMaze.map List.length = maze.map List.length := by
    rw [hmaze, map_length_updateMazeWithNodeNames, map_length_cropCells]
  refine ⟨by simpa using congrArg List.length hlen, hlen, ?_, ?_⟩
  · intro q hq hqs hqg hqm
    rw [hnd] at hqs hqg
    rw [hmaze, cellAt_updateMazeWithNodeNames, if_neg (fun hc => hqg hc.1),
      if_neg (fun hc => hqs hc.1), cellAt_cropCells, hq]
    cases hc : cellAt maze q with
    | none => exact absurd hc hqm
    | some v => rfl
  · intro q hq
    rw [hmaze, cellAt_updateMazeWithNodeNames, cellAt_cropCells, hq]
    simp only [if_true]
    cases cellAt maze q with
    | none => split_ifs <;> simp
    | some v =>
      split_ifs
      · simp
      · simp
      · simp only [Option.map_some', ne_eq, Option.some.injEq]
        split_ifs <;> simp

theorem cropAndAdjustMaze_shape_witness :
    cropAndAdjustMaze (openGrid 2 2) (initialAdjMatrix (openGrid 2 2) 2 2)
        { start := (0, 0), goal := [(1, 1)], operation := [] } ⟨0, 0, 0, 0⟩ 2 2 =
      some { croppedMaze := [[.str "g", .null], [.null, .null]],
             croppedAdjMatrix := [[0, 0, 0, 0], [0, 0, 0, 0], [0, 0, 0, 0], [0, 0, 0, 0]],
             nodeDetails := { start := (0, 0), goal := [(0, 0)], operation := [] } } ∧
    ([[Cell.str "g", Cell.null], [Cell.null, Cell.null]] : Maze).length = (openGrid 2 2).length :=
  ⟨by decide, (cropAndAdjustMaze_shape (openGrid 2 2) (initialAdjMatrix (openGrid 2 2) 2 2)
    { start := (0, 0), goal := [(1, 1)], operation := [] } ⟨0, 0, 0, 0⟩ 2 2
    { croppedMaze := [[.str "g", .null], [.null, .null]],
      croppedAdjMatrix := [[0, 0, 0, 0], [0, 0, 0, 0], [0, 0, 0, 0], [0, 0, 0, 0]],
      nodeDetails := { start := (0, 0), goal := [(0, 0)], operation := [] } } (by decide)).1⟩

/-- C10, counterexample. The shipped 7 by 7 grid cropped to `[0, 0, 2, 2]` does not come back as
a 3 by 3 grid: it keeps its 7 rows of 7 cells, and the start at `[0, 0]` is kept. -/
theorem cropAndAdjustMaze_keeps_size :
    (cropAndAdjustMaze (openGrid 7 7) (initialAdjMatrix (openGrid 7 7) 7 7) defaultNodeDetails
        ⟨0, 0, 2, 2⟩ 7 7).map (fun r => (r.croppedMaze.map List.length, r.nodeDetails.start)) =
      some ([7, 7, 7, 7, 7, 7, 7], (0, 0)) := by
  decide

/-! ## Determinism of generation -/

theorem rngOf_seeded (env : RandomEnv) (seed : Option String) (mathPos : Nat)
    (h : seedTruthy seed = true) :
    ∃ s, seed = some s ∧ rngOf env seed mathPos = env.seedrandom s := by
  cases seed with
  | none => simp [seedTruthy] at h
  | some s =>
    simp only [seedTruthy, decide_eq_true_eq] at h
    exact ⟨s, rfl, by simp [rngOf, h]⟩

theorem rngOf_congr (env1 env2 : RandomEnv) (seed : Option String) (mp1 mp2 : Nat)
    (henv : env1.seedrandom = env2.seedrandom) (h : seedTruthy seed = true) :
    rngOf env1 seed mp1 = rngOf env2 seed mp2 := by
  obtain ⟨s, _, h1⟩ := rngOf_seeded env1 seed mp1 h
  obtain ⟨_, _, h2⟩ := rngOf_seeded env2 seed mp2 h
  cases seed with
  | none => simp [seedTruthy] at h
  | some s' =>
    simp only [seedTruthy, decide_eq_true_eq] at h
    simp [rngOf, h, henv]

theorem generateBase_congr (env1 env2 : RandomEnv) (nd1 nd2 : NodeDetails) (sp : Sparsity)
    (maze_seed : Option String) (mazeStructure : Option Maze) (fullyConnected : Bool)
    (ROWS COLS mp1 mp2 : Nat) (henv : env1.seedrandom = env2.seedrandom)
    (hseed : seedTruthy maze_seed = true) (hs : nd1.start = nd2.start)
    (hg : nd1.goal = nd2.goal) :
    (generateBase env1 nd1 sp maze_seed mazeStructure fullyConnected ROWS COLS mp1).1 =
      (generateBase env2 nd2 sp maze_seed mazeStructure fullyConnected ROWS COLS mp2).1 ∧
    (generateBase env1 nd1 sp maze_seed mazeStructure fullyConnected ROWS COLS mp1).2.1 =
      (generateBase env2 nd2 sp maze_seed mazeStructure fullyConnected ROWS COLS mp2).2.1 := by
  have hr := rngOf_congr env1 env2 maze_seed mp1 mp2 henv hseed
  unfold generateBase
  simp only [hr, hs, hg]
  cases fullyConnected <;> simp

theorem generateBase_mathPos (env : RandomEnv) (nd : NodeDetails) (sp : Sparsity)
    (maze_seed : Option String) (mazeStructure : Option Maze) (fullyConnected : Bool)
    (ROWS COLS mp : Nat) (hseed : seedTruthy maze_seed = true) :
    (generateBase env nd sp maze_seed mazeStructure fullyConnected ROWS COLS mp).2.2 = mp := by
  unfold generateBase
  cases fullyConnected <;> simp [advance, hseed]

theorem placeAllOperations_congr (env1 env2 : RandomEnv) (seed : Option String)
    (henv : env1.seedrandom = env2.seedrandom) (hseed : seedTruthy seed = true)
    (ops : List (String × OperationNode)) :
    ∀ (maze : Maze) (mp1 mp2 : Nat),
      (placeAllOperations env1 seed ops maze mp1).1 =
        (placeAllOperations env2 seed ops maze mp2).1 ∧
      (placeAllOperations env1 seed ops maze mp1).2.1 =
        (placeAllOperations env2 seed ops maze mp2).2.1 := by
  induction ops with
  | nil => intro maze mp1 mp2; exact ⟨rfl, rfl⟩
  | cons entry rest ih =>
    intro maze mp1 mp2
    obtain ⟨key, operation⟩ := entry
    have hr := rngOf_congr env1 env2 seed mp1 mp2 henv hseed
    simp only [placeAllOperations, hr]
    obtain ⟨h1, h2⟩ := ih
      (placeOperationNodes maze operation.quantity operation.mazeName
        operation.predefinedPositions (rngOf env2 seed mp2)).1
      (advance seed mp1 (placeOperationNodes maze operation.quantity operation.mazeName
        operation.predefinedPositions (rngOf env2 seed mp2)).2.2)
      (advance seed mp2 (placeOperationNodes maze operation.quantity operation.mazeName
        operation.predefinedPositions (rngOf env2 seed mp2)).2.2)
    exact ⟨h1, by rw [h2]⟩

theorem generateAttempt_congr (env1 env2 : RandomEnv) (nd : NodeDetails) (sp : Sparsity)
    (maze_seed operation_node_seed : Option String) (mazeStructure : Option Maze)
    (fullyConnected : Bool) (ROWS COLS mp1 mp2 : Nat)
    (henv : env1.seedrandom = env2.seedrandom) (hseed : seedTruthy maze_seed = true)
    (hop : seedTruthy operation_node_seed = true) :
    (generateAttempt env1 nd sp maze_seed operation_node_seed mazeStructure fullyConnected
        ROWS COLS mp1).1 =
      (generateAttempt env2 nd sp maze_seed operation_node_seed mazeStructure fullyConnected
        ROWS COLS mp2).1 ∧
    (generateAttempt env1 nd sp maze_seed operation_node_seed mazeStructure fullyConnected
        ROWS COLS mp1).2.1 =
      (generateAttempt env2 nd sp maze_seed operation_node_seed mazeStructure fullyConnected
        ROWS COLS mp2).2.1 := by
  obtain ⟨hb1, hb2⟩ := generateBase_congr env1 env2 nd nd sp maze_seed mazeStructure
    fullyConnected ROWS COLS mp1 mp2 henv hseed rfl rfl
  unfold generateAttempt
  simp only [hb1, hb2]
  obtain ⟨hp1, hp2⟩ := placeAllOperations_congr env1 env2 operation_node_seed henv hop
    nd.operation
    (updateMazeWithNodeNames (generateBase env2 nd sp maze_seed mazeStructure fullyConnected
      ROWS COLS mp2).1 nd false)
    (generateBase env1 nd sp maze_seed mazeStructure fullyConnected ROWS COLS mp1).2.2
    (generateBase env2 nd sp maze_seed mazeStructure fullyConnected ROWS COLS mp2).2.2
  simp only [hp1, hp2, and_self]

theorem generateMaze_congr (env1 env2 : RandomEnv) (sp : Sparsity)
    (maze_seed operation_node_seed : Option String) (mazeStructure : Option Maze)
    (fullyConnected : Bool) (ROWS COLS : Nat)
    (henv : env1.seedrandom = env2.seedrandom) (hseed : seedTruthy maze_seed = true)
    (hop : seedTruthy operation_node_seed = true) (fuel : Nat) :
    ∀ (nd : NodeDetails) (mp1 mp2 : Nat),
      generateMaze env1 nd sp maze_seed operation_node_seed mazeStructure fullyConnected
          ROWS COLS fuel mp1 =
        generateMaze env2 nd sp maze_seed operation_node_seed mazeStructure fullyConnected
          ROWS COLS fuel mp2 := by
  induction fuel with
  | zero => intro nd mp1 mp2; rfl
  | succ fuel ih =>
    intro nd mp1 mp2
    obtain ⟨h1, h2⟩ := generateAttempt_congr env1 env2 nd sp maze_seed operation_node_seed
      mazeStructure fullyConnected ROWS COLS mp1 mp2 henv hseed hop
    simp only [generateMaze, h1, h2]
    split_ifs
    · rfl
    · exact ih _ _ _

theorem generateMaze_mono (env : RandomEnv) (sp : Sparsity)
    (maze_seed operation_node_seed : Option String) (mazeStructure : Option Maze)
    (fullyConnected : Bool) (ROWS COLS : Nat) (fuel extra : Nat) :
    ∀ (nd : NodeDetails) (mp : Nat) (s : MazeData),
      generateMaze env nd sp maze_seed operation_node_seed mazeStructure fullyConnected
          ROWS COLS fuel mp = some s →
      generateMaze env nd sp maze_seed operation_node_seed mazeStructure fullyConnected
          ROWS COLS (fuel + extra) mp = some s := by
  induction fuel with
  | zero => intro nd mp s h; simp [generateMaze] at h
  | succ fuel ih =>
    intro nd mp s h
    rw [Nat.add_right_comm]
    simp only [generateMaze] at h ⊢
    split_ifs at h ⊢ with hc
    · exact h
    · exact ih _ _ _ h

theorem generateMaze_adjMatrix (env : RandomEnv) (sp : Sparsity)
    (maze_seed operation_node_seed : Option String) (mazeStructure : Option Maze)
    (fullyConnected : Bool) (ROWS COLS : Nat) (hseed : seedTruthy maze_seed = true)
    (fuel : Nat) :
    ∀ (nd : NodeDetails) (mp : Nat) (s : MazeData),
      generateMaze env nd sp maze_seed operation_node_seed mazeStructure fullyConnected
          ROWS COLS fuel mp = some s →
      s.adjMatrix =
        (generateBase env nd sp maze_seed mazeStructure fullyConnected ROWS COLS 0).2.1 := by
  induction fuel with
  | zero => intro nd mp s h; simp [generateMaze] at h
  | succ fuel ih =>
    intro nd mp s h
    simp only [generateMaze] at h
    split_ifs at h with hc
    · simp only [Option.some.injEq] at h
      subst h
      exact (generateBase_congr env env nd nd sp maze_seed mazeStructure fullyConnected
        ROWS COLS mp 0 rfl hseed rfl rfl).2
    · rw [ih _ _ _ h]
      exact (generateBase_congr env env _ nd sp maze_seed mazeStructure fullyConnected
        ROWS COLS 0 0 rfl hseed rfl rfl).2

/-- C8 (as amended). With a non-empty maze seed, two calls of `generateMaze` for the same
configuration that return give the same matrix, whatever `Math.random` draws; when the
operation-node seed is a non-empty string as well, they return the same state altogether. -/
theorem generateMaze_deterministic (env1 env2 : RandomEnv) (nd : NodeDetails) (sp : Sparsity)
    (maze_seed operation_node_seed : Option String) (mazeStructure : Option Maze)
    (fullyConnected : Bool) (ROWS COLS : Nat)
    (henv : env1.seedrandom = env2.seedrandom) (hseed : seedTruthy maze_seed = true) :
    (∀ (fuel1 fuel2 mp1 mp2 : Nat) (s1 s2 : MazeData),
      generateMaze env1 nd sp maze_seed operation_node_seed mazeStructure fullyConnected
          ROWS COLS fuel1 mp1 = some s1 →
      generateMaze env2 nd sp maze_seed operation_node_seed mazeStructure fullyConnected
          ROWS COLS fuel2 mp2 = some s2 →
      s1.adjMatrix = s2.adjMatrix) ∧
    (seedTruthy operation_node_seed = true →
      ∀ (fuel1 fuel2 mp1 mp2 : Nat) (s1 s2 : MazeData),
        generateMaze env1 nd sp maze_seed operation_node_seed mazeStructure fullyConnected
            ROWS COLS fuel1 mp1 = some s1 →
        generateMaze env2 nd sp maze_seed operation_node_seed mazeStructure fullyConnected
            ROWS COLS fuel2 mp2 = some s2 →
        s1 = s2) := by
  constructor
  · intro fuel1 fuel2 mp1 mp2 s1 s2 h1 h2
    rw [generateMaze_adjMatrix env1 sp maze_seed operation_node_seed mazeStructure
        fullyConnected ROWS COLS hseed fuel1 nd mp1 s1 h1,
      generateMaze_adjMatrix env2 sp maze_seed operation_node_seed mazeStructure
        fullyConnected ROWS COLS hseed fuel2 nd mp2 s2 h2]
    exact (generateBase_congr env1 env2 nd nd sp maze_seed mazeStructure fullyConnected
      ROWS COLS 0 0 henv hseed rfl rfl).2
  · intro hop fuel1 fuel2 mp1 mp2 s1 s2 h1 h2
    have h1' := generateMaze_mono env1 sp maze_seed operation_node_seed mazeStructure
      fullyConnected ROWS COLS fuel1 fuel2 nd mp1 s1 h1
    have h2' := generateMaze_mono env2 sp maze_seed operation_node_seed mazeStructure
      fullyConnected ROWS COLS fuel2 fuel1 nd mp2 s2 h2
    rw [Nat.add_comm fuel2 fuel1] at h2'
    rw [generateMaze_congr env1 env2 sp maze_seed operation_node_seed mazeStructure
      fullyConnected ROWS COLS henv hseed hop (fuel1 + fuel2) nd mp1 mp2, h2'] at h1'
    exact (Option.some.inj h1').symm

theorem generateMaze_deterministic_witness :
    zeroEnv.seedrandom = halfEnv.seedrandom ∧ seedTruthy (some "Maze") = true ∧
    ∀ (fuel1 fuel2 mp1 mp2 : Nat) (s1 s2 : MazeData),
      generateMaze zeroEnv smallNodeDetails ⟨0, 0⟩ (some "Maze") none none true 2 2 fuel1 mp1
        = some s1 →
      generateMaze halfEnv smallNodeDetails ⟨0, 0⟩ (some "Maze") none none true 2 2 fuel2 mp2
        = some s2 →
      s1.adjMatrix = s2.adjMatrix :=
  ⟨rfl, by decide, (generateMaze_deterministic zeroEnv halfEnv smallNodeDetails ⟨0, 0⟩
    (some "Maze") none none true 2 2 rfl (by decide)).1⟩

/-- C8, counterexample. With the operation-node seed left at its default, the same configuration
and the same maze seed give two different grids for two different runs of `Math.random`. -/
theorem generateMaze_depends_on_mathRandom :
    (generateMaze zeroEnv smallNodeDetails ⟨0, 0⟩ (some "Maze") none none true 2 2 1 0).map
        (fun s => s.maze) = some [[.str "s", .str "g"], [.num 2, .num 1]] ∧
    (generateMaze halfEnv smallNodeDetails ⟨0, 0⟩ (some "Maze") none none true 2 2 1 0).map
        (fun s => s.maze) = some [[.str "s", .str "g"], [.num 1, .num 2]] := by
  decide

/-! ## Operation nodes are placed on open cells only -/

theorem cellAt_setCell_of_ne (maze : Maze) {p q : Pos} (v : Cell) (h : q ≠ p) :
    cellAt (setCell maze p v) q = cellAt maze q := by
  rw [cellAt_setCell, if_neg h]

theorem cellAt_placePredefined (numNodes : Int) (nodeType : Cell) (q : Pos)
    (pre : List Pos) :
    ∀ (maze : Maze) (positions : List Pos), cellAt maze q ≠ some (.num 1) →
      cellAt (placePredefined numNodes nodeType pre maze positions).1 q = cellAt maze q := by
  induction pre with
  | nil => intro maze positions _; rfl
  | cons pos rest ih =>
    intro maze positions hq
    unfold placePredefined
    split_ifs with h1 h2
    · have hne : q ≠ pos := fun he => hq (he ▸ h1.2.2.2.2)
      exact cellAt_setCell_of_ne maze nodeType hne
    · have hne : q ≠ pos := fun he => hq (he ▸ h1.2.2.2.2)
      rw [ih _ _ (by rw [cellAt_setCell_of_ne maze nodeType hne]; exact hq)]
      exact cellAt_setCell_of_ne maze nodeType hne
    · exact ih maze positions hq

theorem cellAt_placeRandom (numNodes : Int) (nodeType : Cell) (rng : Nat → Draw) (q : Pos)
    (fuel : Nat) :
    ∀ (k : Nat) (available : List Pos) (maze : Maze) (positions : List Pos),
      (∀ p ∈ available, p ≠ q) →
      cellAt (placeRandom numNodes nodeType rng fuel k available maze positions).1 q =
        cellAt maze q := by
  induction fuel with
  | zero => intro k available maze positions _; rfl
  | succ fuel ih =>
    intro k available maze positions hav
    unfold placeRandom
    split_ifs with h1
    · simp only
      cases hget : available[(rng k).floorMul available.length]? with
      | none => rfl
      | some pos =>
        simp only
        have hpos : pos ∈ available := List.getElem?_mem hget
        rw [ih _ _ _ _ (fun p hp => hav p (List.mem_of_mem_eraseIdx hp))]
        exact cellAt_setCell_of_ne maze nodeType (fun he => hav pos hpos he.symm)
    · rfl

theorem cellAt_placeOperationNodes (maze : Maze) (numNodes : Int) (nodeType : Cell)
    (pre : Option (List Pos)) (rng : Nat → Draw) (q : Pos)
    (hq : cellAt maze q ≠ some (.num 1)) :
    cellAt (placeOperationNodes maze numNodes nodeType pre rng).1 q = cellAt maze q := by
  unfold placeOperationNodes
  simp only
  have h1 := cellAt_placePredefined numNodes nodeType q (pre.getD []) maze [] hq
  rw [cellAt_placeRandom, h1]
  intro p hp he
  subst he
  simp only [openPositions, List.mem_filter, decide_eq_true_eq] at hp
  rw [h1] at hp
  exact hq hp.2

theorem cellAt_placeAllOperations (env : RandomEnv) (seed : Option String) (q : Pos)
    (ops : List (String × OperationNode)) :
    ∀ (maze : Maze) (mathPos : Nat), cellAt maze q ≠ some (.num 1) →
      cellAt (placeAllOperations env seed ops maze mathPos).1 q = cellAt maze q := by
  induction ops with
  | nil => intro maze mathPos _; rfl
  | cons entry rest ih =>
    intro maze mathPos hq
    obtain ⟨key, operation⟩ := entry
    simp only [placeAllOperations]
    have h1 := cellAt_placeOperationNodes maze operation.quantity operation.mazeName
      operation.predefinedPositions (rngOf env seed mathPos) q hq
    rw [ih _ _ (by rw [h1]; exact hq), h1]

/-! ## Reachability through cells can be reversed -/

theorem reach_validNeighbors_symm (maze : Maze) (ROWS COLS : Nat) {a b : Pos}
    (ha : isValid maze a ROWS COLS = true)
    (h : Reach (validNeighbors maze ROWS COLS) a b) :
    Reach (validNeighbors maze ROWS COLS) b a := by
  have key : Reach (validNeighbors maze ROWS COLS) b a ∧ isValid maze b ROWS COLS = true := by
    induction h with
    | refl => exact ⟨Relation.ReflTransGen.refl, ha⟩
    | @tail x y _ hstep ih =>
      have hxy := (mem_validNeighbors maze ROWS COLS x y).mp hstep
      have hyx : x ∈ validNeighbors maze ROWS COLS y :=
        (mem_validNeighbors maze ROWS COLS y x).mpr ⟨mem_getNeighbors_symm hxy.1, ih.2⟩
      exact ⟨Relation.ReflTransGen.head hyx ih.1, hxy.2⟩
  exact key.1

/-! ## The grid keeps its shape -/

theorem hasShape_openGrid (ROWS COLS : Nat) : hasShape (openGrid ROWS COLS) ROWS COLS := by
  simp [hasShape, openGrid]

theorem hasShape_setCell {maze : Maze} {ROWS COLS : Nat} (h : hasShape maze ROWS COLS)
    (p : Pos) (v : Cell) : hasShape (setCell maze p v) ROWS COLS := by
  unfold hasShape at h ⊢
  rw [map_length_setCell, h]

theorem hasShape_foldl_setCell {ROWS COLS : Nat} (v : Cell) (ps : List Pos) :
    ∀ maze : Maze, hasShape maze ROWS COLS →
      hasShape (ps.foldl (fun mz pos => setCell mz pos v) maze) ROWS COLS := by
  induction ps with
  | nil => intro maze h; exact h
  | cons p ps ih => intro maze h; exact ih _ (hasShape_setCell h p v)

theorem hasShape_removeIsolatedNodes {maze : Maze} {ROWS COLS : Nat} (adj : AdjMatrix)
    (R C : Nat) (h : hasShape maze ROWS COLS) :
    hasShape (removeIsolatedNodes maze adj R C) ROWS COLS := by
  unfold removeIsolatedNodes
  generalize allCells R C = cells
  induction cells generalizing maze with
  | nil => exact h
  | cons p ps ih =>
    simp only [List.foldl_cons]
    split_ifs
    · exact ih (hasShape_setCell h p _)
    · exact ih h

theorem hasShape_removeUnreachableNodes {maze : Maze} {ROWS COLS : Nat} (adj : AdjMatrix)
    (start : Pos) (R C : Nat) (h : hasShape maze ROWS COLS) :
    hasShape (removeUnreachableNodes maze adj start R C).1 ROWS COLS := by
  unfold removeUnreachableNodes
  generalize allCells R C = cells
  induction cells generalizing maze adj with
  | nil => exact h
  | cons p ps ih =>
    simp only [List.foldl_cons]
    unfold removeUnreachableAt
    split_ifs
    · exact ih _ (hasShape_setCell h p _)
    · exact ih _ h

theorem hasShape_ensurePath {state : Maze × AdjMatrix} {ROWS COLS : Nat} (a b : Pos)
    (h : hasShape state.1 ROWS COLS) : hasShape (ensurePath state a b).1 ROWS COLS := by
  unfold ensurePath
  split_ifs
  · exact hasShape_foldl_setCell _ _ _ h
  · exact h

theorem hasShape_ensureConnectivity {maze : Maze} {ROWS COLS : Nat} (adj : AdjMatrix)
    (nodes : List Pos) (h : hasShape maze ROWS COLS) :
    hasShape (ensureConnectivity maze adj nodes).1 ROWS COLS := by
  unfold ensureConnectivity
  generalize orderedPairs nodes = pairs
  have : ∀ state : Maze × AdjMatrix, hasShape state.1 ROWS COLS →
      hasShape (pairs.foldl (fun state pair => ensurePath state pair.1 pair.2) state).1
        ROWS COLS := by
    induction pairs with
    | nil => intro state hs; exact hs
    | cons p ps ih => intro state hs; exact ih _ (hasShape_ensurePath p.1 p.2 hs)
  exact this (maze, adj) h

theorem hasShape_bounds {maze : Maze} {ROWS COLS : Nat} (h : hasShape maze ROWS COLS)
    {p : Pos} (hp : isValidMatrixIndex p ROWS COLS = true) :
    p.1 < maze.length ∧ p.2 < (maze.headD []).length := by
  rw [isValidMatrixIndex_iff] at hp
  unfold hasShape at h
  have hlen : maze.length = ROWS := by simpa using congrArg List.length h
  cases maze with
  | nil => simp at hlen; omega
  | cons row rest =>
    simp only [List.map_cons] at h
    cases ROWS with
    | zero => simp at hlen
    | succ n =>
      rw [List.replicate_succ] at h
      have hrow : row.length = COLS := (List.cons.inj h).1
      simp only [List.length_cons] at hlen
      simp only [List.headD_cons, List.length_cons]
      push_cast at hp ⊢
      omega

theorem generateBase_hasShape_false (env : RandomEnv) (nd : NodeDetails) (sp : Sparsity)
    (maze_seed : Option String) (mazeStructure : Option Maze) (ROWS COLS mp : Nat)
    (hstruct : ∀ m, mazeStructure = some m → hasShape m ROWS COLS) :
    hasShape (generateBase env nd sp maze_seed mazeStructure false ROWS COLS mp).1 ROWS COLS := by
  unfold generateBase
  simp only [Bool.false_eq_true, if_false]
  apply hasShape_ensureConnectivity
  apply hasShape_removeUnreachableNodes
  apply hasShape_removeIsolatedNodes
  cases mazeStructure with
  | none => exact hasShape_openGrid ROWS COLS
  | some m =>
    have := hstruct m rfl
    simpa [hasShape] using this

theorem cellAt_named_start {base : Maze} {ROWS COLS : Nat} (nd : NodeDetails)
    (hshape : hasShape base ROWS COLS) (hstart : isValidMatrixIndex nd.start ROWS COLS = true) :
    cellAt (updateMazeWithNodeNames base nd false) nd.start ≠ some (.num 0) ∧
    cellAt (updateMazeWithNodeNames base nd false) nd.start ≠ some (.num 1) := by
  have hG := hasShape_bounds hshape hstart
  rw [cellAt_updateMazeWithNodeNames]
  have e2 : (nd.start = nd.start ∧ nd.start.1 < (base.length : Int) ∧
      nd.start.2 < ((base.headD []).length : Int)) := ⟨rfl, hG⟩
  rw [if_pos e2]
  split_ifs <;> cases cellAt base nd.start <;> simp

theorem generateMaze_eq_some {env : RandomEnv} {sp : Sparsity}
    {maze_seed operation_node_seed : Option String} {mazeStructure : Option Maze}
    {fullyConnected : Bool} {ROWS COLS : Nat} (fuel : Nat) :
    ∀ {nd : NodeDetails} {mp : Nat} {st : MazeData},
      generateMaze env nd sp maze_seed operation_node_seed mazeStructure fullyConnected
          ROWS COLS fuel mp = some st →
      ∃ (nd' : NodeDetails) (mp' : Nat), nd'.start = nd.start ∧ nd'.goal = nd.goal ∧
        (generateAttempt env nd' sp maze_seed operation_node_seed mazeStructure fullyConnected
          ROWS COLS mp').2.1 = true ∧
        st = (generateAttempt env nd' sp maze_seed operation_node_seed mazeStructure
          fullyConnected ROWS COLS mp').1 := by
  induction fuel with
  | zero => intro nd mp st h; simp [generateMaze] at h
  | succ fuel ih =>
    intro nd mp st h
    simp only [generateMaze] at h
    split_ifs at h with hc
    · exact ⟨nd, mp, rfl, rfl, hc, (Option.some.inj h).symm⟩
    · obtain ⟨nd', mp', h1, h2, h3, h4⟩ := ih h
      exact ⟨nd', mp', h1, h2, h3, h4⟩

/-- C7. Whenever `generateMaze` with `fullyConnected = false` returns for a start inside the
grid, the start and every goal reach each other in the returned grid: both `bfs(start, goal)`
and `bfs(goal, start)` are `true`. -/
theorem generateMaze_goals_mutually_reachable (env : RandomEnv) (nd : NodeDetails)
    (sp : Sparsity) (maze_seed operation_node_seed : Option String)
    (mazeStructure : Option Maze) (ROWS COLS fuel mp : Nat) (st : MazeData)
    (hstruct : ∀ m, mazeStructure = some m → hasShape m ROWS COLS)
    (hstart : isValidMatrixIndex nd.start ROWS COLS = true)
    (h : generateMaze env nd sp maze_seed operation_node_seed mazeStructure false ROWS COLS
      fuel mp = some st) :
    ∀ goal ∈ nd.goal, bfs st.maze nd.start goal ROWS COLS = true ∧
      bfs st.maze goal nd.start ROWS COLS = true := by
  obtain ⟨nd', mp', hs, hg, hcheck, hst⟩ := generateMaze_eq_some fuel h
  intro goal hgoal
  have hmaze : st.maze = (placeAllOperations env operation_node_seed nd'.operation
      (updateMazeWithNodeNames (generateBase env nd' sp maze_seed mazeStructure false
        ROWS COLS mp').1 nd' false)
      (generateBase env nd' sp maze_seed mazeStructure false ROWS COLS mp').2.2).1 := by
    rw [hst]; rfl
  have hfwd : bfs st.maze nd.start goal ROWS COLS = true := by
    have hall : nd'.goal.all (fun goal => bfs st.maze nd'.start goal ROWS COLS) = true := by
      rw [hmaze]; exact hcheck
    rw [List.all_eq_true] at hall
    rw [← hs]
    exact hall goal (hg ▸ hgoal)
  refine ⟨hfwd, ?_⟩
  have hshape := generateBase_hasShape_false env nd' sp maze_seed mazeStructure ROWS COLS mp'
    hstruct
  have hnamed := cellAt_named_start nd' hshape (hs ▸ hstart)
  have hcell : cellAt st.maze nd.start ≠ some (.num 0) := by
    rw [hmaze, ← hs, cellAt_placeAllOperations _ _ _ _ _ _ hnamed.2]
    exact hnamed.1
  have hvalid : isValid st.maze nd.start ROWS COLS = true := by
    simp only [isValid, Bool.and_eq_true, decide_eq_true_eq]
    exact ⟨hstart, hcell⟩
  rw [bfs_iff_reach] at hfwd ⊢
  exact reach_validNeighbors_symm st.maze ROWS COLS hvalid hfwd

/-! ## Cells after the placement of operation nodes -/

theorem cellAt_setCell_cases (maze : Maze) (p q : Pos) (v : Cell) :
    cellAt (setCell maze p v) q = cellAt maze q ∨ cellAt (setCell maze p v) q = some v := by
  rw [cellAt_setCell]
  by_cases h : q = p
  · subst h
    rw [if_pos rfl]
    cases cellAt maze q with
    | none => left; rfl
    | some c => right; rfl
  · rw [if_neg h]
    left; rfl

theorem cellAt_placePredefined_cases (numNodes : Int) (nodeType : Cell) (q : Pos)
    (pre : List Pos) :
    ∀ (maze : Maze) (positions : List Pos),
      cellAt (placePredefined numNodes nodeType pre maze positions).1 q = cellAt maze q ∨
      cellAt (placePredefined numNodes nodeType pre maze positions).1 q = some nodeType := by
  induction pre with
  | nil => intro maze positions; left; rfl
  | cons pos rest ih =>
    intro maze positions
    unfold placePredefined
    split_ifs with h1 h2
    · exact cellAt_setCell_cases maze pos q nodeType
    · rcases ih (setCell maze pos nodeType) (positions ++ [pos]) with h | h
      · rw [h]; exact cellAt_setCell_cases maze pos q nodeType
      · right; exact h
    · exact ih maze positions

theorem cellAt_placeRandom_cases (numNodes : Int) (nodeType : Cell) (rng : Nat → Draw) (q : Pos)
    (fuel : Nat) :
    ∀ (k : Nat) (available : List Pos) (maze : Maze) (positions : List Pos),
      cellAt (placeRandom numNodes nodeType rng fuel k available maze positions).1 q =
          cellAt maze q ∨
      cellAt (placeRandom numNodes nodeType rng fuel k available maze positions).1 q =
          some nodeType := by
  induction fuel with
  | zero => intro k available maze positions; left; rfl
  | succ fuel ih =>
    intro k available maze positions
    unfold placeRandom
    split_ifs with h1
    · simp only
      cases hget : available[(rng k).floorMul available.length]? with
      | none => left; rfl
      | some pos =>
        simp only
        rcases ih (k + 1) (available.eraseIdx ((rng k).floorMul available.length))
          (setCell maze pos nodeType) (positions ++ [pos]) with h | h
        · rw [h]; exact cellAt_setCell_cases maze pos q nodeType
        · right; exact h
    · left; rfl

theorem cellAt_placeOperationNodes_cases (maze : Maze) (numNodes : Int) (nodeType : Cell)
    (pre : Option (List Pos)) (rng : Nat → Draw) (q : Pos) :
    cellAt (placeOperationNodes maze numNodes nodeType pre rng).1 q = cellAt maze q ∨
    cellAt (placeOperationNodes maze numNodes nodeType pre rng).1 q = some nodeType := by
  unfold placeOperationNodes
  simp only
  rcases cellAt_placeRandom_cases numNodes nodeType rng q
    (openPositions (placePredefined numNodes nodeType (pre.getD []) maze []).1).length 0
    (openPositions (placePredefined numNodes nodeType (pre.getD []) maze []).1)
    (placePredefined numNodes nodeType (pre.getD []) maze []).1
    (placePredefined numNodes nodeType (pre.getD []) maze []).2 with h | h
  · rw [h]
    exact cellAt_placePredefined_cases numNodes nodeType q (pre.getD []) maze []
  · right; exact h

theorem cellAt_placeAllOperations_cases (env : RandomEnv) (seed : Option String) (q : Pos)
    (ops : List (String × OperationNode)) :
    ∀ (maze : Maze) (mathPos : Nat),
      cellAt (placeAllOperations env seed ops maze mathPos).1 q = cellAt maze q ∨
      ∃ entry ∈ ops,
        cellAt (placeAllOperations env seed ops maze mathPos).1 q = some entry.2.mazeName := by
  induction ops with
  | nil => intro maze mathPos; left; rfl
  | cons entry rest ih =>
    intro maze mathPos
    obtain ⟨key, operation⟩ := entry
    simp only [placeAllOperations]
    rcases ih (placeOperationNodes maze operation.quantity operation.mazeName
        operation.predefinedPositions (rngOf env seed mathPos)).1
      (advance seed mathPos (placeOperationNodes maze operation.quantity operation.mazeName
        operation.predefinedPositions (rngOf env seed mathPos)).2.2) with h | ⟨e, he, h⟩
    · rw [h]
      rcases cellAt_placeOperationNodes_cases maze operation.quantity operation.mazeName
        operation.predefinedPositions (rngOf env seed mathPos) q with h2 | h2
      · left; exact h2
      · right; exact ⟨(key, operation), List.mem_cons_self _ _, h2⟩
    · right; exact ⟨e, List.mem_cons_of_mem _ he, h⟩

/-! ## A grid without blocked cells is connected -/

theorem reach_of_no_blocked (maze : Maze) (ROWS COLS : Nat)
    (hopen : ∀ p, isValidMatrixIndex p ROWS COLS = true → cellAt maze p ≠ some (.num 0))
    {a b : Pos} (ha : isValidMatrixIndex a ROWS COLS = true)
    (hb : isValidMatrixIndex b ROWS COLS = true) :
    Reach (validNeighbors maze ROWS COLS) a b := by
  have hvalid : ∀ p, isValidMatrixIndex p ROWS COLS = true → isValid maze p ROWS COLS = true := by
    intro p hp
    simp only [isValid, Bool.and_eq_true, decide_eq_true_eq]
    exact ⟨hp, hopen p hp⟩
  have hstep : ∀ p q : Pos, q ∈ getNeighbors p → isValidMatrixIndex q ROWS COLS = true →
      Reach (validNeighbors maze ROWS COLS) p q := by
    intro p q hq hin
    exact Relation.ReflTransGen.single ((mem_validNeighbors _ _ _ _ _).mpr ⟨hq, hvalid q hin⟩)
  have hrow : ∀ r : Nat, (r : Int) < ROWS → 0 < COLS →
      Reach (validNeighbors maze ROWS COLS) (0, 0) ((r : Int), 0) := by
    intro r
    induction r with
    | zero => intro _ _; exact Relation.ReflTransGen.refl
    | succ r ih =>
      intro hr hc
      refine (ih (by omega) hc).trans (hstep _ _ ?_ ?_)
      · rw [mem_getNeighbors]; simp
      · rw [isValidMatrixIndex_iff]; simp only; omega
  have hcol : ∀ (r : Nat) (c : Nat), (r : Int) < ROWS → (c : Int) < COLS →
      Reach (validNeighbors maze ROWS COLS) ((r : Int), 0) ((r : Int), (c : Int)) := by
    intro r c
    induction c with
    | zero => intro _ _; exact Relation.ReflTransGen.refl
    | succ c ih =>
      intro hr hc
      refine (ih hr (by omega)).trans (hstep _ _ ?_ ?_)
      · rw [mem_getNeighbors]; simp
      · rw [isValidMatrixIndex_iff]; simp only; omega
  have hfrom : ∀ p : Pos, isValidMatrixIndex p ROWS COLS = true →
      Reach (validNeighbors maze ROWS COLS) (0, 0) p := by
    intro p hp
    have hp' := (isValidMatrixIndex_iff p ROWS COLS).mp hp
    have h1 := hrow p.1.toNat (by omega) (by omega)
    have h2 := hcol p.1.toNat p.2.toNat (by omega) (by omega)
    have e1 : ((p.1.toNat : Nat) : Int) = p.1 := Int.toNat_of_nonneg hp'.1
    have e2 : ((p.2.toNat : Nat) : Int) = p.2 := Int.toNat_of_nonneg hp'.2.2.1
    rw [e1] at h1 h2
    rw [e2] at h2
    exact h1.trans h2
  have h00 : isValidMatrixIndex (0, 0) ROWS COLS = true := by
    have ha' := (isValidMatrixIndex_iff a ROWS COLS).mp ha
    rw [isValidMatrixIndex_iff]; simp only; omega
  exact (reach_validNeighbors_symm maze ROWS COLS (hvalid _ h00) (hfrom a ha)).trans (hfrom b hb)

/-! ## `ensureFullConnectivity` on a grid without blocked cells -/

theorem cellAt_openGrid (ROWS COLS : Nat) (p : Pos) :
    cellAt (openGrid ROWS COLS) p =
      if isValidMatrixIndex p ROWS COLS = true then some (.num 1) else none := by
  unfold cellAt openGrid
  by_cases h : isValidMatrixIndex p ROWS COLS = true
  · rw [if_pos h]
    rw [isValidMatrixIndex_iff] at h
    rw [if_pos ⟨h.1, h.2.2.1⟩]
    have h1 : p.1.toNat < ROWS := by omega
    have h2 : p.2.toNat < COLS := by omega
    simp [List.getElem?_replicate, h1, h2]
  · rw [if_neg h]
    rw [isValidMatrixIndex_iff] at h
    split_ifs with h0
    · by_cases h1 : p.1.toNat < ROWS
      · have h2 : ¬ p.2.toNat < COLS := by omega
        simp [List.getElem?_replicate, h1, h2]
      · simp [List.getElem?_replicate, h1]
    · rfl

theorem search_covers_grid (maze : Maze) (ROWS COLS : Nat)
    (hopen : ∀ p, isValidMatrixIndex p ROWS COLS = true → cellAt maze p ≠ some (.num 0))
    (start : Pos) (hstart : isValidMatrixIndex start ROWS COLS = true) :
    ∀ q, isValidMatrixIndex q ROWS COLS = true →
      q ∈ (bfsLoop (fun cell : Pos => cell) (validNeighbors maze ROWS COLS) (fun _ => false)
        (ROWS * COLS + 1) ([] ++ [start]) [start]).2 := by
  have hspec := bfsLoop_spec (fun cell : Pos => cell) (validNeighbors maze ROWS COLS)
    (fun _ => false) (fun a => isValidMatrixIndex a ROWS COLS = true)
    (fun a => isValidMatrixIndex a ROWS COLS = true) (ROWS * COLS)
    (fun a _ b hb => isValid_inBounds ((mem_validNeighbors _ _ _ _ _).mp hb).2)
    (fun a b _ _ h => h) (fun a h => h)
    (fun l hnd hin => length_le_of_nodup_valid l hnd hin)
    (ROWS * COLS + 1) ([] ++ [start]) [start] (by simp) (by simpa using hstart)
    (by simpa using hstart)
    (by intro a _ ha hna; simp at ha hna; exact absurd ha hna) (by simp; omega)
  obtain ⟨h1, h2, h3, -, -, -⟩ := hspec
  have hfalse : (bfsLoop (fun cell : Pos => cell) (validNeighbors maze ROWS COLS)
      (fun _ => false) (ROWS * COLS + 1) ([] ++ [start]) [start]).1 = false := by
    by_contra hne
    have ht : (bfsLoop (fun cell : Pos => cell) (validNeighbors maze ROWS COLS)
        (fun _ => false) (ROWS * COLS + 1) ([] ++ [start]) [start]).1 = true := by
      simpa using hne
    obtain ⟨a, ha, -⟩ := h1 ht
    simp at ha
  intro q hq
  have hcl := h2 hfalse
  exact (closure_reach (fun cell : Pos => cell) (validNeighbors maze ROWS COLS)
    (fun a => isValidMatrixIndex a ROWS COLS = true)
    (fun a _ b hb => isValid_inBounds ((mem_validNeighbors _ _ _ _ _).mp hb).2)
    _ (fun a hPa ha => (hcl a hPa ha).2) hstart (h3 start (by simp))
    (reach_of_no_blocked maze ROWS COLS hopen hstart hq)).2

theorem findConnectedComponents_length (maze : Maze) (ROWS COLS : Nat)
    (hopen : ∀ p, isValidMatrixIndex p ROWS COLS = true → cellAt maze p ≠ some (.num 0)) :
    (findConnectedComponents maze ROWS COLS).length ≤ 1 := by
  unfold findConnectedComponents
  have hskip : ∀ (cells : List Pos) (state : List Pos × List (List Pos)),
      (∀ q ∈ cells, q ∈ state.1) →
      cells.foldl (fun (state : List Pos × List (List Pos)) pos =>
        if pos ∉ state.1 ∧ cellAt maze pos ≠ some (.num 0) then
          ((bfsLoop (fun cell : Pos => cell) (validNeighbors maze ROWS COLS) (fun _ => false)
              (ROWS * COLS + 1) (state.1 ++ [pos]) [pos]).2,
            state.2 ++ [(bfsLoop (fun cell : Pos => cell) (validNeighbors maze ROWS COLS)
              (fun _ => false) (ROWS * COLS + 1) (state.1 ++ [pos]) [pos]).2.drop
                state.1.length])
        else state) state = state := by
    intro cells
    induction cells with
    | nil => intro state _; rfl
    | cons c cs ih =>
      intro state hall
      simp only [List.foldl_cons]
      have hc : c ∈ state.1 := hall c (List.mem_cons_self _ _)
      rw [if_neg (by intro h; exact h.1 hc)]
      exact ih state (fun q hq => hall q (List.mem_cons_of_mem _ hq))
  cases hcells : allCells ROWS COLS with
  | nil => simp
  | cons p rest =>
    have hp : isValidMatrixIndex p ROWS COLS = true :=
      (mem_allCells p ROWS COLS).mp (hcells ▸ List.mem_cons_self _ _)
    simp only [List.foldl_cons]
    have hfirst : (p ∉ ([] : List Pos) ∧ cellAt maze p ≠ some (.num 0)) :=
      ⟨by simp, hopen p hp⟩
    rw [if_pos hfirst]
    rw [hskip rest _ (fun q hq => search_covers_grid maze ROWS COLS hopen p hp q
      ((mem_allCells q ROWS COLS).mp (hcells ▸ List.mem_cons_of_mem _ hq)))]
    simp

theorem ensureFullConnectivity_of_no_blocked (maze : Maze) (adj : AdjMatrix) (ROWS COLS : Nat)
    (hopen : ∀ p, isValidMatrixIndex p ROWS COLS = true → cellAt maze p ≠ some (.num 0)) :
    ensureFullConnectivity maze adj ROWS COLS = (maze, adj) := by
  unfold ensureFullConnectivity
  simp only
  rw [if_pos (findConnectedComponents_length maze ROWS COLS hopen)]

theorem openGrid_no_blocked (ROWS COLS : Nat) :
    ∀ p, isValidMatrixIndex p ROWS COLS = true →
      cellAt (openGrid ROWS COLS) p ≠ some (.num 0) := by
  intro p hp
  rw [cellAt_openGrid, if_pos hp]
  simp

theorem generateBase_fullyConnected (env : RandomEnv) (nd : NodeDetails) (sp : Sparsity)
    (maze_seed : Option String) (ROWS COLS mp : Nat) :
    (generateBase env nd sp maze_seed none true ROWS COLS mp).1 = openGrid ROWS COLS ∧
    (generateBase env nd sp maze_seed none true ROWS COLS mp).2.1 =
      (removeEdgesOnly (initialAdjMatrix (openGrid ROWS COLS) ROWS COLS) sp
        (rngOf env maze_seed mp) ROWS COLS).1 := by
  unfold generateBase
  simp only [if_true]
  rw [ensureFullConnectivity_of_no_blocked _ _ _ _ (openGrid_no_blocked ROWS COLS)]
  exact ⟨rfl, rfl⟩

/-! ## Generation with `fullyConnected = true` returns in its first round -/

theorem hasShape_placePredefined {ROWS COLS : Nat} (numNodes : Int) (nodeType : Cell)
    (pre : List Pos) :
    ∀ (maze : Maze) (positions : List Pos), hasShape maze ROWS COLS →
      hasShape (placePredefined numNodes nodeType pre maze positions).1 ROWS COLS := by
  induction pre with
  | nil => intro maze positions h; exact h
  | cons pos rest ih =>
    intro maze positions h
    unfold placePredefined
    split_ifs
    · exact hasShape_setCell h pos nodeType
    · exact ih _ _ (hasShape_setCell h pos nodeType)
    · exact ih _ _ h

theorem hasShape_placeRandom {ROWS COLS : Nat} (numNodes : Int) (nodeType : Cell)
    (rng : Nat → Draw) (fuel : Nat) :
    ∀ (k : Nat) (available : List Pos) (maze : Maze) (positions : List Pos),
      hasShape maze ROWS COLS →
      hasShape (placeRandom numNodes nodeType rng fuel k available maze positions).1
        ROWS COLS := by
  induction fuel with
  | zero => intro k available maze positions h; exact h
  | succ fuel ih =>
    intro k available maze positions h
    unfold placeRandom
    split_ifs
    · simp only
      cases available[(rng k).floorMul available.length]? with
      | none => exact h
      | some pos => exact ih _ _ _ _ (hasShape_setCell h pos nodeType)
    · exact h

theorem hasShape_placeAllOperations {ROWS COLS : Nat} (env : RandomEnv) (seed : Option String)
    (ops : List (String × OperationNode)) :
    ∀ (maze : Maze) (mathPos : Nat), hasShape maze ROWS COLS →
      hasShape (placeAllOperations env seed ops maze mathPos).1 ROWS COLS := by
  induction ops with
  | nil => intro maze mathPos h; exact h
  | cons entry rest ih =>
    intro maze mathPos h
    obtain ⟨key, operation⟩ := entry
    simp only [placeAllOperations]
    apply ih
    unfold placeOperationNodes
    exact hasShape_placeRandom _ _ _ _ _ _ _ _ (hasShape_placePredefined _ _ _ _ _ h)

theorem hasShape_updateMazeWithNodeNames {maze : Maze} {ROWS COLS : Nat} (nd : NodeDetails)
    (h : hasShape maze ROWS COLS) :
    hasShape (updateMazeWithNodeNames maze nd false) ROWS COLS := by
  unfold hasShape at h ⊢
  rw [map_length_updateMazeWithNodeNames, h]

theorem named_no_blocked (ROWS COLS : Nat) (nd : NodeDetails) :
    ∀ p, isValidMatrixIndex p ROWS COLS = true →
      cellAt (updateMazeWithNodeNames (openGrid ROWS COLS) nd false) p ≠ some (.num 0) := by
  intro p hp
  rw [cellAt_updateMazeWithNodeNames, cellAt_openGrid, if_pos hp]
  split_ifs <;> simp

theorem attempt_no_blocked (env : RandomEnv) (nd : NodeDetails) (sp : Sparsity)
    (maze_seed operation_node_seed : Option String) (ROWS COLS mp : Nat)
    (hnames : ∀ entry ∈ nd.operation, entry.2.mazeName ≠ .num 0) :
    ∀ p, isValidMatrixIndex p ROWS COLS = true →
      cellAt (generateAttempt env nd sp maze_seed operation_node_seed none true
        ROWS COLS mp).1.maze p ≠ some (.num 0) := by
  intro p hp
  unfold generateAttempt
  simp only
  rw [(generateBase_fullyConnected env nd sp maze_seed ROWS COLS mp).1]
  rcases cellAt_placeAllOperations_cases env operation_node_seed p nd.operation
    (updateMazeWithNodeNames (openGrid ROWS COLS) nd false)
    (generateBase env nd sp maze_seed none true ROWS COLS mp).2.2 with h | ⟨entry, he, h⟩
  · rw [h]
    exact named_no_blocked ROWS COLS nd p hp
  · rw [h]
    intro hc
    exact hnames entry he (Option.some.inj hc)

theorem attempt_check (env : RandomEnv) (nd : NodeDetails) (sp : Sparsity)
    (maze_seed operation_node_seed : Option String) (ROWS COLS mp : Nat)
    (hnames : ∀ entry ∈ nd.operation, entry.2.mazeName ≠ .num 0)
    (hstart : isValidMatrixIndex nd.start ROWS COLS = true)
    (hgoals : ∀ goal ∈ nd.goal, isValidMatrixIndex goal ROWS COLS = true) :
    (generateAttempt env nd sp maze_seed operation_node_seed none true ROWS COLS mp).2.1
      = true := by
  have hno := attempt_no_blocked env nd sp maze_seed operation_node_seed ROWS COLS mp hnames
  have : ∀ goal ∈ nd.goal, bfs (generateAttempt env nd sp maze_seed operation_node_seed none
      true ROWS COLS mp).1.maze nd.start goal ROWS COLS = true := by
    intro goal hg
    rw [bfs_iff_reach]
    exact reach_of_no_blocked _ ROWS COLS hno hstart (hgoals goal hg)
  unfold generateAttempt at this ⊢
  simp only at this ⊢
  rw [List.all_eq_true]
  exact this

theorem generateMaze_fullyConnected_returns (env : RandomEnv) (nd : NodeDetails) (sp : Sparsity)
    (maze_seed operation_node_seed : Option String) (ROWS COLS fuel mp : Nat)
    (hnames : ∀ entry ∈ nd.operation, entry.2.mazeName ≠ .num 0)
    (hstart : isValidMatrixIndex nd.start ROWS COLS = true)
    (hgoals : ∀ goal ∈ nd.goal, isValidMatrixIndex goal ROWS COLS = true) :
    generateMaze env nd sp maze_seed operation_node_seed none true ROWS COLS (fuel + 1) mp =
      some (generateAttempt env nd sp maze_seed operation_node_seed none true ROWS COLS mp).1 := by
  simp only [generateMaze]
  rw [if_pos (attempt_check env nd sp maze_seed operation_node_seed ROWS COLS mp hnames
    hstart hgoals)]

/-! ## Square matrices -/

theorem isSquare_setEntry {adj : AdjMatrix} {n : Nat} (h : isSquare adj n) (i j v : Int) :
    isSquare (setEntry adj i j v) n := by
  unfold isSquare at h ⊢
  unfold setEntry
  split_ifs
  · rw [map_length_modify_set, h]
  · exact h

theorem isSquare_setBoth {adj : AdjMatrix} {n : Nat} (h : isSquare adj n) (i j v : Int) :
    isSquare (setBoth adj i j v) n :=
  isSquare_setEntry (isSquare_setEntry h i j v) j i v

theorem isSquare_row {adj : AdjMatrix} {n : Nat} (h : isSquare adj n) {i : Nat} (hi : i < n) :
    ∃ row, adj[i]? = some row ∧ row.length = n := by
  unfold isSquare at h
  have hlen : adj.length = n := by simpa using congrArg List.length h
  have h1 : (adj.map List.length)[i]? = some n := by
    rw [h, List.getElem?_replicate, if_pos hi]
  rw [List.getElem?_map] at h1
  cases hrow : adj[i]? with
  | none => rw [hrow] at h1; simp at h1
  | some row =>
    rw [hrow] at h1
    exact ⟨row, rfl, by simpa using h1⟩

theorem isSquare_length {adj : AdjMatrix} {n : Nat} (h : isSquare adj n) : adj.length = n := by
  unfold isSquare at h
  simpa using congrArg List.length h

theorem entryAt_isSome_of_isSquare {adj : AdjMatrix} {n : Nat} (h : isSquare adj n)
    {i j : Int} (hi : 0 ≤ i ∧ i < n) (hj : 0 ≤ j ∧ j < n) : ∃ v, entryAt adj i j = some v := by
  obtain ⟨row, hrow, hlen⟩ := isSquare_row h (by omega : i.toNat < n)
  unfold entryAt
  rw [if_pos ⟨hi.1, hj.1⟩, hrow]
  simp only [Option.some_bind]
  have : j.toNat < row.length := by omega
  exact ⟨row[j.toNat], by simp [this]⟩

theorem entryAt_bounds_of_isSquare {adj : AdjMatrix} {n : Nat} (h : isSquare adj n)
    {i j : Int} {v : Int} (he : entryAt adj i j = some v) :
    0 ≤ i ∧ i < n ∧ 0 ≤ j ∧ j < n := by
  unfold entryAt at he
  split_ifs at he with h0
  cases hrow : adj[i.toNat]? with
  | none => rw [hrow] at he; simp at he
  | some row =>
    rw [hrow] at he
    simp only [Option.some_bind] at he
    have hi : i.toNat < adj.length := (List.getElem?_eq_some.mp hrow).1
    have hj : j.toNat < row.length := (List.getElem?_eq_some.mp he).1
    rw [isSquare_length h] at hi
    obtain ⟨row', hrow', hlen⟩ := isSquare_row h hi
    rw [hrow] at hrow'
    cases hrow'
    omega

theorem isSquare_replicate (n : Nat) : isSquare (List.replicate n (List.replicate n 0)) n := by
  simp [isSquare]

theorem entryAt_replicate (n : Nat) {i j : Int} (hi : 0 ≤ i ∧ i < n) (hj : 0 ≤ j ∧ j < n) :
    entryAt (List.replicate n (List.replicate n (0 : Int))) i j = some 0 := by
  unfold entryAt
  rw [if_pos ⟨hi.1, hj.1⟩]
  have h1 : i.toNat < n := by omega
  have h2 : j.toNat < n := by omega
  simp [List.getElem?_replicate, h1, h2]

/-! ## Folds that write one value -/

theorem entryAt_foldl_mark {β : Type} (v : Int) (step : AdjMatrix → β → AdjMatrix)
    (T : β → Int → Int → Prop)
    (hstep : ∀ adj x k l, (T x k l → entryAt (step adj x) k l = (entryAt adj k l).map fun _ => v) ∧
      (¬ T x k l → entryAt (step adj x) k l = entryAt adj k l))
    (xs : List β) :
    ∀ (adj : AdjMatrix) (k l : Int),
      ((∃ x ∈ xs, T x k l) → entryAt (xs.foldl step adj) k l = (entryAt adj k l).map fun _ => v) ∧
      ((¬ ∃ x ∈ xs, T x k l) → entryAt (xs.foldl step adj) k l = entryAt adj k l) := by
  induction xs with
  | nil =>
    intro adj k l
    exact ⟨by simp, by simp⟩
  | cons x xs ih =>
    intro adj k l
    simp only [List.foldl_cons]
    obtain ⟨ih1, ih2⟩ := ih (step adj x) k l
    obtain ⟨hs1, hs2⟩ := hstep adj x k l
    constructor
    · rintro ⟨y, hy, hT⟩
      by_cases hxs : ∃ x ∈ xs, T x k l
      · rw [ih1 hxs]
        by_cases hx : T x k l
        · rw [hs1 hx]
          cases entryAt adj k l <;> rfl
        · rw [hs2 hx]
      · rw [ih2 hxs]
        rcases List.mem_cons.mp hy with rfl | hy'
        · exact hs1 hT
        · exact absurd ⟨y, hy', hT⟩ hxs
    · intro hno
      have hxs : ¬ ∃ x ∈ xs, T x k l := fun ⟨y, hy, hT⟩ => hno ⟨y, List.mem_cons_of_mem _ hy, hT⟩
      have hx : ¬ T x k l := fun hT => hno ⟨x, List.mem_cons_self _ _, hT⟩
      rw [ih2 hxs, hs2 hx]

theorem isSquare_foldl {β : Type} {n : Nat} (step : AdjMatrix → β → AdjMatrix)
    (hstep : ∀ adj x, isSquare adj n → isSquare (step adj x) n) (xs : List β) :
    ∀ adj : AdjMatrix, isSquare adj n → isSquare (xs.foldl step adj) n := by
  induction xs with
  | nil => intro adj h; exact h
  | cons x xs ih => intro adj h; exact ih _ (hstep adj x h)

/-! ## The matrix of the open grid -/

theorem cellIndex_bounds {p : Pos} {ROWS COLS : Nat}
    (hp : isValidMatrixIndex p ROWS COLS = true) :
    0 ≤ cellIndex p COLS ∧ cellIndex p COLS < ((ROWS * COLS : Nat) : Int) := by
  rw [isValidMatrixIndex_iff] at hp
  obtain ⟨h1, h2, h3, h4⟩ := hp
  unfold cellIndex
  push_cast
  constructor
  · positivity
  · nlinarith

theorem cellIndex_inj {p q : Pos} {ROWS COLS : Nat}
    (hp : isValidMatrixIndex p ROWS COLS = true) (hq : isValidMatrixIndex q ROWS COLS = true)
    (h : cellIndex p COLS = cellIndex q COLS) : p = q := by
  rw [isValidMatrixIndex_iff] at hp hq
  obtain ⟨p1, p2, p3, p4⟩ := hp
  obtain ⟨q1, q2, q3, q4⟩ := hq
  unfold cellIndex at h
  have hrow : p.1 = q.1 := by
    by_contra hne
    rcases lt_or_gt_of_ne hne with hlt | hgt
    · nlinarith
    · nlinarith
  have hcol : p.2 = q.2 := by
    rw [hrow] at h
    omega
  exact Prod.ext hrow hcol

theorem entryAt_initialAdjMatrix (maze : Maze) (ROWS COLS : Nat) (k l : Int) :
    ((∃ pos ∈ allCells ROWS COLS, ∃ nb ∈ getNeighbors pos,
        (isValidMatrixIndex nb ROWS COLS = true ∧ cellAt maze pos ≠ some (.num 0) ∧
          cellAt maze nb ≠ some (.num 0)) ∧ k = cellIndex pos COLS ∧ l = cellIndex nb COLS) →
      entryAt (initialAdjMatrix maze ROWS COLS) k l =
        (entryAt (List.replicate (ROWS * COLS) (List.replicate (ROWS * COLS) 0)) k l).map
          fun _ => 1) ∧
    ((¬ ∃ pos ∈ allCells ROWS COLS, ∃ nb ∈ getNeighbors pos,
        (isValidMatrixIndex nb ROWS COLS = true ∧ cellAt maze pos ≠ some (.num 0) ∧
          cellAt maze nb ≠ some (.num 0)) ∧ k = cellIndex pos COLS ∧ l = cellIndex nb COLS) →
      entryAt (initialAdjMatrix maze ROWS COLS) k l =
        entryAt (List.replicate (ROWS * COLS) (List.replicate (ROWS * COLS) 0)) k l) := by
  unfold initialAdjMatrix
  apply entryAt_foldl_mark 1 _
    (fun pos k l => ∃ nb ∈ getNeighbors pos,
      (isValidMatrixIndex nb ROWS COLS = true ∧ cellAt maze pos ≠ some (.num 0) ∧
        cellAt maze nb ≠ some (.num 0)) ∧ k = cellIndex pos COLS ∧ l = cellIndex nb COLS)
  intro adj pos k l
  apply entryAt_foldl_mark 1 _
    (fun nb k l => (isValidMatrixIndex nb ROWS COLS = true ∧ cellAt maze pos ≠ some (.num 0) ∧
        cellAt maze nb ≠ some (.num 0)) ∧ k = cellIndex pos COLS ∧ l = cellIndex nb COLS)
  intro adj nb k l
  constructor
  · rintro ⟨hc, rfl, rfl⟩
    have hc' : (isValidMatrixIndex nb ROWS COLS && decide (cellAt maze pos ≠ some (.num 0)) &&
        decide (cellAt maze nb ≠ some (.num 0))) = true := by
      simp [hc.1, hc.2.1, hc.2.2]
    rw [if_pos hc', entryAt_setEntry, if_pos ⟨rfl, rfl⟩]
  · intro hT
    by_cases hc : (isValidMatrixIndex nb ROWS COLS && decide (cellAt maze pos ≠ some (.num 0)) &&
        decide (cellAt maze nb ≠ some (.num 0))) = true
    · rw [if_pos hc, entryAt_setEntry]
      have hc2 : isValidMatrixIndex nb ROWS COLS = true ∧ cellAt maze pos ≠ some (.num 0) ∧
          cellAt maze nb ≠ some (.num 0) := by
        simpa [and_assoc] using hc
      rw [if_neg (fun h => hT ⟨hc2, h.1, h.2⟩)]
    · rw [if_neg hc]

theorem isSquare_initialAdjMatrix (maze : Maze) (ROWS COLS : Nat) :
    isSquare (initialAdjMatrix maze ROWS COLS) (ROWS * COLS) := by
  unfold initialAdjMatrix
  apply isSquare_foldl _ _ _ _ (isSquare_replicate _)
  intro adj pos h
  apply isSquare_foldl _ _ _ _ h
  intro adj nb h
  split_ifs
  · exact isSquare_setEntry h _ _ _
  · exact h

/-- The first matrix of a grid without blocked cells has a 1 exactly between two cells that are
neighbours, and a 0 between any other two cells of the grid. -/
theorem entryAt_initialAdjMatrix_openGrid (ROWS COLS : Nat) {p q : Pos}
    (hp : isValidMatrixIndex p ROWS COLS = true) (hq : isValidMatrixIndex q ROWS COLS = true) :
    entryAt (initialAdjMatrix (openGrid ROWS COLS) ROWS COLS) (cellIndex p COLS)
        (cellIndex q COLS) =
      some (if q ∈ getNeighbors p then 1 else 0) := by
  have hbase := entryAt_replicate (ROWS * COLS) (cellIndex_bounds hp) (cellIndex_bounds hq)
  obtain ⟨h1, h2⟩ := entryAt_initialAdjMatrix (openGrid ROWS COLS) ROWS COLS
    (cellIndex p COLS) (cellIndex q COLS)
  by_cases hn : q ∈ getNeighbors p
  · rw [if_pos hn, h1, hbase]
    · rfl
    · exact ⟨p, (mem_allCells p ROWS COLS).mpr hp, q, hn,
        ⟨hq, openGrid_no_blocked ROWS COLS p hp, openGrid_no_blocked ROWS COLS q hq⟩, rfl, rfl⟩
  · rw [if_neg hn, h2, hbase]
    rintro ⟨pos, hpos, nb, hnb, ⟨hin, -, -⟩, hk, hl⟩
    have e1 := cellIndex_inj hp ((mem_allCells pos ROWS COLS).mp hpos) hk
    have e2 := cellIndex_inj hq hin hl
    subst e1 e2
    exact hn hnb

/-! ## `isGraphConnected` is exact -/

theorem mem_matrixNeighbors (adj : AdjMatrix) (a b : Nat) :
    b ∈ matrixNeighbors adj a ↔ entryAt adj (a : Int) (b : Int) = some 1 := by
  unfold matrixNeighbors
  simp only [List.mem_filter, List.mem_range, decide_eq_true_eq, and_iff_right_iff_imp]
  intro h
  unfold entryAt at h
  rw [if_pos ⟨by omega, by omega⟩] at h
  simp only [Int.toNat_ofNat] at h
  unfold rowLength
  cases hrow : adj[a]? with
  | none => rw [hrow] at h; simp at h
  | some row =>
    rw [hrow] at h
    simp only [Option.some_bind] at h
    exact (List.getElem?_eq_some.mp h).1

theorem length_le_of_nodup_lt (n : Nat) (l : List Nat) (hnd : l.Nodup)
    (hlt : ∀ k ∈ l, k < n) : l.length ≤ n := by
  have hsub : l ⊆ List.range n := fun k hk => List.mem_range.mpr (hlt k hk)
  simpa using (hnd.subperm hsub).length_le

theorem mem_of_nodup_length_eq (n : Nat) (l : List Nat) (hnd : l.Nodup)
    (hlt : ∀ k ∈ l, k < n) (hlen : l.length = n) : ∀ j < n, j ∈ l := by
  have hsub : l ⊆ List.range n := fun k hk => List.mem_range.mpr (hlt k hk)
  have hperm : l.Perm (List.range n) :=
    (hnd.subperm hsub).perm_of_length_le (by simp [hlen])
  intro j hj
  exact hperm.symm.subset (List.mem_range.mpr hj)

theorem isGraphConnected_iff (adj : AdjMatrix) (ROWS COLS : Nat)
    (hsq : isSquare adj (ROWS * COLS)) (hpos : 0 < ROWS * COLS) :
    isGraphConnected adj ROWS COLS = true ↔
      ∀ j < ROWS * COLS, Reach (matrixNeighbors adj) 0 j := by
  have hsucc : ∀ a : Nat, a < ROWS * COLS → ∀ b ∈ matrixNeighbors adj a, b < ROWS * COLS := by
    intro a _ b hb
    have := entryAt_bounds_of_isSquare hsq ((mem_matrixNeighbors adj a b).mp hb)
    omega
  have hspec := bfsLoop_spec (fun node : Nat => node) (matrixNeighbors adj) (fun _ => false)
    (fun a => a < ROWS * COLS) (fun a => a < ROWS * COLS) (ROWS * COLS) hsucc
    (fun a b _ _ h => h) (fun a h => h)
    (fun l hnd hin => length_le_of_nodup_lt _ l hnd hin)
    (ROWS * COLS + 1) [0] [0] (by simp) (by simpa using hpos) (by simpa using hpos)
    (by intro a _ ha hna; simp at ha hna; exact absurd ha hna) (by simp; omega)
  obtain ⟨h1, h2, h3, h4, h5, h6⟩ := hspec
  have hfalse : (bfsLoop (fun node : Nat => node) (matrixNeighbors adj) (fun _ => false)
      (ROWS * COLS + 1) [0] [0]).1 = false := by
    by_contra hne
    have ht : (bfsLoop (fun node : Nat => node) (matrixNeighbors adj) (fun _ => false)
        (ROWS * COLS + 1) [0] [0]).1 = true := by simpa using hne
    obtain ⟨a, ha, -⟩ := h1 ht
    simp at ha
  unfold isGraphConnected
  rw [decide_eq_true_eq]
  constructor
  · intro hlen j hj
    have hmem := mem_of_nodup_length_eq _ _ h4 h5 hlen j hj
    rcases h6 j hmem with h | ⟨a, rfl, q, hq, hr⟩
    · simp at h
      subst h
      exact Relation.ReflTransGen.refl
    · simp at hq
      subst hq
      exact hr
  · intro hall
    have hcl := h2 hfalse
    have hcover : ∀ j < ROWS * COLS, j ∈ (bfsLoop (fun node : Nat => node)
        (matrixNeighbors adj) (fun _ => false) (ROWS * COLS + 1) [0] [0]).2 := by
      intro j hj
      exact (closure_reach (fun node : Nat => node) (matrixNeighbors adj)
        (fun a => a < ROWS * COLS) hsucc _ (fun a hPa ha => (hcl a hPa ha).2) hpos
        (h3 0 (by simp)) (hall j hj)).2
    have hle := length_le_of_nodup_lt _ _ h4 h5
    have hge : ROWS * COLS ≤ (bfsLoop (fun node : Nat => node) (matrixNeighbors adj)
        (fun _ => false) (ROWS * COLS + 1) [0] [0]).2.length := by
      have hsub : List.range (ROWS * COLS) ⊆ (bfsLoop (fun node : Nat => node)
          (matrixNeighbors adj) (fun _ => false) (ROWS * COLS + 1) [0] [0]).2 :=
        fun k hk => hcover k (List.mem_range.mp hk)
      simpa using ((List.nodup_range _).subperm hsub).length_le
    omega

theorem reach_matrix_mono {adj1 adj2 : AdjMatrix} (h : edgesLe adj1 adj2) {a b : Nat}
    (hr : Reach (matrixNeighbors adj1) a b) : Reach (matrixNeighbors adj2) a b := by
  refine Relation.ReflTransGen.mono ?_ hr
  intro x y hxy
  exact (mem_matrixNeighbors adj2 x y).mpr (h _ _ ((mem_matrixNeighbors adj1 x y).mp hxy))

theorem isGraphConnected_mono {adj1 adj2 : AdjMatrix} {ROWS COLS : Nat}
    (hsq1 : isSquare adj1 (ROWS * COLS)) (hsq2 : isSquare adj2 (ROWS * COLS))
    (hpos : 0 < ROWS * COLS) (h : edgesLe adj1 adj2)
    (hc : isGraphConnected adj1 ROWS COLS = true) : isGraphConnected adj2 ROWS COLS = true := by
  rw [isGraphConnected_iff adj2 ROWS COLS hsq2 hpos]
  rw [isGraphConnected_iff adj1 ROWS COLS hsq1 hpos] at hc
  exact fun j hj => reach_matrix_mono h (hc j hj)

/-! ## Edge removal keeps the graph connected -/

theorem reach_cells_to_matrix (maze : Maze) (adj : AdjMatrix) (ROWS COLS : Nat)
    (hadj : ∀ p q : Pos, isValidMatrixIndex p ROWS COLS = true →
      isValidMatrixIndex q ROWS COLS = true → q ∈ getNeighbors p →
      entryAt adj (cellIndex p COLS) (cellIndex q COLS) = some 1)
    {a b : Pos} (ha : isValidMatrixIndex a ROWS COLS = true)
    (h : Reach (validNeighbors maze ROWS COLS) a b) :
    Reach (matrixNeighbors adj) (cellIndex a COLS).toNat (cellIndex b COLS).toNat := by
  have key : isValidMatrixIndex b ROWS COLS = true ∧
      Reach (matrixNeighbors adj) (cellIndex a COLS).toNat (cellIndex b COLS).toNat := by
    induction h with
    | refl => exact ⟨ha, Relation.ReflTransGen.refl⟩
    | @tail x y _ hstep ih =>
      have hxy := (mem_validNeighbors maze ROWS COLS x y).mp hstep
      have hy := isValid_inBounds hxy.2
      refine ⟨hy, ih.2.tail ?_⟩
      rw [mem_matrixNeighbors]
      have e1 : (((cellIndex x COLS).toNat : Nat) : Int) = cellIndex x COLS :=
        Int.toNat_of_nonneg (cellIndex_bounds ih.1).1
      have e2 : (((cellIndex y COLS).toNat : Nat) : Int) = cellIndex y COLS :=
        Int.toNat_of_nonneg (cellIndex_bounds hy).1
      rw [e1, e2]
      exact hadj x y ih.1 hy hxy.1
  exact key.2

theorem cell_of_index {ROWS COLS : Nat} {j : Nat} (hj : j < ROWS * COLS) :
    isValidMatrixIndex (Int.ofNat (j / COLS), Int.ofNat (j % COLS)) ROWS COLS = true ∧
    cellIndex (Int.ofNat (j / COLS), Int.ofNat (j % COLS)) COLS = (j : Int) := by
  have hC : 0 < COLS := by
    rcases Nat.eq_zero_or_pos COLS with h | h
    · subst h; simp at hj
    · exact h
  constructor
  · rw [isValidMatrixIndex_iff]
    simp only [Int.ofNat_eq_coe]
    refine ⟨by positivity, ?_, by positivity, ?_⟩
    · have : j / COLS < ROWS := Nat.div_lt_of_lt_mul (by rwa [Nat.mul_comm] at hj)
      exact_mod_cast this
    · exact_mod_cast Nat.mod_lt j hC
  · unfold cellIndex
    simp only [Int.ofNat_eq_coe]
    have := Nat.div_add_mod j COLS
    have h2 : ((j / COLS : Nat) : Int) * (COLS : Int) + ((j % COLS : Nat) : Int) =
        ((COLS * (j / COLS) + j % COLS : Nat) : Int) := by
      push_cast; ring
    rw [h2, this]

theorem isGraphConnected_initial (ROWS COLS : Nat) (hpos : 0 < ROWS * COLS) :
    isGraphConnected (initialAdjMatrix (openGrid ROWS COLS) ROWS COLS) ROWS COLS = true := by
  rw [isGraphConnected_iff _ _ _ (isSquare_initialAdjMatrix _ _ _) hpos]
  intro j hj
  obtain ⟨hcell, hidx⟩ := cell_of_index hj
  obtain ⟨h0, hidx0⟩ := cell_of_index hpos
  have hreach := reach_cells_to_matrix (openGrid ROWS COLS)
    (initialAdjMatrix (openGrid ROWS COLS) ROWS COLS) ROWS COLS
    (fun p q hp hq hn => by rw [entryAt_initialAdjMatrix_openGrid ROWS COLS hp hq, if_pos hn])
    h0 (reach_of_no_blocked (openGrid ROWS COLS) ROWS COLS (openGrid_no_blocked ROWS COLS)
      h0 hcell)
  rw [hidx, hidx0] at hreach
  simpa using hreach

theorem edgesLe_revert (adj : AdjMatrix) (a b : Int) :
    edgesLe adj (setBoth (setBoth adj a b 0) a b 1) := by
  intro i j h
  rw [entryAt_setBoth, entryAt_setBoth]
  split_ifs <;> simp [h]

theorem edgesLe_removed (adj : AdjMatrix) (a b : Int) : edgesLe (setBoth adj a b 0) adj := by
  intro i j h
  rw [entryAt_setBoth] at h
  split_ifs at h with ht
  · cases hc : entryAt adj i j with
    | none => rw [hc] at h; simp at h
    | some v => rw [hc] at h; simp at h
  · exact h

theorem removeEdgeStep_connected {ROWS COLS : Nat} (sp : Sparsity) (adj : AdjMatrix)
    (edge : Int × Int) (draw : Draw) (hpos : 0 < ROWS * COLS)
    (hsq : isSquare adj (ROWS * COLS)) (hc : isGraphConnected adj ROWS COLS = true) :
    isSquare (removeEdgeStep ROWS COLS sp adj edge draw) (ROWS * COLS) ∧
    isGraphConnected (removeEdgeStep ROWS COLS sp adj edge draw) ROWS COLS = true := by
  unfold removeEdgeStep
  by_cases h1 : draw.lt sp = true
  · rw [if_pos h1]
    dsimp only
    by_cases h2 : isGraphConnected (setBoth adj edge.1 edge.2 0) ROWS COLS = true
    · simp only [h2, Bool.not_true, Bool.false_eq_true, if_false]
      exact ⟨isSquare_setBoth hsq _ _ _, trivial⟩
    · have h2' : isGraphConnected (setBoth adj edge.1 edge.2 0) ROWS COLS = false := by
        simpa using h2
      simp only [h2', Bool.not_false, if_true]
      refine ⟨isSquare_setBoth (isSquare_setBoth hsq _ _ _) _ _ _, ?_⟩
      exact isGraphConnected_mono hsq (isSquare_setBoth (isSquare_setBoth hsq _ _ _) _ _ _) hpos
        (edgesLe_revert adj edge.1 edge.2) hc
  · rw [if_neg h1]
    exact ⟨hsq, hc⟩

theorem removeEdgeLoop_connected {ROWS COLS : Nat} (sp : Sparsity) (rng : Nat → Draw)
    (hpos : 0 < ROWS * COLS) (edges : List (Int × Int)) :
    ∀ (k : Nat) (adj : AdjMatrix), isSquare adj (ROWS * COLS) →
      isGraphConnected adj ROWS COLS = true →
      isSquare (removeEdgeLoop ROWS COLS sp rng edges k adj) (ROWS * COLS) ∧
      isGraphConnected (removeEdgeLoop ROWS COLS sp rng edges k adj) ROWS COLS = true := by
  induction edges with
  | nil => intro k adj hsq hc; exact ⟨hsq, hc⟩
  | cons e rest ih =>
    intro k adj hsq hc
    obtain ⟨h1, h2⟩ := removeEdgeStep_connected sp adj e (rng k) hpos hsq hc
    exact ih (k + 1) _ h1 h2

theorem removeEdgeLoop_sparsity_zero {ROWS COLS : Nat} (sp : Sparsity) (hsp : sp.num = 0)
    (rng : Nat → Draw) (edges : List (Int × Int)) :
    ∀ (k : Nat) (adj : AdjMatrix), removeEdgeLoop ROWS COLS sp rng edges k adj = adj := by
  induction edges with
  | nil => intro k adj; rfl
  | cons e rest ih =>
    intro k adj
    have hlt : (rng k).lt sp = false := by
      unfold Draw.lt
      rw [hsp]
      simp
    simp only [removeEdgeLoop, removeEdgeStep, hlt, Bool.false_eq_true, if_false]
    exact ih (k + 1) adj

/-! ## Generation with `fullyConnected = true`: the matrix -/

theorem generateAttempt_adjMatrix (env : RandomEnv) (nd : NodeDetails) (sp : Sparsity)
    (maze_seed operation_node_seed : Option String) (ROWS COLS mp : Nat) :
    (generateAttempt env nd sp maze_seed operation_node_seed none true ROWS COLS mp).1.adjMatrix =
      (removeEdgesOnly (initialAdjMatrix (openGrid ROWS COLS) ROWS COLS) sp
        (rngOf env maze_seed mp) ROWS COLS).1 := by
  unfold generateAttempt
  simp only
  rw [(generateBase_fullyConnected env nd sp maze_seed ROWS COLS mp).2]

/-- C5. For `ROWS, COLS >= 1`, a start and goals inside the grid and sparsity 0, `generateMaze`
with `fullyConnected = true` returns in its first round a square matrix whose entry between two
cells of the grid is 1 exactly when the cells are 4-directionally adjacent, and 0 otherwise; for
the 2 by 2 grid this is the matrix of the four edges `(0,0)-(0,1)`, `(0,0)-(1,0)`, `(0,1)-(1,1)`,
`(1,0)-(1,1)`, without a diagonal edge. -/
theorem generateMaze_sparsity_zero (env : RandomEnv) (nd : NodeDetails) (sp : Sparsity)
    (maze_seed operation_node_seed : Option String) (ROWS COLS fuel mp : Nat)
    (hR : 1 ≤ ROWS) (hC : 1 ≤ COLS) (hsp : sp.num = 0)
    (hnames : ∀ entry ∈ nd.operation, entry.2.mazeName ≠ .num 0)
    (hstart : isValidMatrixIndex nd.start ROWS COLS = true)
    (hgoals : ∀ goal ∈ nd.goal, isValidMatrixIndex goal ROWS COLS = true) :
    ∃ st, generateMaze env nd sp maze_seed operation_node_seed none true ROWS COLS (fuel + 1) mp
        = some st ∧
      isSquare st.adjMatrix (ROWS * COLS) ∧
      (∀ p q : Pos, isValidMatrixIndex p ROWS COLS = true →
        isValidMatrixIndex q ROWS COLS = true →
        entryAt st.adjMatrix (cellIndex p COLS) (cellIndex q COLS) =
          some (if q ∈ getNeighbors p then 1 else 0)) ∧
      (ROWS = 2 → COLS = 2 →
        st.adjMatrix = [[0, 1, 1, 0], [1, 0, 0, 1], [1, 0, 0, 1], [0, 1, 1, 0]]) := by
  refine ⟨_, generateMaze_fullyConnected_returns env nd sp maze_seed operation_node_seed
    ROWS COLS fuel mp hnames hstart hgoals, ?_⟩
  rw [generateAttempt_adjMatrix]
  unfold removeEdgesOnly
  simp only
  rw [removeEdgeLoop_sparsity_zero sp hsp]
  refine ⟨isSquare_initialAdjMatrix _ _ _, ?_, ?_⟩
  · intro p q hp hq
    exact entryAt_initialAdjMatrix_openGrid ROWS COLS hp hq
  · rintro rfl rfl
    decide

theorem generateMaze_sparsity_zero_witness :
    ∃ st, generateMaze zeroEnv smallNodeDetails ⟨0, 4⟩ (some "Maze") none none true 2 2 1 0
        = some st ∧
      isSquare st.adjMatrix (2 * 2) ∧
      (∀ p q : Pos, isValidMatrixIndex p 2 2 = true → isValidMatrixIndex q 2 2 = true →
        entryAt st.adjMatrix (cellIndex p 2) (cellIndex q 2) =
          some (if q ∈ getNeighbors p then 1 else 0)) ∧
      (2 = 2 → 2 = 2 →
        st.adjMatrix = [[0, 1, 1, 0], [1, 0, 0, 1], [1, 0, 0, 1], [0, 1, 1, 0]]) :=
  generateMaze_sparsity_zero zeroEnv smallNodeDetails ⟨0, 4⟩ (some "Maze") none 2 2 0 0
    (by decide) (by decide) rfl (by decide) (by decide) (by decide)

/-! ## Symmetry and origin of the edges -/

theorem isSymmetric_setBoth {adj : AdjMatrix} {n : Nat} (hsq : isSquare adj n)
    (hs : isSymmetric adj) (a b v : Int) : isSymmetric (setBoth adj a b v) := by
  intro i j h
  rw [entryAt_setBoth] at h ⊢
  by_cases hc : (i = a ∧ j = b) ∨ (i = b ∧ j = a)
  · rw [if_pos hc] at h
    have hc' : (j = a ∧ i = b) ∨ (j = b ∧ i = a) := by tauto
    rw [if_pos hc']
    cases hij : entryAt adj i j with
    | none => rw [hij] at h; simp at h
    | some w =>
      rw [hij] at h
      have hb := entryAt_bounds_of_isSquare hsq hij
      obtain ⟨w', hw'⟩ := @entryAt_isSome_of_isSquare adj n hsq j i
        ⟨hb.2.2.1, hb.2.2.2⟩ ⟨hb.1, hb.2.1⟩
      rw [hw']
      simpa using h
  · rw [if_neg hc] at h
    rw [if_neg (by tauto)]
    exact hs i j h

/-- An edge of the first matrix of the open grid joins two neighbouring cells of the grid. -/
theorem cells_of_initial_edge {ROWS COLS : Nat} {i j : Int}
    (h : entryAt (initialAdjMatrix (openGrid ROWS COLS) ROWS COLS) i j = some 1) :
    ∃ p q : Pos, isValidMatrixIndex p ROWS COLS = true ∧ isValidMatrixIndex q ROWS COLS = true ∧
      cellIndex p COLS = i ∧ cellIndex q COLS = j ∧ q ∈ getNeighbors p := by
  have hb := entryAt_bounds_of_isSquare (isSquare_initialAdjMatrix _ _ _) h
  have hi : i.toNat < ROWS * COLS := by omega
  have hj : j.toNat < ROWS * COLS := by omega
  obtain ⟨hp, hpi⟩ := cell_of_index hi
  obtain ⟨hq, hqj⟩ := cell_of_index hj
  have ei : ((i.toNat : Nat) : Int) = i := Int.toNat_of_nonneg hb.1
  have ej : ((j.toNat : Nat) : Int) = j := Int.toNat_of_nonneg hb.2.2.1
  rw [ei] at hpi
  rw [ej] at hqj
  refine ⟨_, _, hp, hq, hpi, hqj, ?_⟩
  rw [← hpi, ← hqj, entryAt_initialAdjMatrix_openGrid ROWS COLS hp hq] at h
  by_contra hn
  rw [if_neg hn] at h
  simp at h

theorem isSymmetric_initial (ROWS COLS : Nat) :
    isSymmetric (initialAdjMatrix (openGrid ROWS COLS) ROWS COLS) := by
  intro i j h
  obtain ⟨p, q, hp, hq, rfl, rfl, hn⟩ := cells_of_initial_edge h
  rw [entryAt_initialAdjMatrix_openGrid ROWS COLS hq hp, if_pos (mem_getNeighbors_symm hn)]

theorem mem_collectEdges {adj : AdjMatrix} {ROWS COLS : Nat} {e : Int × Int}
    (h : e ∈ collectEdges adj ROWS COLS) : entryAt adj e.1 e.2 = some 1 := by
  unfold collectEdges at h
  simp only [List.mem_flatMap, List.mem_map, List.mem_filter, Bool.and_eq_true,
    decide_eq_true_eq] at h
  obtain ⟨pos, -, nb, ⟨-, -, h1⟩, rfl⟩ := h
  exact h1

theorem swapAt_subset {α : Type} (list : List α) (i j : Nat) :
    ∀ x ∈ swapAt list i j, x ∈ list := by
  intro x hx
  unfold swapAt at hx
  split at hx
  · rename_i a b ha hb
    rcases List.mem_or_eq_of_mem_set hx with h | h
    · rcases List.mem_or_eq_of_mem_set h with h2 | h2
      · exact h2
      · rw [h2]; exact List.getElem?_mem hb
    · rw [h]; exact List.getElem?_mem ha
  · exact hx

theorem shuffleLoop_subset {α : Type} (rng : Nat → Draw) :
    ∀ (i k : Nat) (list : List α), ∀ x ∈ shuffleLoop rng i k list, x ∈ list := by
  intro i
  induction i with
  | zero => intro k list x hx; exact hx
  | succ i ih =>
    intro k list x hx
    simp only [shuffleLoop] at hx
    exact swapAt_subset _ _ _ _ (ih _ _ _ hx)

theorem removeEdgeStep_edgesLe {ROWS COLS : Nat} (sp : Sparsity) (adj init : AdjMatrix)
    (edge : Int × Int) (draw : Draw) (hle : edgesLe adj init)
    (h1 : entryAt init edge.1 edge.2 = some 1) (h2 : entryAt init edge.2 edge.1 = some 1) :
    edgesLe (removeEdgeStep ROWS COLS sp adj edge draw) init := by
  unfold removeEdgeStep
  by_cases hd : draw.lt sp = true
  · rw [if_pos hd]
    dsimp only
    split_ifs
    · intro i j h
      rw [entryAt_setBoth] at h
      by_cases hc : (i = edge.1 ∧ j = edge.2) ∨ (i = edge.2 ∧ j = edge.1)
      · rcases hc with ⟨rfl, rfl⟩ | ⟨rfl, rfl⟩
        · exact h1
        · exact h2
      · rw [if_neg hc] at h
        exact hle i j (edgesLe_removed adj edge.1 edge.2 i j h)
    · exact fun i j h => hle i j (edgesLe_removed adj edge.1 edge.2 i j h)
  · rw [if_neg hd]
    exact hle

theorem removeEdgeStep_symmetric {ROWS COLS : Nat} {n : Nat} (sp : Sparsity) (adj : AdjMatrix)
    (edge : Int × Int) (draw : Draw) (hsq : isSquare adj n) (hs : isSymmetric adj) :
    isSymmetric (removeEdgeStep ROWS COLS sp adj edge draw) := by
  unfold removeEdgeStep
  by_cases hd : draw.lt sp = true
  · rw [if_pos hd]
    dsimp only
    split_ifs
    · exact isSymmetric_setBoth (isSquare_setBoth hsq _ _ _)
        (isSymmetric_setBoth hsq hs _ _ _) _ _ _
    · exact isSymmetric_setBoth hsq hs _ _ _
  · rw [if_neg hd]
    exact hs

theorem removeEdgeLoop_edges {ROWS COLS : Nat} (sp : Sparsity) (rng : Nat → Draw)
    (init : AdjMatrix) (edges : List (Int × Int)) :
    (∀ e ∈ edges, entryAt init e.1 e.2 = some 1 ∧ entryAt init e.2 e.1 = some 1) →
    ∀ (k : Nat) (adj : AdjMatrix), isSquare adj (ROWS * COLS) → isSymmetric adj →
      edgesLe adj init →
      isSymmetric (removeEdgeLoop ROWS COLS sp rng edges k adj) ∧
      edgesLe (removeEdgeLoop ROWS COLS sp rng edges k adj) init := by
  induction edges with
  | nil => intro _ k adj _ hs hle; exact ⟨hs, hle⟩
  | cons e rest ih =>
    intro hall k adj hsq hs hle
    have he := hall e (List.mem_cons_self _ _)
    simp only [removeEdgeLoop]
    refine ih (fun e' he' => hall e' (List.mem_cons_of_mem _ he')) (k + 1) _ ?_
      (removeEdgeStep_symmetric sp adj e (rng k) hsq hs)
      (removeEdgeStep_edgesLe sp adj init e (rng k) hle he.1 he.2)
    by_cases hd : (rng k).lt sp = true
    · unfold removeEdgeStep
      rw [if_pos hd]
      dsimp only
      split_ifs
      · exact isSquare_setBoth (isSquare_setBoth hsq _ _ _) _ _ _
      · exact isSquare_setBoth hsq _ _ _
    · unfold removeEdgeStep
      rw [if_neg hd]
      exact hsq

/-- The matrix left by `removeEdgesOnly` on the open grid: square, connected, symmetric, and
with edges of the grid only. -/
theorem removeEdgesOnly_openGrid (sp : Sparsity) (rng : Nat → Draw) (ROWS COLS : Nat)
    (hpos : 0 < ROWS * COLS) :
    isSquare (removeEdgesOnly (initialAdjMatrix (openGrid ROWS COLS) ROWS COLS) sp rng
      ROWS COLS).1 (ROWS * COLS) ∧
    isGraphConnected (removeEdgesOnly (initialAdjMatrix (openGrid ROWS COLS) ROWS COLS) sp rng
      ROWS COLS).1 ROWS COLS = true ∧
    isSymmetric (removeEdgesOnly (initialAdjMatrix (openGrid ROWS COLS) ROWS COLS) sp rng
      ROWS COLS).1 ∧
    edgesLe (removeEdgesOnly (initialAdjMatrix (openGrid ROWS COLS) ROWS COLS) sp rng
      ROWS COLS).1 (initialAdjMatrix (openGrid ROWS COLS) ROWS COLS) := by
  unfold removeEdgesOnly
  simp only
  have hsq := isSquare_initialAdjMatrix (openGrid ROWS COLS) ROWS COLS
  obtain ⟨h1, h2⟩ := removeEdgeLoop_connected sp rng hpos
    (shuffleLoop rng ((collectEdges (initialAdjMatrix (openGrid ROWS COLS) ROWS COLS)
        ROWS COLS).length - 1) 0
      (collectEdges (initialAdjMatrix (openGrid ROWS COLS) ROWS COLS) ROWS COLS))
    ((collectEdges (initialAdjMatrix (openGrid ROWS COLS) ROWS COLS) ROWS COLS).length - 1)
    _ hsq (isGraphConnected_initial ROWS COLS hpos)
  obtain ⟨h3, h4⟩ := removeEdgeLoop_edges sp rng
    (initialAdjMatrix (openGrid ROWS COLS) ROWS COLS)
    (shuffleLoop rng ((collectEdges (initialAdjMatrix (openGrid ROWS COLS) ROWS COLS)
        ROWS COLS).length - 1) 0
      (collectEdges (initialAdjMatrix (openGrid ROWS COLS) ROWS COLS) ROWS COLS))
    (fun e he => by
      have hm := mem_collectEdges (shuffleLoop_subset rng _ _ _ e he)
      exact ⟨hm, isSymmetric_initial ROWS COLS _ _ hm⟩)
    ((collectEdges (initialAdjMatrix (openGrid ROWS COLS) ROWS COLS) ROWS COLS).length - 1)
    _ hsq (isSymmetric_initial ROWS COLS) (fun i j h => h)
  exact ⟨h1, h2, h3, h4⟩

theorem reach_matrix_symm {adj : AdjMatrix} (hs : isSymmetric adj) {a b : Nat}
    (h : Reach (matrixNeighbors adj) a b) : Reach (matrixNeighbors adj) b a := by
  induction h with
  | refl => exact Relation.ReflTransGen.refl
  | @tail x y _ hstep ih =>
    have hyx : x ∈ matrixNeighbors adj y :=
      (mem_matrixNeighbors adj y x).mpr (hs _ _ ((mem_matrixNeighbors adj x y).mp hstep))
    exact Relation.ReflTransGen.head hyx ih

/-- Every cell of a grid of the given shape lies inside the bounds. -/
theorem cell_of_mem {maze : Maze} {ROWS COLS : Nat} (h : hasShape maze ROWS COLS)
    {row : List Cell} (hr : row ∈ maze) {c : Cell} (hc : c ∈ row) :
    ∃ p : Pos, isValidMatrixIndex p ROWS COLS = true ∧ cellAt maze p = some c := by
  obtain ⟨i, hi, rfl⟩ := List.getElem_of_mem hr
  obtain ⟨j, hj, rfl⟩ := List.getElem_of_mem hc
  unfold hasShape at h
  have hlen : maze.length = ROWS := by simpa using congrArg List.length h
  have hrow : (maze[i]).length = COLS := by
    have h2 := congrArg (fun l => l[i]?) h
    simp only [List.getElem?_map, List.getElem?_eq_getElem hi, Option.map_some] at h2
    rw [List.getElem?_replicate] at h2
    split_ifs at h2
    · exact Option.some.inj h2
    · omega
  refine ⟨((i : Int), (j : Int)), ?_, ?_⟩
  · rw [isValidMatrixIndex_iff]
    simp only
    omega
  · unfold cellAt
    simp only
    rw [if_pos ⟨by omega, by omega⟩]
    simp [hi, hj]

/-- C6. For `ROWS, COLS >= 1`, every sparsity and every stream of random draws, `generateMaze`
with `fullyConnected = true` and no predefined structure returns in its first round a state whose
grid has `ROWS` rows of `COLS` cells, none of them blocked, and whose matrix is square of size
`ROWS * COLS`, passes `isGraphConnected`, and joins every two cells by a path of edges; and
after every step of the removal loop of `removeEdgesOnly`, started on the matrix of the open
grid, `isGraphConnected` is `true`. -/
theorem generateMaze_fullyConnected_connected (env : RandomEnv) (nd : NodeDetails)
    (sp : Sparsity) (maze_seed operation_node_seed : Option String) (ROWS COLS fuel mp : Nat)
    (hR : 1 ≤ ROWS) (hC : 1 ≤ COLS)
    (hnames : ∀ entry ∈ nd.operation, entry.2.mazeName ≠ .num 0)
    (hstart : isValidMatrixIndex nd.start ROWS COLS = true)
    (hgoals : ∀ goal ∈ nd.goal, isValidMatrixIndex goal ROWS COLS = true) :
    ∃ st, generateMaze env nd sp maze_seed operation_node_seed none true ROWS COLS (fuel + 1) mp
        = some st ∧
      hasShape st.maze ROWS COLS ∧
      (∀ row ∈ st.maze, Cell.num 0 ∉ row) ∧
      isSquare st.adjMatrix (ROWS * COLS) ∧
      isGraphConnected st.adjMatrix ROWS COLS = true ∧
      (∀ i j : Nat, i < ROWS * COLS → j < ROWS * COLS →
        Reach (matrixNeighbors st.adjMatrix) i j) ∧
      (∀ (rng : Nat → Draw) (edges : List (Int × Int)) (steps : Nat),
        isGraphConnected (removeEdgeLoop ROWS COLS sp rng (edges.take steps) 0
          (initialAdjMatrix (openGrid ROWS COLS) ROWS COLS)) ROWS COLS = true) := by
  have hpos : 0 < ROWS * COLS := Nat.mul_pos hR hC
  refine ⟨_, generateMaze_fullyConnected_returns env nd sp maze_seed operation_node_seed
    ROWS COLS fuel mp hnames hstart hgoals, ?_⟩
  have hshape : hasShape (generateAttempt env nd sp maze_seed operation_node_seed none true
      ROWS COLS mp).1.maze ROWS COLS := by
    unfold generateAttempt
    simp only
    apply hasShape_placeAllOperations
    apply hasShape_updateMazeWithNodeNames
    rw [(generateBase_fullyConnected env nd sp maze_seed ROWS COLS mp).1]
    exact hasShape_openGrid ROWS COLS
  obtain ⟨h1, h2, h3, -⟩ := removeEdgesOnly_openGrid sp (rngOf env maze_seed mp) ROWS COLS hpos
  rw [generateAttempt_adjMatrix]
  refine ⟨hshape, ?_, h1, h2, ?_, ?_⟩
  · intro row hr hc
    obtain ⟨p, hp, hcell⟩ := cell_of_mem hshape hr hc
    exact attempt_no_blocked env nd sp maze_seed operation_node_seed ROWS COLS mp hnames p hp
      hcell
  · intro i j hi hj
    have hall := (isGraphConnected_iff _ ROWS COLS h1 hpos).mp h2
    exact (reach_matrix_symm h3 (hall i hi)).trans (hall j hj)
  · intro rng edges steps
    exact (removeEdgeLoop_connected sp rng hpos (edges.take steps) 0 _
      (isSquare_initialAdjMatrix _ _ _) (isGraphConnected_initial ROWS COLS hpos)).2

theorem generateMaze_fullyConnected_connected_witness :
    ∃ st, generateMaze zeroEnv smallNodeDetails ⟨1, 4⟩ (some "Maze") none none true 2 2 1 0
        = some st ∧
      hasShape st.maze 2 2 ∧
      (∀ row ∈ st.maze, Cell.num 0 ∉ row) ∧
      isSquare st.adjMatrix (2 * 2) ∧
      isGraphConnected st.adjMatrix 2 2 = true ∧
      (∀ i j : Nat, i < 2 * 2 → j < 2 * 2 → Reach (matrixNeighbors st.adjMatrix) i j) ∧
      (∀ (rng : Nat → Draw) (edges : List (Int × Int)) (steps : Nat),
        isGraphConnected (removeEdgeLoop 2 2 ⟨1, 4⟩ rng (edges.take steps) 0
          (initialAdjMatrix (openGrid 2 2) 2 2)) 2 2 = true) :=
  generateMaze_fullyConnected_connected zeroEnv smallNodeDetails ⟨1, 4⟩ (some "Maze") none 2 2
    0 0 (by decide) (by decide) (by decide) (by decide) (by decide)

/-! ## The crop over the whole grid -/

theorem contains_wholeGrid (ROWS COLS : Nat) (p : Pos) :
    (wholeGrid ROWS COLS).contains p = isValidMatrixIndex p ROWS COLS := by
  rw [Bool.eq_iff_iff, isValidMatrixIndex_iff]
  simp only [CropRect.contains, wholeGrid, Bool.and_eq_true, decide_eq_true_eq]
  omega

theorem cropIndex_wholeGrid (ROWS COLS : Nat) (p : Pos) :
    cropIndex (wholeGrid ROWS COLS) COLS p = cellIndex p COLS := by
  simp [cropIndex, cellIndex, wholeGrid]

theorem size_wholeGrid (ROWS COLS : Nat) : (wholeGrid ROWS COLS).size = ROWS * COLS := by
  simp [CropRect.size, wholeGrid]

theorem mem_rectCells_wholeGrid {ROWS COLS : Nat} {p : Pos}
    (h : p ∈ rectCells (wholeGrid ROWS COLS)) : isValidMatrixIndex p ROWS COLS = true := by
  unfold rectCells at h
  simp only [List.mem_flatMap, List.mem_map, List.mem_range, wholeGrid] at h
  obtain ⟨i, hi, j, hj, rfl⟩ := h
  rw [isValidMatrixIndex_iff]
  simp only
  omega

theorem markInactiveNodes_wholeGrid (adj : AdjMatrix) (ROWS COLS : Nat) :
    markInactiveNodes adj (wholeGrid ROWS COLS) ROWS COLS = adj := by
  unfold markInactiveNodes
  have h : ∀ (l : List Pos), (∀ p ∈ l, (wholeGrid ROWS COLS).contains p = true) →
      ∀ a : AdjMatrix,
      l.foldl (fun adj pos => if (wholeGrid ROWS COLS).contains pos then adj
        else clearNode adj (cellIndex pos COLS) ROWS COLS) a = a := by
    intro l
    induction l with
    | nil => intro _ a; rfl
    | cons p rest ih =>
      intro hall a
      simp only [List.foldl_cons]
      rw [if_pos (hall p (List.mem_cons_self _ _))]
      exact ih (fun q hq => hall q (List.mem_cons_of_mem _ hq)) a
  rw [h _ (fun p hp => by rw [contains_wholeGrid]; exact (mem_allCells p ROWS COLS).mp hp)]
  simp

theorem length_le_of_nodup_index (n : Nat) (l : List Int) (hnd : l.Nodup)
    (hin : ∀ k ∈ l, 0 ≤ k ∧ k < (n : Int)) : l.length ≤ n := by
  have hmap : (l.map Int.toNat).Nodup := by
    apply List.Nodup.map_on _ hnd
    intro a ha b hb hab
    have h1 := hin a ha
    have h2 := hin b hb
    omega
  have hlen := length_le_of_nodup_lt n (l.map Int.toNat) hmap (by
    intro k hk
    obtain ⟨a, ha, rfl⟩ := List.mem_map.mp hk
    have h1 := hin a ha
    omega)
  simpa using hlen

theorem reach_matrix_to_crop {ROWS COLS : Nat} {adj : AdjMatrix}
    (hle : edgesLe adj (initialAdjMatrix (openGrid ROWS COLS) ROWS COLS)) {a b : Nat}
    (h : Reach (matrixNeighbors adj) a b) (pa : Pos)
    (hpa : isValidMatrixIndex pa ROWS COLS = true) (hia : cellIndex pa COLS = (a : Int)) :
    ∃ pb : Pos, isValidMatrixIndex pb ROWS COLS = true ∧ cellIndex pb COLS = (b : Int) ∧
      Reach (cropNeighbors adj (wholeGrid ROWS COLS) COLS) pa pb := by
  induction h with
  | refl => exact ⟨pa, hpa, hia, Relation.ReflTransGen.refl⟩
  | @tail x y _ hstep ih =>
    obtain ⟨px, hpx, hix, hr⟩ := ih
    have hxy := (mem_matrixNeighbors adj x y).mp hstep
    obtain ⟨p, q, hp, hq, hip, hiq, hn⟩ := cells_of_initial_edge (hle _ _ hxy)
    have hpp : p = px := cellIndex_inj hp hpx (hip.trans hix.symm)
    subst hpp
    refine ⟨q, hq, hiq, hr.tail ?_⟩
    unfold cropNeighbors
    simp only [List.mem_filter, Bool.and_eq_true, decide_eq_true_eq]
    refine ⟨hn, by rw [contains_wholeGrid]; exact hq, ?_⟩
    rw [cropIndex_wholeGrid, cropIndex_wholeGrid, hip, hiq]
    exact hxy

/-- On a connected matrix with edges of the grid only, the search of the crop over the whole
grid visits every cell. -/
theorem getAllConnectedNodes_wholeGrid {ROWS COLS : Nat} {adj : AdjMatrix}
    (hR : 1 ≤ ROWS) (hC : 1 ≤ COLS) (hsq : isSquare adj (ROWS * COLS))
    (hc : isGraphConnected adj ROWS COLS = true)
    (hle : edgesLe adj (initialAdjMatrix (openGrid ROWS COLS) ROWS COLS)) :
    ∀ p, isValidMatrixIndex p ROWS COLS = true →
      cropIndex (wholeGrid ROWS COLS) COLS p ∈
        getAllConnectedNodes (0, 0) adj (wholeGrid ROWS COLS) COLS := by
  have hpos : 0 < ROWS * COLS := Nat.mul_pos hR hC
  have h00 : isValidMatrixIndex ((0, 0) : Pos) ROWS COLS = true := by
    rw [isValidMatrixIndex_iff]
    simp only
    omega
  have hsucc : ∀ a : Pos, isValidMatrixIndex a ROWS COLS = true →
      ∀ b ∈ cropNeighbors adj (wholeGrid ROWS COLS) COLS a,
        isValidMatrixIndex b ROWS COLS = true := by
    intro a _ b hb
    unfold cropNeighbors at hb
    simp only [List.mem_filter, Bool.and_eq_true, decide_eq_true_eq] at hb
    rw [← contains_wholeGrid]
    exact hb.2.1
  have hspec := bfsLoop_spec (cropIndex (wholeGrid ROWS COLS) COLS)
    (cropNeighbors adj (wholeGrid ROWS COLS) COLS) (fun _ => false)
    (fun a => isValidMatrixIndex a ROWS COLS = true)
    (fun k => 0 ≤ k ∧ k < ((ROWS * COLS : Nat) : Int)) (ROWS * COLS) hsucc
    (fun a b ha hb h => cellIndex_inj ha hb (by
      rwa [cropIndex_wholeGrid, cropIndex_wholeGrid] at h))
    (fun a ha => by rw [cropIndex_wholeGrid]; exact cellIndex_bounds ha)
    (fun l hnd hin => length_le_of_nodup_index _ l hnd hin)
    ((wholeGrid ROWS COLS).size + 1) [cropIndex (wholeGrid ROWS COLS) COLS (0, 0)] [(0, 0)]
    (by simp)
    (by
      intro k hk
      simp only [List.mem_singleton] at hk
      rw [hk, cropIndex_wholeGrid]
      exact cellIndex_bounds h00)
    (by
      intro q hq
      simp only [List.mem_singleton] at hq
      subst hq
      exact ⟨h00, by simp⟩)
    (by
      intro a ha hka hna
      simp only [List.mem_singleton] at hka hna
      rw [cropIndex_wholeGrid, cropIndex_wholeGrid] at hka
      exact absurd (cellIndex_inj ha h00 hka) hna)
    (by rw [size_wholeGrid]; simp; omega)
  obtain ⟨h1, h2, h3, -, -, -⟩ := hspec
  have hfalse : (bfsLoop (cropIndex (wholeGrid ROWS COLS) COLS)
      (cropNeighbors adj (wholeGrid ROWS COLS) COLS) (fun _ => false)
      ((wholeGrid ROWS COLS).size + 1) [cropIndex (wholeGrid ROWS COLS) COLS (0, 0)]
      [(0, 0)]).1 = false := by
    by_contra hne
    have ht : (bfsLoop (cropIndex (wholeGrid ROWS COLS) COLS)
        (cropNeighbors adj (wholeGrid ROWS COLS) COLS) (fun _ => false)
        ((wholeGrid ROWS COLS).size + 1) [cropIndex (wholeGrid ROWS COLS) COLS (0, 0)]
        [(0, 0)]).1 = true := by simpa using hne
    obtain ⟨a, ha, -⟩ := h1 ht
    simp at ha
  have hcl := h2 hfalse
  intro p hp
  have hall := (isGraphConnected_iff adj ROWS COLS hsq hpos).mp hc
  have hb := cellIndex_bounds hp
  have hreach := hall (cellIndex p COLS).toNat (by omega)
  obtain ⟨pb, hpb, hib, hr⟩ := reach_matrix_to_crop hle hreach (0, 0) h00 (by simp [cellIndex])
  have hpp : pb = p := cellIndex_inj hpb hp (by rw [hib]; exact Int.toNat_of_nonneg hb.1)
  subst hpp
  unfold getAllConnectedNodes
  exact (closure_reach (cropIndex (wholeGrid ROWS COLS) COLS)
    (cropNeighbors adj (wholeGrid ROWS COLS) COLS)
    (fun a => isValidMatrixIndex a ROWS COLS = true) hsucc _
    (fun a hPa ha => (hcl a hPa ha).2) h00 (h3 _ (by simp)) hr).2

theorem cropEnsureFullConnectivity_of_covered (croppedMaze : Maze) (adj : AdjMatrix)
    (rect : CropRect) (COLS : Nat)
    (h : ∀ p ∈ rectCells rect,
      cropIndex rect COLS p ∈ getAllConnectedNodes (rect.y1, rect.x1) adj rect COLS) :
    cropEnsureFullConnectivity croppedMaze adj rect COLS = adj := by
  unfold cropEnsureFullConnectivity
  have key : ∀ (l : List Pos) (state : AdjMatrix × List Int),
      (∀ p ∈ l, cropIndex rect COLS p ∈ state.2) →
      l.foldl (wireCell croppedMaze rect COLS) state = state := by
    intro l
    induction l with
    | nil => intro state _; rfl
    | cons p rest ih =>
      intro state hall
      simp only [List.foldl_cons]
      have hstep : wireCell croppedMaze rect COLS state p = state := by
        unfold wireCell
        rw [if_neg]
        intro hc
        exact hc.1 (hall p (List.mem_cons_self _ _))
      rw [hstep]
      exact ih state (fun q hq => hall q (List.mem_cons_of_mem _ hq))
  rw [key _ _ h]

theorem hasShape_row {maze : Maze} {ROWS COLS : Nat} (h : hasShape maze ROWS COLS) {i : Nat}
    (hi : i < ROWS) : ∃ row, maze[i]? = some row ∧ row.length = COLS := by
  unfold hasShape at h
  have h1 : (maze.map List.length)[i]? = some COLS := by
    rw [h, List.getElem?_replicate, if_pos hi]
  rw [List.getElem?_map] at h1
  cases hrow : maze[i]? with
  | none => rw [hrow] at h1; simp at h1
  | some row =>
    rw [hrow] at h1
    exact ⟨row, rfl, by simpa using h1⟩

theorem hasShape_length {maze : Maze} {ROWS COLS : Nat} (h : hasShape maze ROWS COLS) :
    maze.length = ROWS := by
  simpa using congrArg List.length h

/-- Two grids of the same shape with the same cells are the same grid. -/
theorem maze_ext {m1 m2 : Maze} {ROWS COLS : Nat} (h1 : hasShape m1 ROWS COLS)
    (h2 : hasShape m2 ROWS COLS)
    (h : ∀ p, isValidMatrixIndex p ROWS COLS = true → cellAt m1 p = cellAt m2 p) : m1 = m2 := by
  apply List.ext_getElem?
  intro i
  by_cases hi : i < ROWS
  · obtain ⟨r1, hr1, hl1⟩ := hasShape_row h1 hi
    obtain ⟨r2, hr2, hl2⟩ := hasShape_row h2 hi
    rw [hr1, hr2]
    congr 1
    apply List.ext_getElem?
    intro j
    by_cases hj : j < COLS
    · have hp : isValidMatrixIndex ((i : Int), (j : Int)) ROWS COLS = true := by
        rw [isValidMatrixIndex_iff]
        simp only
        omega
      have hcell := h _ hp
      unfold cellAt at hcell
      simp only at hcell
      rw [if_pos ⟨by omega, by omega⟩] at hcell
      simpa [hr1, hr2] using hcell
    · rw [List.getElem?_eq_none (by omega), List.getElem?_eq_none (by omega)]
  · have e1 := hasShape_length h1
    have e2 := hasShape_length h2
    rw [List.getElem?_eq_none (by omega), List.getElem?_eq_none (by omega)]

theorem cellAt_of_hasShape {maze : Maze} {ROWS COLS : Nat} (h : hasShape maze ROWS COLS)
    {p : Pos} (hp : isValidMatrixIndex p ROWS COLS = true) : ∃ c, cellAt maze p = some c := by
  rw [isValidMatrixIndex_iff] at hp
  obtain ⟨row, hrow, hlen⟩ := hasShape_row h (by omega : p.1.toNat < ROWS)
  unfold cellAt
  rw [if_pos ⟨hp.1, hp.2.2.1⟩, hrow]
  simp only [Option.some_bind]
  have hlt : p.2.toNat < row.length := by omega
  exact ⟨row[p.2.toNat], by simp [hlt]⟩

theorem cropCells_wholeGrid {maze : Maze} {ROWS COLS : Nat} (hshape : hasShape maze ROWS COLS)
    (hopen : ∀ p, isValidMatrixIndex p ROWS COLS = true → cellAt maze p ≠ some (.num 0)) :
    cropCells maze (wholeGrid ROWS COLS) = openGrid ROWS COLS := by
  refine @maze_ext _ _ ROWS COLS ?_ ?_ ?_
  · unfold hasShape
    rw [map_length_cropCells]
    exact hshape
  · exact hasShape_openGrid ROWS COLS
  · intro p hp
    rw [cellAt_cropCells, cellAt_openGrid, if_pos hp, contains_wholeGrid, hp]
    obtain ⟨c, hc⟩ := cellAt_of_hasShape hshape hp
    have hne : c ≠ .num 0 := fun e => hopen p hp (by rw [hc, e])
    rw [hc]
    simp [hne]

theorem mapM_cropGoal_wholeGrid (croppedMaze : Maze) (ROWS COLS : Nat) (goals : List Pos)
    (h : ∀ goal ∈ goals, isValidMatrixIndex goal ROWS COLS = true) :
    goals.mapM (cropGoal croppedMaze (wholeGrid ROWS COLS)) = some goals := by
  induction goals with
  | nil => rfl
  | cons g rest ih =>
    have hg : cropGoal croppedMaze (wholeGrid ROWS COLS) g = some g := by
      unfold cropGoal
      rw [if_pos (by rw [contains_wholeGrid]; exact h g (List.mem_cons_self _ _))]
    rw [List.mapM_cons, hg, ih (fun q hq => h q (List.mem_cons_of_mem _ hq))]
    rfl

/-! ## Walks over cells and over matrix edges -/

theorem adjacent4_iff (a b : Pos) : adjacent4 a b ↔ b ∈ getNeighbors a := by
  rw [mem_getNeighbors]
  unfold adjacent4
  omega

theorem cellStep_iff (maze : Maze) (ROWS COLS : Nat) (a b : Pos) :
    cellStep maze ROWS COLS a b ↔ b ∈ validNeighbors maze ROWS COLS a := by
  rw [mem_validNeighbors, ← adjacent4_iff]
  simp [cellStep, isValid]

theorem mem_edgeNeighbors (adj : AdjMatrix) (ROWS COLS : Nat) (a b : Pos) :
    b ∈ edgeNeighbors adj ROWS COLS a ↔
      b ∈ getNeighbors a ∧ isValidMatrixIndex b ROWS COLS = true ∧
        entryAt adj (cellIndex a COLS) (cellIndex b COLS) = some 1 := by
  simp [edgeNeighbors, List.mem_filter]

theorem edgeStep_iff (adj : AdjMatrix) (ROWS COLS : Nat) (a b : Pos) :
    edgeStep adj ROWS COLS a b ↔ b ∈ edgeNeighbors adj ROWS COLS a := by
  rw [mem_edgeNeighbors, ← adjacent4_iff]
  rfl

/-- Reachability along successor steps is the existence of a walk. -/
theorem reach_iff_chain {α : Type} (succ : α → List α) (R : α → α → Prop)
    (hR : ∀ a b, R a b ↔ b ∈ succ a) (a b : α) :
    Reach succ a b ↔ ∃ rest : List α, List.Chain R a rest ∧ (a :: rest).getLast? = some b := by
  have hrel : (fun x y => y ∈ succ x) = R := by
    funext x y
    exact propext (hR x y).symm
  unfold Reach
  rw [hrel]
  constructor
  · intro h
    obtain ⟨l, hl, hlast⟩ := List.exists_chain_of_relationReflTransGen h
    exact ⟨l, hl, by rw [List.getLast?_eq_getLast _ (List.cons_ne_nil _ _), hlast]⟩
  · rintro ⟨l, hl, hlast⟩
    refine List.relationReflTransGen_of_exists_chain l hl ?_
    rw [List.getLast?_eq_getLast _ (List.cons_ne_nil _ _)] at hlast
    exact Option.some.inj hlast

/-- The search `bfsCheck` answers `true` exactly when the goal can be reached from the start
along matrix edges between neighbouring cells inside the bounds. -/
theorem bfsCheck_iff_reach (adj : AdjMatrix) (start goal : Pos) (ROWS COLS : Nat) :
    bfsCheck adj start goal ROWS COLS = true ↔
      Reach (edgeNeighbors adj ROWS COLS) start goal := by
  have hsucc : ∀ a : Pos, (a = start ∨ isValidMatrixIndex a ROWS COLS = true) →
      ∀ b ∈ edgeNeighbors adj ROWS COLS a,
        b = start ∨ isValidMatrixIndex b ROWS COLS = true :=
    fun a _ b hb => Or.inr ((mem_edgeNeighbors _ _ _ _ _).mp hb).2.1
  have hspec := bfsLoop_spec (fun pos : Pos => pos) (edgeNeighbors adj ROWS COLS)
    (fun current => decide (current = goal))
    (fun a => a = start ∨ isValidMatrixIndex a ROWS COLS = true)
    (fun a => a = start ∨ isValidMatrixIndex a ROWS COLS = true) (ROWS * COLS + 1)
    hsucc (fun a b _ _ h => h) (fun a h => h)
    (fun l hnd hin => length_le_of_nodup_cells start l hnd hin)
    (ROWS * COLS + 1) [start] [start] (by simp) (by simp) (by simp)
    (by intro a _ ha hna; simp at ha hna; exact absurd ha hna) (by simp; omega)
  obtain ⟨h1, h2, h3, -, -, -⟩ := hspec
  unfold bfsCheck
  constructor
  · intro h
    obtain ⟨a, ha, q, hq, hreach⟩ := h1 h
    simp at ha hq
    subst ha hq
    exact hreach
  · intro hreach
    by_contra hne
    have hfalse : (bfsLoop (fun pos : Pos => pos) (edgeNeighbors adj ROWS COLS)
        (fun current => decide (current = goal)) (ROWS * COLS + 1) [start] [start]).1 = false := by
      simpa using hne
    have hcl := h2 hfalse
    have hgoal := closure_reach (fun pos : Pos => pos) (edgeNeighbors adj ROWS COLS)
      (fun a => a = start ∨ isValidMatrixIndex a ROWS COLS = true) hsucc
      _ (fun a hPa ha => (hcl a hPa ha).2) (Or.inl rfl) (h3 start (by simp)) hreach
    have := (hcl goal hgoal.1 hgoal.2).1
    simp at this

/-- C19. Cell reachability is exact: `bfs(grid, from, to)` returns, and it returns `true`
exactly when there is a walk of cells from `from` to `to` in which every step leads to a
4-directionally adjacent cell that is inside the bounds and not blocked. -/
theorem bfs_iff_walk (maze : Maze) (start goal : Pos) (ROWS COLS : Nat) :
    bfs maze start goal ROWS COLS = true ↔
      ∃ rest : List Pos, List.Chain (cellStep maze ROWS COLS) start rest ∧
        (start :: rest).getLast? = some goal := by
  rw [bfs_iff_reach]
  exact reach_iff_chain _ _ (cellStep_iff maze ROWS COLS) start goal

/-- C20, amended. The search `bfsCheck` returns `true` exactly when there is a walk from `from`
to `to` in which every step leads to a 4-directionally adjacent cell inside the bounds that the
matrix joins to the current cell; matrix edges between cells that are not adjacent are never
followed, and no cell value of the grid is read. -/
theorem bfsCheck_iff_walk (adj : AdjMatrix) (start goal : Pos) (ROWS COLS : Nat) :
    bfsCheck adj start goal ROWS COLS = true ↔
      ∃ rest : List Pos, List.Chain (edgeStep adj ROWS COLS) start rest ∧
        (start :: rest).getLast? = some goal := by
  rw [bfsCheck_iff_reach]
  exact reach_iff_chain _ _ (edgeStep_iff adj ROWS COLS) start goal

/-- C20, counterexample. On the 2 by 2 grid, the symmetric matrix whose only edge joins the cells
`(0,0)` and `(1,1)` (indices 0 and 3) has `(1,1)` reachable from `(0,0)` along a matrix edge,
and `bfsCheck` answers `false`. -/
theorem bfsCheck_misses_diagonal_edge :
    entryAt [[0, 0, 0, 1], [0, 0, 0, 0], [0, 0, 0, 0], [1, 0, 0, 0]]
      (cellIndex (0, 0) 2) (cellIndex (1, 1) 2) = some 1 ∧
    entryAt [[0, 0, 0, 1], [0, 0, 0, 0], [0, 0, 0, 0], [1, 0, 0, 0]]
      (cellIndex (1, 1) 2) (cellIndex (0, 0) 2) = some 1 ∧
    (addEdge (List.replicate 4 (List.replicate 4 0)) (0, 0) (1, 1) 2 2).1 =
      [[0, 0, 0, 1], [0, 0, 0, 0], [0, 0, 0, 0], [1, 0, 0, 0]] ∧
    bfsCheck [[0, 0, 0, 1], [0, 0, 0, 0], [0, 0, 0, 0], [1, 0, 0, 0]] (0, 0) (1, 1) 2 2
      = false := by
  decide

/-! ## Edge edits -/

/-- C17. On a square matrix of size `ROWS * COLS`, `addEdge` and `delEdge` throw exactly when one
of the two cells lies outside the grid, and then leave the matrix as it is; otherwise `addEdge`
sets the entries `(a, b)` and `(b, a)` to 1, `delEdge` sets them to 0, the matrix keeps its
size, and every other entry is unchanged. -/
theorem addEdge_delEdge_spec (adj : AdjMatrix) (a b : Pos) (ROWS COLS : Nat)
    (hsq : isSquare adj (ROWS * COLS)) :
    ((addEdge adj a b ROWS COLS).2 ≠ none ↔
      (isValidMatrixIndex a ROWS COLS = false ∨ isValidMatrixIndex b ROWS COLS = false)) ∧
    ((delEdge adj a b ROWS COLS).2 ≠ none ↔
      (isValidMatrixIndex a ROWS COLS = false ∨ isValidMatrixIndex b ROWS COLS = false)) ∧
    ((isValidMatrixIndex a ROWS COLS = false ∨ isValidMatrixIndex b ROWS COLS = false) →
      (addEdge adj a b ROWS COLS).1 = adj ∧ (delEdge adj a b ROWS COLS).1 = adj) ∧
    (isValidMatrixIndex a ROWS COLS = true → isValidMatrixIndex b ROWS COLS = true →
      entryAt (addEdge adj a b ROWS COLS).1 (cellIndex a COLS) (cellIndex b COLS) = some 1 ∧
      entryAt (addEdge adj a b ROWS COLS).1 (cellIndex b COLS) (cellIndex a COLS) = some 1 ∧
      entryAt (delEdge adj a b ROWS COLS).1 (cellIndex a COLS) (cellIndex b COLS) = some 0 ∧
      entryAt (delEdge adj a b ROWS COLS).1 (cellIndex b COLS) (cellIndex a COLS) = some 0 ∧
      isSquare (addEdge adj a b ROWS COLS).1 (ROWS * COLS) ∧
      isSquare (delEdge adj a b ROWS COLS).1 (ROWS * COLS) ∧
      ∀ k l : Int, ¬ ((k = cellIndex a COLS ∧ l = cellIndex b COLS) ∨
          (k = cellIndex b COLS ∧ l = cellIndex a COLS)) →
        entryAt (addEdge adj a b ROWS COLS).1 k l = entryAt adj k l ∧
        entryAt (delEdge adj a b ROWS COLS).1 k l = entryAt adj k l) := by
  unfold addEdge delEdge
  by_cases ha : isValidMatrixIndex a ROWS COLS = true
  · by_cases hb : isValidMatrixIndex b ROWS COLS = true
    · simp only [ha, hb, Bool.and_self, if_true, ne_eq, not_true_eq_false, Bool.true_eq_false,
        or_self, false_implies, true_implies, true_and, iff_self]
      obtain ⟨va, hva⟩ := entryAt_isSome_of_isSquare hsq (cellIndex_bounds ha)
        (cellIndex_bounds hb)
      obtain ⟨vb, hvb⟩ := entryAt_isSome_of_isSquare hsq (cellIndex_bounds hb)
        (cellIndex_bounds ha)
      refine ⟨?_, ?_, ?_, ?_, isSquare_setBoth hsq _ _ _, isSquare_setBoth hsq _ _ _, ?_⟩
      · rw [entryAt_setBoth, if_pos (Or.inl ⟨rfl, rfl⟩), hva]; rfl
      · rw [entryAt_setBoth, if_pos (Or.inr ⟨rfl, rfl⟩), hvb]; rfl
      · rw [entryAt_setBoth, if_pos (Or.inl ⟨rfl, rfl⟩), hva]; rfl
      · rw [entryAt_setBoth, if_pos (Or.inr ⟨rfl, rfl⟩), hvb]; rfl
      · intro k l hkl
        rw [entryAt_setBoth, entryAt_setBoth, if_neg hkl, if_neg hkl]
        exact ⟨rfl, rfl⟩
    · have hb' : isValidMatrixIndex b ROWS COLS = false := by simpa using hb
      simp [ha, hb']
  · have ha' : isValidMatrixIndex a ROWS COLS = false := by simpa using ha
    simp [ha']

theorem addEdge_delEdge_spec_witness :
    entryAt (addEdge (List.replicate 4 (List.replicate 4 0)) (0, 0) (0, 1) 2 2).1
      (cellIndex (0, 0) 2) (cellIndex (0, 1) 2) = some 1 ∧
    (addEdge (List.replicate 4 (List.replicate 4 0)) (0, 0) (0, 2) 2 2).2 ≠ none :=
  ⟨((addEdge_delEdge_spec (List.replicate 4 (List.replicate 4 0)) (0, 0) (0, 1) 2 2 rfl).2.2.2
      (by decide) (by decide)).1,
    (addEdge_delEdge_spec (List.replicate 4 (List.replicate 4 0)) (0, 0) (0, 2) 2 2 rfl).1.mpr
      (Or.inr (by decide))⟩

/-! ## Manual changes -/

theorem index_out_of_range {maze : Maze} {ROWS COLS : Nat} (hshape : hasShape maze ROWS COLS)
    (hR : 0 < ROWS) {cell : Pos}
    (h : (cell.1 < 0 ∨ (ROWS : Int) ≤ cell.1) ∧ 0 ≤ cell.2 ∧ cell.2 < COLS) :
    ¬ (0 ≤ cellIndex cell (maze.headD []).length ∧
      cellIndex cell (maze.headD []).length < ((ROWS * COLS : Nat) : Int)) := by
  have hlen : (maze.headD []).length = COLS := by
    obtain ⟨row, hrow, hl⟩ := hasShape_row hshape hR
    cases maze with
    | nil => simp at hrow
    | cons r rest =>
      simp only [List.getElem?_cons_zero, Option.some.injEq] at hrow
      simp [hrow, hl]
  rw [hlen]
  unfold cellIndex
  push_cast
  rcases h with ⟨h1 | h1, h2, h3⟩
  · intro hc
    have : cell.1 * (COLS : Int) ≤ -1 * (COLS : Int) :=
      mul_le_mul_of_nonneg_right (by omega) (by positivity)
    omega
  · intro hc
    have : (ROWS : Int) * (COLS : Int) ≤ cell.1 * (COLS : Int) :=
      mul_le_mul_of_nonneg_right h1 (by positivity)
    omega

/-- The changes that `applyManualChanges` rejects. A node toggle whose position is outside the
grid leaves the grid and the matrix unchanged.  An edge add or edge delete leaves them unchanged when the index
`row * cols + col` of one of its two cells is outside the matrix, as it is for a cell whose row
is outside the grid and whose column is inside; a cell outside the grid whose index still falls
inside the matrix is not rejected. -/
theorem applyManualChanges_out_of_bounds (maze : Maze) (adj : AdjMatrix)
    (settings : ManualSettings) (position fromCell toCell : Pos) (action : String) :
    (¬ (0 ≤ position.1 ∧ position.1 < maze.length ∧ 0 ≤ position.2 ∧
        position.2 < (maze.headD []).length) →
      applyManualChanges (maze, adj) [.node (some position) action] settings = (maze, adj)) ∧
    ((¬ (0 ≤ cellIndex fromCell (maze.headD []).length ∧
          cellIndex fromCell (maze.headD []).length < adj.length) ∨
        ¬ (0 ≤ cellIndex toCell (maze.headD []).length ∧
          cellIndex toCell (maze.headD []).length < adj.length)) →
      applyManualChanges (maze, adj) [.edge (some fromCell) (some toCell) action] settings
        = (maze, adj)) ∧
    (∀ ROWS COLS : Nat, hasShape maze ROWS COLS → adj.length = ROWS * COLS → 0 < ROWS →
      (((fromCell.1 < 0 ∨ (ROWS : Int) ≤ fromCell.1) ∧ 0 ≤ fromCell.2 ∧ fromCell.2 < COLS) ∨
        ((toCell.1 < 0 ∨ (ROWS : Int) ≤ toCell.1) ∧ 0 ≤ toCell.2 ∧ toCell.2 < COLS)) →
      applyManualChanges (maze, adj) [.edge (some fromCell) (some toCell) action] settings
        = (maze, adj)) := by
  have hedge : (¬ (0 ≤ cellIndex fromCell (maze.headD []).length ∧
          cellIndex fromCell (maze.headD []).length < adj.length) ∨
        ¬ (0 ≤ cellIndex toCell (maze.headD []).length ∧
          cellIndex toCell (maze.headD []).length < adj.length)) →
      applyManualChanges (maze, adj) [.edge (some fromCell) (some toCell) action] settings
        = (maze, adj) := by
    intro h
    simp only [applyManualChanges, List.foldl_cons, List.foldl_nil, applyManualChange]
    rw [if_neg]
    unfold cellIndex at h
    intro hc
    rcases h with h | h
    · exact h ⟨hc.1, hc.2.1⟩
    · exact h ⟨hc.2.2.1, hc.2.2.2⟩
  refine ⟨?_, hedge, ?_⟩
  · intro h
    simp only [applyManualChanges, List.foldl_cons, List.foldl_nil, applyManualChange]
    rw [if_neg]
    intro hc
    exact h ⟨hc.1, hc.2.1, hc.2.2.1, hc.2.2.2⟩
  · intro ROWS COLS hshape hlen hR h
    apply hedge
    rw [hlen]
    rcases h with h | h
    · exact Or.inl (index_out_of_range hshape hR h)
    · exact Or.inr (index_out_of_range hshape hR h)

/-- C18. An edge change that references a cell outside the grid is applied, where the claim has
the grid and the matrix unchanged. The edge branch of `applyManualChanges` checks only the index
`row * cols + col` against the size of the matrix, while its node branch, `addEdge` and `delEdge`
check the row and the column. On the 2 by 2 grid an edge add from `(0, 2)`, whose column is
outside the grid, to `(0, 1)` is not rejected: the index 2 of `(0, 2)` is the index of the cell
`(1, 0)`, and the matrix gets the edge between the indices 2 and 1. -/
theorem applyManualChanges_aliases_column :
    applyManualChanges (openGrid 2 2, initialAdjMatrix (openGrid 2 2) 2 2)
        [.edge (some (0, 2)) (some (0, 1)) "add"]
        { startPositions := [(0, 0)], startName := .str "s",
          goalPositions := [(1, 1)], goalName := .str "g" } =
      (openGrid 2 2, [[0, 1, 1, 0], [1, 0, 1, 1], [1, 1, 0, 1], [0, 1, 1, 0]]) ∧
    initialAdjMatrix (openGrid 2 2) 2 2 =
      [[0, 1, 1, 0], [1, 0, 0, 1], [1, 0, 0, 1], [0, 1, 1, 0]] := by
  decide

/-! ## The order of the cells of a rectangle -/

theorem rectCells_pairwise (rect : CropRect) :
    List.Pairwise (fun a b : Pos => a.1 < b.1 ∨ (a.1 = b.1 ∧ a.2 < b.2)) (rectCells rect) := by
  unfold rectCells
  rw [List.pairwise_flatMap]
  constructor
  · intro i _
    rw [List.pairwise_map]
    refine (List.pairwise_lt_range _).imp ?_
    intro j1 j2 hj
    right
    simp only [true_and]
    omega
  · refine (List.pairwise_lt_range _).imp ?_
    intro i1 i2 hi x hx y hy
    simp only [List.mem_map, List.mem_range] at hx hy
    obtain ⟨j1, -, rfl⟩ := hx
    obtain ⟨j2, -, rfl⟩ := hy
    left
    simp only
    omega

theorem rectCells_nodup (rect : CropRect) : (rectCells rect).Nodup := by
  refine (rectCells_pairwise rect).imp ?_
  intro a b h he
  subst he
  omega

theorem allCells_eq_rectCells (ROWS COLS : Nat) :
    allCells ROWS COLS = rectCells (wholeGrid ROWS COLS) := by
  simp [allCells, rectCells, wholeGrid]

theorem allCells_nodup (ROWS COLS : Nat) : (allCells ROWS COLS).Nodup := by
  rw [allCells_eq_rectCells]
  exact rectCells_nodup _

theorem mem_rectCells (rect : CropRect) (p : Pos) :
    p ∈ rectCells rect ↔ rect.contains p = true := by
  unfold rectCells CropRect.contains
  simp only [List.mem_flatMap, List.mem_map, List.mem_range, Bool.and_eq_true,
    decide_eq_true_eq]
  constructor
  · rintro ⟨i, hi, j, hj, rfl⟩
    simp only
    omega
  · rintro ⟨⟨⟨h1, h2⟩, h3⟩, h4⟩
    refine ⟨(p.1 - rect.y1).toNat, by omega, (p.2 - rect.x1).toNat, by omega, ?_⟩
    apply Prod.ext
    · simp only
      omega
    · simp only
      omega

/-! ## Placement of operation nodes -/

theorem placePredefined_positions (numNodes : Int) (nodeType : Cell) (pre : List Pos) :
    ∀ (maze : Maze) (acc : List Pos), acc.length < (max numNodes 1).toNat →
      (placePredefined numNodes nodeType pre maze acc).2 =
        acc ++ (specAcceptedPredefined nodeType pre maze).take
          ((max numNodes 1).toNat - acc.length) := by
  induction pre with
  | nil => intro maze acc _; simp [placePredefined, specAcceptedPredefined]
  | cons pos rest ih =>
    intro maze acc hacc
    unfold placePredefined specAcceptedPredefined
    by_cases h1 : 0 ≤ pos.1 ∧ pos.1 < maze.length ∧ 0 ≤ pos.2 ∧
        pos.2 < (maze.headD []).length ∧ cellAt maze pos = some (.num 1)
    · rw [if_pos h1, if_pos h1]
      by_cases h2 : ((acc ++ [pos]).length : Int) ≥ numNodes
      · rw [if_pos h2]
        simp only [List.length_append, List.length_singleton] at h2
        have hm : (max numNodes 1).toNat - acc.length = 1 := by omega
        rw [hm]
        simp
      · rw [if_neg h2]
        simp only [List.length_append, List.length_singleton] at h2
        rw [ih _ _ (by simp only [List.length_append, List.length_singleton]; omega)]
        have hm : (max numNodes 1).toNat - acc.length =
            ((max numNodes 1).toNat - (acc ++ [pos]).length) + 1 := by
          simp only [List.length_append, List.length_singleton]
          omega
        rw [hm, List.take_succ_cons]
        simp
    · rw [if_neg h1, if_neg h1]
      exact ih maze acc hacc

theorem placeRandom_positions (numNodes : Int) (nodeType : Cell) (rng : Nat → Draw)
    (fuel : Nat) :
    ∀ (k : Nat) (available : List Pos) (maze : Maze) (positions : List Pos),
      ∃ sampled,
        (placeRandom numNodes nodeType rng fuel k available maze positions).2.1 =
          positions ++ sampled ∧
        (((positions ++ sampled).length : Nat) : Int) ≤ max (positions.length : Int) numNodes ∧
        (numNodes ≤ (positions.length : Int) → sampled = []) := by
  induction fuel with
  | zero =>
    intro k available maze positions
    exact ⟨[], by simp [placeRandom], by simp, fun _ => rfl⟩
  | succ fuel ih =>
    intro k available maze positions
    unfold placeRandom
    by_cases h : (positions.length : Int) < numNodes ∧ available.length > 0
    · rw [if_pos h]
      simp only
      cases hpos : available[(rng k).floorMul available.length]? with
      | none => exact ⟨[], by simp, by simp, fun _ => rfl⟩
      | some pos =>
        simp only
        obtain ⟨sampled, h1, h2, -⟩ := ih (k + 1)
          (available.eraseIdx ((rng k).floorMul available.length))
          (setCell maze pos nodeType) (positions ++ [pos])
        refine ⟨pos :: sampled, by rw [h1]; simp, ?_, fun hc => by omega⟩
        simp only [List.length_append, List.length_cons, List.length_nil] at h2 ⊢
        omega
    · rw [if_neg h]
      exact ⟨[], by simp, by simp, fun _ => rfl⟩

/-- The positions returned by `placeOperationNodes` are the first
`max(quantity, 1)` of the predefined positions that are inside the grid and open at the moment
they are considered, in input order, followed by the sampled positions; their number is at most
`max(quantity, 1)`, and nothing is sampled once `quantity` predefined positions are accepted.
With `quantity >= 1` the number of positions is at most `quantity`. -/
theorem placeOperationNodes_predefined (maze : Maze) (numNodes : Int) (nodeType : Cell)
    (pre : Option (List Pos)) (rng : Nat → Draw) :
    ∃ sampled,
      (placeOperationNodes maze numNodes nodeType pre rng).2.1 =
        (specAcceptedPredefined nodeType (pre.getD []) maze).take (max numNodes 1).toNat
          ++ sampled ∧
      (((placeOperationNodes maze numNodes nodeType pre rng).2.1.length : Nat) : Int)
        ≤ max numNodes 1 ∧
      (1 ≤ numNodes →
        (((placeOperationNodes maze numNodes nodeType pre rng).2.1.length : Nat) : Int)
          ≤ numNodes) ∧
      (numNodes ≤ (((specAcceptedPredefined nodeType (pre.getD []) maze).take
          (max numNodes 1).toNat).length : Nat) → sampled = []) := by
  unfold placeOperationNodes
  simp only
  have hpre := placePredefined_positions numNodes nodeType (pre.getD []) maze []
    (by simp only [List.length_nil]; omega)
  simp only [List.nil_append, List.length_nil, Nat.sub_zero] at hpre
  obtain ⟨sampled, h1, h2, h3⟩ := placeRandom_positions numNodes nodeType rng
    (openPositions (placePredefined numNodes nodeType (pre.getD []) maze []).1).length 0
    (openPositions (placePredefined numNodes nodeType (pre.getD []) maze []).1)
    (placePredefined numNodes nodeType (pre.getD []) maze []).1
    (placePredefined numNodes nodeType (pre.getD []) maze []).2
  rw [hpre] at h1 h2 h3 ⊢
  have hlen : ((specAcceptedPredefined nodeType (pre.getD []) maze).take
      (max numNodes 1).toNat).length ≤ (max numNodes 1).toNat := by
    simp
  have hbound : ((((specAcceptedPredefined nodeType (pre.getD []) maze).take
      (max numNodes 1).toNat ++ sampled).length : Nat) : Int) ≤ max numNodes 1 := by
    omega
  refine ⟨sampled, h1, ?_, ?_, h3⟩
  · rw [h1]
    exact hbound
  · intro hn
    rw [h1]
    omega

/-- C15. With quantity 0 a predefined position is accepted, where the claim has the number of
positions never exceed the quantity. The loop over the predefined positions tests
`positions.length >= numNodes` only after it has pushed a position, while the sampling loop
tests `positions.length < numNodes` before it pushes. With quantity 0 and the predefined
positions `(0, 0)` and `(1, 1)`, `placeOperationNodes` on the open 2 by 2 grid returns the one
position `(0, 0)` and marks its cell. -/
theorem placeOperationNodes_quantity_zero :
    placeOperationNodes (openGrid 2 2) 0 (.num 2) (some [(0, 0), (1, 1)])
        (fun _ => { num := 0, gap := 0 }) =
      ([[.num 2, .num 1], [.num 1, .num 1]], [(0, 0)], 0) := by
  decide

/-! ## The cells changed by the placement -/

/-- The state of a placement: the recorded positions are distinct, each was open in the grid at
the start and now holds the tag, and every other cell is as it was at the start. -/
theorem placement_step {maze0 maze : Maze} {nodeType : Cell} {acc : List Pos} {pos : Pos}
    (hname : nodeType ≠ .num 1)
    (hinv : acc.Nodup ∧
      (∀ p ∈ acc, cellAt maze0 p = some (.num 1) ∧ cellAt maze p = some nodeType) ∧
      (∀ q, q ∉ acc → cellAt maze q = cellAt maze0 q))
    (hpos : cellAt maze pos = some (.num 1)) :
    (acc ++ [pos]).Nodup ∧
      (∀ p ∈ acc ++ [pos], cellAt maze0 p = some (.num 1) ∧
        cellAt (setCell maze pos nodeType) p = some nodeType) ∧
      (∀ q, q ∉ acc ++ [pos] → cellAt (setCell maze pos nodeType) q = cellAt maze0 q) := by
  obtain ⟨h1, h2, h3⟩ := hinv
  have hnot : pos ∉ acc := by
    intro hmem
    have := (h2 pos hmem).2
    rw [hpos] at this
    exact hname (Option.some.inj this).symm
  refine ⟨?_, ?_, ?_⟩
  · rw [List.nodup_append]
    refine ⟨h1, by simp, ?_⟩
    intro a ha hb
    simp only [List.mem_singleton] at hb
    exact hnot (hb ▸ ha)
  · intro p hp
    rw [List.mem_append, List.mem_singleton] at hp
    rcases hp with hp | hp
    · have hne : p ≠ pos := fun he => hnot (he ▸ hp)
      rw [cellAt_setCell, if_neg hne]
      exact h2 p hp
    · subst hp
      rw [cellAt_setCell, if_pos rfl, hpos]
      exact ⟨by rw [← h3 p hnot, hpos], rfl⟩
  · intro q hq
    rw [List.mem_append, List.mem_singleton, not_or] at hq
    rw [cellAt_setCell, if_neg hq.2]
    exact h3 q hq.1

theorem placePredefined_frame (maze0 : Maze) (numNodes : Int) (nodeType : Cell)
    (hname : nodeType ≠ .num 1) (pre : List Pos) :
    ∀ (maze : Maze) (acc : List Pos),
      (acc.Nodup ∧
        (∀ p ∈ acc, cellAt maze0 p = some (.num 1) ∧ cellAt maze p = some nodeType) ∧
        (∀ q, q ∉ acc → cellAt maze q = cellAt maze0 q)) →
      (placePredefined numNodes nodeType pre maze acc).2.Nodup ∧
        (∀ p ∈ (placePredefined numNodes nodeType pre maze acc).2,
          cellAt maze0 p = some (.num 1) ∧
          cellAt (placePredefined numNodes nodeType pre maze acc).1 p = some nodeType) ∧
        (∀ q, q ∉ (placePredefined numNodes nodeType pre maze acc).2 →
          cellAt (placePredefined numNodes nodeType pre maze acc).1 q = cellAt maze0 q) := by
  induction pre with
  | nil => intro maze acc h; exact h
  | cons pos rest ih =>
    intro maze acc h
    unfold placePredefined
    split_ifs with h1 h2
    · exact placement_step hname h h1.2.2.2.2
    · exact ih _ _ (placement_step hname h h1.2.2.2.2)
    · exact ih _ _ h

theorem not_mem_eraseIdx_of_nodup {α : Type} {l : List α} (hnd : l.Nodup) {i : Nat} {a : α}
    (ha : l[i]? = some a) : a ∉ l.eraseIdx i := by
  intro hmem
  rw [List.mem_eraseIdx_iff_getElem?] at hmem
  obtain ⟨j, hj, hja⟩ := hmem
  obtain ⟨hi, hia⟩ := List.getElem?_eq_some.mp ha
  obtain ⟨hj', hja'⟩ := List.getElem?_eq_some.mp hja
  exact hj ((hnd.getElem_inj_iff).mp (hja'.trans hia.symm))

theorem placeRandom_frame (maze0 : Maze) (numNodes : Int) (nodeType : Cell)
    (hname : nodeType ≠ .num 1) (rng : Nat → Draw) (fuel : Nat) :
    ∀ (k : Nat) (available : List Pos) (maze : Maze) (acc : List Pos),
      (acc.Nodup ∧
        (∀ p ∈ acc, cellAt maze0 p = some (.num 1) ∧ cellAt maze p = some nodeType) ∧
        (∀ q, q ∉ acc → cellAt maze q = cellAt maze0 q)) →
      available.Nodup → (∀ p ∈ available, cellAt maze p = some (.num 1)) →
      (placeRandom numNodes nodeType rng fuel k available maze acc).2.1.Nodup ∧
        (∀ p ∈ (placeRandom numNodes nodeType rng fuel k available maze acc).2.1,
          cellAt maze0 p = some (.num 1) ∧
          cellAt (placeRandom numNodes nodeType rng fuel k available maze acc).1 p
            = some nodeType) ∧
        (∀ q, q ∉ (placeRandom numNodes nodeType rng fuel k available maze acc).2.1 →
          cellAt (placeRandom numNodes nodeType rng fuel k available maze acc).1 q
            = cellAt maze0 q) := by
  induction fuel with
  | zero => intro k available maze acc h _ _; exact h
  | succ fuel ih =>
    intro k available maze acc h hnd hav
    unfold placeRandom
    by_cases hc : (acc.length : Int) < numNodes ∧ available.length > 0
    · rw [if_pos hc]
      simp only
      cases hpos : available[(rng k).floorMul available.length]? with
      | none => exact h
      | some pos =>
        simp only
        have hmem : pos ∈ available := List.getElem?_mem hpos
        refine ih _ _ _ _ (placement_step hname h (hav pos hmem)) (hnd.eraseIdx _) ?_
        intro p hp
        have hne : p ≠ pos := fun he => not_mem_eraseIdx_of_nodup hnd hpos (he ▸ hp)
        rw [cellAt_setCell, if_neg hne]
        exact hav p ((List.eraseIdx_sublist _ _).subset hp)
    · rw [if_neg hc]
      exact h

theorem map_length_placePredefined (numNodes : Int) (nodeType : Cell) (pre : List Pos) :
    ∀ (maze : Maze) (acc : List Pos),
      (placePredefined numNodes nodeType pre maze acc).1.map List.length
        = maze.map List.length := by
  induction pre with
  | nil => intro maze acc; rfl
  | cons pos rest ih =>
    intro maze acc
    unfold placePredefined
    split_ifs
    · exact map_length_setCell _ _ _
    · rw [ih, map_length_setCell]
    · exact ih _ _

theorem map_length_placeRandom (numNodes : Int) (nodeType : Cell) (rng : Nat → Draw)
    (fuel : Nat) :
    ∀ (k : Nat) (available : List Pos) (maze : Maze) (acc : List Pos),
      (placeRandom numNodes nodeType rng fuel k available maze acc).1.map List.length
        = maze.map List.length := by
  induction fuel with
  | zero => intro k available maze acc; rfl
  | succ fuel ih =>
    intro k available maze acc
    unfold placeRandom
    split_ifs
    · simp only
      cases available[(rng k).floorMul available.length]? with
      | none => rfl
      | some pos =>
        simp only
        rw [ih, map_length_setCell]
    · rfl

/-- C16. With a role tag that is not the value 1 of an open cell, `placeOperationNodes` changes
exactly the cells it returns: the returned positions are pairwise distinct, each was open before
the call and holds the tag after it, every other cell is unchanged, and the grid keeps its
shape. -/
theorem placeOperationNodes_frame (maze : Maze) (numNodes : Int) (nodeType : Cell)
    (pre : Option (List Pos)) (rng : Nat → Draw) (hname : nodeType ≠ .num 1) :
    (placeOperationNodes maze numNodes nodeType pre rng).2.1.Nodup ∧
    (∀ p ∈ (placeOperationNodes maze numNodes nodeType pre rng).2.1,
      cellAt maze p = some (.num 1) ∧
      cellAt (placeOperationNodes maze numNodes nodeType pre rng).1 p = some nodeType) ∧
    (∀ q, q ∉ (placeOperationNodes maze numNodes nodeType pre rng).2.1 →
      cellAt (placeOperationNodes maze numNodes nodeType pre rng).1 q = cellAt maze q) ∧
    (placeOperationNodes maze numNodes nodeType pre rng).1.map List.length
      = maze.map List.length := by
  unfold placeOperationNodes
  simp only
  have h1 := placePredefined_frame maze numNodes nodeType hname (pre.getD []) maze []
    ⟨List.nodup_nil, by simp, fun q _ => rfl⟩
  have h2 := placeRandom_frame maze numNodes nodeType hname rng
    (openPositions (placePredefined numNodes nodeType (pre.getD []) maze []).1).length 0
    (openPositions (placePredefined numNodes nodeType (pre.getD []) maze []).1)
    (placePredefined numNodes nodeType (pre.getD []) maze []).1
    (placePredefined numNodes nodeType (pre.getD []) maze []).2 h1
    ((allCells_nodup _ _).sublist (List.filter_sublist _))
    (by
      intro p hp
      simp only [openPositions, List.mem_filter, decide_eq_true_eq] at hp
      exact hp.2)
  refine ⟨h2.1, h2.2.1, h2.2.2, ?_⟩
  rw [map_length_placeRandom, map_length_placePredefined]

theorem placeOperationNodes_frame_witness :
    (placeOperationNodes (openGrid 2 2) 2 (.num 2) (some [(0, 0)])
      (fun _ => { num := 0, gap := 0 })).2.1 = [(0, 0), (0, 1)] ∧
    (placeOperationNodes (openGrid 2 2) 2 (.num 2) (some [(0, 0)])
      (fun _ => { num := 0, gap := 0 })).2.1.Nodup :=
  ⟨by decide, (placeOperationNodes_frame (openGrid 2 2) 2 (.num 2) (some [(0, 0)])
    (fun _ => { num := 0, gap := 0 }) (by decide)).1⟩

/-! ## Relocation of the start and of the goals in the crop -/

theorem cellAt_nonneg {maze : Maze} {p : Pos} {v : Cell} (h : cellAt maze p = some v) :
    0 ≤ p.1 ∧ 0 ≤ p.2 := by
  unfold cellAt at h
  by_contra hc
  rw [if_neg hc] at h
  cases h

theorem cellAt_cropCells_eq_one (maze : Maze) (rect : CropRect) (p : Pos) :
    cellAt (cropCells maze rect) p = some (.num 1) ↔ isOpenInRect maze rect p := by
  rw [cellAt_cropCells]
  unfold isOpenInRect
  cases hc : cellAt maze p with
  | none => simp
  | some v =>
    by_cases hin : rect.contains p = true
    · by_cases hv : v = Cell.num 0
      · simp [hin, hv]
      · simp [hin, hv]
    · simp [hin]

theorem mem_cropAvailable (maze : Maze) (rect : CropRect) (p : Pos) :
    p ∈ cropAvailable (cropCells maze rect) rect ↔ isCropCandidate maze rect p := by
  unfold cropAvailable isCropCandidate
  simp only [List.mem_map, List.mem_filter, mem_rectCells, decide_eq_true_eq, croppedAt]
  constructor
  · rintro ⟨pos, ⟨hin, hcell⟩, rfl⟩
    refine ⟨(cellAt_cropCells_eq_one maze rect _).mp hcell, ?_⟩
    simp only [CropRect.contains, Bool.and_eq_true, decide_eq_true_eq] at hin
    simp only
    omega
  · rintro ⟨hopen, h1, h2⟩
    obtain ⟨v, hv, -⟩ := hopen.2
    have hnn := cellAt_nonneg hv
    refine ⟨(p.1 + rect.y1, p.2 + rect.x1), ⟨?_, ?_⟩, ?_⟩
    · simp only [CropRect.contains, Bool.and_eq_true, decide_eq_true_eq]
      omega
    · simp only [add_sub_cancel_right]
      exact (cellAt_cropCells_eq_one maze rect p).mpr hopen
    · simp

theorem foldl_least (rest : List Pos) :
    ∀ init : Pos,
      (rest.foldl (fun prev curr => if prev.1 + prev.2 < curr.1 + curr.2 then prev else curr)
          init = init ∨
        rest.foldl (fun prev curr => if prev.1 + prev.2 < curr.1 + curr.2 then prev else curr)
          init ∈ rest) ∧
      ∀ q, q = init ∨ q ∈ rest →
        (rest.foldl (fun prev curr => if prev.1 + prev.2 < curr.1 + curr.2 then prev else curr)
          init).1 +
        (rest.foldl (fun prev curr => if prev.1 + prev.2 < curr.1 + curr.2 then prev else curr)
          init).2 ≤ q.1 + q.2 := by
  induction rest with
  | nil =>
    intro init
    refine ⟨Or.inl rfl, ?_⟩
    rintro q (rfl | hq)
    · exact le_refl _
    · cases hq
  | cons c rest ih =>
    intro init
    simp only [List.foldl_cons]
    by_cases hc : init.1 + init.2 < c.1 + c.2
    · rw [if_pos hc]
      obtain ⟨h1, h2⟩ := ih init
      constructor
      · rcases h1 with h1 | h1
        · exact Or.inl h1
        · exact Or.inr (List.mem_cons_of_mem _ h1)
      · rintro q (rfl | hq)
        · exact h2 _ (Or.inl rfl)
        · rcases List.mem_cons.mp hq with rfl | hq
          · have := h2 init (Or.inl rfl)
            omega
          · exact h2 q (Or.inr hq)
    · rw [if_neg hc]
      obtain ⟨h1, h2⟩ := ih c
      constructor
      · rcases h1 with h1 | h1
        · rw [h1]
          exact Or.inr (List.mem_cons_self _ _)
        · exact Or.inr (List.mem_cons_of_mem _ h1)
      · rintro q (rfl | hq)
        · have := h2 c (Or.inl rfl)
          omega
        · rcases List.mem_cons.mp hq with rfl | hq
          · exact h2 _ (Or.inl rfl)
          · exact h2 q (Or.inr hq)

theorem foldl_greatest (rest : List Pos) :
    ∀ init : Pos,
      (rest.foldl (fun prev curr => if prev.1 + prev.2 > curr.1 + curr.2 then prev else curr)
          init = init ∨
        rest.foldl (fun prev curr => if prev.1 + prev.2 > curr.1 + curr.2 then prev else curr)
          init ∈ rest) ∧
      ∀ q, q = init ∨ q ∈ rest →
        q.1 + q.2 ≤
        (rest.foldl (fun prev curr => if prev.1 + prev.2 > curr.1 + curr.2 then prev else curr)
          init).1 +
        (rest.foldl (fun prev curr => if prev.1 + prev.2 > curr.1 + curr.2 then prev else curr)
          init).2 := by
  induction rest with
  | nil =>
    intro init
    refine ⟨Or.inl rfl, ?_⟩
    rintro q (rfl | hq)
    · exact le_refl _
    · cases hq
  | cons c rest ih =>
    intro init
    simp only [List.foldl_cons]
    by_cases hc : init.1 + init.2 > c.1 + c.2
    · rw [if_pos hc]
      obtain ⟨h1, h2⟩ := ih init
      constructor
      · rcases h1 with h1 | h1
        · exact Or.inl h1
        · exact Or.inr (List.mem_cons_of_mem _ h1)
      · rintro q (rfl | hq)
        · exact h2 _ (Or.inl rfl)
        · rcases List.mem_cons.mp hq with rfl | hq
          · have := h2 init (Or.inl rfl)
            omega
          · exact h2 q (Or.inr hq)
    · rw [if_neg hc]
      obtain ⟨h1, h2⟩ := ih c
      constructor
      · rcases h1 with h1 | h1
        · rw [h1]
          exact Or.inr (List.mem_cons_self _ _)
        · exact Or.inr (List.mem_cons_of_mem _ h1)
      · rintro q (rfl | hq)
        · have := h2 c (Or.inl rfl)
          omega
        · rcases List.mem_cons.mp hq with rfl | hq
          · exact h2 _ (Or.inl rfl)
          · exact h2 q (Or.inr hq)

theorem reduce1_least {l : List Pos} {a : Pos}
    (h : reduce1 (fun prev curr => if prev.1 + prev.2 < curr.1 + curr.2 then prev else curr) l
      = some a) :
    a ∈ l ∧ ∀ q ∈ l, a.1 + a.2 ≤ q.1 + q.2 := by
  cases l with
  | nil => cases h
  | cons b rest =>
    simp only [reduce1, Option.some.injEq] at h
    obtain ⟨h1, h2⟩ := foldl_least rest b
    rw [h] at h1 h2
    refine ⟨?_, fun q hq => h2 q (List.mem_cons.mp hq)⟩
    rcases h1 with h1 | h1
    · rw [h1]; exact List.mem_cons_self _ _
    · exact List.mem_cons_of_mem _ h1

theorem reduce1_greatest {l : List Pos} {a : Pos}
    (h : reduce1 (fun prev curr => if prev.1 + prev.2 > curr.1 + curr.2 then prev else curr) l
      = some a) :
    a ∈ l ∧ ∀ q ∈ l, q.1 + q.2 ≤ a.1 + a.2 := by
  cases l with
  | nil => cases h
  | cons b rest =>
    simp only [reduce1, Option.some.injEq] at h
    obtain ⟨h1, h2⟩ := foldl_greatest rest b
    rw [h] at h1 h2
    refine ⟨?_, fun q hq => h2 q (List.mem_cons.mp hq)⟩
    rcases h1 with h1 | h1
    · rw [h1]; exact List.mem_cons_self _ _
    · exact List.mem_cons_of_mem _ h1

theorem reduce1_isSome {α : Type} (f : α → α → α) {l : List α} {a : α} (h : a ∈ l) :
    ∃ b, reduce1 f l = some b := by
  cases l with
  | nil => cases h
  | cons c rest => exact ⟨_, rfl⟩

theorem mapM_eq_some {α β : Type} (f : α → Option β) :
    ∀ (l : List α) (l2 : List β), l.mapM f = some l2 →
      l2.length = l.length ∧
      ∀ (i : Nat) (a : α), l[i]? = some a → ∃ b, l2[i]? = some b ∧ f a = some b := by
  intro l
  induction l with
  | nil =>
    intro l2 h
    simp only [List.mapM_nil] at h
    cases h
    exact ⟨rfl, fun i a ha => by simp at ha⟩
  | cons x rest ih =>
    intro l2 h
    rw [List.mapM_cons] at h
    cases hx : f x with
    | none => rw [hx] at h; cases h
    | some b =>
      rw [hx] at h
      cases hr : rest.mapM f with
      | none => rw [hr] at h; cases h
      | some bs =>
        rw [hr] at h
        cases h
        obtain ⟨h1, h2⟩ := ih bs hr
        refine ⟨by simp [h1], ?_⟩
        intro i a ha
        cases i with
        | zero =>
          simp only [List.getElem?_cons_zero, Option.some.injEq] at ha
          subst ha
          exact ⟨b, by simp, hx⟩
        | succ i =>
          simp only [List.getElem?_cons_succ] at ha ⊢
          exact h2 i a ha

theorem mapM_isSome {α β : Type} (f : α → Option β) :
    ∀ l : List α, (∀ a ∈ l, ∃ b, f a = some b) → ∃ l2, l.mapM f = some l2 := by
  intro l
  induction l with
  | nil => intro _; exact ⟨[], rfl⟩
  | cons x rest ih =>
    intro h
    obtain ⟨b, hb⟩ := h x (List.mem_cons_self _ _)
    obtain ⟨bs, hbs⟩ := ih (fun a ha => h a (List.mem_cons_of_mem _ ha))
    exact ⟨b :: bs, by rw [List.mapM_cons, hb, hbs]; rfl⟩

theorem cropAndAdjustMaze_returns (maze : Maze) (adj : AdjMatrix) (nd : NodeDetails)
    (rect : CropRect) (ROWS COLS : Nat) (h : ∃ q, isCropCandidate maze rect q) :
    ∃ r, cropAndAdjustMaze maze adj nd rect ROWS COLS = some r := by
  obtain ⟨q, hq⟩ := h
  have hq' := (mem_cropAvailable maze rect q).mpr hq
  have hs : ∃ s, cropStart (cropCells maze rect) rect nd.start = some s := by
    unfold cropStart
    split_ifs
    · exact ⟨_, rfl⟩
    · exact reduce1_isSome _ hq'
  have hg : ∃ gs, nd.goal.mapM (cropGoal (cropCells maze rect) rect) = some gs := by
    apply mapM_isSome
    intro g _
    unfold cropGoal
    split_ifs
    · exact ⟨_, rfl⟩
    · exact reduce1_isSome _ hq'
  obtain ⟨s, hs⟩ := hs
  obtain ⟨gs, hg⟩ := hg
  unfold cropAndAdjustMaze
  simp only [hs, hg]
  exact ⟨_, rfl⟩

/-- The start that `cropAndAdjustMaze` returns. When the start lies inside the rectangle,
`cropAndAdjustMaze` keeps it.
Otherwise the returned start is a cell that is inside the rectangle, not blocked, and whose row
and column are at most `y2 - y1` and `x2 - x1`, and its `row + col` is the least among these
cells; on a grid of the given size, with a square matrix and a rectangle inside the grid, the
crop returns whenever there is such a cell.  For a rectangle with `x1 = 0` and `y1 = 0` these
cells are all the cells inside the rectangle that are not blocked. -/
theorem cropAndAdjustMaze_start (maze : Maze) (adj : AdjMatrix) (nd : NodeDetails)
    (rect : CropRect) (ROWS COLS : Nat) :
    (∀ r, cropAndAdjustMaze maze adj nd rect ROWS COLS = some r →
      rect.contains nd.start = true → r.nodeDetails.start = nd.start) ∧
    (∀ r, cropAndAdjustMaze maze adj nd rect ROWS COLS = some r →
      rect.contains nd.start = false →
      isCropCandidate maze rect r.nodeDetails.start ∧
      ∀ q, isCropCandidate maze rect q →
        r.nodeDetails.start.1 + r.nodeDetails.start.2 ≤ q.1 + q.2) ∧
    (hasShape maze ROWS COLS → isSquare adj (ROWS * COLS) → rect.inBounds ROWS COLS →
      (∃ q, isCropCandidate maze rect q) →
      ∃ r, cropAndAdjustMaze maze adj nd rect ROWS COLS = some r) ∧
    (rect.x1 = 0 → rect.y1 = 0 →
      ∀ q, isCropCandidate maze rect q ↔ isOpenInRect maze rect q) := by
  refine ⟨?_, ?_, ?_, ?_⟩
  · intro r h hin
    obtain ⟨start, goals, hs, -, hnd, -, -⟩ := cropAndAdjustMaze_eq_some h
    unfold cropStart at hs
    rw [if_pos hin] at hs
    rw [hnd]
    exact (Option.some.inj hs).symm
  · intro r h hout
    obtain ⟨start, goals, hs, -, hnd, -, -⟩ := cropAndAdjustMaze_eq_some h
    unfold cropStart at hs
    rw [if_neg (by simp [hout])] at hs
    obtain ⟨h1, h2⟩ := reduce1_least hs
    rw [hnd]
    exact ⟨(mem_cropAvailable maze rect start).mp h1,
      fun q hq => h2 q ((mem_cropAvailable maze rect q).mpr hq)⟩
  · intro _ _ _ h
    exact cropAndAdjustMaze_returns maze adj nd rect ROWS COLS h
  · intro hx hy q
    unfold isCropCandidate
    constructor
    · exact fun h => h.1
    · intro h
      refine ⟨h, ?_⟩
      have hin := h.1
      simp only [CropRect.contains, Bool.and_eq_true, decide_eq_true_eq] at hin
      omega

/-- C11. A start outside the rectangle is relocated to a cell whose `row + col` is not the least
among the open cells of the rectangle, where the claim, like the comment of the code (choose the
most top-left position for the start), has the least. The pool of cells is read at
`croppedMaze[row - y1][col - x1]` and filled with `[row - y1, col - x1]`, although the cropped
grid keeps the coordinates of the grid. On a 3 by 3 grid with the rows `s 1 1`, `0 0 1`, `1 1 g`
and the rectangle `[0, 1, 2, 2]` of the rows 1 to 2, the start `(0, 0)` is relocated to `(1, 2)`
although the open cell `(2, 0)` of the rectangle has a smaller `row + col`; and on the open
7 by 7 grid with the rectangle `[3, 3, 4, 4]`, which holds four open cells, the relocation of
the start `(0, 0)` finds no cell and the crop does not return. -/
theorem cropAndAdjustMaze_start_not_least :
    (cropAndAdjustMaze
        [[.str "s", .num 1, .num 1], [.num 0, .num 0, .num 1], [.num 1, .num 1, .str "g"]]
        (initialAdjMatrix
          [[.str "s", .num 1, .num 1], [.num 0, .num 0, .num 1], [.num 1, .num 1, .str "g"]]
          3 3)
        { start := (0, 0), goal := [(2, 2)], operation := [] } ⟨0, 1, 2, 2⟩ 3 3).map
      (fun r => r.nodeDetails.start) = some (1, 2) ∧
    cellAt [[.str "s", .num 1, .num 1], [.num 0, .num 0, .num 1], [.num 1, .num 1, .str "g"]]
      (2, 0) = some (.num 1) ∧
    (⟨0, 1, 2, 2⟩ : CropRect).contains (2, 0) = true ∧
    cropAndAdjustMaze (openGrid 7 7) (initialAdjMatrix (openGrid 7 7) 7 7) defaultNodeDetails
      ⟨3, 3, 4, 4⟩ 7 7 = none := by
  decide

/-- The goals that `cropAndAdjustMaze` returns. It keeps every goal that lies inside the
rectangle and
relocates every goal outside it to one and the same cell: a cell inside the rectangle, not
blocked, with row and column at most `y2 - y1` and `x2 - x1`, whose `row + col` is the greatest
among these cells.  The pool of cells is rebuilt for every goal, so two goals outside the
rectangle get the same cell. -/
theorem cropAndAdjustMaze_goals (maze : Maze) (adj : AdjMatrix) (nd : NodeDetails)
    (rect : CropRect) (ROWS COLS : Nat) :
    (∀ r, cropAndAdjustMaze maze adj nd rect ROWS COLS = some r →
      r.nodeDetails.goal.length = nd.goal.length ∧
      (∀ (i : Nat) (g : Pos), nd.goal[i]? = some g → rect.contains g = true →
        r.nodeDetails.goal[i]? = some g) ∧
      ∃ p : Pos, ∀ (i : Nat) (g : Pos), nd.goal[i]? = some g → rect.contains g = false →
        r.nodeDetails.goal[i]? = some p ∧ isCropCandidate maze rect p ∧
        ∀ q, isCropCandidate maze rect q → q.1 + q.2 ≤ p.1 + p.2) ∧
    (hasShape maze ROWS COLS → isSquare adj (ROWS * COLS) → rect.inBounds ROWS COLS →
      (∃ q, isCropCandidate maze rect q) →
      ∃ r, cropAndAdjustMaze maze adj nd rect ROWS COLS = some r) := by
  refine ⟨?_, fun _ _ _ h => cropAndAdjustMaze_returns maze adj nd rect ROWS COLS h⟩
  intro r h
  obtain ⟨start, goals, -, hg, hnd, -, -⟩ := cropAndAdjustMaze_eq_some h
  obtain ⟨hlen, hget⟩ := mapM_eq_some _ _ _ hg
  rw [hnd]
  refine ⟨hlen, ?_, ?_⟩
  · intro i g hi hin
    obtain ⟨b, hb, hf⟩ := hget i g hi
    unfold cropGoal at hf
    rw [if_pos hin] at hf
    rw [hb, ← hf]
  · refine ⟨(reduce1 (fun prev curr => if prev.1 + prev.2 > curr.1 + curr.2 then prev
      else curr) (cropAvailable (cropCells maze rect) rect)).getD (0, 0), ?_⟩
    intro i g hi hout
    obtain ⟨b, hb, hf⟩ := hget i g hi
    unfold cropGoal at hf
    rw [if_neg (by simp [hout])] at hf
    obtain ⟨h1, h2⟩ := reduce1_greatest hf
    rw [hf]
    exact ⟨hb, (mem_cropAvailable maze rect b).mp h1,
      fun q hq => h2 q ((mem_cropAvailable maze rect q).mpr hq)⟩

/-- C12. Two goals outside the rectangle are relocated to the same cell, where the claim has two
different cells. The code removes the chosen cell from the pool with `splice`, but the pool is
built anew inside the callback of every goal, so the removal is lost. On the open 7 by 7 grid
with the rectangle `[0, 0, 2, 2]`, which holds nine open cells, the two goals `(4, 4)` and
`(6, 6)` are both relocated to `(2, 2)`. -/
theorem cropAndAdjustMaze_goals_collide :
    (cropAndAdjustMaze (openGrid 7 7) (initialAdjMatrix (openGrid 7 7) 7 7) defaultNodeDetails
        ⟨0, 0, 2, 2⟩ 7 7).map (fun r => r.nodeDetails.goal) = some [(2, 2), (2, 2)] ∧
    defaultNodeDetails.goal = [(4, 4), (6, 6)] := by
  decide

/-! ## The matrix of the crop outside the rectangle -/

theorem valid_of_cellAt {maze : Maze} {ROWS COLS : Nat} (h : hasShape maze ROWS COLS)
    {p : Pos} {v : Cell} (hv : cellAt maze p = some v) :
    isValidMatrixIndex p ROWS COLS = true := by
  have hnn := cellAt_nonneg hv
  unfold cellAt at hv
  rw [if_pos hnn] at hv
  cases hrow : maze[p.1.toNat]? with
  | none => rw [hrow] at hv; cases hv
  | some row =>
    rw [hrow] at hv
    simp only [Option.some_bind] at hv
    have hi : p.1.toNat < maze.length := (List.getElem?_eq_some.mp hrow).1
    rw [hasShape_length h] at hi
    obtain ⟨row2, hrow2, hlen⟩ := hasShape_row h hi
    rw [hrow] at hrow2
    cases hrow2
    have hj : p.2.toNat < row.length := (List.getElem?_eq_some.mp hv).1
    rw [isValidMatrixIndex_iff]
    omega

theorem entryAt_clearNode (adj : AdjMatrix) (idx : Int) (ROWS COLS : Nat) (k l : Int) :
    ((∃ i ∈ List.range (ROWS * COLS), (k = idx ∧ l = (i : Int)) ∨ (k = (i : Int) ∧ l = idx)) →
      entryAt (clearNode adj idx ROWS COLS) k l = (entryAt adj k l).map fun _ => 0) ∧
    ((¬ ∃ i ∈ List.range (ROWS * COLS), (k = idx ∧ l = (i : Int)) ∨ (k = (i : Int) ∧ l = idx)) →
      entryAt (clearNode adj idx ROWS COLS) k l = entryAt adj k l) := by
  unfold clearNode
  apply entryAt_foldl_mark 0 _
    (fun (i : Nat) k l => (k = idx ∧ l = (i : Int)) ∨ (k = (i : Int) ∧ l = idx))
  intro adj i k l
  rw [entryAt_setBoth]
  constructor
  · intro h
    rw [if_pos h]
  · intro h
    rw [if_neg h]

theorem isSquare_clearNode {adj : AdjMatrix} {n : Nat} (h : isSquare adj n) (idx : Int)
    (ROWS COLS : Nat) : isSquare (clearNode adj idx ROWS COLS) n := by
  unfold clearNode
  exact isSquare_foldl _ (fun adj i hadj => isSquare_setBoth hadj _ _ _) _ _ h

theorem isSquare_markInactiveNodes {adj : AdjMatrix} {n : Nat} (h : isSquare adj n)
    (rect : CropRect) (ROWS COLS : Nat) : isSquare (markInactiveNodes adj rect ROWS COLS) n := by
  unfold markInactiveNodes
  apply isSquare_foldl
  · intro adj pos hadj
    split_ifs
    · exact hadj
    · exact isSquare_clearNode hadj _ _ _
  · simpa using h

/-- After `markInactiveNodes` every entry in the row or in the column of a cell outside the
rectangle is 0. -/
theorem entryAt_markInactiveNodes {adj : AdjMatrix} {ROWS COLS : Nat}
    (hsq : isSquare adj (ROWS * COLS)) (rect : CropRect) {p q : Pos}
    (hp : isValidMatrixIndex p ROWS COLS = true) (hq : isValidMatrixIndex q ROWS COLS = true)
    (hout : rect.contains p = false ∨ rect.contains q = false) :
    entryAt (markInactiveNodes adj rect ROWS COLS) (cellIndex p COLS) (cellIndex q COLS)
      = some 0 := by
  have hbp := cellIndex_bounds hp
  have hbq := cellIndex_bounds hq
  have hmark := (entryAt_foldl_mark 0
    (fun adj pos => if rect.contains pos then adj else clearNode adj (cellIndex pos COLS)
      ROWS COLS)
    (fun pos k l => rect.contains pos = false ∧
      ∃ i ∈ List.range (ROWS * COLS),
        (k = cellIndex pos COLS ∧ l = (i : Int)) ∨ (k = (i : Int) ∧ l = cellIndex pos COLS))
    (by
      intro adj pos k l
      dsimp only
      by_cases hc : rect.contains pos = true
      · rw [if_pos hc]
        constructor
        · intro hT
          rw [hc] at hT
          cases hT.1
        · intro _; rfl
      · rw [if_neg hc]
        have hc' : rect.contains pos = false := by simpa using hc
        obtain ⟨h1, h2⟩ := entryAt_clearNode adj (cellIndex pos COLS) ROWS COLS k l
        constructor
        · intro hT
          exact h1 hT.2
        · intro hT
          exact h2 (fun hex => hT ⟨hc', hex⟩))
    (allCells ROWS COLS) (adj.map fun row => row) (cellIndex p COLS) (cellIndex q COLS)).1
  unfold markInactiveNodes
  rw [hmark]
  · obtain ⟨v, hv⟩ := entryAt_isSome_of_isSquare hsq hbp hbq
    simp [hv]
  · rcases hout with h | h
    · refine ⟨p, (mem_allCells p ROWS COLS).mpr hp, h, (cellIndex q COLS).toNat, ?_, ?_⟩
      · rw [List.mem_range]; omega
      · left
        exact ⟨rfl, (Int.toNat_of_nonneg hbq.1).symm⟩
    · refine ⟨q, (mem_allCells q ROWS COLS).mpr hq, h, (cellIndex p COLS).toNat, ?_, ?_⟩
      · rw [List.mem_range]; omega
      · right
        exact ⟨(Int.toNat_of_nonneg hbp.1).symm, rfl⟩

theorem cropIndex_eq_cellIndex (rect : CropRect) (COLS : Nat) (pos : Pos) :
    cropIndex rect COLS pos = cellIndex (pos.1 - rect.y1, pos.2 - rect.x1) COLS := rfl

/-- A cell that the crop reads as open at its shifted position: the shifted position is a cell
of the grid inside the rectangle. -/
theorem croppedAt_one {maze : Maze} {ROWS COLS : Nat} (hshape : hasShape maze ROWS COLS)
    {rect : CropRect} {pos : Pos}
    (h : croppedAt (cropCells maze rect) rect pos = some (.num 1)) :
    isValidMatrixIndex (pos.1 - rect.y1, pos.2 - rect.x1) ROWS COLS = true ∧
      rect.contains (pos.1 - rect.y1, pos.2 - rect.x1) = true := by
  unfold croppedAt at h
  have hopen := (cellAt_cropCells_eq_one maze rect _).mp h
  obtain ⟨v, hv, -⟩ := hopen.2
  exact ⟨valid_of_cellAt hshape hv, hopen.1⟩

theorem wireCell_outside {maze : Maze} {ROWS COLS : Nat} (hshape : hasShape maze ROWS COLS)
    (rect : CropRect) (state : AdjMatrix × List Int) (pos : Pos)
    (hsq : isSquare state.1 (ROWS * COLS))
    (hz : ∀ p q : Pos, isValidMatrixIndex p ROWS COLS = true →
      isValidMatrixIndex q ROWS COLS = true →
      (rect.contains p = false ∨ rect.contains q = false) →
      entryAt state.1 (cellIndex p COLS) (cellIndex q COLS) = some 0) :
    isSquare (wireCell (cropCells maze rect) rect COLS state pos).1 (ROWS * COLS) ∧
    ∀ p q : Pos, isValidMatrixIndex p ROWS COLS = true →
      isValidMatrixIndex q ROWS COLS = true →
      (rect.contains p = false ∨ rect.contains q = false) →
      entryAt (wireCell (cropCells maze rect) rect COLS state pos).1
        (cellIndex p COLS) (cellIndex q COLS) = some 0 := by
  unfold wireCell
  by_cases hc : cropIndex rect COLS pos ∉ state.2 ∧
      croppedAt (cropCells maze rect) rect pos = some (.num 1)
  · rw [if_pos hc]
    cases hf : (getNeighbors pos).find? fun neighbor =>
        rect.contains neighbor && decide (cropIndex rect COLS neighbor ∈ state.2) &&
          decide (croppedAt (cropCells maze rect) rect neighbor = some (.num 1)) with
    | none => exact ⟨hsq, hz⟩
    | some nb =>
      simp only
      have hnb := List.find?_some hf
      simp only [Bool.and_eq_true, decide_eq_true_eq] at hnb
      obtain ⟨hv1, hc1⟩ := croppedAt_one hshape hc.2
      obtain ⟨hv2, hc2⟩ := croppedAt_one hshape hnb.2
      refine ⟨isSquare_setBoth hsq _ _ _, ?_⟩
      intro p q hp hq hout
      rw [entryAt_setBoth, cropIndex_eq_cellIndex, cropIndex_eq_cellIndex, if_neg]
      · exact hz p q hp hq hout
      · rintro (⟨e1, e2⟩ | ⟨e1, e2⟩)
        · have ep := cellIndex_inj hp hv1 e1
          have eq := cellIndex_inj hq hv2 e2
          rw [ep, eq, hc1, hc2] at hout
          simp at hout
        · have ep := cellIndex_inj hp hv2 e1
          have eq := cellIndex_inj hq hv1 e2
          rw [ep, eq, hc1, hc2] at hout
          simp at hout
  · rw [if_neg hc]
    exact ⟨hsq, hz⟩

/-- C13. On a grid of `ROWS` rows and `COLS` columns with a square matrix of size `ROWS * COLS`,
the matrix returned by `cropAndAdjustMaze` is square of the same size, and every entry in the
row or in the column of a cell outside the rectangle is 0, also after the connectivity repair
has added its edges. -/
theorem cropAndAdjustMaze_outside_zero (maze : Maze) (adj : AdjMatrix) (nd : NodeDetails)
    (rect : CropRect) (ROWS COLS : Nat) (r : CropResult)
    (hshape : hasShape maze ROWS COLS) (hsq : isSquare adj (ROWS * COLS))
    (h : cropAndAdjustMaze maze adj nd rect ROWS COLS = some r) :
    isSquare r.croppedAdjMatrix (ROWS * COLS) ∧
    ∀ p q : Pos, isValidMatrixIndex p ROWS COLS = true →
      isValidMatrixIndex q ROWS COLS = true →
      (rect.contains p = false ∨ rect.contains q = false) →
      entryAt r.croppedAdjMatrix (cellIndex p COLS) (cellIndex q COLS) = some 0 := by
  obtain ⟨start, goals, -, -, -, -, hadj⟩ := cropAndAdjustMaze_eq_some h
  rw [hadj]
  unfold cropEnsureFullConnectivity
  have key : ∀ (l : List Pos) (state : AdjMatrix × List Int),
      isSquare state.1 (ROWS * COLS) →
      (∀ p q : Pos, isValidMatrixIndex p ROWS COLS = true →
        isValidMatrixIndex q ROWS COLS = true →
        (rect.contains p = false ∨ rect.contains q = false) →
        entryAt state.1 (cellIndex p COLS) (cellIndex q COLS) = some 0) →
      isSquare (l.foldl (wireCell (cropCells maze rect) rect COLS) state).1 (ROWS * COLS) ∧
      ∀ p q : Pos, isValidMatrixIndex p ROWS COLS = true →
        isValidMatrixIndex q ROWS COLS = true →
        (rect.contains p = false ∨ rect.contains q = false) →
        entryAt (l.foldl (wireCell (cropCells maze rect) rect COLS) state).1
          (cellIndex p COLS) (cellIndex q COLS) = some 0 := by
    intro l
    induction l with
    | nil => intro state h1 h2; exact ⟨h1, h2⟩
    | cons pos rest ih =>
      intro state h1 h2
      simp only [List.foldl_cons]
      obtain ⟨h3, h4⟩ := wireCell_outside hshape rect state pos h1 h2
      exact ih _ h3 h4
  exact key _ _ (isSquare_markInactiveNodes hsq rect ROWS COLS)
    (fun p q hp hq hout => entryAt_markInactiveNodes hsq rect hp hq hout)

theorem cropAndAdjustMaze_outside_zero_witness :
    cropAndAdjustMaze (openGrid 2 2) (initialAdjMatrix (openGrid 2 2) 2 2)
        { start := (0, 0), goal := [(1, 0)], operation := [] } ⟨0, 0, 0, 1⟩ 2 2 =
      some { croppedMaze := [[.str "s", .null], [.str "g", .null]],
             croppedAdjMatrix := [[0, 0, 1, 0], [0, 0, 0, 0], [1, 0, 0, 0], [0, 0, 0, 0]],
             nodeDetails := { start := (0, 0), goal := [(1, 0)], operation := [] } } ∧
    entryAt [[0, 0, 1, 0], [0, 0, 0, 0], [1, 0, 0, 0], [0, 0, 0, 0]]
      (cellIndex (0, 0) 2) (cellIndex (0, 1) 2) = some 0 :=
  ⟨by decide,
    (cropAndAdjustMaze_outside_zero (openGrid 2 2) (initialAdjMatrix (openGrid 2 2) 2 2)
      { start := (0, 0), goal := [(1, 0)], operation := [] } ⟨0, 0, 0, 1⟩ 2 2
      { croppedMaze := [[.str "s", .null], [.str "g", .null]],
        croppedAdjMatrix := [[0, 0, 1, 0], [0, 0, 0, 0], [1, 0, 0, 0], [0, 0, 0, 0]],
        nodeDetails := { start := (0, 0), goal := [(1, 0)], operation := [] } }
      (hasShape_openGrid 2 2) (isSquare_initialAdjMatrix _ 2 2) (by decide)).2
      (0, 0) (0, 1) (by decide) (by decide) (Or.inr (by decide))⟩

/-! ## The search of the crop -/

theorem length_rectCells (rect : CropRect) : (rectCells rect).length = rect.size := by
  unfold rectCells CropRect.size
  generalize (rect.y2 - rect.y1 + 1).toNat = n
  induction n with
  | zero => simp
  | succ n ih =>
    rw [List.range_succ, List.flatMap_append, List.length_append, ih]
    simp [Nat.succ_mul]

theorem length_le_of_nodup_keys (rect : CropRect) (COLS : Nat) (l : List Int) (hnd : l.Nodup)
    (hin : ∀ k ∈ l, ∃ p, rect.contains p = true ∧ cropIndex rect COLS p = k) :
    l.length ≤ rect.size := by
  have hsub : l ⊆ (rectCells rect).map (cropIndex rect COLS) := by
    intro k hk
    obtain ⟨p, hp, rfl⟩ := hin k hk
    exact List.mem_map.mpr ⟨p, (mem_rectCells rect p).mpr hp, rfl⟩
  have hle := (hnd.subperm hsub).length_le
  simpa [length_rectCells] using hle

theorem contains_of_mem_cropNeighbors {adj : AdjMatrix} {rect : CropRect} {COLS : Nat}
    {a b : Pos} (h : b ∈ cropNeighbors adj rect COLS a) : rect.contains b = true := by
  unfold cropNeighbors at h
  simp only [List.mem_filter, Bool.and_eq_true, decide_eq_true_eq] at h
  exact h.2.1

theorem mem_cropNeighbors (adj : AdjMatrix) (rect : CropRect) (COLS : Nat) (a b : Pos) :
    b ∈ cropNeighbors adj rect COLS a ↔
      b ∈ getNeighbors a ∧ rect.contains b = true ∧
        entryAt adj (cropIndex rect COLS a) (cropIndex rect COLS b) = some 1 := by
  simp [cropNeighbors, List.mem_filter]

theorem reach_contains {adj : AdjMatrix} {rect : CropRect} {COLS : Nat} {a b : Pos}
    (ha : rect.contains a = true) (h : Reach (cropNeighbors adj rect COLS) a b) :
    rect.contains b = true := by
  induction h with
  | refl => exact ha
  | tail _ hstep _ => exact contains_of_mem_cropNeighbors hstep

/-- The search of the crop visits exactly the indices of the cells that can be reached from its
start inside the rectangle, provided the index tells the cells of the rectangle apart. -/
theorem getAllConnectedNodes_spec (adj : AdjMatrix) (rect : CropRect) (COLS : Nat) (start : Pos)
    (hstart : rect.contains start = true)
    (hinj : ∀ a b, rect.contains a = true → rect.contains b = true →
      cropIndex rect COLS a = cropIndex rect COLS b → a = b) :
    (∀ p, rect.contains p = true →
      (cropIndex rect COLS p ∈ getAllConnectedNodes start adj rect COLS ↔
        Reach (cropNeighbors adj rect COLS) start p)) ∧
    (∀ k ∈ getAllConnectedNodes start adj rect COLS,
      ∃ p, rect.contains p = true ∧ cropIndex rect COLS p = k) := by
  have hsucc : ∀ a : Pos, rect.contains a = true →
      ∀ b ∈ cropNeighbors adj rect COLS a, rect.contains b = true :=
    fun a _ b hb => contains_of_mem_cropNeighbors hb
  have hspec := bfsLoop_spec (cropIndex rect COLS) (cropNeighbors adj rect COLS)
    (fun _ => false) (fun a => rect.contains a = true)
    (fun k => ∃ p, rect.contains p = true ∧ cropIndex rect COLS p = k) rect.size hsucc
    hinj (fun a ha => ⟨a, ha, rfl⟩)
    (fun l hnd hin => length_le_of_nodup_keys rect COLS l hnd hin)
    (rect.size + 1) [cropIndex rect COLS start] [start]
    (by simp)
    (by
      intro k hk
      simp only [List.mem_singleton] at hk
      exact ⟨start, hstart, hk.symm⟩)
    (by
      intro q hq
      simp only [List.mem_singleton] at hq
      subst hq
      exact ⟨hstart, by simp⟩)
    (by
      intro a ha hka hna
      simp only [List.mem_singleton] at hka hna
      exact absurd (hinj a start ha hstart hka) hna)
    (by simp; omega)
  obtain ⟨h1, h2, h3, -, h5, h6⟩ := hspec
  have hfalse : (bfsLoop (cropIndex rect COLS) (cropNeighbors adj rect COLS) (fun _ => false)
      (rect.size + 1) [cropIndex rect COLS start] [start]).1 = false := by
    by_contra hne
    have ht : (bfsLoop (cropIndex rect COLS) (cropNeighbors adj rect COLS) (fun _ => false)
        (rect.size + 1) [cropIndex rect COLS start] [start]).1 = true := by simpa using hne
    obtain ⟨a, ha, -⟩ := h1 ht
    simp at ha
  have hcl := h2 hfalse
  unfold getAllConnectedNodes
  refine ⟨?_, h5⟩
  intro p hp
  constructor
  · intro hmem
    rcases h6 _ hmem with hk | ⟨a, hka, q, hq, hr⟩
    · simp only [List.mem_singleton] at hk
      rw [hinj p start hp hstart hk]
      exact Relation.ReflTransGen.refl
    · simp only [List.mem_singleton] at hq
      subst hq
      have ha : rect.contains a = true := reach_contains hstart hr
      rw [← hinj a p ha hp hka]
      exact hr
  · intro hr
    exact (closure_reach (cropIndex rect COLS) (cropNeighbors adj rect COLS)
      (fun a => rect.contains a = true) hsucc _ (fun a hPa ha => (hcl a hPa ha).2) hstart
      (h3 _ (by simp)) hr).2

/-! ## The connectivity repair on a rectangle at the corner of the grid -/

theorem contains_originRect (x2 y2 : Int) (p : Pos) :
    (originRect x2 y2).contains p = true ↔ 0 ≤ p.1 ∧ p.1 ≤ y2 ∧ 0 ≤ p.2 ∧ p.2 ≤ x2 := by
  simp only [CropRect.contains, originRect, Bool.and_eq_true, decide_eq_true_eq]
  omega

theorem cropIndex_originRect (x2 y2 : Int) (COLS : Nat) (p : Pos) :
    cropIndex (originRect x2 y2) COLS p = cellIndex p COLS := by
  simp [cropIndex, cellIndex, originRect]

theorem croppedAt_originRect (croppedMaze : Maze) (x2 y2 : Int) (p : Pos) :
    croppedAt croppedMaze (originRect x2 y2) p = cellAt croppedMaze p := by
  simp [croppedAt, originRect]

theorem valid_of_contains_originRect {x2 y2 : Int} {ROWS COLS : Nat} (hx2 : x2 < COLS)
    (hy2 : y2 < ROWS) {p : Pos} (hp : (originRect x2 y2).contains p = true) :
    isValidMatrixIndex p ROWS COLS = true := by
  rw [contains_originRect] at hp
  rw [isValidMatrixIndex_iff]
  omega

theorem cropIndex_inj_originRect {x2 y2 : Int} {ROWS COLS : Nat} (hx2 : x2 < COLS)
    (hy2 : y2 < ROWS) :
    ∀ a b, (originRect x2 y2).contains a = true → (originRect x2 y2).contains b = true →
      cropIndex (originRect x2 y2) COLS a = cropIndex (originRect x2 y2) COLS b → a = b := by
  intro a b ha hb h
  rw [cropIndex_originRect, cropIndex_originRect] at h
  exact cellIndex_inj (valid_of_contains_originRect hx2 hy2 ha)
    (valid_of_contains_originRect hx2 hy2 hb) h

theorem edgesLe_setBoth_one (adj : AdjMatrix) (a b : Int) : edgesLe adj (setBoth adj a b 1) := by
  intro i j h
  rw [entryAt_setBoth, h]
  split_ifs <;> rfl

theorem reach_crop_mono {adj1 adj2 : AdjMatrix} (h : edgesLe adj1 adj2) {rect : CropRect}
    {COLS : Nat} {a b : Pos} (hr : Reach (cropNeighbors adj1 rect COLS) a b) :
    Reach (cropNeighbors adj2 rect COLS) a b := by
  refine Relation.ReflTransGen.mono ?_ hr
  intro x y hxy
  rw [mem_cropNeighbors] at hxy ⊢
  exact ⟨hxy.1, hxy.2.1, h _ _ hxy.2.2⟩

/-- One round of the repair on the rectangle `[0, 0, x2, y2]`: the state stays a square matrix
with the set of the cells reached from the corner, no reached cell is lost, and the scanned cell
is reached afterwards when it is open and one of its neighbours is open and reached. -/
theorem wireCell_step {maze : Maze} {ROWS COLS : Nat} {x2 y2 : Int}
    (hx2 : 0 ≤ x2 ∧ x2 < COLS) (hy2 : 0 ≤ y2 ∧ y2 < ROWS)
    (state : AdjMatrix × List Int) (pos : Pos)
    (hpos : (originRect x2 y2).contains pos = true)
    (hsq : isSquare state.1 (ROWS * COLS))
    (hV : state.2 = getAllConnectedNodes (0, 0) state.1 (originRect x2 y2) COLS) :
    isSquare (wireCell (cropCells maze (originRect x2 y2)) (originRect x2 y2) COLS
      state pos).1 (ROWS * COLS) ∧
    (wireCell (cropCells maze (originRect x2 y2)) (originRect x2 y2) COLS state pos).2 =
      getAllConnectedNodes (0, 0)
        (wireCell (cropCells maze (originRect x2 y2)) (originRect x2 y2) COLS state pos).1
        (originRect x2 y2) COLS ∧
    (∀ k ∈ state.2,
      k ∈ (wireCell (cropCells maze (originRect x2 y2)) (originRect x2 y2) COLS state pos).2) ∧
    (isOpenInRect maze (originRect x2 y2) pos →
      (∃ nb ∈ getNeighbors pos, isOpenInRect maze (originRect x2 y2) nb ∧
        cellIndex nb COLS ∈ state.2) →
      cellIndex pos COLS ∈
        (wireCell (cropCells maze (originRect x2 y2)) (originRect x2 y2) COLS state pos).2) := by
  have h00 : (originRect x2 y2).contains (0, 0) = true := by
    rw [contains_originRect]
    simp only
    omega
  have hinj := @cropIndex_inj_originRect x2 y2 ROWS COLS hx2.2 hy2.2
  unfold wireCell
  by_cases hc : cropIndex (originRect x2 y2) COLS pos ∉ state.2 ∧
      croppedAt (cropCells maze (originRect x2 y2)) (originRect x2 y2) pos = some (.num 1)
  · rw [if_pos hc]
    cases hf : (getNeighbors pos).find? fun neighbor =>
        (originRect x2 y2).contains neighbor &&
          decide (cropIndex (originRect x2 y2) COLS neighbor ∈ state.2) &&
          decide (croppedAt (cropCells maze (originRect x2 y2)) (originRect x2 y2) neighbor
            = some (.num 1)) with
    | none =>
      refine ⟨hsq, hV, fun k hk => hk, ?_⟩
      intro _ hex
      obtain ⟨nb, hnb, hopen, hmem⟩ := hex
      have hnone := List.find?_eq_none.mp hf nb hnb
      exfalso
      apply hnone
      simp only [Bool.and_eq_true, decide_eq_true_eq]
      refine ⟨⟨hopen.1, ?_⟩, ?_⟩
      · rw [cropIndex_originRect]; exact hmem
      · rw [croppedAt_originRect]
        exact (cellAt_cropCells_eq_one maze _ nb).mpr hopen
    | some nb =>
      simp only
      have hnb := List.find?_some hf
      have hnbmem := List.mem_of_find?_eq_some hf
      simp only [Bool.and_eq_true, decide_eq_true_eq] at hnb
      obtain ⟨⟨hnbin, hnbV⟩, -⟩ := hnb
      have hle := edgesLe_setBoth_one state.1 (cropIndex (originRect x2 y2) COLS pos)
        (cropIndex (originRect x2 y2) COLS nb)
      have hsq2 := isSquare_setBoth hsq (cropIndex (originRect x2 y2) COLS pos)
        (cropIndex (originRect x2 y2) COLS nb) 1
      obtain ⟨hs1, hs1k⟩ := getAllConnectedNodes_spec state.1 (originRect x2 y2) COLS (0, 0)
        h00 hinj
      obtain ⟨hs2, -⟩ := getAllConnectedNodes_spec
        (setBoth state.1 (cropIndex (originRect x2 y2) COLS pos)
          (cropIndex (originRect x2 y2) COLS nb) 1) (originRect x2 y2) COLS (0, 0) h00 hinj
      have hreach_nb : Reach (cropNeighbors (setBoth state.1
          (cropIndex (originRect x2 y2) COLS pos) (cropIndex (originRect x2 y2) COLS nb) 1)
          (originRect x2 y2) COLS) (0, 0) nb := by
        rw [hV] at hnbV
        exact reach_crop_mono hle ((hs1 nb hnbin).mp hnbV)
      have hstep : pos ∈ cropNeighbors (setBoth state.1
          (cropIndex (originRect x2 y2) COLS pos) (cropIndex (originRect x2 y2) COLS nb) 1)
          (originRect x2 y2) COLS nb := by
        rw [mem_cropNeighbors]
        refine ⟨mem_getNeighbors_symm hnbmem, hpos, ?_⟩
        rw [entryAt_setBoth, if_pos (Or.inr ⟨rfl, rfl⟩)]
        have hb1 := cellIndex_bounds (valid_of_contains_originRect hx2.2 hy2.2 hnbin)
        have hb2 := cellIndex_bounds (valid_of_contains_originRect hx2.2 hy2.2 hpos)
        rw [← cropIndex_originRect x2 y2] at hb1 hb2
        obtain ⟨v, hv⟩ := entryAt_isSome_of_isSquare hsq hb1 hb2
        rw [hv]
        rfl
      refine ⟨hsq2, rfl, ?_, ?_⟩
      · intro k hk
        rw [hV] at hk
        obtain ⟨p, hp, rfl⟩ := hs1k k hk
        exact (hs2 p hp).mpr (reach_crop_mono hle ((hs1 p hp).mp hk))
      · intro _ _
        rw [← cropIndex_originRect x2 y2]
        exact (hs2 pos hpos).mpr (hreach_nb.tail hstep)
  · rw [if_neg hc]
    refine ⟨hsq, hV, fun k hk => hk, ?_⟩
    intro hopen _
    by_contra hnot
    apply hc
    refine ⟨?_, ?_⟩
    · rw [cropIndex_originRect]; exact hnot
    · rw [croppedAt_originRect]
      exact (cellAt_cropCells_eq_one maze _ pos).mpr hopen

/-- The scan of the repair over the rectangle `[0, 0, x2, y2]`, in which every open cell other
than the corner has an open neighbour above it or to its left: after the scan every open cell of
the rectangle is reached from the corner. -/
theorem wireCell_fold {maze : Maze} {ROWS COLS : Nat} {x2 y2 : Int}
    (hx2 : 0 ≤ x2 ∧ x2 < COLS) (hy2 : 0 ≤ y2 ∧ y2 < ROWS)
    (hprev : ∀ p, isOpenInRect maze (originRect x2 y2) p → p = (0, 0) ∨
      isOpenInRect maze (originRect x2 y2) (p.1 - 1, p.2) ∨
      isOpenInRect maze (originRect x2 y2) (p.1, p.2 - 1)) :
    ∀ (l2 l1 : List Pos) (state : AdjMatrix × List Int),
      rectCells (originRect x2 y2) = l1 ++ l2 →
      isSquare state.1 (ROWS * COLS) →
      state.2 = getAllConnectedNodes (0, 0) state.1 (originRect x2 y2) COLS →
      (∀ q ∈ l1, isOpenInRect maze (originRect x2 y2) q → cellIndex q COLS ∈ state.2) →
      isSquare (l2.foldl (wireCell (cropCells maze (originRect x2 y2)) (originRect x2 y2) COLS)
        state).1 (ROWS * COLS) ∧
      (l2.foldl (wireCell (cropCells maze (originRect x2 y2)) (originRect x2 y2) COLS)
        state).2 = getAllConnectedNodes (0, 0)
          (l2.foldl (wireCell (cropCells maze (originRect x2 y2)) (originRect x2 y2) COLS)
            state).1 (originRect x2 y2) COLS ∧
      ∀ q ∈ rectCells (originRect x2 y2), isOpenInRect maze (originRect x2 y2) q →
        cellIndex q COLS ∈
          (l2.foldl (wireCell (cropCells maze (originRect x2 y2)) (originRect x2 y2) COLS)
            state).2 := by
  have h00 : (originRect x2 y2).contains (0, 0) = true := by
    rw [contains_originRect]
    simp only
    omega
  have hinj := @cropIndex_inj_originRect x2 y2 ROWS COLS hx2.2 hy2.2
  intro l2
  induction l2 with
  | nil =>
    intro l1 state hsplit hsq hV hdone
    simp only [List.foldl_nil]
    refine ⟨hsq, hV, ?_⟩
    intro q hq hopen
    rw [hsplit, List.append_nil] at hq
    exact hdone q hq hopen
  | cons pos rest ih =>
    intro l1 state hsplit hsq hV hdone
    simp only [List.foldl_cons]
    have hposmem : pos ∈ rectCells (originRect x2 y2) := by
      rw [hsplit]
      exact List.mem_append_right _ (List.mem_cons_self _ _)
    have hpos := (mem_rectCells _ pos).mp hposmem
    obtain ⟨s1, s2, s3, s4⟩ := @wireCell_step maze ROWS COLS x2 y2 hx2 hy2 state pos hpos
      hsq hV
    have hpw := rectCells_pairwise (originRect x2 y2)
    rw [hsplit, List.pairwise_append] at hpw
    obtain ⟨-, hpw2, hpw12⟩ := hpw
    rw [List.pairwise_cons] at hpw2
    have hbefore : ∀ nb : Pos, (originRect x2 y2).contains nb = true →
        (nb.1 < pos.1 ∨ (nb.1 = pos.1 ∧ nb.2 < pos.2)) → nb ∈ l1 := by
      intro nb hnb hlt
      have hmem := (mem_rectCells _ nb).mpr hnb
      rw [hsplit, List.mem_append, List.mem_cons] at hmem
      rcases hmem with h | h | h
      · exact h
      · subst h
        omega
      · have := hpw2.1 nb h
        omega
    refine ih (l1 ++ [pos]) _ (by rw [hsplit]; simp) s1 s2 ?_
    intro q hq hopen
    rw [List.mem_append, List.mem_singleton] at hq
    rcases hq with hq | hq
    · exact s3 _ (hdone q hq hopen)
    · subst hq
      rcases hprev q hopen with h0 | hup | hleft
      · apply s3
        rw [hV, h0, ← cropIndex_originRect x2 y2]
        exact ((getAllConnectedNodes_spec state.1 (originRect x2 y2) COLS (0, 0) h00
          hinj).1 (0, 0) h00).mpr Relation.ReflTransGen.refl
      · refine s4 hopen ⟨(q.1 - 1, q.2), ?_, hup, ?_⟩
        · rw [mem_getNeighbors]
          left
          exact ⟨rfl, rfl⟩
        · exact hdone _ (hbefore _ hup.1 (Or.inl (by simp))) hup
      · refine s4 hopen ⟨(q.1, q.2 - 1), ?_, hleft, ?_⟩
        · rw [mem_getNeighbors]
          right; right; left
          exact ⟨rfl, rfl⟩
        · exact hdone _ (hbefore _ hleft.1 (Or.inr ⟨rfl, by simp⟩)) hleft

theorem reach_crop_to_matrix {adj : AdjMatrix} {x2 y2 : Int} {ROWS COLS : Nat}
    (hx2 : x2 < COLS) (hy2 : y2 < ROWS) {a b : Pos}
    (ha : (originRect x2 y2).contains a = true)
    (h : Reach (cropNeighbors adj (originRect x2 y2) COLS) a b) :
    Reach (matrixNeighbors adj) (cellIndex a COLS).toNat (cellIndex b COLS).toNat := by
  induction h with
  | refl => exact Relation.ReflTransGen.refl
  | @tail x y hxr hstep ih =>
    refine ih.tail ?_
    have hx := reach_contains ha hxr
    have hy := contains_of_mem_cropNeighbors hstep
    rw [mem_cropNeighbors, cropIndex_originRect, cropIndex_originRect] at hstep
    rw [mem_matrixNeighbors]
    have e1 : (((cellIndex x COLS).toNat : Nat) : Int) = cellIndex x COLS :=
      Int.toNat_of_nonneg (cellIndex_bounds (valid_of_contains_originRect hx2 hy2 hx)).1
    have e2 : (((cellIndex y COLS).toNat : Nat) : Int) = cellIndex y COLS :=
      Int.toNat_of_nonneg (cellIndex_bounds (valid_of_contains_originRect hx2 hy2 hy)).1
    rw [e1, e2]
    exact hstep.2.2

/-- In a rectangle `[0, 0, x2, y2]` without a blocked cell, every cell other than the corner has
an open neighbour above it or to its left. -/
theorem open_before_of_no_blocked {maze : Maze} {ROWS COLS : Nat} {x2 y2 : Int}
    (hshape : hasShape maze ROWS COLS) (hx2 : x2 < COLS) (hy2 : y2 < ROWS)
    (hopen : ∀ p, (originRect x2 y2).contains p = true → cellAt maze p ≠ some (.num 0)) :
    ∀ p, isOpenInRect maze (originRect x2 y2) p → p = (0, 0) ∨
      isOpenInRect maze (originRect x2 y2) (p.1 - 1, p.2) ∨
      isOpenInRect maze (originRect x2 y2) (p.1, p.2 - 1) := by
  have hin : ∀ q, (originRect x2 y2).contains q = true →
      isOpenInRect maze (originRect x2 y2) q := by
    intro q hq
    obtain ⟨c, hc⟩ := cellAt_of_hasShape hshape (valid_of_contains_originRect hx2 hy2 hq)
    exact ⟨hq, c, hc, fun e => hopen q hq (by rw [hc, e])⟩
  intro p hp
  have hc := (contains_originRect x2 y2 p).mp hp.1
  by_cases h1 : 0 < p.1
  · right; left
    apply hin
    rw [contains_originRect]
    simp only
    omega
  · by_cases h2 : 0 < p.2
    · right; right
      apply hin
      rw [contains_originRect]
      simp only
      omega
    · left
      apply Prod.ext
      · simp only; omega
      · simp only; omega

/-- The repair of `cropAndAdjustMaze` where it succeeds. With a square matrix of size
`ROWS * COLS` and a rectangle `[0, 0, x2, y2]` inside the grid in which every open cell other
than the corner `(0, 0)` has an open neighbour above it or to its left (as in every rectangle
without a blocked cell), every open cell of the rectangle is reachable from the corner over
edges of the matrix that `cropAndAdjustMaze` returns. -/
theorem cropAndAdjustMaze_repairs (maze : Maze) (adj : AdjMatrix) (nd : NodeDetails)
    (x2 y2 : Int) (ROWS COLS : Nat) (r : CropResult)
    (hsq : isSquare adj (ROWS * COLS))
    (hx2 : 0 ≤ x2 ∧ x2 < COLS) (hy2 : 0 ≤ y2 ∧ y2 < ROWS)
    (hprev : ∀ p, isOpenInRect maze (originRect x2 y2) p → p = (0, 0) ∨
      isOpenInRect maze (originRect x2 y2) (p.1 - 1, p.2) ∨
      isOpenInRect maze (originRect x2 y2) (p.1, p.2 - 1))
    (h : cropAndAdjustMaze maze adj nd (originRect x2 y2) ROWS COLS = some r) :
    ∀ p, isOpenInRect maze (originRect x2 y2) p →
      Reach (matrixNeighbors r.croppedAdjMatrix) 0 (cellIndex p COLS).toNat := by
  obtain ⟨start, goals, -, -, -, -, hadj⟩ := cropAndAdjustMaze_eq_some h
  have h00 : (originRect x2 y2).contains (0, 0) = true := by
    rw [contains_originRect]
    simp only
    omega
  have hinj := @cropIndex_inj_originRect x2 y2 ROWS COLS hx2.2 hy2.2
  obtain ⟨f1, f2, f3⟩ := wireCell_fold hx2 hy2 hprev (rectCells (originRect x2 y2)) []
    (markInactiveNodes adj (originRect x2 y2) ROWS COLS,
      getAllConnectedNodes (0, 0) (markInactiveNodes adj (originRect x2 y2) ROWS COLS)
        (originRect x2 y2) COLS)
    (by simp) (isSquare_markInactiveNodes hsq _ ROWS COLS) rfl (by simp)
  have hfinal : r.croppedAdjMatrix =
      ((rectCells (originRect x2 y2)).foldl
        (wireCell (cropCells maze (originRect x2 y2)) (originRect x2 y2) COLS)
        (markInactiveNodes adj (originRect x2 y2) ROWS COLS,
          getAllConnectedNodes (0, 0) (markInactiveNodes adj (originRect x2 y2) ROWS COLS)
            (originRect x2 y2) COLS)).1 := by
    rw [hadj]
    rfl
  intro p hp
  have hmem := f3 p ((mem_rectCells _ p).mpr hp.1) hp
  rw [f2, ← cropIndex_originRect x2 y2] at hmem
  have hreach := ((getAllConnectedNodes_spec _ (originRect x2 y2) COLS (0, 0) h00 hinj).1 p
    hp.1).mp hmem
  have hm := reach_crop_to_matrix hx2.2 hy2.2 h00 hreach
  rw [hfinal]
  simpa [cellIndex] using hm

theorem cropAndAdjustMaze_repairs_witness :
    cropAndAdjustMaze (openGrid 2 2) (List.replicate 4 (List.replicate 4 0))
        { start := (0, 0), goal := [(1, 1)], operation := [] } (originRect 1 1) 2 2 =
      some { croppedMaze := [[.str "s", .num 1], [.num 1, .str "g"]],
             croppedAdjMatrix := [[0, 1, 1, 0], [1, 0, 0, 1], [1, 0, 0, 0], [0, 1, 0, 0]],
             nodeDetails := { start := (0, 0), goal := [(1, 1)], operation := [] } } ∧
    Reach (matrixNeighbors [[0, 1, 1, 0], [1, 0, 0, 1], [1, 0, 0, 0], [0, 1, 0, 0]]) 0
      (cellIndex (1, 1) 2).toNat :=
  ⟨by decide,
    cropAndAdjustMaze_repairs (openGrid 2 2) (List.replicate 4 (List.replicate 4 0))
      { start := (0, 0), goal := [(1, 1)], operation := [] } 1 1 2 2
      { croppedMaze := [[.str "s", .num 1], [.num 1, .str "g"]],
        croppedAdjMatrix := [[0, 1, 1, 0], [1, 0, 0, 1], [1, 0, 0, 0], [0, 1, 0, 0]],
        nodeDetails := { start := (0, 0), goal := [(1, 1)], operation := [] } }
      rfl (by decide) (by decide)
      (open_before_of_no_blocked (hasShape_openGrid 2 2) (by decide) (by decide)
        (fun p hp => openGrid_no_blocked 2 2 p
          (valid_of_contains_originRect (by decide) (by decide) hp)))
      (by decide) (1, 1) ⟨by decide, .num 1, by decide, by decide⟩⟩

set_option maxRecDepth 20000 in
/-- C14. After the crop an open cell of the rectangle is left without an edge, where the claim,
like the comment of the code (ensure all nodes within the cropped area are connected), has every
open cell reachable. The repair is one pass in scan order that wires a cell only to a neighbour
reached before, and it reads the cropped grid and the matrix at indices shifted by the corner of
the rectangle. On the grid with the rows `1 0 1` and `1 1 1`, a matrix with the two
edges `(0,0)-(1,0)` and `(1,0)-(1,1)` and the rectangle of the whole grid, the repair wires
`(1,2)` but leaves the open cell `(0,2)` without an edge: when `(0,2)` is scanned its neighbour
`(1,2)` is not reached yet.  On the open 3 by 3 grid with the connected matrix of all grid edges
but `(1,1)-(1,2)` and `(1,2)-(2,2)` and the rectangle `[1, 1, 2, 2]`, the repair adds no edge
and the open cell `(1,2)` is left without an edge to the rest of the rectangle. -/
theorem cropAndAdjustMaze_leaves_cell_unreached :
    (cropAndAdjustMaze [[.num 1, .num 0, .num 1], [.num 1, .num 1, .num 1]]
        [[0, 0, 0, 1, 0, 0], [0, 0, 0, 0, 0, 0], [0, 0, 0, 0, 0, 0], [1, 0, 0, 0, 1, 0],
          [0, 0, 0, 1, 0, 0], [0, 0, 0, 0, 0, 0]]
        { start := (0, 0), goal := [(1, 2)], operation := [] } (originRect 2 1) 2 3).map
      (fun r => r.croppedAdjMatrix) =
      some [[0, 0, 0, 1, 0, 0], [0, 0, 0, 0, 0, 0], [0, 0, 0, 0, 0, 0], [1, 0, 0, 0, 1, 0],
        [0, 0, 0, 1, 0, 1], [0, 0, 0, 0, 1, 0]] ∧
    isGraphConnected
      (delEdge (delEdge (initialAdjMatrix (openGrid 3 3) 3 3) (1, 1) (1, 2) 3 3).1
        (1, 2) (2, 2) 3 3).1 3 3 = true ∧
    (cropAndAdjustMaze (openGrid 3 3)
        (delEdge (delEdge (initialAdjMatrix (openGrid 3 3) 3 3) (1, 1) (1, 2) 3 3).1
          (1, 2) (2, 2) 3 3).1
        { start := (1, 1), goal := [(2, 2)], operation := [] } ⟨1, 1, 2, 2⟩ 3 3).map
      (fun r => r.croppedAdjMatrix) =
      some [[0, 0, 0, 0, 0, 0, 0, 0, 0], [0, 0, 0, 0, 0, 0, 0, 0, 0],
        [0, 0, 0, 0, 0, 0, 0, 0, 0], [0, 0, 0, 0, 0, 0, 0, 0, 0],
        [0, 0, 0, 0, 0, 0, 0, 1, 0], [0, 0, 0, 0, 0, 0, 0, 0, 0],
        [0, 0, 0, 0, 0, 0, 0, 0, 0], [0, 0, 0, 0, 1, 0, 0, 0, 1],
        [0, 0, 0, 0, 0, 0, 0, 1, 0]] := by
  decide

/-! ## Roles and blocked cells -/

theorem cellAt_foldl_nameCell_of_not_mem (maze : Maze) (v : Cell) (ps : List Pos)
    (updated : Maze) (q : Pos) (hq : q ∉ ps) :
    cellAt (ps.foldl (fun mz p => nameCell maze mz p v) updated) q = cellAt updated q := by
  rw [cellAt_foldl_nameCell, if_neg]
  exact fun h => hq h.1

theorem cellAt_foldl_operations (maze : Maze) (q : Pos) (ops : List (String × OperationNode))
    (hq : ∀ entry ∈ ops, q ∉ entry.2.positions) :
    ∀ updated : Maze,
      cellAt (ops.foldl (fun mz entry =>
        entry.2.positions.foldl (fun mz pos => nameCell maze mz pos entry.2.mazeName) mz)
        updated) q = cellAt updated q := by
  induction ops with
  | nil => intro updated; rfl
  | cons entry rest ih =>
    intro updated
    rw [List.foldl_cons, ih (fun e he => hq e (List.mem_cons_of_mem _ he))]
    exact cellAt_foldl_nameCell_of_not_mem maze _ _ _ q (hq entry (List.mem_cons_self _ _))

theorem cellAt_updateMazeWithNodeNames_frame (maze : Maze) (nd : NodeDetails)
    (operations : Bool) (q : Pos) (hs : q ≠ nd.start) (hg : q ∉ nd.goal)
    (ho : ∀ entry ∈ nd.operation, q ∉ entry.2.positions) :
    cellAt (updateMazeWithNodeNames maze nd operations) q = cellAt maze q := by
  have hnamed : cellAt (nd.goal.foldl (fun mz goal => nameCell maze mz goal (.str "g"))
      (nameCell maze maze nd.start (.str "s"))) q = cellAt maze q := by
    rw [cellAt_foldl_nameCell_of_not_mem maze _ _ _ q hg, cellAt_nameCell, if_neg]
    exact fun h => hs h.1
  unfold updateMazeWithNodeNames
  cases operations with
  | false => simpa using hnamed
  | true =>
    simp only [if_true]
    rw [cellAt_foldl_operations maze q nd.operation ho]
    exact hnamed

/-- C24, amended. `placeOperationNodes` leaves every blocked cell blocked.
`updateMazeWithNodeNames` leaves every cell unchanged that is neither the start, nor a goal,
nor a listed position of an operation node; but a blocked cell of the grid that is the start or
a goal is not blocked after it: it holds `'s'` or `'g'`. -/
theorem blocked_cells_and_roles :
    (∀ (maze : Maze) (numNodes : Int) (nodeType : Cell) (pre : Option (List Pos))
        (rng : Nat → Draw) (q : Pos), cellAt maze q = some (.num 0) →
      cellAt (placeOperationNodes maze numNodes nodeType pre rng).1 q = some (.num 0)) ∧
    (∀ (maze : Maze) (nd : NodeDetails) (operations : Bool) (q : Pos),
      q ≠ nd.start → q ∉ nd.goal → (∀ entry ∈ nd.operation, q ∉ entry.2.positions) →
      cellAt (updateMazeWithNodeNames maze nd operations) q = cellAt maze q) ∧
    (∀ (maze : Maze) (nd : NodeDetails) (q : Pos),
      q = nd.start ∨ q ∈ nd.goal → cellAt maze q = some (.num 0) →
      q.1 < maze.length → q.2 < (maze.headD []).length →
      cellAt (updateMazeWithNodeNames maze nd false) q = some (.str "s") ∨
      cellAt (updateMazeWithNodeNames maze nd false) q = some (.str "g")) := by
  refine ⟨?_, ?_, ?_⟩
  · intro maze numNodes nodeType pre rng q hq
    rw [cellAt_placeOperationNodes maze numNodes nodeType pre rng q (by rw [hq]; decide)]
    exact hq
  · intro maze nd operations q hs hg ho
    exact cellAt_updateMazeWithNodeNames_frame maze nd operations q hs hg ho
  · intro maze nd q hq hcell h1 h2
    rw [cellAt_updateMazeWithNodeNames, hcell]
    by_cases hg : q ∈ nd.goal
    · right
      rw [if_pos ⟨hg, h1, h2⟩]; rfl
    · left
      have hs : q = nd.start := hq.resolve_right hg
      rw [if_neg (fun h => hg h.1), if_pos ⟨hs, hs ▸ h1, hs ▸ h2⟩]; rfl

/-- C24, counterexample. On the 2 by 2 grid whose cell `[0, 0]` is blocked,
`updateMazeWithNodeNames` with the start `[0, 0]` writes `'s'` on that blocked cell. -/
theorem updateMazeWithNodeNames_names_blocked_cell :
    cellAt [[.num 0, .num 1], [.num 1, .num 1]] (0, 0) = some (.num 0) ∧
    updateMazeWithNodeNames [[.num 0, .num 1], [.num 1, .num 1]]
        { start := (0, 0), goal := [(1, 1)], operation := [] } false =
      [[.str "s", .num 1], [.num 1, .str "g"]] := by
  decide

/-! ## The adjacency-matrix invariant under edge edits -/

theorem entryAt_setBoth_symm {adj : AdjMatrix}
    (hs : ∀ i j : Int, entryAt adj i j = entryAt adj j i) (a b v : Int) (k l : Int) :
    entryAt (setBoth adj a b v) k l = entryAt (setBoth adj a b v) l k := by
  rw [entryAt_setBoth, entryAt_setBoth, hs k l]
  by_cases h : (k = a ∧ l = b) ∨ (k = b ∧ l = a)
  · have h' : (l = a ∧ k = b) ∨ (l = b ∧ k = a) := by tauto
    rw [if_pos h, if_pos h']
  · have h' : ¬ ((l = a ∧ k = b) ∨ (l = b ∧ k = a)) := by tauto
    rw [if_neg h, if_neg h']

theorem adjInvariant_setBoth_zero {adj : AdjMatrix} {ROWS COLS : Nat}
    (h : adjInvariant adj ROWS COLS) (a b : Int) :
    adjInvariant (setBoth adj a b 0) ROWS COLS := by
  obtain ⟨h1, h2, h3⟩ := h
  refine ⟨?_, entryAt_setBoth_symm h2 a b 0, ?_⟩
  · intro i j hij
    exact h1 i j (edgesLe_removed adj a b i j hij)
  · intro i v hv
    rw [entryAt_setBoth] at hv
    split_ifs at hv
    · cases he : entryAt adj i i with
      | none => rw [he] at hv; simp at hv
      | some w => rw [he] at hv; simpa using hv.symm
    · exact h3 i v hv

theorem not_adjacent4_self (a : Pos) : ¬ adjacent4 a a := by
  simp [adjacent4]

theorem adjInvariant_setBoth_one {adj : AdjMatrix} {ROWS COLS : Nat}
    (h : adjInvariant adj ROWS COLS) {a b : Pos}
    (ha : isValidMatrixIndex a ROWS COLS = true) (hb : isValidMatrixIndex b ROWS COLS = true)
    (hab : adjacent4 a b) :
    adjInvariant (setBoth adj (cellIndex a COLS) (cellIndex b COLS) 1) ROWS COLS := by
  obtain ⟨h1, h2, h3⟩ := h
  have hba : adjacent4 b a := by
    unfold adjacent4 at hab ⊢
    omega
  have hne : cellIndex a COLS ≠ cellIndex b COLS := by
    intro he
    have := cellIndex_inj ha hb he
    subst this
    exact not_adjacent4_self a hab
  refine ⟨?_, entryAt_setBoth_symm h2 _ _ 1, ?_⟩
  · intro i j hij
    rw [entryAt_setBoth] at hij
    split_ifs at hij with hc
    · rcases hc with ⟨rfl, rfl⟩ | ⟨rfl, rfl⟩
      · exact ⟨a, b, ha, hb, rfl, rfl, hab⟩
      · exact ⟨b, a, hb, ha, rfl, rfl, hba⟩
    · exact h1 i j hij
  · intro i v hv
    rw [entryAt_setBoth] at hv
    split_ifs at hv with hc
    · rcases hc with ⟨h4, h5⟩ | ⟨h4, h5⟩
      · exact absurd (h4.symm.trans h5) hne
      · exact absurd (h5.symm.trans h4) hne
    · exact h3 i v hv

theorem adjInvariant_zero (n ROWS COLS : Nat) :
    adjInvariant (List.replicate n (List.replicate n 0)) ROWS COLS := by
  have hval : ∀ i j : Int, ∀ v, entryAt (List.replicate n (List.replicate n (0 : Int))) i j
      = some v → v = 0 ∧ 0 ≤ i ∧ i < n ∧ 0 ≤ j ∧ j < n := by
    intro i j v hv
    have hb := entryAt_bounds_of_isSquare (isSquare_replicate n) hv
    rw [entryAt_replicate n ⟨hb.1, hb.2.1⟩ ⟨hb.2.2.1, hb.2.2.2⟩] at hv
    exact ⟨(Option.some.inj hv).symm, hb⟩
  refine ⟨?_, ?_, ?_⟩
  · intro i j hij
    have := (hval i j 1 hij).1
    omega
  · intro i j
    by_cases hb : (0 ≤ i ∧ i < n) ∧ (0 ≤ j ∧ j < n)
    · rw [entryAt_replicate n hb.1 hb.2, entryAt_replicate n hb.2 hb.1]
    · have e1 : entryAt (List.replicate n (List.replicate n (0 : Int))) i j = none := by
        cases he : entryAt (List.replicate n (List.replicate n (0 : Int))) i j with
        | none => rfl
        | some v => exact absurd ⟨⟨(hval i j v he).2.1, (hval i j v he).2.2.1⟩,
            ⟨(hval i j v he).2.2.2.1, (hval i j v he).2.2.2.2⟩⟩ hb
      have e2 : entryAt (List.replicate n (List.replicate n (0 : Int))) j i = none := by
        cases he : entryAt (List.replicate n (List.replicate n (0 : Int))) j i with
        | none => rfl
        | some v => exact absurd ⟨⟨(hval j i v he).2.2.2.1, (hval j i v he).2.2.2.2⟩,
            ⟨(hval j i v he).2.1, (hval j i v he).2.2.1⟩⟩ hb
      rw [e1, e2]
  · intro i v hv
    exact (hval i i v hv).1

/-- C22, amended. When the adjacency-matrix invariant holds, it holds after `delEdge` and after
every edge change of `applyManualChanges` other than `'add'`; it holds after `addEdge`, and
after an edge change `'add'` on a grid of `COLS` columns, when the two cells are inside the
bounds and 4-directionally adjacent (and after an `addEdge` that throws). -/
theorem adjInvariant_edge_edits (adj : AdjMatrix) (a b : Pos) (ROWS COLS : Nat)
    (hinv : adjInvariant adj ROWS COLS) :
    adjInvariant (delEdge adj a b ROWS COLS).1 ROWS COLS ∧
    (adjacent4 a b ∨ isValidMatrixIndex a ROWS COLS = false ∨
        isValidMatrixIndex b ROWS COLS = false →
      adjInvariant (addEdge adj a b ROWS COLS).1 ROWS COLS) ∧
    (∀ (maze : Maze) (settings : ManualSettings) (fromCell toCell : Option Pos)
        (action : String), action ≠ "add" →
      adjInvariant (applyManualChanges (maze, adj) [.edge fromCell toCell action] settings).2
        ROWS COLS) ∧
    (∀ (maze : Maze) (settings : ManualSettings), (maze.headD []).length = COLS →
      isValidMatrixIndex a ROWS COLS = true → isValidMatrixIndex b ROWS COLS = true →
      adjacent4 a b →
      adjInvariant (applyManualChanges (maze, adj) [.edge (some a) (some b) "add"] settings).2
        ROWS COLS) := by
  refine ⟨?_, ?_, ?_, ?_⟩
  · unfold delEdge
    split_ifs
    · exact adjInvariant_setBoth_zero hinv _ _
    · exact hinv
  · intro h
    unfold addEdge
    split_ifs with hv
    · rw [Bool.and_eq_true] at hv
      rcases h with h | h | h
      · exact adjInvariant_setBoth_one hinv hv.1 hv.2 h
      · rw [hv.1] at h; cases h
      · rw [hv.2] at h; cases h
    · exact hinv
  · intro maze settings fromCell toCell action hact
    cases fromCell with
    | none => exact hinv
    | some f =>
      cases toCell with
      | none => exact hinv
      | some t =>
        simp only [applyManualChanges, List.foldl_cons, List.foldl_nil, applyManualChange]
        split_ifs
        · exact adjInvariant_setBoth_zero hinv _ _
        · exact hinv
        · exact hinv
  · intro maze settings hcols ha hb hab
    simp only [applyManualChanges, List.foldl_cons, List.foldl_nil, applyManualChange]
    split_ifs
    · rw [hcols]
      exact adjInvariant_setBoth_one hinv ha hb hab
    · exact hinv

theorem adjInvariant_edge_edits_witness :
    adjInvariant (List.replicate 4 (List.replicate 4 0)) 2 2 ∧
    adjInvariant (delEdge (List.replicate 4 (List.replicate 4 0)) (0, 0) (0, 1) 2 2).1 2 2 ∧
    adjInvariant (addEdge (List.replicate 4 (List.replicate 4 0)) (0, 0) (0, 1) 2 2).1 2 2 :=
  ⟨adjInvariant_zero 4 2 2,
    (adjInvariant_edge_edits _ (0, 0) (0, 1) 2 2 (adjInvariant_zero 4 2 2)).1,
    (adjInvariant_edge_edits _ (0, 0) (0, 1) 2 2 (adjInvariant_zero 4 2 2)).2.1
      (Or.inl (by unfold adjacent4; decide))⟩

/-- C22, counterexample. The matrix of the 2 by 2 grid without edges satisfies the invariant;
after `addEdge` between `[0, 0]` and `[1, 1]` (which does not throw) the entry between the
indices 0 and 3 is 1 although the two cells are not adjacent, and after `addEdge` between
`[0, 0]` and itself the diagonal entry of index 0 is 1: the invariant does not hold after
either. -/
theorem addEdge_breaks_adjInvariant :
    adjInvariant (List.replicate 4 (List.replicate 4 0)) 2 2 ∧
    addEdge (List.replicate 4 (List.replicate 4 0)) (0, 0) (1, 1) 2 2 =
      ([[0, 0, 0, 1], [0, 0, 0, 0], [0, 0, 0, 0], [1, 0, 0, 0]], none) ∧
    ¬ adjacent4 (0, 0) (1, 1) ∧
    ¬ adjInvariant (addEdge (List.replicate 4 (List.replicate 4 0)) (0, 0) (1, 1) 2 2).1 2 2 ∧
    ¬ adjInvariant (addEdge (List.replicate 4 (List.replicate 4 0)) (0, 0) (0, 0) 2 2).1 2 2 ∧
    ¬ adjInvariant (applyManualChanges ([[.num 1, .num 1], [.num 1, .num 1]],
        List.replicate 4 (List.replicate 4 0)) [.edge (some (0, 0)) (some (1, 1)) "add"]
        { startPositions := [], startName := .str "s", goalPositions := [],
          goalName := .str "g" }).2 2 2 := by
  have hdiag : ∀ adj : AdjMatrix, entryAt adj 0 3 = some 1 → ¬ adjInvariant adj 2 2 := by
    intro adj he hinv
    obtain ⟨p, q, hp, hq, hip, hiq, hpq⟩ := hinv.1 0 3 he
    have e1 : p = (0, 0) := cellIndex_inj hp (by decide) (by rw [hip]; decide)
    have e2 : q = (1, 1) := cellIndex_inj hq (by decide) (by rw [hiq]; decide)
    subst e1 e2
    exact absurd hpq (by unfold adjacent4; decide)
  refine ⟨adjInvariant_zero 4 2 2, by decide, by unfold adjacent4; decide,
    hdiag _ (by decide), ?_,
    hdiag _ (by decide)⟩
  intro hinv
  have := hinv.2.2 0 1 (by decide)
  omega

/-! ## The search of `maze.js` in both directions -/

theorem search_iff_reach (succ : Pos → List Pos) (stop : Pos → Bool) (ROWS COLS : Nat)
    (hin : ∀ a b, b ∈ succ a → isValidMatrixIndex b ROWS COLS = true) (start : Pos) :
    (bfsLoop (fun pos => pos) succ stop (ROWS * COLS + 1) [start] [start]).1 = true ↔
      ∃ a, stop a = true ∧ Reach succ start a := by
  have hspec := bfsLoop_spec (fun pos : Pos => pos) succ stop
    (fun a => a = start ∨ isValidMatrixIndex a ROWS COLS = true)
    (fun a => a = start ∨ isValidMatrixIndex a ROWS COLS = true) (ROWS * COLS + 1)
    (fun a _ b hb => Or.inr (hin a b hb))
    (fun a b _ _ h => h) (fun a h => h)
    (fun l hnd hin => length_le_of_nodup_cells start l hnd hin)
    (ROWS * COLS + 1) [start] [start] (by simp) (by simp) (by simp)
    (by intro a _ ha hna; simp at ha hna; exact absurd ha hna) (by simp; omega)
  obtain ⟨h1, h2, h3, -, -, -⟩ := hspec
  constructor
  · intro h
    obtain ⟨a, ha, q, hq, hreach⟩ := h1 h
    simp at hq
    subst hq
    exact ⟨a, ha, hreach⟩
  · rintro ⟨a, ha, hreach⟩
    by_contra hne
    have hfalse : (bfsLoop (fun pos : Pos => pos) succ stop (ROWS * COLS + 1)
        [start] [start]).1 = false := by
      simpa using hne
    have hcl := h2 hfalse
    have hgoal := closure_reach (fun pos : Pos => pos) succ
      (fun a => a = start ∨ isValidMatrixIndex a ROWS COLS = true)
      (fun a _ b hb => Or.inr (hin a b hb))
      _ (fun a hPa ha => (hcl a hPa ha).2) (Or.inl rfl) (h3 start (by simp)) hreach
    have := (hcl a hgoal.1 hgoal.2).1
    rw [ha] at this
    cases this

theorem mazeJs_mem_valid_neighbors (maze : Maze) (a b : Pos) :
    b ∈ MazeJs.valid_neighbors maze a ↔ b ∈ getNeighbors a ∧ MazeJs.is_valid maze b = true := by
  simp [MazeJs.valid_neighbors, MazeJs.get_neighbors, getNeighbors]

theorem mazeJs_is_valid_inBounds {maze : Maze} {pos : Pos}
    (h : MazeJs.is_valid maze pos = true) :
    isValidMatrixIndex pos MazeJs.ROWS MazeJs.COLS = true := by
  simp only [MazeJs.is_valid, Bool.and_eq_true, decide_eq_true_eq] at h
  rw [isValidMatrixIndex_iff]
  exact ⟨h.1.1.1.1, h.1.1.1.2, h.1.1.2, h.1.2⟩

theorem mazeJs_bfs_direction_iff (maze : Maze) (start goal : Pos) :
    MazeJs.bfs_direction maze start goal = true ↔
      Reach (MazeJs.valid_neighbors maze) start goal := by
  unfold MazeJs.bfs_direction
  rw [search_iff_reach (MazeJs.valid_neighbors maze) _ MazeJs.ROWS MazeJs.COLS
    (fun a b hb => mazeJs_is_valid_inBounds ((mazeJs_mem_valid_neighbors maze a b).mp hb).2)]
  constructor
  · rintro ⟨a, ha, hr⟩
    rw [decide_eq_true_eq] at ha
    have : a = goal := Prod.ext ha.1 ha.2
    exact this ▸ hr
  · intro hr
    exact ⟨goal, by simp, hr⟩

theorem mazeJs_reach_symm (maze : Maze) {a b : Pos} (ha : MazeJs.is_valid maze a = true)
    (h : Reach (MazeJs.valid_neighbors maze) a b) :
    Reach (MazeJs.valid_neighbors maze) b a := by
  have key : Reach (MazeJs.valid_neighbors maze) b a ∧ MazeJs.is_valid maze b = true := by
    induction h with
    | refl => exact ⟨Relation.ReflTransGen.refl, ha⟩
    | @tail x y _ hstep ih =>
      have hxy := (mazeJs_mem_valid_neighbors maze x y).mp hstep
      have hyx : x ∈ MazeJs.valid_neighbors maze y :=
        (mazeJs_mem_valid_neighbors maze y x).mpr ⟨mem_getNeighbors_symm hxy.1, ih.2⟩
      exact ⟨Relation.ReflTransGen.head hyx ih.1, hxy.2⟩
  exact key.1

theorem mazeJs_reach_target_valid (maze : Maze) {a b : Pos}
    (h : Reach (MazeJs.valid_neighbors maze) a b) : a = b ∨ MazeJs.is_valid maze b = true := by
  cases h with
  | refl => exact Or.inl rfl
  | @tail x _ _ hstep => exact Or.inr ((mazeJs_mem_valid_neighbors maze x b).mp hstep).2

/-- C28, amended. The check `bfs(a, b)` of `maze.js` returns the same result as
`bfs_direction(a, b)` when the cell `a` is valid (inside the bounds and holding 1, 2 or 3) or
`a` and `b` are the same cell; when `a` is not valid and differs from `b`, `bfs(a, b)` is
`false`, whatever `bfs_direction(a, b)` returns. -/
theorem MazeJs_bfs_eq_bfs_direction (maze : Maze) (a b : Pos) :
    (MazeJs.is_valid maze a = true ∨ a = b →
      MazeJs.bfs maze a b = MazeJs.bfs_direction maze a b) ∧
    (MazeJs.is_valid maze a = false → a ≠ b → MazeJs.bfs maze a b = false) := by
  constructor
  · intro h
    unfold MazeJs.bfs
    cases hd : MazeJs.bfs_direction maze a b with
    | false => rfl
    | true =>
      rw [Bool.true_and]
      rcases h with h | h
      · rw [mazeJs_bfs_direction_iff] at hd ⊢
        exact mazeJs_reach_symm maze h hd
      · subst h
        exact hd
  · intro h hab
    unfold MazeJs.bfs
    have hback : MazeJs.bfs_direction maze b a = false := by
      cases hd : MazeJs.bfs_direction maze b a with
      | false => rfl
      | true =>
        rw [mazeJs_bfs_direction_iff] at hd
        rcases mazeJs_reach_target_valid maze hd with h1 | h1
        · exact absurd h1.symm hab
        · rw [h] at h1; cases h1
    rw [hback, Bool.and_false]

/-- C28, counterexample. On the 7 by 7 grid whose only open cell is `[0, 1]`, the search
`bfs_direction([0, 0], [0, 1])` steps from the blocked cell `[0, 0]` on its open neighbour and
returns `true`, the search back cannot step on `[0, 0]`, and `bfs([0, 0], [0, 1])` is
`false`. -/
theorem MazeJs_bfs_ne_bfs_direction :
    MazeJs.bfs_direction
      ([.num 0, .num 1, .num 0, .num 0, .num 0, .num 0, .num 0] ::
        List.replicate 6 (List.replicate 7 (.num 0))) (0, 0) (0, 1) = true ∧
    MazeJs.bfs
      ([.num 0, .num 1, .num 0, .num 0, .num 0, .num 0, .num 0] ::
        List.replicate 6 (List.replicate 7 (.num 0))) (0, 0) (0, 1) = false := by
  decide

/-! ## Folds that only delete edges -/

theorem edgesLe_refl (adj : AdjMatrix) : edgesLe adj adj := fun _ _ h => h

theorem edgesLe_trans {a b c : AdjMatrix} (h1 : edgesLe a b) (h2 : edgesLe b c) :
    edgesLe a c := fun i j h => h2 i j (h1 i j h)

theorem edgesLe_foldl {β : Type} (step : AdjMatrix → β → AdjMatrix)
    (hmono : ∀ adj x, edgesLe (step adj x) adj) (xs : List β) :
    ∀ adj : AdjMatrix, edgesLe (xs.foldl step adj) adj := by
  induction xs with
  | nil => intro adj; exact edgesLe_refl adj
  | cons x xs ih => intro adj; exact edgesLe_trans (ih (step adj x)) (hmono adj x)

theorem entryAt_foldl_killed {β : Type} (step : AdjMatrix → β → AdjMatrix)
    (hmono : ∀ adj x, edgesLe (step adj x) adj) {x : β} {k l : Int}
    (hkill : ∀ adj, entryAt (step adj x) k l ≠ some 1) (xs : List β) (hx : x ∈ xs) :
    ∀ adj : AdjMatrix, entryAt (xs.foldl step adj) k l ≠ some 1 := by
  induction xs with
  | nil => cases hx
  | cons y ys ih =>
    intro adj
    rcases List.mem_cons.mp hx with rfl | hx
    · intro h
      exact hkill adj (edgesLe_foldl step hmono ys _ k l h)
    · exact ih hx _

theorem foldl_invariant {α β : Type} (P : α → Prop) (step : α → β → α)
    (hstep : ∀ a x, P a → P (step a x)) (xs : List β) :
    ∀ a : α, P a → P (xs.foldl step a) := by
  induction xs with
  | nil => intro a h; exact h
  | cons x xs ih => intro a h; exact ih _ (hstep a x h)

theorem entryAt_setBoth_zero_ne_one (adj : AdjMatrix) (a b : Int) :
    entryAt (setBoth adj a b 0) a b ≠ some 1 := by
  rw [entryAt_setBoth, if_pos (Or.inl ⟨rfl, rfl⟩)]
  cases entryAt adj a b <;> simp

/-! ## The matrix of the first loop of `generateMaze` satisfies the invariant -/

theorem entryAt_replicate_ne_one (n : Nat) (i j : Int) :
    entryAt (List.replicate n (List.replicate n (0 : Int))) i j ≠ some 1 := by
  intro h
  have hb := entryAt_bounds_of_isSquare (isSquare_replicate n) h
  rw [entryAt_replicate n ⟨hb.1, hb.2.1⟩ ⟨hb.2.2.1, hb.2.2.2⟩] at h
  cases h

theorem adjInvariant_initialAdjMatrix (maze : Maze) (ROWS COLS : Nat) :
    adjInvariant (initialAdjMatrix maze ROWS COLS) ROWS COLS := by
  have hz := adjInvariant_zero (ROWS * COLS) ROWS COLS
  have hE : ∀ k l : Int,
      (∃ pos ∈ allCells ROWS COLS, ∃ nb ∈ getNeighbors pos,
        (isValidMatrixIndex nb ROWS COLS = true ∧ cellAt maze pos ≠ some (.num 0) ∧
          cellAt maze nb ≠ some (.num 0)) ∧ k = cellIndex pos COLS ∧ l = cellIndex nb COLS) →
      (∃ pos ∈ allCells ROWS COLS, ∃ nb ∈ getNeighbors pos,
        (isValidMatrixIndex nb ROWS COLS = true ∧ cellAt maze pos ≠ some (.num 0) ∧
          cellAt maze nb ≠ some (.num 0)) ∧ l = cellIndex pos COLS ∧ k = cellIndex nb COLS) := by
    rintro k l ⟨pos, hpos, nb, hnb, ⟨hv, ho1, ho2⟩, hk, hl⟩
    exact ⟨nb, (mem_allCells nb ROWS COLS).mpr hv, pos, mem_getNeighbors_symm hnb,
      ⟨(mem_allCells pos ROWS COLS).mp hpos, ho2, ho1⟩, hl, hk⟩
  refine ⟨?_, ?_, ?_⟩
  · intro i j hij
    by_cases hc : ∃ pos ∈ allCells ROWS COLS, ∃ nb ∈ getNeighbors pos,
        (isValidMatrixIndex nb ROWS COLS = true ∧ cellAt maze pos ≠ some (.num 0) ∧
          cellAt maze nb ≠ some (.num 0)) ∧ i = cellIndex pos COLS ∧ j = cellIndex nb COLS
    · obtain ⟨pos, hpos, nb, hnb, ⟨hv, -, -⟩, hi, hj⟩ := hc
      exact ⟨pos, nb, (mem_allCells pos ROWS COLS).mp hpos, hv, hi.symm, hj.symm,
        (adjacent4_iff pos nb).mpr hnb⟩
    · rw [(entryAt_initialAdjMatrix maze ROWS COLS i j).2 hc] at hij
      exact absurd hij (entryAt_replicate_ne_one _ i j)
  · intro i j
    by_cases hc : ∃ pos ∈ allCells ROWS COLS, ∃ nb ∈ getNeighbors pos,
        (isValidMatrixIndex nb ROWS COLS = true ∧ cellAt maze pos ≠ some (.num 0) ∧
          cellAt maze nb ≠ some (.num 0)) ∧ i = cellIndex pos COLS ∧ j = cellIndex nb COLS
    · rw [(entryAt_initialAdjMatrix maze ROWS COLS i j).1 hc,
        (entryAt_initialAdjMatrix maze ROWS COLS j i).1 (hE i j hc), hz.2.1 i j]
    · have hc' : ¬ ∃ pos ∈ allCells ROWS COLS, ∃ nb ∈ getNeighbors pos,
          (isValidMatrixIndex nb ROWS COLS = true ∧ cellAt maze pos ≠ some (.num 0) ∧
            cellAt maze nb ≠ some (.num 0)) ∧ j = cellIndex pos COLS ∧ i = cellIndex nb COLS :=
        fun h => hc (hE j i h)
      rw [(entryAt_initialAdjMatrix maze ROWS COLS i j).2 hc,
        (entryAt_initialAdjMatrix maze ROWS COLS j i).2 hc', hz.2.1 i j]
  · intro i v hv
    by_cases hc : ∃ pos ∈ allCells ROWS COLS, ∃ nb ∈ getNeighbors pos,
        (isValidMatrixIndex nb ROWS COLS = true ∧ cellAt maze pos ≠ some (.num 0) ∧
          cellAt maze nb ≠ some (.num 0)) ∧ i = cellIndex pos COLS ∧ i = cellIndex nb COLS
    · obtain ⟨pos, hpos, nb, hnb, ⟨hvnb, -, -⟩, hi, hj⟩ := hc
      have := cellIndex_inj ((mem_allCells pos ROWS COLS).mp hpos) hvnb (hi.symm.trans hj)
      subst this
      exact absurd ((adjacent4_iff pos pos).mpr hnb) (not_adjacent4_self pos)
    · rw [(entryAt_initialAdjMatrix maze ROWS COLS i i).2 hc] at hv
      exact hz.2.2 i v hv

/-! ## `removeEdgesOrNodes` on a grid without blocked cells -/

theorem noGoalReachable_of_no_blocked (maze : Maze) (start : Pos) (goals : List Pos)
    (ROWS COLS : Nat)
    (hopen : ∀ p, isValidMatrixIndex p ROWS COLS = true → cellAt maze p ≠ some (.num 0))
    (hstart : isValidMatrixIndex start ROWS COLS = true)
    (hgoals : ∀ goal ∈ goals, isValidMatrixIndex goal ROWS COLS = true) (hne : goals ≠ []) :
    noGoalReachable maze start goals ROWS COLS = false := by
  cases goals with
  | nil => exact absurd rfl hne
  | cons g rest =>
    have hg : bfs maze start g ROWS COLS = true :=
      (bfs_iff_reach maze start g ROWS COLS).mpr
        (reach_of_no_blocked maze ROWS COLS hopen hstart (hgoals g (List.mem_cons_self _ _)))
    simp [noGoalReachable, hg]

theorem severCell_removes (maze : Maze) (start : Pos) (goals : List Pos) (ROWS COLS : Nat)
    (hno : noGoalReachable maze start goals ROWS COLS = false) (adj : AdjMatrix) (pos : Pos) :
    edgesLe (severCell maze start goals ROWS COLS adj pos) adj ∧
    ∀ nb ∈ getNeighbors pos, isValidMatrixIndex nb ROWS COLS = true →
      entryAt (severCell maze start goals ROWS COLS adj pos) (cellIndex pos COLS)
        (cellIndex nb COLS) ≠ some 1 := by
  have hmono : ∀ (a : AdjMatrix) (x : Pos), edgesLe
      (if (isValidMatrixIndex x ROWS COLS &&
          decide (entryAt a (cellIndex pos COLS) (cellIndex x COLS) = some 1)) = true then
        if noGoalReachable maze start goals ROWS COLS = true then
          setBoth (setBoth a (cellIndex pos COLS) (cellIndex x COLS) 0)
            (cellIndex pos COLS) (cellIndex x COLS) 1
        else setBoth a (cellIndex pos COLS) (cellIndex x COLS) 0
      else a) a := by
    intro a x
    simp only [hno, Bool.false_eq_true, if_false]
    split_ifs
    · exact edgesLe_removed a _ _
    · exact edgesLe_refl a
  refine ⟨edgesLe_foldl _ hmono _ adj, ?_⟩
  intro nb hnb hv
  unfold severCell
  refine entryAt_foldl_killed _ hmono ?_ _ hnb adj
  intro a
  rw [hno, hv]
  by_cases he : entryAt a (cellIndex pos COLS) (cellIndex nb COLS) = some 1
  · simp only [he, decide_True, Bool.and_self, if_true, Bool.false_eq_true, if_false]
    exact entryAt_setBoth_zero_ne_one a _ _
  · simp [he]

theorem removeEdgesOrNodesLoop_removes (maze : Maze) (start : Pos) (goals : List Pos)
    (sp : Sparsity) (rng : Nat → Draw) (ROWS COLS : Nat)
    (hno : noGoalReachable maze start goals ROWS COLS = false) (cells : List Pos) :
    ∀ (k0 : Nat) (adj : AdjMatrix),
      edgesLe (removeEdgesOrNodesLoop maze start goals sp rng ROWS COLS cells k0 adj) adj ∧
      ∀ (i : Nat) (p : Pos), cells[i]? = some p → (rng (k0 + i)).lt sp = true →
        ∀ nb ∈ getNeighbors p, isValidMatrixIndex nb ROWS COLS = true →
          entryAt (removeEdgesOrNodesLoop maze start goals sp rng ROWS COLS cells k0 adj)
            (cellIndex p COLS) (cellIndex nb COLS) ≠ some 1 := by
  induction cells with
  | nil =>
    intro k0 adj
    exact ⟨edgesLe_refl adj, fun i p h => by simp at h⟩
  | cons c rest ih =>
    intro k0 adj
    have hstep : edgesLe (if (rng k0).lt sp then severCell maze start goals ROWS COLS adj c
        else adj) adj := by
      split_ifs
      · exact (severCell_removes maze start goals ROWS COLS hno adj c).1
      · exact edgesLe_refl adj
    obtain ⟨ih1, ih2⟩ := ih (k0 + 1)
      (if (rng k0).lt sp then severCell maze start goals ROWS COLS adj c else adj)
    refine ⟨edgesLe_trans ih1 hstep, ?_⟩
    intro i p hp hdraw nb hnb hv
    cases i with
    | zero =>
      simp only [List.getElem?_cons_zero, Option.some.injEq] at hp
      subst hp
      simp only [Nat.add_zero] at hdraw
      intro h
      have h' := ih1 _ _ h
      rw [if_pos hdraw] at h'
      exact (severCell_removes maze start goals ROWS COLS hno adj c).2 nb hnb hv h'
    | succ i =>
      simp only [List.getElem?_cons_succ] at hp
      have : k0 + (i + 1) = k0 + 1 + i := by omega
      rw [this] at hdraw
      exact ih2 i p hp hdraw nb hnb hv

theorem adjSymm_severCell (maze : Maze) (start : Pos) (goals : List Pos) (ROWS COLS : Nat)
    (adj : AdjMatrix) (pos : Pos) (hs : ∀ i j : Int, entryAt adj i j = entryAt adj j i) :
    ∀ i j : Int, entryAt (severCell maze start goals ROWS COLS adj pos) i j =
      entryAt (severCell maze start goals ROWS COLS adj pos) j i := by
  unfold severCell
  refine foldl_invariant (fun a => ∀ i j : Int, entryAt a i j = entryAt a j i) _ ?_ _ adj hs
  intro a x ha
  dsimp only
  split_ifs
  · exact entryAt_setBoth_symm (entryAt_setBoth_symm ha _ _ 0) _ _ 1
  · exact entryAt_setBoth_symm ha _ _ 0
  · exact ha

theorem adjSymm_removeEdgesOrNodesLoop (maze : Maze) (start : Pos) (goals : List Pos)
    (sp : Sparsity) (rng : Nat → Draw) (ROWS COLS : Nat) (cells : List Pos) :
    ∀ (k0 : Nat) (adj : AdjMatrix), (∀ i j : Int, entryAt adj i j = entryAt adj j i) →
      ∀ i j : Int,
        entryAt (removeEdgesOrNodesLoop maze start goals sp rng ROWS COLS cells k0 adj) i j =
          entryAt (removeEdgesOrNodesLoop maze start goals sp rng ROWS COLS cells k0 adj)
            j i := by
  induction cells with
  | nil => intro k0 adj hs; exact hs
  | cons c rest ih =>
    intro k0 adj hs
    refine ih (k0 + 1) _ ?_
    split_ifs
    · exact adjSymm_severCell maze start goals ROWS COLS adj c hs
    · exact hs

/-- C29. On a grid without blocked cells, with the start and at least one goal, all inside the
bounds, the revert test of `removeEdgesOrNodes` is never met, so no removal is reverted: when
the matrix satisfies the adjacency-matrix invariant, then for every sequence of draws, every
cell whose draw (the `k`-th draw for the `k`-th cell in row-major order) is below the sparsity
has no entry 1 in its row or its column after the pass. -/
theorem removeEdgesOrNodes_no_revert (maze : Maze) (adj : AdjMatrix) (start : Pos)
    (goals : List Pos) (sp : Sparsity) (rng : Nat → Draw) (ROWS COLS : Nat)
    (hopen : ∀ p, isValidMatrixIndex p ROWS COLS = true → cellAt maze p ≠ some (.num 0))
    (hstart : isValidMatrixIndex start ROWS COLS = true)
    (hgoals : ∀ goal ∈ goals, isValidMatrixIndex goal ROWS COLS = true) (hne : goals ≠ [])
    (hinv : adjInvariant adj ROWS COLS) :
    noGoalReachable maze start goals ROWS COLS = false ∧
    ∀ (k : Nat) (p : Pos), (allCells ROWS COLS)[k]? = some p → (rng k).lt sp = true →
      ∀ j : Int,
        entryAt (removeEdgesOrNodes maze adj start goals sp rng ROWS COLS).1
          (cellIndex p COLS) j ≠ some 1 ∧
        entryAt (removeEdgesOrNodes maze adj start goals sp rng ROWS COLS).1
          j (cellIndex p COLS) ≠ some 1 := by
  have hno := noGoalReachable_of_no_blocked maze start goals ROWS COLS hopen hstart hgoals hne
  refine ⟨hno, ?_⟩
  intro k p hk hdraw j
  obtain ⟨hle, hrem⟩ := removeEdgesOrNodesLoop_removes maze start goals sp rng ROWS COLS hno
    (allCells ROWS COLS) 0 adj
  have hsym := adjSymm_removeEdgesOrNodesLoop maze start goals sp rng ROWS COLS
    (allCells ROWS COLS) 0 adj hinv.2.1
  have hp : isValidMatrixIndex p ROWS COLS = true :=
    (mem_allCells p ROWS COLS).mp (List.getElem?_mem hk)
  have hrow : entryAt (removeEdgesOrNodes maze adj start goals sp rng ROWS COLS).1
      (cellIndex p COLS) j ≠ some 1 := by
    intro h
    obtain ⟨a, b, ha, hb, hia, hib, hab⟩ := hinv.1 _ _ (hle _ _ h)
    have hap : a = p := cellIndex_inj ha hp hia
    subst hap
    subst hib
    exact hrem k a hk (by simpa using hdraw) b ((adjacent4_iff a b).mp hab) hb h
  refine ⟨hrow, ?_⟩
  intro h
  apply hrow
  have := hsym j (cellIndex p COLS)
  unfold removeEdgesOrNodes at h ⊢
  rw [← this]
  exact h

set_option maxRecDepth 20000 in
theorem removeEdgesOrNodes_no_revert_witness :
    (∀ p, isValidMatrixIndex p 2 2 = true → cellAt (openGrid 2 2) p ≠ some (.num 0)) ∧
    isValidMatrixIndex (0, 0) 2 2 = true ∧
    (∀ goal ∈ [((1, 1) : Pos)], isValidMatrixIndex goal 2 2 = true) ∧
    adjInvariant (initialAdjMatrix (openGrid 2 2) 2 2) 2 2 ∧
    (noGoalReachable (openGrid 2 2) (0, 0) [(1, 1)] 2 2 = false ∧
      ∀ (k : Nat) (p : Pos), (allCells 2 2)[k]? = some p →
        (zeroEnv.seedrandom "Maze" k).lt ⟨1, 1⟩ = true →
        ∀ j : Int,
          entryAt (removeEdgesOrNodes (openGrid 2 2) (initialAdjMatrix (openGrid 2 2) 2 2)
            (0, 0) [(1, 1)] ⟨1, 1⟩ (zeroEnv.seedrandom "Maze") 2 2).1
            (cellIndex p 2) j ≠ some 1 ∧
          entryAt (removeEdgesOrNodes (openGrid 2 2) (initialAdjMatrix (openGrid 2 2) 2 2)
            (0, 0) [(1, 1)] ⟨1, 1⟩ (zeroEnv.seedrandom "Maze") 2 2).1
            j (cellIndex p 2) ≠ some 1) ∧
    removeEdgesOrNodes (openGrid 2 2) (initialAdjMatrix (openGrid 2 2) 2 2)
        (0, 0) [(1, 1)] ⟨1, 1⟩ (zeroEnv.seedrandom "Maze") 2 2 =
      (List.replicate 4 (List.replicate 4 0), 4) ∧
    bfsCheck (List.replicate 4 (List.replicate 4 0)) (0, 0) (1, 1) 2 2 = false :=
  ⟨openGrid_no_blocked 2 2, by decide, by decide, adjInvariant_initialAdjMatrix _ 2 2,
    removeEdgesOrNodes_no_revert (openGrid 2 2) (initialAdjMatrix (openGrid 2 2) 2 2) (0, 0)
      [(1, 1)] ⟨1, 1⟩ (zeroEnv.seedrandom "Maze") 2 2 (openGrid_no_blocked 2 2) (by decide)
      (by decide) (by decide) (adjInvariant_initialAdjMatrix _ 2 2),
    by decide, by decide⟩

/-! ## The path search `generatePath` -/

theorem isCellPath_single (maze : Maze) (ROWS COLS : Nat) (a : Pos) :
    isCellPath maze ROWS COLS a a [a] :=
  ⟨[], rfl, List.Chain.nil, rfl⟩

theorem chain_snoc {α : Type} (R : α → α → Prop) (c : α) :
    ∀ (rest : List α) (a b : α), List.Chain R a rest → (a :: rest).getLast? = some b →
      R b c → List.Chain R a (rest ++ [c]) := by
  intro rest
  induction rest with
  | nil =>
    intro a b _ hl hbc
    simp at hl
    subst hl
    exact List.Chain.cons hbc List.Chain.nil
  | cons x xs ih =>
    intro a b hch hl hbc
    rw [List.chain_cons] at hch
    rw [List.cons_append, List.chain_cons]
    refine ⟨hch.1, ih x b hch.2 ?_ hbc⟩
    rw [List.getLast?_cons_cons] at hl
    exact hl

theorem isCellPath_snoc {maze : Maze} {ROWS COLS : Nat} {a b c : Pos} {path : List Pos}
    (h : isCellPath maze ROWS COLS a b path) (hstep : cellStep maze ROWS COLS b c) :
    isCellPath maze ROWS COLS a c (path ++ [c]) := by
  obtain ⟨rest, rfl, hch, hl⟩ := h
  refine ⟨rest ++ [c], rfl, chain_snoc _ c rest a b hch hl hstep, ?_⟩
  rw [← List.cons_append, List.getLast?_append]
  simp

theorem isCellPath_reach {maze : Maze} {ROWS COLS : Nat} {a b : Pos} :
    (∃ path, isCellPath maze ROWS COLS a b path) ↔ Reach (validNeighbors maze ROWS COLS) a b := by
  rw [reach_iff_chain (validNeighbors maze ROWS COLS) (cellStep maze ROWS COLS)
    (cellStep_iff maze ROWS COLS)]
  constructor
  · rintro ⟨path, rest, -, hch, hl⟩
    exact ⟨rest, hch, hl⟩
  · rintro ⟨rest, hch, hl⟩
    exact ⟨a :: rest, rest, rfl, hch, hl⟩

theorem chain_scan {α : Type} (R : α → α → Prop) (D : α → Prop) :
    ∀ (suf : List α) (u v : α), List.Chain R u suf → (u :: suf).getLast? = some v →
      D u → ¬ D v →
      ∃ (s1 s2 : List α) (y x : α), suf = s1 ++ x :: s2 ∧ D y ∧ R y x ∧ ¬ D x := by
  intro suf
  induction suf with
  | nil =>
    intro u v _ hl hu hv
    simp at hl
    subst hl
    exact absurd hu hv
  | cons z zs ih =>
    intro u v hch hl hu hv
    rw [List.chain_cons] at hch
    rw [List.getLast?_cons_cons] at hl
    by_cases hz : D z
    · obtain ⟨s1, s2, y, x, hs, hy, hyx, hx⟩ := ih z v hch.2 hl hz hv
      exact ⟨z :: s1, s2, y, x, by rw [hs]; rfl, hy, hyx, hx⟩
    · exact ⟨[], zs, u, z, rfl, hu, hch.1, hz⟩

theorem chain_of_append_cons {α : Type} (R : α → α → Prop) :
    ∀ (pre : List α) (a u : α) (rest suf : List α), a :: rest = pre ++ u :: suf →
      List.Chain R a rest → List.Chain R u suf := by
  intro pre
  induction pre with
  | nil =>
    intro a u rest suf h hch
    simp at h
    obtain ⟨rfl, rfl⟩ := h
    exact hch
  | cons p ps ih =>
    intro a u rest suf h hch
    simp at h
    obtain ⟨rfl, rfl⟩ := h
    cases ps with
    | nil =>
      rw [List.nil_append, List.chain_cons] at hch
      exact hch.2
    | cons q qs =>
      rw [List.cons_append, List.chain_cons] at hch
      exact ih q u (qs ++ u :: suf) suf rfl hch.2

theorem generatePathLoop_spec (maze : Maze) (start goal : Pos) (ROWS COLS : Nat) :
    ∀ (fuel : Nat) (visited : List Pos) (queue : List (Pos × List Pos)) (D : Pos → Prop),
      visited.Nodup → (∀ v ∈ visited, isValidMatrixIndex v ROWS COLS = true) →
      queue.length + ROWS * COLS ≤ fuel + visited.length →
      (∀ e ∈ queue, isCellPath maze ROWS COLS start e.1 e.2) →
      queue.Pairwise (fun a b => a.2.length ≤ b.2.length) →
      (∀ a ∈ queue, ∀ b ∈ queue, b.2.length ≤ a.2.length + 1) →
      (∀ u, D u → ∀ nb ∈ validNeighbors maze ROWS COLS u, nb ∈ visited) →
      (∀ v ∈ visited, D v ∨ ∃ e ∈ queue, e.1 = v) →
      (∀ u, D u → u ≠ goal) →
      (∀ w v, isCellPath maze ROWS COLS start v w → ¬ D v →
        ∃ e ∈ queue, ∃ pre suf, w = pre ++ e.1 :: suf ∧ e.2.length ≤ pre.length + 1) →
      (generatePathLoop maze goal ROWS COLS fuel visited queue = [] ∧
        ¬ ∃ w, isCellPath maze ROWS COLS start goal w) ∨
      (isCellPath maze ROWS COLS start goal
          (generatePathLoop maze goal ROWS COLS fuel visited queue) ∧
        ∀ w, isCellPath maze ROWS COLS start goal w →
          (generatePathLoop maze goal ROWS COLS fuel visited queue).length ≤ w.length) := by
  have hempty : ∀ (D : Pos → Prop), (∀ u, D u → u ≠ goal) →
      (∀ w v, isCellPath maze ROWS COLS start v w → ¬ D v →
        ∃ e ∈ ([] : List (Pos × List Pos)), ∃ pre suf, w = pre ++ e.1 :: suf ∧
          e.2.length ≤ pre.length + 1) →
      ¬ ∃ w, isCellPath maze ROWS COLS start goal w := by
    rintro D hG hF ⟨w, hw⟩
    obtain ⟨e, he, -⟩ := hF w goal hw (fun h => hG goal h rfl)
    cases he
  intro fuel
  induction fuel with
  | zero =>
    intro visited queue D hnd hval hcount hW hS hS1 hC hV hG hF
    have hlen := length_le_of_nodup_valid visited hnd hval
    have hq : queue = [] := by
      apply List.eq_nil_of_length_eq_zero
      omega
    subst hq
    left
    exact ⟨by cases visited <;> rfl, hempty D hG hF⟩
  | succ fuel ih =>
    intro visited queue D hnd hval hcount hW hS hS1 hC hV hG hF
    cases queue with
    | nil =>
      left
      exact ⟨rfl, hempty D hG hF⟩
    | cons head rest =>
      obtain ⟨cur, path⟩ := head
      have hhead : ∀ e ∈ (cur, path) :: rest, path.length ≤ e.2.length := by
        intro e he
        rcases List.mem_cons.mp he with rfl | he
        · exact le_refl _
        · exact (List.pairwise_cons.mp hS).1 e he
      by_cases hcur : cur = goal
      · right
        have hr : generatePathLoop maze goal ROWS COLS (fuel + 1) visited ((cur, path) :: rest)
            = path := by
          simp [generatePathLoop, hcur]
        rw [hr]
        refine ⟨hcur ▸ hW (cur, path) (List.mem_cons_self _ _), ?_⟩
        intro w hw
        obtain ⟨e, he, pre, suf, hwe, hlen⟩ := hF w goal hw (fun h => hG goal h rfl)
        have := hhead e he
        have hwl : w.length = pre.length + (suf.length + 1) := by
          rw [hwe]; simp
        omega
      · obtain ⟨new, hnew, hnew1, hnew2, hnew3⟩ := enqueueAll_spec (fun pos : Pos => pos)
          (validNeighbors maze ROWS COLS cur) visited []
        simp only [List.map_id', List.nil_append] at hnew hnew2 hnew3
        have hr : generatePathLoop maze goal ROWS COLS (fuel + 1) visited ((cur, path) :: rest)
            = generatePathLoop maze goal ROWS COLS fuel (visited ++ new)
                (rest ++ new.map fun neighbor => (neighbor, path ++ [neighbor])) := by
          simp [generatePathLoop, hcur, hnew]
        rw [hr]
        have hWcur := hW (cur, path) (List.mem_cons_self _ _)
        have hbound : ∀ e ∈ rest ++ new.map (fun neighbor => (neighbor, path ++ [neighbor])),
            path.length ≤ e.2.length ∧ e.2.length ≤ path.length + 1 := by
          intro e he
          rcases List.mem_append.mp he with he | he
          · exact ⟨hhead e (List.mem_cons_of_mem _ he),
              hS1 (cur, path) (List.mem_cons_self _ _) e (List.mem_cons_of_mem _ he)⟩
          · obtain ⟨nb, -, rfl⟩ := List.mem_map.mp he
            simp
        have hC' : ∀ u, (D u ∨ u = cur) → ∀ nb ∈ validNeighbors maze ROWS COLS u,
            nb ∈ visited ++ new := by
          intro u hu nb hnb
          rcases hu with hu | rfl
          · exact List.mem_append_left _ (hC u hu nb hnb)
          · exact hnew3 nb hnb
        have hV' : ∀ v ∈ visited ++ new, (D v ∨ v = cur) ∨
            ∃ e ∈ rest ++ new.map (fun neighbor => (neighbor, path ++ [neighbor])),
              e.1 = v := by
          intro v hv
          rcases List.mem_append.mp hv with hv | hv
          · rcases hV v hv with hd | ⟨e, he, rfl⟩
            · exact Or.inl (Or.inl hd)
            · rcases List.mem_cons.mp he with rfl | he
              · exact Or.inl (Or.inr rfl)
              · exact Or.inr ⟨e, List.mem_append_left _ he, rfl⟩
          · exact Or.inr ⟨(v, path ++ [v]),
              List.mem_append_right _ (List.mem_map.mpr ⟨v, hv, rfl⟩), rfl⟩
        refine ih (visited ++ new)
          (rest ++ new.map fun neighbor => (neighbor, path ++ [neighbor]))
          (fun u => D u ∨ u = cur) (hnew2 hnd) ?_ ?_ ?_ ?_ ?_ hC' hV' ?_ ?_
        · intro v hv
          rcases List.mem_append.mp hv with hv | hv
          · exact hval v hv
          · exact isValid_inBounds ((mem_validNeighbors _ _ _ _ _).mp (hnew1 v hv).1).2
        · simp only [List.length_append, List.length_map, List.length_cons] at hcount ⊢
          omega
        · intro e he
          rcases List.mem_append.mp he with he | he
          · exact hW e (List.mem_cons_of_mem _ he)
          · obtain ⟨nb, hnb, rfl⟩ := List.mem_map.mp he
            exact isCellPath_snoc hWcur ((cellStep_iff _ _ _ _ _).mpr (hnew1 nb hnb).1)
        · rw [List.pairwise_append]
          refine ⟨(List.pairwise_cons.mp hS).2, ?_, ?_⟩
          · rw [List.pairwise_map]
            exact List.pairwise_of_forall (by intro a b; simp)
          · intro a ha b hb
            obtain ⟨nb, -, rfl⟩ := List.mem_map.mp hb
            have := hS1 (cur, path) (List.mem_cons_self _ _) a (List.mem_cons_of_mem _ ha)
            simpa using this
        · intro a ha b hb
          have h1 := hbound a ha
          have h2 := hbound b hb
          omega
        · rintro u (hu | rfl)
          · exact hG u hu
          · exact hcur
        · intro w v hw hv
          have hv0 : ¬ D v := fun h => hv (Or.inl h)
          obtain ⟨e, he, pre, suf, hwe, hlen⟩ := hF w v hw hv0
          rcases List.mem_cons.mp he with rfl | he
          · obtain ⟨rest0, hw0, hch, hl⟩ := hw
            have hch' : List.Chain (cellStep maze ROWS COLS) cur suf :=
              chain_of_append_cons _ pre start cur rest0 suf (hw0 ▸ hwe) hch
            have hl' : (cur :: suf).getLast? = some v := by
              rw [← hw0, hwe, List.getLast?_append] at hl
              simpa using hl
            obtain ⟨s1, s2, y, x, hs, hy, hyx, hx⟩ := chain_scan (cellStep maze ROWS COLS)
              (fun u => D u ∨ u = cur) suf cur v hch' hl' (Or.inr rfl) hv
            have hxv := hC' y hy x ((cellStep_iff _ _ _ _ _).mp hyx)
            rcases hV' x hxv with hd | ⟨e', he', hex⟩
            · exact absurd hd hx
            · refine ⟨e', he', pre ++ cur :: s1, s2, ?_, ?_⟩
              · rw [hwe, hs, hex]; simp
              · have := (hbound e' he').2
                simp only [List.length_append, List.length_cons]
                simp only at hlen
                omega
          · exact ⟨e, List.mem_append_left _ he, pre, suf, hwe, hlen⟩

theorem generatePath_cases (maze : Maze) (start goal : Pos) (ROWS COLS : Nat) :
    (generatePath maze start goal ROWS COLS = [] ∧
      ¬ ∃ w, isCellPath maze ROWS COLS start goal w) ∨
    (isCellPath maze ROWS COLS start goal (generatePath maze start goal ROWS COLS) ∧
      ∀ w, isCellPath maze ROWS COLS start goal w →
        (generatePath maze start goal ROWS COLS).length ≤ w.length) := by
  unfold generatePath
  refine generatePathLoop_spec maze start goal ROWS COLS (ROWS * COLS + 1) []
    [(start, [start])] (fun _ => False) List.nodup_nil (by simp) (by simp; omega) ?_ (by simp)
    (by simp) (by simp) (by simp) (by simp) ?_
  · intro e he
    simp at he
    subst he
    exact isCellPath_single maze ROWS COLS start
  · intro w v hw _
    obtain ⟨rest, rfl, -, -⟩ := hw
    exact ⟨(start, [start]), by simp, [], rest, rfl, by simp⟩

/-- C21. For every grid and cells `from` and `to`: when `to` can be reached from `from` over
cells, `generatePath` returns a path that starts at `from`, ends at `to`, steps only to
4-directionally adjacent cells that are inside the bounds and not blocked, and is no longer
than any other such path; and it returns the empty list exactly when `to` cannot be reached,
which is when `bfs` answers `false`.  On the 2 by 2 grid whose cell `[1, 0]` is blocked the path
from `[0, 0]` to `[1, 1]` goes through `[0, 1]`. -/
theorem generatePath_shortest (maze : Maze) (start goal : Pos) (ROWS COLS : Nat) :
    ((∃ w, isCellPath maze ROWS COLS start goal w) →
      isCellPath maze ROWS COLS start goal (generatePath maze start goal ROWS COLS) ∧
      ∀ w, isCellPath maze ROWS COLS start goal w →
        (generatePath maze start goal ROWS COLS).length ≤ w.length) ∧
    (generatePath maze start goal ROWS COLS = [] ↔
      ¬ ∃ w, isCellPath maze ROWS COLS start goal w) ∧
    ((∃ w, isCellPath maze ROWS COLS start goal w) ↔
      bfs maze start goal ROWS COLS = true) ∧
    generatePath [[.num 1, .num 1], [.num 0, .num 1]] (0, 0) (1, 1) 2 2 =
      [(0, 0), (0, 1), (1, 1)] := by
  refine ⟨?_, ?_, ?_, by decide⟩
  · intro hex
    rcases generatePath_cases maze start goal ROWS COLS with h | h
    · exact absurd hex h.2
    · exact h
  · constructor
    · intro hnil
      rcases generatePath_cases maze start goal ROWS COLS with h | h
      · exact h.2
      · obtain ⟨rest, hr, -, -⟩ := h.1
        rw [hnil] at hr
        cases hr
    · intro hno
      rcases generatePath_cases maze start goal ROWS COLS with h | h
      · exact h.1
      · exact absurd ⟨_, h.1⟩ hno
  · rw [isCellPath_reach, bfs_iff_reach]

/-! ## `ensureConnectivity` and the grid -/

theorem ensurePath_grid (state : Maze × AdjMatrix) (start goal : Pos) :
    (ensurePath state start goal).1 = state.1 := by
  unfold ensurePath
  split_ifs with h
  · have hb : bfs state.1 start goal 7 7 = false := by simpa using h
    have hno : ¬ ∃ w, isCellPath state.1 7 7 start goal w := by
      rw [isCellPath_reach, ← bfs_iff_reach, hb]
      simp
    rcases generatePath_cases state.1 start goal 7 7 with hp | hp
    · simp only [hp.1, List.foldl_nil]
    · exact absurd ⟨_, hp.1⟩ hno
  · rfl

theorem ensureConnectivity_grid (maze : Maze) (adj : AdjMatrix) (nodes : List Pos) :
    (ensureConnectivity maze adj nodes).1 = maze := by
  unfold ensureConnectivity
  exact foldl_invariant (fun s : Maze × AdjMatrix => s.1 = maze)
    (fun (state : Maze × AdjMatrix) (pair : Pos × Pos) => ensurePath state pair.1 pair.2)
    (fun a x ha => (ensurePath_grid a x.1 x.2).trans ha) _ (maze, adj) rfl

/-- The function `ensureConnectivity` never changes the grid: `ensurePath` carves along
`generatePath` only when `bfs` answers `false`, and then `generatePath` returns the empty path.
So one listed node reaches another over cells after `ensureConnectivity` exactly when it did
before. -/
theorem ensureConnectivity_keeps_grid (maze : Maze) (adj : AdjMatrix) (nodes : List Pos) :
    (ensureConnectivity maze adj nodes).1 = maze ∧
    (∀ a b : Pos, bfs maze a b 7 7 = false → generatePath maze a b 7 7 = []) ∧
    ∀ a b : Pos, bfs (ensureConnectivity maze adj nodes).1 a b 7 7 = bfs maze a b 7 7 := by
  refine ⟨ensureConnectivity_grid maze adj nodes, ?_, ?_⟩
  · intro a b hb
    rcases generatePath_cases maze a b 7 7 with hp | hp
    · exact hp.1
    · have := (isCellPath_reach.mp ⟨_, hp.1⟩)
      rw [← bfs_iff_reach, hb] at this
      cases this
  · intro a b
    rw [ensureConnectivity_grid]

set_option maxRecDepth 20000 in
/-- C25. After `ensureConnectivity` two listed nodes are not reachable from each other, where
the claim has every two of them mutually reachable. The function `ensurePath` sets the cells of
`generatePath` to 1 when `bfs` is `false`, but `generatePath` walks over the same cells as `bfs`
and returns the empty path then. On the 7 by 7 grid whose cells `[0, 1]` and `[1, 0]` are
blocked and whose other cells are open, `ensureConnectivity` on the nodes `[0, 0]` and `[6, 6]`
leaves the grid as it is, and `bfs` from `[0, 0]` to `[6, 6]` is still `false`. -/
theorem ensureConnectivity_carves_nothing :
    (ensureConnectivity
      ([.num 1, .num 0, .num 1, .num 1, .num 1, .num 1, .num 1] ::
        [.num 0, .num 1, .num 1, .num 1, .num 1, .num 1, .num 1] ::
        List.replicate 5 (List.replicate 7 (.num 1)))
      (List.replicate 49 (List.replicate 49 0)) [(0, 0), (6, 6)]).1 =
      ([.num 1, .num 0, .num 1, .num 1, .num 1, .num 1, .num 1] ::
        [.num 0, .num 1, .num 1, .num 1, .num 1, .num 1, .num 1] ::
        List.replicate 5 (List.replicate 7 (.num 1))) ∧
    bfs (ensureConnectivity
      ([.num 1, .num 0, .num 1, .num 1, .num 1, .num 1, .num 1] ::
        [.num 0, .num 1, .num 1, .num 1, .num 1, .num 1, .num 1] ::
        List.replicate 5 (List.replicate 7 (.num 1)))
      (List.replicate 49 (List.replicate 49 0)) [(0, 0), (6, 6)]).1 (0, 0) (6, 6) 7 7 =
      false := by
  decide

/-! ## The cleanup passes keep the matrix symmetric -/

theorem adjSymm_clearNode (adj : AdjMatrix) (idx : Int) (ROWS COLS : Nat)
    (hs : ∀ i j : Int, entryAt adj i j = entryAt adj j i) :
    ∀ i j : Int, entryAt (clearNode adj idx ROWS COLS) i j =
      entryAt (clearNode adj idx ROWS COLS) j i := by
  unfold clearNode
  exact foldl_invariant (fun a => ∀ i j : Int, entryAt a i j = entryAt a j i) _
    (fun a x ha => entryAt_setBoth_symm ha _ _ 0) _ adj hs

theorem adjSymm_removeInvalidEdgesAt (maze : Maze) (ROWS COLS : Nat) (adj : AdjMatrix)
    (pos : Pos) (hs : ∀ i j : Int, entryAt adj i j = entryAt adj j i) :
    ∀ i j : Int, entryAt (removeInvalidEdgesAt maze ROWS COLS adj pos) i j =
      entryAt (removeInvalidEdgesAt maze ROWS COLS adj pos) j i := by
  unfold removeInvalidEdgesAt
  split_ifs
  · exact adjSymm_clearNode adj _ ROWS COLS hs
  · refine foldl_invariant (fun a => ∀ i j : Int, entryAt a i j = entryAt a j i) _ ?_ _ _ ?_
    · intro a x ha
      dsimp only
      split_ifs
      · exact entryAt_setBoth_symm ha _ _ 0
      · exact ha
    · refine foldl_invariant (fun a => ∀ i j : Int, entryAt a i j = entryAt a j i) _ ?_ _ adj hs
      intro a x ha
      dsimp only
      split_ifs
      · exact entryAt_setBoth_symm ha _ _ 0
      · exact ha

theorem adjSymm_removeInvalidEdges (maze : Maze) (adj : AdjMatrix) (ROWS COLS : Nat)
    (hs : ∀ i j : Int, entryAt adj i j = entryAt adj j i) :
    ∀ i j : Int, entryAt (removeInvalidEdges maze adj ROWS COLS) i j =
      entryAt (removeInvalidEdges maze adj ROWS COLS) j i := by
  unfold removeInvalidEdges
  exact foldl_invariant (fun a => ∀ i j : Int, entryAt a i j = entryAt a j i) _
    (fun a x ha => adjSymm_removeInvalidEdgesAt maze ROWS COLS a x ha) _ adj hs

theorem adjSymm_removeUnreachableNodes (maze : Maze) (adj : AdjMatrix) (start : Pos)
    (ROWS COLS : Nat) (hs : ∀ i j : Int, entryAt adj i j = entryAt adj j i) :
    ∀ i j : Int, entryAt (removeUnreachableNodes maze adj start ROWS COLS).2 i j =
      entryAt (removeUnreachableNodes maze adj start ROWS COLS).2 j i := by
  unfold removeUnreachableNodes
  refine foldl_invariant
    (fun s : Maze × AdjMatrix => ∀ i j : Int, entryAt s.2 i j = entryAt s.2 j i) _ ?_ _
    (maze, adj) hs
  intro s x ha
  unfold removeUnreachableAt
  split_ifs
  · refine foldl_invariant (fun a => ∀ i j : Int, entryAt a i j = entryAt a j i) _ ?_ _ _ ha
    intro a y hy
    dsimp only
    split_ifs
    · exact entryAt_setBoth_symm hy _ _ 0
    · exact hy
  · exact ha

theorem adjSymm_updateAdjacencyMatrix (adj : AdjMatrix) (pos : Pos) (remove : Bool)
    (ROWS COLS : Nat) (hs : ∀ i j : Int, entryAt adj i j = entryAt adj j i) :
    ∀ i j : Int, entryAt (updateAdjacencyMatrix adj pos remove ROWS COLS) i j =
      entryAt (updateAdjacencyMatrix adj pos remove ROWS COLS) j i := by
  unfold updateAdjacencyMatrix
  refine foldl_invariant (fun a => ∀ i j : Int, entryAt a i j = entryAt a j i) _ ?_ _ adj hs
  intro a y hy
  dsimp only
  split_ifs <;> first | exact entryAt_setBoth_symm hy _ _ _ | exact hy

theorem adjSymm_ensurePath (state : Maze × AdjMatrix) (a b : Pos)
    (hs : ∀ i j : Int, entryAt state.2 i j = entryAt state.2 j i) :
    ∀ i j : Int, entryAt (ensurePath state a b).2 i j = entryAt (ensurePath state a b).2 j i := by
  unfold ensurePath
  split_ifs
  · exact adjSymm_updateAdjacencyMatrix _ _ _ _ _
      (adjSymm_updateAdjacencyMatrix _ _ _ _ _ hs)
  · exact hs

theorem adjSymm_ensureConnectivity (maze : Maze) (adj : AdjMatrix) (nodes : List Pos)
    (hs : ∀ i j : Int, entryAt adj i j = entryAt adj j i) :
    ∀ i j : Int, entryAt (ensureConnectivity maze adj nodes).2 i j =
      entryAt (ensureConnectivity maze adj nodes).2 j i := by
  unfold ensureConnectivity
  refine foldl_invariant
    (fun s : Maze × AdjMatrix => ∀ i j : Int, entryAt s.2 i j = entryAt s.2 j i)
    (fun (state : Maze × AdjMatrix) (pair : Pos × Pos) => ensurePath state pair.1 pair.2)
    ?_ _ (maze, adj) hs
  intro s x ha
  exact adjSymm_ensurePath s x.1 x.2 ha

theorem adjSymm_removeEdgesOrNodes (maze : Maze) (adj : AdjMatrix) (start : Pos)
    (goals : List Pos) (sp : Sparsity) (rng : Nat → Draw) (ROWS COLS : Nat)
    (hs : ∀ i j : Int, entryAt adj i j = entryAt adj j i) :
    ∀ i j : Int, entryAt (removeEdgesOrNodes maze adj start goals sp rng ROWS COLS).1 i j =
      entryAt (removeEdgesOrNodes maze adj start goals sp rng ROWS COLS).1 j i :=
  adjSymm_removeEdgesOrNodesLoop maze start goals sp rng ROWS COLS _ 0 adj hs

/-! ## `removeInvalidEdges` leaves no edge at a blocked cell -/

theorem edgesLe_clearNode (adj : AdjMatrix) (idx : Int) (ROWS COLS : Nat) :
    edgesLe (clearNode adj idx ROWS COLS) adj := by
  unfold clearNode
  exact edgesLe_foldl _ (fun a x => edgesLe_removed a _ _) _ adj

theorem edgesLe_removeInvalidEdgesAt (maze : Maze) (ROWS COLS : Nat) (adj : AdjMatrix)
    (pos : Pos) : edgesLe (removeInvalidEdgesAt maze ROWS COLS adj pos) adj := by
  unfold removeInvalidEdgesAt
  split_ifs
  · exact edgesLe_clearNode adj _ ROWS COLS
  · refine edgesLe_trans (edgesLe_foldl _ ?_ _ _) (edgesLe_foldl _ ?_ _ adj)
    · intro a x
      dsimp only
      split_ifs
      · exact edgesLe_removed a _ _
      · exact edgesLe_refl a
    · intro a x
      dsimp only
      split_ifs
      · exact edgesLe_removed a _ _
      · exact edgesLe_refl a

theorem cell_of_cellIndex {ROWS COLS : Nat} {q : Pos}
    (hq : isValidMatrixIndex q ROWS COLS = true) :
    (cellIndex q COLS).toNat < ROWS * COLS ∧
    (((cellIndex q COLS).toNat : Nat) : Int) = cellIndex q COLS ∧
    (Int.ofNat ((cellIndex q COLS).toNat / COLS), Int.ofNat ((cellIndex q COLS).toNat % COLS))
      = q := by
  have hb := cellIndex_bounds hq
  have h1 : (cellIndex q COLS).toNat < ROWS * COLS := by omega
  have h2 : (((cellIndex q COLS).toNat : Nat) : Int) = cellIndex q COLS :=
    Int.toNat_of_nonneg hb.1
  refine ⟨h1, h2, ?_⟩
  have hc := @cell_of_index ROWS COLS _ h1
  exact cellIndex_inj hc.1 hq (hc.2.trans h2)

theorem removeInvalidEdgesAt_kills (maze : Maze) (ROWS COLS : Nat) (adj : AdjMatrix)
    {pos q : Pos} (hq : isValidMatrixIndex q ROWS COLS = true)
    (hblocked : cellAt maze q = some (.num 0)) :
    entryAt (removeInvalidEdgesAt maze ROWS COLS adj pos) (cellIndex pos COLS)
      (cellIndex q COLS) ≠ some 1 := by
  obtain ⟨hlt, hcast, hcell⟩ := cell_of_cellIndex hq
  have hinvalid : isValid maze q ROWS COLS = false := by
    simp [isValid, hblocked]
  unfold removeInvalidEdgesAt
  split_ifs
  · rw [(entryAt_clearNode adj (cellIndex pos COLS) ROWS COLS (cellIndex pos COLS)
      (cellIndex q COLS)).1 ⟨(cellIndex q COLS).toNat, List.mem_range.mpr hlt,
        Or.inl ⟨rfl, hcast.symm⟩⟩]
    cases entryAt adj (cellIndex pos COLS) (cellIndex q COLS) <;> simp
  · refine entryAt_foldl_killed _ ?_ ?_ _
      (List.mem_range.mpr hlt) _
    · intro a x
      dsimp only
      split_ifs
      · exact edgesLe_removed a _ _
      · exact edgesLe_refl a
    · intro a
      dsimp only
      rw [hcast, hcell, hinvalid]
      by_cases he : entryAt a (cellIndex pos COLS) (cellIndex q COLS) = some 1
      · rw [if_pos ⟨he, rfl⟩]
        exact entryAt_setBoth_zero_ne_one a _ _
      · rw [if_neg (fun h => he h.1)]
        exact he

theorem removeInvalidEdges_kills (maze : Maze) (adj : AdjMatrix) (ROWS COLS : Nat)
    {p q : Pos} (hp : isValidMatrixIndex p ROWS COLS = true)
    (hq : isValidMatrixIndex q ROWS COLS = true) (hblocked : cellAt maze q = some (.num 0)) :
    entryAt (removeInvalidEdges maze adj ROWS COLS) (cellIndex p COLS) (cellIndex q COLS)
      ≠ some 1 := by
  unfold removeInvalidEdges
  exact entryAt_foldl_killed _ (fun a x => edgesLe_removeInvalidEdgesAt maze ROWS COLS a x)
    (fun a => removeInvalidEdgesAt_kills maze ROWS COLS a hq hblocked) _
    ((mem_allCells p ROWS COLS).mpr hp) adj

theorem removeInvalidEdges_endpoints (maze : Maze) (adj : AdjMatrix) (ROWS COLS : Nat)
    (hs : ∀ i j : Int, entryAt adj i j = entryAt adj j i) {p q : Pos}
    (hp : isValidMatrixIndex p ROWS COLS = true) (hq : isValidMatrixIndex q ROWS COLS = true)
    (h : entryAt (removeInvalidEdges maze adj ROWS COLS) (cellIndex p COLS) (cellIndex q COLS)
      = some 1) :
    cellAt maze p ≠ some (.num 0) ∧ cellAt maze q ≠ some (.num 0) := by
  constructor
  · intro hb
    rw [adjSymm_removeInvalidEdges maze adj ROWS COLS hs] at h
    exact removeInvalidEdges_kills maze adj ROWS COLS hq hp hb h
  · intro hb
    exact removeInvalidEdges_kills maze adj ROWS COLS hp hq hb h

/-! ## The state returned by `generateMaze` with `fullyConnected = false` -/

theorem placeAllOperations_names (env : RandomEnv) (seed : Option String)
    (ops : List (String × OperationNode)) :
    ∀ (maze : Maze) (mp : Nat),
      (placeAllOperations env seed ops maze mp).2.1.map (fun e => e.2.mazeName) =
        ops.map (fun e => e.2.mazeName) := by
  induction ops with
  | nil => intro maze mp; rfl
  | cons entry rest ih =>
    intro maze mp
    obtain ⟨key, operation⟩ := entry
    simp only [placeAllOperations, List.map_cons]
    rw [ih]

theorem names_of_map_eq {ops1 ops2 : List (String × OperationNode)}
    (h : ops1.map (fun e => e.2.mazeName) = ops2.map (fun e => e.2.mazeName))
    (hnames : ∀ entry ∈ ops2, entry.2.mazeName ≠ .num 0) :
    ∀ entry ∈ ops1, entry.2.mazeName ≠ .num 0 := by
  intro entry he
  have : entry.2.mazeName ∈ ops1.map (fun e => e.2.mazeName) :=
    List.mem_map.mpr ⟨entry, he, rfl⟩
  rw [h] at this
  obtain ⟨e2, he2, heq⟩ := List.mem_map.mp this
  rw [← heq]
  exact hnames e2 he2

theorem generateMaze_eq_some_names {env : RandomEnv} {sp : Sparsity}
    {maze_seed operation_node_seed : Option String} {mazeStructure : Option Maze}
    {fullyConnected : Bool} {ROWS COLS : Nat} (fuel : Nat) :
    ∀ {nd : NodeDetails} {mp : Nat} {st : MazeData},
      (∀ entry ∈ nd.operation, entry.2.mazeName ≠ .num 0) →
      generateMaze env nd sp maze_seed operation_node_seed mazeStructure fullyConnected
          ROWS COLS fuel mp = some st →
      ∃ (nd' : NodeDetails) (mp' : Nat), nd'.start = nd.start ∧ nd'.goal = nd.goal ∧
        (∀ entry ∈ nd'.operation, entry.2.mazeName ≠ .num 0) ∧
        (generateAttempt env nd' sp maze_seed operation_node_seed mazeStructure fullyConnected
          ROWS COLS mp').2.1 = true ∧
        st = (generateAttempt env nd' sp maze_seed operation_node_seed mazeStructure
          fullyConnected ROWS COLS mp').1 := by
  induction fuel with
  | zero => intro nd mp st _ h; simp [generateMaze] at h
  | succ fuel ih =>
    intro nd mp st hnames h
    simp only [generateMaze] at h
    split_ifs at h with hc
    · exact ⟨nd, mp, rfl, rfl, hnames, hc, (Option.some.inj h).symm⟩
    · have hn : ∀ entry ∈ (generateAttempt env nd sp maze_seed operation_node_seed
          mazeStructure fullyConnected ROWS COLS mp).1.nodeDetails.operation,
          entry.2.mazeName ≠ .num 0 :=
        names_of_map_eq (placeAllOperations_names env operation_node_seed nd.operation _ _)
          hnames
      obtain ⟨nd', mp', h1, h2, h3, h4, h5⟩ := ih hn h
      exact ⟨nd', mp', h1, h2, h3, h4, h5⟩

theorem blocked_of_placed_blocked (env : RandomEnv) (seed : Option String) (nd : NodeDetails)
    (base : Maze) (mp : Nat) (hnames : ∀ entry ∈ nd.operation, entry.2.mazeName ≠ .num 0)
    {p : Pos}
    (h : cellAt (placeAllOperations env seed nd.operation
      (updateMazeWithNodeNames base nd false) mp).1 p = some (.num 0)) :
    cellAt base p = some (.num 0) := by
  have hnamed : cellAt (updateMazeWithNodeNames base nd false) p = some (.num 0) := by
    rcases cellAt_placeAllOperations_cases env seed p nd.operation
      (updateMazeWithNodeNames base nd false) mp with h1 | ⟨entry, he, h1⟩
    · rw [← h1]; exact h
    · rw [h1] at h
      exact absurd (Option.some.inj h) (hnames entry he)
  rw [cellAt_updateMazeWithNodeNames] at hnamed
  split_ifs at hnamed
  · cases hc : cellAt base p with
    | none => rw [hc] at hnamed; cases hnamed
    | some c => rw [hc] at hnamed; cases hnamed
  · cases hc : cellAt base p with
    | none => rw [hc] at hnamed; cases hnamed
    | some c => rw [hc] at hnamed; cases hnamed
  · exact hnamed

theorem generateAttempt_false_edges (env : RandomEnv) (nd : NodeDetails) (sp : Sparsity)
    (maze_seed operation_node_seed : Option String) (mazeStructure : Option Maze)
    (ROWS COLS mp : Nat) (hnames : ∀ entry ∈ nd.operation, entry.2.mazeName ≠ .num 0)
    {p q : Pos} (hp : isValidMatrixIndex p ROWS COLS = true)
    (hq : isValidMatrixIndex q ROWS COLS = true)
    (h : entryAt (generateAttempt env nd sp maze_seed operation_node_seed mazeStructure false
      ROWS COLS mp).1.adjMatrix (cellIndex p COLS) (cellIndex q COLS) = some 1) :
    cellAt (generateAttempt env nd sp maze_seed operation_node_seed mazeStructure false
      ROWS COLS mp).1.maze p ≠ some (.num 0) ∧
    cellAt (generateAttempt env nd sp maze_seed operation_node_seed mazeStructure false
      ROWS COLS mp).1.maze q ≠ some (.num 0) := by
  have hbase : ∃ (maze1 : Maze) (adj1 : AdjMatrix),
      (generateBase env nd sp maze_seed mazeStructure false ROWS COLS mp).1 = maze1 ∧
      (generateBase env nd sp maze_seed mazeStructure false ROWS COLS mp).2.1 =
        removeInvalidEdges maze1 adj1 ROWS COLS ∧
      ∀ i j : Int, entryAt adj1 i j = entryAt adj1 j i := by
    refine ⟨_, _, rfl, rfl, ?_⟩
    refine adjSymm_ensureConnectivity _ _ _ (adjSymm_removeUnreachableNodes _ _ _ _ _
      (adjSymm_removeInvalidEdges _ _ _ _ (adjSymm_removeEdgesOrNodes _ _ _ _ _ _ _ _
        (adjInvariant_initialAdjMatrix _ ROWS COLS).2.1)))
  obtain ⟨maze1, adj1, hm, ha, hs⟩ := hbase
  have hadj : (generateAttempt env nd sp maze_seed operation_node_seed mazeStructure false
      ROWS COLS mp).1.adjMatrix = removeInvalidEdges maze1 adj1 ROWS COLS := ha
  have hmaze : (generateAttempt env nd sp maze_seed operation_node_seed mazeStructure false
      ROWS COLS mp).1.maze = (placeAllOperations env operation_node_seed nd.operation
        (updateMazeWithNodeNames maze1 nd false)
        (generateBase env nd sp maze_seed mazeStructure false ROWS COLS mp).2.2).1 := by
    rw [← hm]; rfl
  rw [hadj] at h
  have hends := removeInvalidEdges_endpoints maze1 adj1 ROWS COLS hs hp hq h
  rw [hmaze]
  exact ⟨fun hb => hends.1 (blocked_of_placed_blocked env _ nd maze1 _ hnames hb),
    fun hb => hends.2 (blocked_of_placed_blocked env _ nd maze1 _ hnames hb)⟩

set_option maxRecDepth 20000 in
/-- C23. For every grid and every symmetric matrix, after `removeInvalidEdges` an entry 1
between the indices of two cells inside the bounds has both cells not blocked.  Consequently,
when no operation node has the `mazeName` 0, the candidate that a round of `generateMaze` with
`fullyConnected = false` builds, and so the state that `generateMaze` returns, has no entry 1
at the index of a blocked cell.  On the 2 by 2 grid whose cell `[0, 1]` is blocked, the pass
deletes the two edges of that cell from the matrix of the open grid. -/
theorem removeInvalidEdges_no_blocked_endpoint :
    (∀ (maze : Maze) (adj : AdjMatrix) (ROWS COLS : Nat),
      (∀ i j : Int, entryAt adj i j = entryAt adj j i) →
      ∀ p q : Pos, isValidMatrixIndex p ROWS COLS = true →
        isValidMatrixIndex q ROWS COLS = true →
        entryAt (removeInvalidEdges maze adj ROWS COLS) (cellIndex p COLS) (cellIndex q COLS)
          = some 1 →
        cellAt maze p ≠ some (.num 0) ∧ cellAt maze q ≠ some (.num 0)) ∧
    (∀ (env : RandomEnv) (nd : NodeDetails) (sp : Sparsity)
        (maze_seed operation_node_seed : Option String) (mazeStructure : Option Maze)
        (ROWS COLS fuel mp : Nat) (st : MazeData),
      (∀ entry ∈ nd.operation, entry.2.mazeName ≠ .num 0) →
      generateMaze env nd sp maze_seed operation_node_seed mazeStructure false ROWS COLS
        fuel mp = some st →
      ∀ p q : Pos, isValidMatrixIndex p ROWS COLS = true →
        isValidMatrixIndex q ROWS COLS = true →
        entryAt st.adjMatrix (cellIndex p COLS) (cellIndex q COLS) = some 1 →
        cellAt st.maze p ≠ some (.num 0) ∧ cellAt st.maze q ≠ some (.num 0)) ∧
    removeInvalidEdges [[.num 1, .num 0], [.num 1, .num 1]]
        [[0, 1, 1, 0], [1, 0, 0, 1], [1, 0, 0, 1], [0, 1, 1, 0]] 2 2 =
      [[0, 0, 1, 0], [0, 0, 0, 0], [1, 0, 0, 1], [0, 0, 1, 0]] := by
  refine ⟨?_, ?_, by decide⟩
  · intro maze adj ROWS COLS hs p q hp hq h
    exact removeInvalidEdges_endpoints maze adj ROWS COLS hs hp hq h
  · intro env nd sp maze_seed operation_node_seed mazeStructure ROWS COLS fuel mp st hnames
      hst p q hp hq h
    obtain ⟨nd', mp', -, -, hn, -, rfl⟩ := generateMaze_eq_some_names fuel hnames hst
    exact generateAttempt_false_edges env nd' sp maze_seed operation_node_seed mazeStructure
      ROWS COLS mp' hn hp hq h

/-! ## `removeUnreachableNodes` on the 7 by 7 grid -/

theorem entryAt_cut (ROWS COLS : Nat) (adj : AdjMatrix) (pos : Pos) (k l : Int) :
    ((∃ nb ∈ getNeighbors pos, isValidMatrixIndex nb ROWS COLS = true ∧
        ((k = cellIndex pos COLS ∧ l = cellIndex nb COLS) ∨
          (k = cellIndex nb COLS ∧ l = cellIndex pos COLS))) →
      entryAt ((getNeighbors pos).foldl (fun adj neighbor =>
        if isValidMatrixIndex neighbor ROWS COLS then
          setBoth adj (cellIndex pos COLS) (cellIndex neighbor COLS) 0
        else adj) adj) k l = (entryAt adj k l).map fun _ => 0) ∧
    ((¬ ∃ nb ∈ getNeighbors pos, isValidMatrixIndex nb ROWS COLS = true ∧
        ((k = cellIndex pos COLS ∧ l = cellIndex nb COLS) ∨
          (k = cellIndex nb COLS ∧ l = cellIndex pos COLS))) →
      entryAt ((getNeighbors pos).foldl (fun adj neighbor =>
        if isValidMatrixIndex neighbor ROWS COLS then
          setBoth adj (cellIndex pos COLS) (cellIndex neighbor COLS) 0
        else adj) adj) k l = entryAt adj k l) := by
  refine entryAt_foldl_mark 0 _
    (fun nb k l => isValidMatrixIndex nb ROWS COLS = true ∧
      ((k = cellIndex pos COLS ∧ l = cellIndex nb COLS) ∨
        (k = cellIndex nb COLS ∧ l = cellIndex pos COLS))) ?_ _ adj k l
  intro a x k l
  dsimp only
  constructor
  · rintro ⟨hv, hkl⟩
    rw [if_pos hv, entryAt_setBoth, if_pos hkl]
  · intro hno
    by_cases hv : isValidMatrixIndex x ROWS COLS = true
    · rw [if_pos hv, entryAt_setBoth, if_neg (fun hkl => hno ⟨hv, hkl⟩)]
    · rw [if_neg hv]

theorem edgesLe_cut (ROWS COLS : Nat) (adj : AdjMatrix) (pos : Pos) :
    edgesLe ((getNeighbors pos).foldl (fun adj neighbor =>
      if isValidMatrixIndex neighbor ROWS COLS then
        setBoth adj (cellIndex pos COLS) (cellIndex neighbor COLS) 0
      else adj) adj) adj := by
  refine edgesLe_foldl _ ?_ _ adj
  intro a x
  dsimp only
  split_ifs
  · exact edgesLe_removed a _ _
  · exact edgesLe_refl a

theorem reach_edges_mono {adj1 adj2 : AdjMatrix} {ROWS COLS : Nat} (h : edgesLe adj1 adj2)
    {a b : Pos} (hr : Reach (edgeNeighbors adj1 ROWS COLS) a b) :
    Reach (edgeNeighbors adj2 ROWS COLS) a b := by
  induction hr with
  | refl => exact Relation.ReflTransGen.refl
  | @tail x y _ hstep ih =>
    refine Relation.ReflTransGen.tail ih ?_
    rw [mem_edgeNeighbors] at hstep ⊢
    exact ⟨hstep.1, hstep.2.1, h _ _ hstep.2.2⟩

theorem reach_after_cut (ROWS COLS : Nat) (adj : AdjMatrix) (start c : Pos)
    (hc : isValidMatrixIndex c ROWS COLS = true)
    (hno : ¬ Reach (edgeNeighbors adj ROWS COLS) c start) {d : Pos}
    (hd : isValidMatrixIndex d ROWS COLS = true)
    (hr : Reach (edgeNeighbors adj ROWS COLS) d start) :
    Reach (edgeNeighbors ((getNeighbors c).foldl (fun adj neighbor =>
      if isValidMatrixIndex neighbor ROWS COLS then
        setBoth adj (cellIndex c COLS) (cellIndex neighbor COLS) 0
      else adj) adj) ROWS COLS) d start := by
  induction hr using Relation.ReflTransGen.head_induction_on with
  | refl => exact Relation.ReflTransGen.refl
  | @head x y hxy hrest ih =>
    have hxy' := (mem_edgeNeighbors adj ROWS COLS x y).mp hxy
    have hxr : Reach (edgeNeighbors adj ROWS COLS) x start :=
      Relation.ReflTransGen.head hxy hrest
    have hxc : x ≠ c := fun h => hno (h ▸ hxr)
    have hyc : y ≠ c := fun h => hno (h ▸ hrest)
    refine Relation.ReflTransGen.head ?_ (ih hxy'.2.1)
    rw [mem_edgeNeighbors]
    refine ⟨hxy'.1, hxy'.2.1, ?_⟩
    rw [(entryAt_cut ROWS COLS adj c _ _).2 ?_]
    · exact hxy'.2.2
    · rintro ⟨nb, -, hv, (⟨h1, -⟩ | ⟨-, h2⟩)⟩
      · exact hxc (cellIndex_inj hd hc h1)
      · exact hyc (cellIndex_inj hxy'.2.1 hc h2)

theorem removeUnreachableAt_eq (start : Pos) (ROWS COLS : Nat) (adj0 : AdjMatrix)
    (state : Maze × AdjMatrix) (c : Pos) (hc : isValidMatrixIndex c 7 7 = true)
    (hI : ∀ d, isValidMatrixIndex d 7 7 = true →
      (Reach (edgeNeighbors state.2 7 7) d start ↔ Reach (edgeNeighbors adj0 7 7) d start)) :
    ((cellIndex c COLS = start.1 ∨ cellIndex c COLS = start.2 ∨
        Reach (edgeNeighbors adj0 7 7) c start) →
      removeUnreachableAt start ROWS COLS state c = state) ∧
    (¬ (cellIndex c COLS = start.1 ∨ cellIndex c COLS = start.2 ∨
        Reach (edgeNeighbors adj0 7 7) c start) →
      removeUnreachableAt start ROWS COLS state c =
        (setCell state.1 c (.num 0),
          (getNeighbors c).foldl (fun adj neighbor =>
            if isValidMatrixIndex neighbor ROWS COLS then
              setBoth adj (cellIndex c COLS) (cellIndex neighbor COLS) 0
            else adj) state.2)) := by
  have hb : bfsCheck state.2 c start 7 7 = false ↔ ¬ Reach (edgeNeighbors adj0 7 7) c start := by
    rw [← hI c hc, ← bfsCheck_iff_reach]
    cases bfsCheck state.2 c start 7 7 <;> simp
  unfold removeUnreachableAt
  constructor
  · intro hk
    rw [if_neg]
    rintro ⟨h1, h2⟩
    rcases hk with hk | hk | hk
    · exact h1 (Or.inl hk)
    · exact h1 (Or.inr hk)
    · exact hb.mp h2 hk
  · intro hk
    rw [if_pos]
    exact ⟨fun h => hk (h.elim Or.inl (fun h => Or.inr (Or.inl h))),
      hb.mpr (fun h => hk (Or.inr (Or.inr h)))⟩

theorem map_map_const {α : Type} (o : Option α) (v : α) :
    (o.map fun _ => v).map (fun _ => v) = o.map fun _ => v := by
  cases o <;> rfl

theorem removeUnreachable_fold (start : Pos) (adj0 : AdjMatrix) (cells : List Pos) :
    ∀ (mz : Maze) (a : AdjMatrix), (∀ c ∈ cells, isValidMatrixIndex c 7 7 = true) →
      (∀ d, isValidMatrixIndex d 7 7 = true →
        (Reach (edgeNeighbors a 7 7) d start ↔ Reach (edgeNeighbors adj0 7 7) d start)) →
      (∀ d, isValidMatrixIndex d 7 7 = true →
        (Reach (edgeNeighbors (cells.foldl (removeUnreachableAt start 7 7) (mz, a)).2 7 7)
          d start ↔ Reach (edgeNeighbors adj0 7 7) d start)) ∧
      edgesLe (cells.foldl (removeUnreachableAt start 7 7) (mz, a)).2 a ∧
      (∀ p, (p ∈ cells → ¬ (cellIndex p 7 = start.1 ∨ cellIndex p 7 = start.2 ∨
            Reach (edgeNeighbors adj0 7 7) p start) →
          cellAt (cells.foldl (removeUnreachableAt start 7 7) (mz, a)).1 p =
            (cellAt mz p).map fun _ => Cell.num 0) ∧
        (¬ (p ∈ cells ∧ ¬ (cellIndex p 7 = start.1 ∨ cellIndex p 7 = start.2 ∨
            Reach (edgeNeighbors adj0 7 7) p start)) →
          cellAt (cells.foldl (removeUnreachableAt start 7 7) (mz, a)).1 p = cellAt mz p)) ∧
      (∀ c ∈ cells, ¬ (cellIndex c 7 = start.1 ∨ cellIndex c 7 = start.2 ∨
          Reach (edgeNeighbors adj0 7 7) c start) →
        ∀ nb ∈ getNeighbors c, isValidMatrixIndex nb 7 7 = true →
          entryAt (cells.foldl (removeUnreachableAt start 7 7) (mz, a)).2
            (cellIndex c 7) (cellIndex nb 7) ≠ some 1 ∧
          entryAt (cells.foldl (removeUnreachableAt start 7 7) (mz, a)).2
            (cellIndex nb 7) (cellIndex c 7) ≠ some 1) ∧
      (∀ k l : Int, (¬ ∃ c ∈ cells, ¬ (cellIndex c 7 = start.1 ∨ cellIndex c 7 = start.2 ∨
          Reach (edgeNeighbors adj0 7 7) c start) ∧
          ∃ nb ∈ getNeighbors c, isValidMatrixIndex nb 7 7 = true ∧
            ((k = cellIndex c 7 ∧ l = cellIndex nb 7) ∨
              (k = cellIndex nb 7 ∧ l = cellIndex c 7))) →
        entryAt (cells.foldl (removeUnreachableAt start 7 7) (mz, a)).2 k l =
          entryAt a k l) := by
  induction cells with
  | nil =>
    intro mz a _ hI
    refine ⟨hI, edgesLe_refl a, ?_, ?_, ?_⟩
    · intro p
      exact ⟨fun h => absurd h (List.not_mem_nil p), fun _ => rfl⟩
    · intro c hc
      exact absurd hc (List.not_mem_nil c)
    · intro k l _
      rfl
  | cons c rest ih =>
    intro mz a hval hI
    have hc := hval c (List.mem_cons_self _ _)
    have hrest : ∀ x ∈ rest, isValidMatrixIndex x 7 7 = true :=
      fun x hx => hval x (List.mem_cons_of_mem _ hx)
    obtain ⟨hkeep, hremove⟩ := removeUnreachableAt_eq start 7 7 adj0 (mz, a) c hc hI
    rw [List.foldl_cons]
    by_cases hk : cellIndex c 7 = start.1 ∨ cellIndex c 7 = start.2 ∨
        Reach (edgeNeighbors adj0 7 7) c start
    · rw [hkeep hk]
      obtain ⟨r1, r2, r3, r4, r5⟩ := ih mz a hrest hI
      refine ⟨r1, r2, ?_, ?_, ?_⟩
      · intro p
        refine ⟨fun hp hnk => (r3 p).1 ?_ hnk, fun hno => (r3 p).2 ?_⟩
        · rcases List.mem_cons.mp hp with rfl | hp
          · exact absurd hk hnk
          · exact hp
        · exact fun h => hno ⟨List.mem_cons_of_mem _ h.1, h.2⟩
      · intro x hx hnk
        rcases List.mem_cons.mp hx with rfl | hx
        · exact absurd hk hnk
        · exact r4 x hx hnk
      · intro k l hno
        exact r5 k l (fun ⟨x, hx, h⟩ => hno ⟨x, List.mem_cons_of_mem _ hx, h⟩)
    · rw [hremove hk]
      have hnoreach : ¬ Reach (edgeNeighbors a 7 7) c start :=
        fun h => hk (Or.inr (Or.inr ((hI c hc).mp h)))
      have hI' : ∀ d, isValidMatrixIndex d 7 7 = true →
          (Reach (edgeNeighbors ((getNeighbors c).foldl (fun adj neighbor =>
            if isValidMatrixIndex neighbor 7 7 then
              setBoth adj (cellIndex c 7) (cellIndex neighbor 7) 0
            else adj) a) 7 7) d start ↔ Reach (edgeNeighbors adj0 7 7) d start) := by
        intro d hd
        rw [← hI d hd]
        exact ⟨fun h => reach_edges_mono (edgesLe_cut 7 7 a c) h,
          fun h => reach_after_cut 7 7 a start c hc hnoreach hd h⟩
      obtain ⟨r1, r2, r3, r4, r5⟩ := ih (setCell mz c (.num 0)) _ hrest hI'
      refine ⟨r1, edgesLe_trans r2 (edgesLe_cut 7 7 a c), ?_, ?_, ?_⟩
      · intro p
        constructor
        · intro hp hnk
          by_cases hpr : p ∈ rest
          · rw [(r3 p).1 hpr hnk, cellAt_setCell]
            split_ifs with hpc
            · rw [hpc, map_map_const]
            · rfl
          · have hpc : p = c := (List.mem_cons.mp hp).resolve_right hpr
            rw [(r3 p).2 (fun h => hpr h.1), cellAt_setCell, if_pos hpc, hpc]
        · intro hno
          have hpc : p ≠ c := fun h => hno ⟨h ▸ List.mem_cons_self _ _, h ▸ hk⟩
          rw [(r3 p).2 (fun h => hno ⟨List.mem_cons_of_mem _ h.1, h.2⟩),
            cellAt_setCell_of_ne _ _ hpc]
      · intro x hx hnk nb hnb hv
        by_cases hxr : x ∈ rest
        · exact r4 x hxr hnk nb hnb hv
        · have hxc : x = c := (List.mem_cons.mp hx).resolve_right hxr
          subst hxc
          have e1 := (entryAt_cut 7 7 a x (cellIndex x 7) (cellIndex nb 7)).1
            ⟨nb, hnb, hv, Or.inl ⟨rfl, rfl⟩⟩
          have e2 := (entryAt_cut 7 7 a x (cellIndex nb 7) (cellIndex x 7)).1
            ⟨nb, hnb, hv, Or.inr ⟨rfl, rfl⟩⟩
          constructor
          · intro h
            have := r2 _ _ h
            rw [e1] at this
            cases hh : entryAt a (cellIndex x 7) (cellIndex nb 7) <;> rw [hh] at this <;>
              simp at this
          · intro h
            have := r2 _ _ h
            rw [e2] at this
            cases hh : entryAt a (cellIndex nb 7) (cellIndex x 7) <;> rw [hh] at this <;>
              simp at this
      · intro k l hno
        rw [r5 k l (fun ⟨x, hx, h⟩ => hno ⟨x, List.mem_cons_of_mem _ hx, h⟩)]
        exact (entryAt_cut 7 7 a c k l).2
          (fun h => hno ⟨c, List.mem_cons_self _ _, hk, h⟩)

/-- The cells that `removeUnreachableNodes` blocks. On the 7 by 7 grid, call a cell exempt when
its index `row * 7 + col` equals
the row or the column of the start.  After `removeUnreachableNodes`, every cell inside the
bounds that is not exempt and from which the start cannot be reached along matrix edges between
adjacent cells is blocked and has no edge to or from any of its four neighbours (no edge at all
when the matrix satisfies the adjacency-matrix invariant); every other cell, so every exempt
cell and every cell that reaches the start, is unchanged, and the entries between two such
cells are unchanged. -/
theorem removeUnreachableNodes_spec (maze : Maze) (adj : AdjMatrix) (start : Pos) :
    (∀ p : Pos, isValidMatrixIndex p 7 7 = true →
      ¬ (cellIndex p 7 = start.1 ∨ cellIndex p 7 = start.2) →
      ¬ Reach (edgeNeighbors adj 7 7) p start →
      cellAt (removeUnreachableNodes maze adj start 7 7).1 p =
        (cellAt maze p).map (fun _ => Cell.num 0) ∧
      (∀ nb ∈ getNeighbors p, isValidMatrixIndex nb 7 7 = true →
        entryAt (removeUnreachableNodes maze adj start 7 7).2 (cellIndex p 7)
          (cellIndex nb 7) ≠ some 1 ∧
        entryAt (removeUnreachableNodes maze adj start 7 7).2 (cellIndex nb 7)
          (cellIndex p 7) ≠ some 1) ∧
      (adjInvariant adj 7 7 → ∀ j : Int,
        entryAt (removeUnreachableNodes maze adj start 7 7).2 (cellIndex p 7) j ≠ some 1 ∧
        entryAt (removeUnreachableNodes maze adj start 7 7).2 j (cellIndex p 7) ≠ some 1)) ∧
    (∀ p : Pos, isValidMatrixIndex p 7 7 = false ∨
        cellIndex p 7 = start.1 ∨ cellIndex p 7 = start.2 ∨
        Reach (edgeNeighbors adj 7 7) p start →
      cellAt (removeUnreachableNodes maze adj start 7 7).1 p = cellAt maze p) ∧
    (∀ p q : Pos, isValidMatrixIndex p 7 7 = true → isValidMatrixIndex q 7 7 = true →
      (cellIndex p 7 = start.1 ∨ cellIndex p 7 = start.2 ∨
        Reach (edgeNeighbors adj 7 7) p start) →
      (cellIndex q 7 = start.1 ∨ cellIndex q 7 = start.2 ∨
        Reach (edgeNeighbors adj 7 7) q start) →
      entryAt (removeUnreachableNodes maze adj start 7 7).2 (cellIndex p 7) (cellIndex q 7) =
        entryAt adj (cellIndex p 7) (cellIndex q 7)) := by
  obtain ⟨-, r2, r3, r4, r5⟩ := removeUnreachable_fold start adj (allCells 7 7) maze adj
    (fun c hc => (mem_allCells c 7 7).mp hc) (fun d _ => Iff.rfl)
  have hres : removeUnreachableNodes maze adj start 7 7 =
      (allCells 7 7).foldl (removeUnreachableAt start 7 7) (maze, adj) := rfl
  rw [hres]
  refine ⟨?_, ?_, ?_⟩
  · intro p hp hex hreach
    have hnk : ¬ (cellIndex p 7 = start.1 ∨ cellIndex p 7 = start.2 ∨
        Reach (edgeNeighbors adj 7 7) p start) := by
      rintro (h | h | h)
      · exact hex (Or.inl h)
      · exact hex (Or.inr h)
      · exact hreach h
    have hmem := (mem_allCells p 7 7).mpr hp
    refine ⟨(r3 p).1 hmem hnk, r4 p hmem hnk, ?_⟩
    intro hinv j
    have hrow : ∀ i j : Int, (i = cellIndex p 7 ∨ j = cellIndex p 7) →
        entryAt ((allCells 7 7).foldl (removeUnreachableAt start 7 7) (maze, adj)).2 i j
          ≠ some 1 := by
      intro i j hij h
      obtain ⟨a, b, ha, hb, hia, hib, hab⟩ := hinv.1 _ _ (r2 _ _ h)
      subst hia hib
      rcases hij with hij | hij
      · have := cellIndex_inj ha hp hij
        subst this
        exact (r4 a hmem hnk b ((adjacent4_iff a b).mp hab) hb).1 h
      · have := cellIndex_inj hb hp hij
        subst this
        exact (r4 b hmem hnk a (mem_getNeighbors_symm ((adjacent4_iff a b).mp hab)) ha).2 h
    exact ⟨hrow _ _ (Or.inl rfl), hrow _ _ (Or.inr rfl)⟩
  · intro p hp
    refine (r3 p).2 ?_
    rintro ⟨hmem, hnk⟩
    rcases hp with hp | hp
    · rw [(mem_allCells p 7 7).mp hmem] at hp
      cases hp
    · exact hnk hp
  · intro p q hp hq hkp hkq
    refine r5 _ _ ?_
    rintro ⟨c, hc, hnk, nb, -, hv, (⟨h1, h2⟩ | ⟨h1, h2⟩)⟩
    · have := cellIndex_inj hp ((mem_allCells c 7 7).mp hc) h1
      subst this
      exact hnk hkp
    · have := cellIndex_inj hq ((mem_allCells c 7 7).mp hc) h2
      subst this
      exact hnk hkq

set_option maxRecDepth 20000 in
/-- C26. A cell from which the start cannot be reached stays open, where the claim has it
blocked. The test `[...start].includes(currentIdx)` compares the index of the cell with the row
and the column of the start, where `remove_unreachable_nodes` of `maze.js` compares the row and
the column of the cell with those of the start. On the open 7 by 7 grid with the matrix without
edges and the start `[1, 1]`, the start cannot be reached from the cell `[0, 1]`, whose index 1
is the row of the start, and `removeUnreachableNodes` leaves that cell open, while it blocks the
cell `[0, 2]`. -/
theorem removeUnreachableNodes_keeps_exempt_cell :
    bfsCheck (List.replicate 49 (List.replicate 49 0)) (0, 1) (1, 1) 7 7 = false ∧
    cellAt (removeUnreachableNodes (openGrid 7 7) (List.replicate 49 (List.replicate 49 0))
      (1, 1) 7 7).1 (0, 1) = some (.num 1) ∧
    cellAt (removeUnreachableNodes (openGrid 7 7) (List.replicate 49 (List.replicate 49 0))
      (1, 1) 7 7).1 (0, 2) = some (.num 0) := by
  obtain ⟨-, -, r3, -, -⟩ := removeUnreachable_fold (1, 1)
    (List.replicate 49 (List.replicate 49 0)) (allCells 7 7) (openGrid 7 7)
    (List.replicate 49 (List.replicate 49 0))
    (fun c hc => (mem_allCells c 7 7).mp hc) (fun d _ => Iff.rfl)
  have hres : removeUnreachableNodes (openGrid 7 7) (List.replicate 49 (List.replicate 49 0))
      (1, 1) 7 7 = (allCells 7 7).foldl (removeUnreachableAt (1, 1) 7 7)
        (openGrid 7 7, List.replicate 49 (List.replicate 49 0)) := rfl
  have hb : bfsCheck (List.replicate 49 (List.replicate 49 0)) (0, 2) (1, 1) 7 7 = false := by
    decide
  refine ⟨by decide, ?_, ?_⟩
  · rw [hres, (r3 (0, 1)).2 (fun h => h.2 (Or.inl (by decide)))]
    decide
  · rw [hres, (r3 (0, 2)).1 ((mem_allCells (0, 2) 7 7).mpr (by decide)) ?_]
    · decide
    · rintro (h | h | h)
      · exact absurd h (by decide)
      · exact absurd h (by decide)
      · rw [← bfsCheck_iff_reach, hb] at h
        cases h

/-! ## The retries of `generateMaze` with a maze seed -/

theorem updateMazeWithNodeNames_congr (base : Maze) {nd1 nd2 : NodeDetails}
    (hs : nd1.start = nd2.start) (hg : nd1.goal = nd2.goal) :
    updateMazeWithNodeNames base nd1 false = updateMazeWithNodeNames base nd2 false := by
  simp [updateMazeWithNodeNames, hs, hg]

theorem validNeighbors_congr {maze1 maze2 : Maze} (ROWS COLS : Nat)
    (h : ∀ p, cellAt maze1 p = some (.num 0) ↔ cellAt maze2 p = some (.num 0)) :
    validNeighbors maze1 ROWS COLS = validNeighbors maze2 ROWS COLS := by
  funext current
  unfold validNeighbors
  apply List.filter_congr
  intro x _
  unfold isValid
  have : decide (cellAt maze1 x ≠ some (.num 0)) = decide (cellAt maze2 x ≠ some (.num 0)) := by
    by_cases hx : cellAt maze1 x = some (.num 0)
    · simp [hx, (h x).mp hx]
    · have hx2 : cellAt maze2 x ≠ some (.num 0) := fun h2 => hx ((h x).mpr h2)
      simp [hx, hx2]
  rw [this]

theorem bfs_congr {maze1 maze2 : Maze} (ROWS COLS : Nat)
    (h : ∀ p, cellAt maze1 p = some (.num 0) ↔ cellAt maze2 p = some (.num 0))
    (a b : Pos) : bfs maze1 a b ROWS COLS = bfs maze2 a b ROWS COLS := by
  unfold bfs
  rw [validNeighbors_congr ROWS COLS h]

theorem blocked_placeAllOperations (env : RandomEnv) (seed : Option String)
    (ops : List (String × OperationNode)) (maze : Maze) (mp : Nat)
    (hnames : ∀ entry ∈ ops, entry.2.mazeName ≠ .num 0) (p : Pos) :
    cellAt (placeAllOperations env seed ops maze mp).1 p = some (.num 0) ↔
      cellAt maze p = some (.num 0) := by
  constructor
  · intro h
    rcases cellAt_placeAllOperations_cases env seed p ops maze mp with h1 | ⟨entry, he, h1⟩
    · rw [← h1]; exact h
    · rw [h1] at h
      exact absurd (Option.some.inj h) (hnames entry he)
  · intro h
    rw [cellAt_placeAllOperations env seed p ops maze mp (by rw [h]; decide)]
    exact h

theorem attempt_check_named (env : RandomEnv) (nd : NodeDetails) (sp : Sparsity)
    (maze_seed operation_node_seed : Option String) (mazeStructure : Option Maze)
    (fullyConnected : Bool) (ROWS COLS mp : Nat)
    (hnames : ∀ entry ∈ nd.operation, entry.2.mazeName ≠ .num 0) :
    (generateAttempt env nd sp maze_seed operation_node_seed mazeStructure fullyConnected
      ROWS COLS mp).2.1 =
      nd.goal.all (fun goal => bfs (updateMazeWithNodeNames
        (generateBase env nd sp maze_seed mazeStructure fullyConnected ROWS COLS mp).1 nd false)
        nd.start goal ROWS COLS) := by
  unfold generateAttempt
  dsimp only
  congr 1
  funext goal
  exact bfs_congr ROWS COLS
    (fun p => blocked_placeAllOperations env operation_node_seed nd.operation _ _ hnames p) _ _

theorem attempt_check_congr (env : RandomEnv) (nd1 nd2 : NodeDetails) (sp : Sparsity)
    (maze_seed operation_node_seed : Option String) (mazeStructure : Option Maze)
    (fullyConnected : Bool) (ROWS COLS mp1 mp2 : Nat) (hseed : seedTruthy maze_seed = true)
    (hs : nd1.start = nd2.start) (hg : nd1.goal = nd2.goal)
    (hn1 : ∀ entry ∈ nd1.operation, entry.2.mazeName ≠ .num 0)
    (hn2 : ∀ entry ∈ nd2.operation, entry.2.mazeName ≠ .num 0) :
    (generateAttempt env nd1 sp maze_seed operation_node_seed mazeStructure fullyConnected
      ROWS COLS mp1).2.1 =
    (generateAttempt env nd2 sp maze_seed operation_node_seed mazeStructure fullyConnected
      ROWS COLS mp2).2.1 := by
  rw [attempt_check_named env nd1 sp maze_seed operation_node_seed mazeStructure
      fullyConnected ROWS COLS mp1 hn1,
    attempt_check_named env nd2 sp maze_seed operation_node_seed mazeStructure
      fullyConnected ROWS COLS mp2 hn2,
    (generateBase_congr env env nd1 nd2 sp maze_seed mazeStructure fullyConnected ROWS COLS
      mp1 mp2 rfl hseed hs hg).1,
    updateMazeWithNodeNames_congr _ hs hg, hs, hg]

theorem generateMaze_none_of_failed (env : RandomEnv) (nd : NodeDetails) (sp : Sparsity)
    (maze_seed operation_node_seed : Option String) (mazeStructure : Option Maze)
    (fullyConnected : Bool) (ROWS COLS mp : Nat) (hseed : seedTruthy maze_seed = true)
    (hnames : ∀ entry ∈ nd.operation, entry.2.mazeName ≠ .num 0)
    (hfail : (generateAttempt env nd sp maze_seed operation_node_seed mazeStructure
      fullyConnected ROWS COLS mp).2.1 = false) (fuel : Nat) :
    ∀ (nd' : NodeDetails) (mp' : Nat), nd'.start = nd.start → nd'.goal = nd.goal →
      (∀ entry ∈ nd'.operation, entry.2.mazeName ≠ .num 0) →
      generateMaze env nd' sp maze_seed operation_node_seed mazeStructure fullyConnected
        ROWS COLS fuel mp' = none := by
  induction fuel with
  | zero => intro nd' mp' _ _ _; rfl
  | succ fuel ih =>
    intro nd' mp' hs hg hn
    have hcheck : (generateAttempt env nd' sp maze_seed operation_node_seed mazeStructure
        fullyConnected ROWS COLS mp').2.1 = false := by
      rw [attempt_check_congr env nd' nd sp maze_seed operation_node_seed mazeStructure
        fullyConnected ROWS COLS mp' mp hseed hs hg hn hnames]
      exact hfail
    simp only [generateMaze, hcheck, Bool.false_eq_true, if_false]
    exact ih _ _ hs hg
      (names_of_map_eq (placeAllOperations_names env operation_node_seed nd'.operation _ _) hn)

/-- The rounds of a seeded generation. With a non-empty maze seed every round of the loop of
`generateMaze` starts
the seeded stream anew: whatever the number of `Math.random` draws consumed so far and whatever
the recorded positions of the operation nodes, a round builds the same grid and the same matrix
before the node names are written, and, when no operation node has the `mazeName` 0, its final
check gives the same answer.  So after a failed first round `generateMaze` never returns: for
every bound on the number of rounds the result is `none`. -/
theorem generateMaze_retry_restarts (env : RandomEnv) (nd : NodeDetails) (sp : Sparsity)
    (maze_seed operation_node_seed : Option String) (mazeStructure : Option Maze)
    (fullyConnected : Bool) (ROWS COLS : Nat) (hseed : seedTruthy maze_seed = true)
    (hnames : ∀ entry ∈ nd.operation, entry.2.mazeName ≠ .num 0) :
    (∀ (nd' : NodeDetails) (mp mp' : Nat), nd'.start = nd.start → nd'.goal = nd.goal →
      (∀ entry ∈ nd'.operation, entry.2.mazeName ≠ .num 0) →
      (generateBase env nd' sp maze_seed mazeStructure fullyConnected ROWS COLS mp').1 =
        (generateBase env nd sp maze_seed mazeStructure fullyConnected ROWS COLS mp).1 ∧
      (generateAttempt env nd' sp maze_seed operation_node_seed mazeStructure fullyConnected
          ROWS COLS mp').1.adjMatrix =
        (generateAttempt env nd sp maze_seed operation_node_seed mazeStructure fullyConnected
          ROWS COLS mp).1.adjMatrix ∧
      (generateAttempt env nd' sp maze_seed operation_node_seed mazeStructure fullyConnected
          ROWS COLS mp').2.1 =
        (generateAttempt env nd sp maze_seed operation_node_seed mazeStructure fullyConnected
          ROWS COLS mp).2.1) ∧
    (∀ mp : Nat,
      (generateAttempt env nd sp maze_seed operation_node_seed mazeStructure fullyConnected
        ROWS COLS mp).2.1 = false →
      ∀ fuel : Nat, generateMaze env nd sp maze_seed operation_node_seed mazeStructure
        fullyConnected ROWS COLS fuel mp = none) := by
  constructor
  · intro nd' mp mp' hs hg hn
    have hb := generateBase_congr env env nd' nd sp maze_seed mazeStructure fullyConnected
      ROWS COLS mp' mp rfl hseed hs hg
    exact ⟨hb.1, hb.2, attempt_check_congr env nd' nd sp maze_seed operation_node_seed
      mazeStructure fullyConnected ROWS COLS mp' mp hseed hs hg hn hnames⟩
  · intro mp hfail fuel
    exact generateMaze_none_of_failed env nd sp maze_seed operation_node_seed mazeStructure
      fullyConnected ROWS COLS mp hseed hnames hfail fuel nd mp rfl rfl hnames

/-! ## A round in which every cell is cut off -/

theorem binary_setBoth {adj : AdjMatrix}
    (h : ∀ (i j : Int) (v : Int), entryAt adj i j = some v → v = 0 ∨ v = 1) (a b w : Int)
    (hw : w = 0 ∨ w = 1) :
    ∀ (i j : Int) (v : Int), entryAt (setBoth adj a b w) i j = some v → v = 0 ∨ v = 1 := by
  intro i j v hv
  rw [entryAt_setBoth] at hv
  split_ifs at hv
  · cases he : entryAt adj i j with
    | none => rw [he] at hv; cases hv
    | some u =>
      rw [he] at hv
      have : w = v := Option.some.inj hv
      rw [← this]
      exact hw
  · exact h i j v hv

theorem binary_initialAdjMatrix (maze : Maze) (ROWS COLS : Nat) :
    ∀ (i j : Int) (v : Int), entryAt (initialAdjMatrix maze ROWS COLS) i j = some v →
      v = 0 ∨ v = 1 := by
  intro i j v hv
  have hcases : ∀ o : Option Int, (o = entryAt (List.replicate (ROWS * COLS)
      (List.replicate (ROWS * COLS) 0)) i j) → ∀ u, o = some u → u = 0 := by
    intro o ho u hu
    rw [ho] at hu
    exact (adjInvariant_zero (ROWS * COLS) ROWS COLS).2.2 i u (by
      have hb := entryAt_bounds_of_isSquare (isSquare_replicate (ROWS * COLS)) hu
      rw [entryAt_replicate (ROWS * COLS) ⟨hb.1, hb.2.1⟩ ⟨hb.2.2.1, hb.2.2.2⟩] at hu
      rw [entryAt_replicate (ROWS * COLS) ⟨hb.1, hb.2.1⟩ ⟨hb.1, hb.2.1⟩]
      exact hu)
  by_cases hc : ∃ pos ∈ allCells ROWS COLS, ∃ nb ∈ getNeighbors pos,
      (isValidMatrixIndex nb ROWS COLS = true ∧ cellAt maze pos ≠ some (.num 0) ∧
        cellAt maze nb ≠ some (.num 0)) ∧ i = cellIndex pos COLS ∧ j = cellIndex nb COLS
  · rw [(entryAt_initialAdjMatrix maze ROWS COLS i j).1 hc] at hv
    right
    cases he : entryAt (List.replicate (ROWS * COLS) (List.replicate (ROWS * COLS) 0)) i j with
    | none => rw [he] at hv; cases hv
    | some u => rw [he] at hv; exact (Option.some.inj hv).symm
  · rw [(entryAt_initialAdjMatrix maze ROWS COLS i j).2 hc] at hv
    left
    exact hcases _ rfl v hv

theorem binary_removeEdgesOrNodes (maze : Maze) (adj : AdjMatrix) (start : Pos)
    (goals : List Pos) (sp : Sparsity) (rng : Nat → Draw) (ROWS COLS : Nat)
    (h : ∀ (i j : Int) (v : Int), entryAt adj i j = some v → v = 0 ∨ v = 1) :
    ∀ (i j : Int) (v : Int),
      entryAt (removeEdgesOrNodes maze adj start goals sp rng ROWS COLS).1 i j = some v →
      v = 0 ∨ v = 1 := by
  unfold removeEdgesOrNodes
  dsimp only
  generalize allCells ROWS COLS = cells
  generalize (0 : Nat) = k0
  induction cells generalizing k0 adj with
  | nil => exact h
  | cons c rest ih =>
    simp only [removeEdgesOrNodesLoop]
    apply ih
    split_ifs
    · unfold severCell
      refine foldl_invariant
        (fun a => ∀ (i j : Int) (v : Int), entryAt a i j = some v → v = 0 ∨ v = 1) _ ?_ _ adj h
      intro a x ha
      dsimp only
      split_ifs
      · exact binary_setBoth (binary_setBoth ha _ _ 0 (Or.inl rfl)) _ _ 1 (Or.inr rfl)
      · exact binary_setBoth ha _ _ 0 (Or.inl rfl)
      · exact ha
    · exact h

theorem removeEdgesOrNodes_all_severed (start : Pos) (goals : List Pos) (sp : Sparsity)
    (rng : Nat → Draw) (ROWS COLS : Nat)
    (hstart : isValidMatrixIndex start ROWS COLS = true)
    (hgoals : ∀ goal ∈ goals, isValidMatrixIndex goal ROWS COLS = true) (hne : goals ≠ [])
    (hdraws : ∀ k < ROWS * COLS, (rng k).lt sp = true) :
    ∀ (i j : Int) (v : Int),
      entryAt (removeEdgesOrNodes (openGrid ROWS COLS)
        (initialAdjMatrix (openGrid ROWS COLS) ROWS COLS) start goals sp rng ROWS COLS).1 i j
        = some v → v = 0 := by
  intro i j v hv
  rcases binary_removeEdgesOrNodes _ _ start goals sp rng ROWS COLS
    (binary_initialAdjMatrix (openGrid ROWS COLS) ROWS COLS) i j v hv with h0 | h1
  · exact h0
  · exfalso
    subst h1
    have hno := noGoalReachable_of_no_blocked (openGrid ROWS COLS) start goals ROWS COLS
      (openGrid_no_blocked ROWS COLS) hstart hgoals hne
    obtain ⟨hle, hrem⟩ := removeEdgesOrNodesLoop_removes (openGrid ROWS COLS) start goals sp
      rng ROWS COLS hno (allCells ROWS COLS) 0
      (initialAdjMatrix (openGrid ROWS COLS) ROWS COLS)
    obtain ⟨a, b, ha, hb, hia, hib, hab⟩ :=
      (adjInvariant_initialAdjMatrix (openGrid ROWS COLS) ROWS COLS).1 i j (hle i j hv)
    obtain ⟨k, hk⟩ := List.mem_iff_getElem?.mp ((mem_allCells a ROWS COLS).mpr ha)
    have hklt : k < ROWS * COLS := by
      have := (List.getElem?_eq_some.mp hk).1
      rw [length_allCells] at this
      exact this
    subst hia hib
    exact hrem k a hk (by simpa using hdraws k hklt) b ((adjacent4_iff a b).mp hab) hb hv

theorem rowSum_eq_zero {adj : AdjMatrix}
    (h : ∀ (i j : Int) (v : Int), entryAt adj i j = some v → v = 0) (i : Int) :
    rowSum adj i = 0 := by
  unfold rowSum
  split_ifs with hi
  · cases hrow : adj[i.toNat]? with
    | none => rfl
    | some row =>
      dsimp only
      apply List.sum_eq_zero
      intro x hx
      obtain ⟨n, hn⟩ := List.mem_iff_getElem?.mp hx
      refine h i (n : Int) x ?_
      unfold entryAt
      rw [if_pos ⟨hi, Int.natCast_nonneg n⟩, hrow]
      simpa using hn
  · rfl

theorem cellAt_removeIsolatedNodes_all (adj : AdjMatrix) (COLS : Nat)
    (hz : ∀ i : Int, rowSum adj i = 0) (cells : List Pos) :
    ∀ (mz : Maze) (p : Pos),
      (p ∈ cells → cellAt (cells.foldl (fun mz pos =>
          if rowSum adj (cellIndex pos COLS) = 0 then setCell mz pos (.num 0) else mz) mz) p =
        (cellAt mz p).map fun _ => Cell.num 0) ∧
      (p ∉ cells → cellAt (cells.foldl (fun mz pos =>
          if rowSum adj (cellIndex pos COLS) = 0 then setCell mz pos (.num 0) else mz) mz) p =
        cellAt mz p) := by
  induction cells with
  | nil =>
    intro mz p
    exact ⟨fun h => absurd h (List.not_mem_nil p), fun _ => rfl⟩
  | cons c rest ih =>
    intro mz p
    rw [List.foldl_cons, if_pos (hz _)]
    constructor
    · intro hp
      by_cases hpr : p ∈ rest
      · rw [(ih _ p).1 hpr, cellAt_setCell]
        split_ifs with hpc
        · rw [hpc, map_map_const]
        · rfl
      · have hpc : p = c := (List.mem_cons.mp hp).resolve_right hpr
        rw [(ih _ p).2 hpr, cellAt_setCell, if_pos hpc, hpc]
    · intro hp
      have hpc : p ≠ c := fun h => hp (h ▸ List.mem_cons_self _ _)
      rw [(ih _ p).2 (fun h => hp (List.mem_cons_of_mem _ h)), cellAt_setCell_of_ne _ _ hpc]

theorem blocked_removeUnreachableNodes (maze : Maze) (adj : AdjMatrix) (start : Pos) {p : Pos}
    (h : cellAt maze p = some (.num 0)) :
    cellAt (removeUnreachableNodes maze adj start 7 7).1 p = some (.num 0) := by
  obtain ⟨-, -, r3, -, -⟩ := removeUnreachable_fold start adj (allCells 7 7) maze adj
    (fun c hc => (mem_allCells c 7 7).mp hc) (fun d _ => Iff.rfl)
  have hres : removeUnreachableNodes maze adj start 7 7 =
      (allCells 7 7).foldl (removeUnreachableAt start 7 7) (maze, adj) := rfl
  rw [hres]
  by_cases hc : p ∈ allCells 7 7 ∧ ¬ (cellIndex p 7 = start.1 ∨ cellIndex p 7 = start.2 ∨
      Reach (edgeNeighbors adj 7 7) p start)
  · rw [(r3 p).1 hc.1 hc.2, h]; rfl
  · rw [(r3 p).2 hc, h]

theorem attempt_all_severed_fails (env : RandomEnv) (nd : NodeDetails) (sp : Sparsity)
    (maze_seed operation_node_seed : Option String) (mp : Nat)
    (hnames : ∀ entry ∈ nd.operation, entry.2.mazeName ≠ .num 0)
    (hstart : isValidMatrixIndex nd.start 7 7 = true)
    (hgoals : ∀ goal ∈ nd.goal, isValidMatrixIndex goal 7 7 = true) (hne : nd.goal ≠ [])
    (hdraws : ∀ k < 49, (rngOf env maze_seed mp k).lt sp = true)
    (hfar : ∀ goal ∈ nd.goal, goal ≠ nd.start ∧ goal ∉ getNeighbors nd.start) :
    (generateAttempt env nd sp maze_seed operation_node_seed none false 7 7 mp).2.1
      = false := by
  rw [attempt_check_named env nd sp maze_seed operation_node_seed none false 7 7 mp hnames]
  have hzero := removeEdgesOrNodes_all_severed nd.start nd.goal sp (rngOf env maze_seed mp) 7 7
    hstart hgoals hne hdraws
  have hbase : ∀ p, isValidMatrixIndex p 7 7 = true →
      cellAt (generateBase env nd sp maze_seed none false 7 7 mp).1 p = some (.num 0) := by
    intro p hp
    have hb : (generateBase env nd sp maze_seed none false 7 7 mp).1 =
        (ensureConnectivity
          (removeUnreachableNodes
            (removeIsolatedNodes (openGrid 7 7)
              (removeEdgesOrNodes (openGrid 7 7) (initialAdjMatrix (openGrid 7 7) 7 7)
                nd.start nd.goal sp (rngOf env maze_seed mp) 7 7).1 7 7)
            (removeInvalidEdges
              (removeIsolatedNodes (openGrid 7 7)
                (removeEdgesOrNodes (openGrid 7 7) (initialAdjMatrix (openGrid 7 7) 7 7)
                  nd.start nd.goal sp (rngOf env maze_seed mp) 7 7).1 7 7)
              (removeEdgesOrNodes (openGrid 7 7) (initialAdjMatrix (openGrid 7 7) 7 7)
                nd.start nd.goal sp (rngOf env maze_seed mp) 7 7).1 7 7)
            nd.start 7 7).1
          (removeUnreachableNodes
            (removeIsolatedNodes (openGrid 7 7)
              (removeEdgesOrNodes (openGrid 7 7) (initialAdjMatrix (openGrid 7 7) 7 7)
                nd.start nd.goal sp (rngOf env maze_seed mp) 7 7).1 7 7)
            (removeInvalidEdges
              (removeIsolatedNodes (openGrid 7 7)
                (removeEdgesOrNodes (openGrid 7 7) (initialAdjMatrix (openGrid 7 7) 7 7)
                  nd.start nd.goal sp (rngOf env maze_seed mp) 7 7).1 7 7)
              (removeEdgesOrNodes (openGrid 7 7) (initialAdjMatrix (openGrid 7 7) 7 7)
                nd.start nd.goal sp (rngOf env maze_seed mp) 7 7).1 7 7)
            nd.start 7 7).2 (nd.start :: nd.goal)).1 := rfl
    rw [hb, ensureConnectivity_grid]
    apply blocked_removeUnreachableNodes
    unfold removeIsolatedNodes
    rw [(cellAt_removeIsolatedNodes_all _ 7 (rowSum_eq_zero hzero) _ _ p).1
      ((mem_allCells p 7 7).mpr hp), cellAt_openGrid, if_pos hp]
    rfl
  cases hgl : nd.goal with
  | nil => exact absurd hgl hne
  | cons g rest =>
    have hg : g ∈ nd.goal := by rw [hgl]; exact List.mem_cons_self _ _
    have hbfs : bfs (updateMazeWithNodeNames
        (generateBase env nd sp maze_seed none false 7 7 mp).1 nd false) nd.start g 7 7
        = false := by
      cases hb : bfs (updateMazeWithNodeNames
        (generateBase env nd sp maze_seed none false 7 7 mp).1 nd false) nd.start g 7 7 with
      | false => rfl
      | true =>
        exfalso
        rw [bfs_iff_reach] at hb
        rcases Relation.ReflTransGen.cases_head hb with h | ⟨x, hx, -⟩
        · exact (hfar g hg).1 h.symm
        · have hx' := (mem_validNeighbors _ 7 7 nd.start x).mp hx
          have hxv := isValid_inBounds hx'.2
          have hxg : x ∉ nd.goal := fun h => (hfar x h).2 hx'.1
          have hxs : x ≠ nd.start := by
            intro h
            rw [h] at hx'
            exact not_adjacent4_self nd.start ((adjacent4_iff _ _).mpr hx'.1)
          have hcell : cellAt (updateMazeWithNodeNames
              (generateBase env nd sp maze_seed none false 7 7 mp).1 nd false) x
              = some (.num 0) := by
            rw [cellAt_updateMazeWithNodeNames, if_neg (fun h => hxg h.1),
              if_neg (fun h => hxs h.1)]
            exact hbase x hxv
          have := hx'.2
          simp [isValid, hcell] at this
    simp [List.all_cons, hbfs]

/-- C27. A retry after a failed round builds the same candidate again, where the claim has the
retry continue the seeded stream. Every round calls `seedrandom(seed)` anew, while a round
without a seed draws from `Math.random`, which goes on. With the maze seed `"Maze"`, the
sparsity 1/2 and a seeded stream whose first 49 draws are 0 and whose later draws are 3/4, the
first round of `generateMaze` on the 7 by 7 grid with `fullyConnected = false` cuts off every
cell and fails its check.  The draws from the 49th on are above the sparsity, but no retry gets
them: every round fails in the same way and `generateMaze` returns within no number of
rounds. -/
theorem generateMaze_retry_never_differs :
    (steppedEnv.seedrandom "Maze" 0).lt ⟨1, 1⟩ = true ∧
    (steppedEnv.seedrandom "Maze" 49).lt ⟨1, 1⟩ = false ∧
    (generateAttempt steppedEnv defaultNodeDetails ⟨1, 1⟩ (some "Maze") none none false
      7 7 0).2.1 = false ∧
    (generateAttempt steppedEnv defaultNodeDetails ⟨1, 1⟩ (some "Maze") none none false
      7 7 49).2.1 = false ∧
    (∀ fuel : Nat, generateMaze steppedEnv defaultNodeDetails ⟨1, 1⟩ (some "Maze") none none
      false 7 7 fuel 0 = none) := by
  have hfail : ∀ mp, (generateAttempt steppedEnv defaultNodeDetails ⟨1, 1⟩ (some "Maze") none
      none false 7 7 mp).2.1 = false := by
    intro mp
    refine attempt_all_severed_fails steppedEnv defaultNodeDetails ⟨1, 1⟩ (some "Maze") none mp
      (by simp [defaultNodeDetails]) (by decide) (by decide) (by decide) ?_ (by decide)
    intro k hk
    simp [rngOf, steppedEnv, hk, Draw.lt]
  refine ⟨by decide, by decide, hfail 0, hfail 49, ?_⟩
  intro fuel
  exact generateMaze_none_of_failed steppedEnv defaultNodeDetails ⟨1, 1⟩ (some "Maze") none
    none false 7 7 0 (by decide) (by simp [defaultNodeDetails]) (hfail 0) fuel
    defaultNodeDetails 0 rfl rfl (by simp [defaultNodeDetails])

theorem generateMaze_retry_restarts_witness :
    seedTruthy (some "Maze") = true ∧
    (∀ entry ∈ defaultNodeDetails.operation, entry.2.mazeName ≠ .num 0) ∧
    (generateAttempt steppedEnv defaultNodeDetails ⟨1, 1⟩ (some "Maze") none none false
      7 7 0).2.1 = false ∧
    ((∀ (nd' : NodeDetails) (mp mp' : Nat), nd'.start = defaultNodeDetails.start →
      nd'.goal = defaultNodeDetails.goal →
      (∀ entry ∈ nd'.operation, entry.2.mazeName ≠ .num 0) →
      (generateBase steppedEnv nd' ⟨1, 1⟩ (some "Maze") none false 7 7 mp').1 =
        (generateBase steppedEnv defaultNodeDetails ⟨1, 1⟩ (some "Maze") none false 7 7 mp).1 ∧
      (generateAttempt steppedEnv nd' ⟨1, 1⟩ (some "Maze") none none false
          7 7 mp').1.adjMatrix =
        (generateAttempt steppedEnv defaultNodeDetails ⟨1, 1⟩ (some "Maze") none none false
          7 7 mp).1.adjMatrix ∧
      (generateAttempt steppedEnv nd' ⟨1, 1⟩ (some "Maze") none none false 7 7 mp').2.1 =
        (generateAttempt steppedEnv defaultNodeDetails ⟨1, 1⟩ (some "Maze") none none false
          7 7 mp).2.1) ∧
    (∀ mp : Nat,
      (generateAttempt steppedEnv defaultNodeDetails ⟨1, 1⟩ (some "Maze") none none false
        7 7 mp).2.1 = false →
      ∀ fuel : Nat, generateMaze steppedEnv defaultNodeDetails ⟨1, 1⟩ (some "Maze") none none
        false 7 7 fuel mp = none)) :=
  ⟨by decide, by simp [defaultNodeDetails],
    attempt_all_severed_fails steppedEnv defaultNodeDetails ⟨1, 1⟩ (some "Maze") none 0
      (by simp [defaultNodeDetails]) (by decide) (by decide) (by decide)
      (fun k hk => by simp [rngOf, steppedEnv, hk, Draw.lt]) (by decide),
    generateMaze_retry_restarts steppedEnv defaultNodeDetails ⟨1, 1⟩ (some "Maze") none none
      false 7 7 (by decide) (by simp [defaultNodeDetails])⟩

/-! ## The solver on a goal picture built from placed operation nodes -/

theorem applyOperation_addEdge (els : List Element) (i : Int) :
    applyOperation els { action := "addEdge", elementIndex := i } = els := by
  unfold applyOperation
  cases elementAt els i with
  | none => rfl
  | some e =>
    dsimp only
    rw [if_neg (by decide), if_neg (by decide)]

theorem foldl_applyOperation_addEdge (idxs : List Int) :
    ∀ els : List Element,
      (idxs.map fun i => ({ action := "addEdge", elementIndex := i } : PictureOp)).foldl
        applyOperation els = els := by
  induction idxs with
  | nil => intro els; rfl
  | cons i rest ih =>
    intro els
    rw [List.map_cons, List.foldl_cons, applyOperation_addEdge, ih]

theorem foldl_applyOperation_filter (ops : List Operation) :
    ∀ els : List Element,
      ((ops.filter fun op => op.type ≠ "addEdge").flatMap fun op =>
        op.targetElementIndex.map fun index =>
          ({ action := op.type, elementIndex := index } : PictureOp)).foldl applyOperation els =
      (ops.flatMap fun op =>
        op.targetElementIndex.map fun index =>
          ({ action := op.type, elementIndex := index } : PictureOp)).foldl
        applyOperation els := by
  induction ops with
  | nil => intro els; rfl
  | cons op rest ih =>
    intro els
    by_cases h : op.type = "addEdge"
    · have hf : (List.filter (fun op : Operation => decide (op.type ≠ "addEdge")) (op :: rest)) =
          List.filter (fun op : Operation => decide (op.type ≠ "addEdge")) rest := by
        rw [List.filter_cons_of_neg]
        simp [h]
      rw [hf, ih, List.flatMap_cons, List.foldl_append, h, foldl_applyOperation_addEdge]
    · have hf : (List.filter (fun op : Operation => decide (op.type ≠ "addEdge")) (op :: rest)) =
          op :: List.filter (fun op : Operation => decide (op.type ≠ "addEdge")) rest := by
        rw [List.filter_cons_of_pos]
        simp [h]
      rw [hf, List.flatMap_cons, List.foldl_append, ih, List.flatMap_cons, List.foldl_append]

theorem foldl_applyOperation_operationNodes (seq : List AvailableNode) :
    ∀ els : List Element,
      (orderOperations (operationNodes seq)).foldl applyOperation els =
      (orderOperations (seq.map fun a =>
        ({ nodeKey := a.node, operations := a.operations } : SolverNode))).foldl
        applyOperation els := by
  induction seq with
  | nil => intro els; rfl
  | cons a rest ih =>
    intro els
    have h1 : orderOperations (operationNodes (a :: rest)) =
        ((a.operations.filter fun op => op.type ≠ "addEdge").flatMap fun op =>
          op.targetElementIndex.map fun index =>
            ({ action := op.type, elementIndex := index } : PictureOp)) ++
          orderOperations (operationNodes rest) := by
      simp [orderOperations, operationNodes]
    have h2 : orderOperations ((a :: rest).map fun a =>
        ({ nodeKey := a.node, operations := a.operations } : SolverNode)) =
        (a.operations.flatMap fun op =>
          op.targetElementIndex.map fun index =>
            ({ action := op.type, elementIndex := index } : PictureOp)) ++
          orderOperations (rest.map fun a =>
            ({ nodeKey := a.node, operations := a.operations } : SolverNode)) := by
      simp [orderOperations]
    rw [h1, h2, List.foldl_append, List.foldl_append, foldl_applyOperation_filter, ih]

theorem applyOperation_numeric {els : List Element} (op : PictureOp)
    (h : ∀ e ∈ els, e.noNaN ∧ ∃ n : Int, e.rotationAngle = .num n) :
    ∀ e ∈ applyOperation els op, e.noNaN ∧ ∃ n : Int, e.rotationAngle = .num n := by
  have hnew : ∀ (element : Element) (k : Int), element ∈ els →
      ({ element with rotationAngle := element.rotationAngle.addMod360 k } : Element).noNaN ∧
      ∃ n : Int, ({ element with rotationAngle := element.rotationAngle.addMod360 k }
        : Element).rotationAngle = .num n := by
    intro element k hel
    obtain ⟨hn, n, hnum⟩ := h element hel
    obtain ⟨h1, h2, h3, h4, h5, -, h7, h8⟩ := hn
    refine ⟨⟨h1, h2, h3, h4, h5, ?_, h7, h8⟩, Int.tmod (n + k) 360, ?_⟩
    · simp [hnum, JSNum.addMod360]
    · simp [hnum, JSNum.addMod360]
  intro e he
  unfold applyOperation at he
  cases hget : elementAt els op.elementIndex with
  | none =>
    rw [hget] at he
    exact h e he
  | some element =>
    rw [hget] at he
    have hel : element ∈ els := List.getElem?_mem (elementAt_eq_some hget).2.2
    dsimp only at he
    split_ifs at he
    · rcases List.mem_or_eq_of_mem_set he with h1 | h1
      · exact h e h1
      · rw [h1]; exact hnew element 45 hel
    · rcases List.mem_or_eq_of_mem_set he with h1 | h1
      · exact h e h1
      · rw [h1]; exact hnew element 180 hel
    · exact h e he

theorem applyOperationsToPicture_noNaN (p : Picture) (ops : List PictureOp)
    (h : ∀ e ∈ p.elements, e.noNaN ∧ ∃ n : Int, e.rotationAngle = .num n) :
    ∀ e ∈ (applyOperationsToPicture p ops).elements, e.noNaN := by
  rw [applyOperations_fold]
  have := foldl_invariant
    (fun els : List Element => ∀ e ∈ els, e.noNaN ∧ ∃ n : Int, e.rotationAngle = .num n)
    applyOperation (fun els op hels => applyOperation_numeric op hels) ops p.elements h
  exact fun e he => (this e he).1

theorem arePicturesEqual_self (p : Picture) (h : ∀ e ∈ p.elements, e.noNaN) :
    arePicturesEqual p p = true := by
  have hz : ∀ els : List Element, (∀ e ∈ els, e.noNaN) →
      (List.zip els els).all (fun q => elementsEqual q.1 q.2) = true := by
    intro els
    induction els with
    | nil => intro _; rfl
    | cons e els ih =>
      intro hall
      simp only [List.zip_cons_cons, List.all_cons, Bool.and_eq_true]
      exact ⟨elementsEqual_self (hall e (List.mem_cons_self _ _)),
        ih fun e' he' => hall e' (List.mem_cons_of_mem _ he')⟩
  simp only [arePicturesEqual, ne_eq, not_true_eq_false, if_false]
  exact hz _ h

theorem isValidOrder_synthesized (currentPicture : Picture) (seq : List AvailableNode)
    (hpic : ∀ e ∈ currentPicture.elements, e.noNaN ∧ ∃ n : Int, e.rotationAngle = .num n) :
    isValidOrder currentPicture
      (applyOperationsToPicture currentPicture (orderOperations (seq.map fun a =>
        ({ nodeKey := a.node, operations := a.operations } : SolverNode))))
      (operationNodes seq) = true := by
  unfold isValidOrder
  have heq : applyOperationsToPicture currentPicture (orderOperations (operationNodes seq)) =
      applyOperationsToPicture currentPicture (orderOperations (seq.map fun a =>
        ({ nodeKey := a.node, operations := a.operations } : SolverNode))) := by
    unfold applyOperationsToPicture
    rw [foldl_applyOperation_operationNodes]
  rw [heq]
  exact arePicturesEqual_self _ (applyOperationsToPicture_noNaN _ _ hpic)

/-- C30. Let the current picture have no `NaN` property and numeric rotation angles, and let at
most 30 operation-node cells be placed.  For every non-empty sequence of distinct placed
operation-node cells, when the goal picture is `applyOperationsToPicture` of the current
picture and the concatenated actions of the sequence (`addEdge` included, as the goal synthesis
builds it), `findNextNodesToActivate` returns a non-empty result that pairs every node key of
the sequence with every grid position of that key, and `unpackNextNodes` returns the positions
of the result, not the goal positions. -/
theorem findNextNodesToActivate_complete (maze : Maze) (currentPicture : Picture)
    (nodeDetails : NodeDetails) (seq : List AvailableNode)
    (hsmall : (availableNodes maze nodeDetails.operation).length ≤ 30)
    (hpic : ∀ e ∈ currentPicture.elements, e.noNaN ∧ ∃ n : Int, e.rotationAngle = .num n)
    (hne : seq ≠ []) (hnodup : seq.Nodup)
    (hsub : ∀ a ∈ seq, a ∈ availableNodes maze nodeDetails.operation) :
    findNextNodesToActivate maze currentPicture
      (applyOperationsToPicture currentPicture (orderOperations (seq.map fun a =>
        ({ nodeKey := a.node, operations := a.operations } : SolverNode)))) nodeDetails ≠ [] ∧
    (∀ a ∈ seq, ∀ b ∈ availableNodes maze nodeDetails.operation, b.node = a.node →
      ({ node := a.node, position := b.position } : NextNode) ∈
        findNextNodesToActivate maze currentPicture
          (applyOperationsToPicture currentPicture (orderOperations (seq.map fun a =>
            ({ nodeKey := a.node, operations := a.operations } : SolverNode))))
          nodeDetails) ∧
    unpackNextNodes (findNextNodesToActivate maze currentPicture
        (applyOperationsToPicture currentPicture (orderOperations (seq.map fun a =>
          ({ nodeKey := a.node, operations := a.operations } : SolverNode)))) nodeDetails)
        nodeDetails.goal =
      (findNextNodesToActivate maze currentPicture
        (applyOperationsToPicture currentPicture (orderOperations (seq.map fun a =>
          ({ nodeKey := a.node, operations := a.operations } : SolverNode))))
        nodeDetails).map fun node => node.position := by
  have hmem : ∀ a ∈ seq, ∀ b ∈ availableNodes maze nodeDetails.operation, b.node = a.node →
      ({ node := a.node, position := b.position } : NextNode) ∈
        findNextNodesToActivate maze currentPicture
          (applyOperationsToPicture currentPicture (orderOperations (seq.map fun a =>
            ({ nodeKey := a.node, operations := a.operations } : SolverNode))))
          nodeDetails := by
    intro a ha b hb hkey
    rw [mem_findNextNodesToActivate maze currentPicture _ nodeDetails hsmall]
    obtain ⟨r, c, row, entry, hr, hc, he, rfl⟩ :=
      (mem_availableNodes maze nodeDetails.operation b).mp hb
    refine ⟨⟨r, c, row, entry.2, rfl, hr, hc, ?_⟩, operationNodes seq, ?_, ?_,
      isValidOrder_synthesized currentPicture seq hpic⟩
    · rw [← hkey]
      exact he
    · obtain ⟨l, hperm, hsl⟩ := List.subperm_of_subset hnodup hsub
      exact ⟨operationNodes l, hperm.map _, hsl.map _⟩
    · exact ⟨{ nodeKey := a.node,
               operations := a.operations.filter fun op => op.type ≠ "addEdge" },
        List.mem_map.mpr ⟨a, ha, rfl⟩, rfl⟩
  have hnonempty : findNextNodesToActivate maze currentPicture
      (applyOperationsToPicture currentPicture (orderOperations (seq.map fun a =>
        ({ nodeKey := a.node, operations := a.operations } : SolverNode)))) nodeDetails
      ≠ [] := by
    cases seq with
    | nil => exact absurd rfl hne
    | cons a rest =>
      exact List.ne_nil_of_mem
        (hmem a (List.mem_cons_self _ _) a (hsub a (List.mem_cons_self _ _)) rfl)
  refine ⟨hnonempty, hmem, ?_⟩
  unfold unpackNextNodes
  rw [if_neg]
  intro h
  exact hnonempty (List.eq_nil_of_length_eq_zero h)

theorem findNextNodesToActivate_complete_witness :
    (availableNodes scenarioMaze scenarioNodeDetails.operation).length ≤ 30 ∧
    (∀ e ∈ (⟨[scenarioRect]⟩ : Picture).elements,
      e.noNaN ∧ ∃ n : Int, e.rotationAngle = .num n) ∧
    availableNodes scenarioMaze scenarioNodeDetails.operation ≠ [] ∧
    (availableNodes scenarioMaze scenarioNodeDetails.operation).Nodup ∧
    (findNextNodesToActivate scenarioMaze ⟨[scenarioRect]⟩
      (applyOperationsToPicture ⟨[scenarioRect]⟩ (orderOperations
        ((availableNodes scenarioMaze scenarioNodeDetails.operation).map fun a =>
          ({ nodeKey := a.node, operations := a.operations } : SolverNode))))
      scenarioNodeDetails ≠ [] ∧
    (∀ a ∈ availableNodes scenarioMaze scenarioNodeDetails.operation,
      ∀ b ∈ availableNodes scenarioMaze scenarioNodeDetails.operation, b.node = a.node →
      ({ node := a.node, position := b.position } : NextNode) ∈
        findNextNodesToActivate scenarioMaze ⟨[scenarioRect]⟩
          (applyOperationsToPicture ⟨[scenarioRect]⟩ (orderOperations
            ((availableNodes scenarioMaze scenarioNodeDetails.operation).map fun a =>
              ({ nodeKey := a.node, operations := a.operations } : SolverNode))))
          scenarioNodeDetails) ∧
    unpackNextNodes (findNextNodesToActivate scenarioMaze ⟨[scenarioRect]⟩
        (applyOperationsToPicture ⟨[scenarioRect]⟩ (orderOperations
          ((availableNodes scenarioMaze scenarioNodeDetails.operation).map fun a =>
            ({ nodeKey := a.node, operations := a.operations } : SolverNode))))
        scenarioNodeDetails) scenarioNodeDetails.goal =
      (findNextNodesToActivate scenarioMaze ⟨[scenarioRect]⟩
        (applyOperationsToPicture ⟨[scenarioRect]⟩ (orderOperations
          ((availableNodes scenarioMaze scenarioNodeDetails.operation).map fun a =>
            ({ nodeKey := a.node, operations := a.operations } : SolverNode))))
        scenarioNodeDetails).map fun node => node.position) ∧
    findNextNodesToActivate scenarioMaze ⟨[scenarioRect]⟩
      (applyOperationsToPicture ⟨[scenarioRect]⟩ (orderOperations
        ((availableNodes scenarioMaze scenarioNodeDetails.operation).map fun a =>
          ({ nodeKey := a.node, operations := a.operations } : SolverNode))))
      scenarioNodeDetails = [{ node := "node2", position := (1, 0) }] :=
  ⟨by decide, by simp [Element.noNaN, scenarioRect], by decide, by decide,
    findNextNodesToActivate_complete scenarioMaze ⟨[scenarioRect]⟩ scenarioNodeDetails
      (availableNodes scenarioMaze scenarioNodeDetails.operation) (by decide)
      (by simp [Element.noNaN, scenarioRect]) (by decide) (by decide) (fun a ha => ha),
    by decide⟩

/-! ## A round of the node-removing generation in which no cell is selected -/

theorem foldl_fixed {α β : Type} (step : α → β → α) (a : α) (xs : List β)
    (h : ∀ x ∈ xs, step a x = a) : xs.foldl step a = a := by
  induction xs with
  | nil => rfl
  | cons x rest ih =>
    rw [List.foldl_cons, h x (List.mem_cons_self _ _)]
    exact ih fun y hy => h y (List.mem_cons_of_mem _ hy)

theorem removeEdgesOrNodesLoop_no_draw (maze : Maze) (start : Pos) (goals : List Pos)
    (sp : Sparsity) (rng : Nat → Draw) (ROWS COLS : Nat)
    (hdraws : ∀ k, (rng k).lt sp = false) :
    ∀ (cells : List Pos) (k : Nat) (adj : AdjMatrix),
      removeEdgesOrNodesLoop maze start goals sp rng ROWS COLS cells k adj = adj := by
  intro cells
  induction cells with
  | nil => intro k adj; rfl
  | cons c rest ih =>
    intro k adj
    simp only [removeEdgesOrNodesLoop, hdraws k, Bool.false_eq_true, if_false]
    exact ih _ _

theorem lower_neighbor_valid {ROWS COLS : Nat} (hR : 2 ≤ ROWS) {p : Pos}
    (hp : isValidMatrixIndex p ROWS COLS = true) :
    ∃ q ∈ getNeighbors p, isValidMatrixIndex q ROWS COLS = true := by
  rw [isValidMatrixIndex_iff] at hp
  by_cases h : p.1 + 1 < ROWS
  · refine ⟨(p.1 + 1, p.2), by simp [getNeighbors], ?_⟩
    rw [isValidMatrixIndex_iff]
    simp only
    omega
  · refine ⟨(p.1 - 1, p.2), by simp [getNeighbors], ?_⟩
    rw [isValidMatrixIndex_iff]
    simp only
    omega

theorem rowSum_ne_zero_of_entry {adj : AdjMatrix}
    (hbin : ∀ (i j : Int) (v : Int), entryAt adj i j = some v → v = 0 ∨ v = 1) {i j : Int}
    (h : entryAt adj i j = some 1) : rowSum adj i ≠ 0 := by
  unfold entryAt at h
  split_ifs at h with hij
  unfold rowSum
  rw [if_pos hij.1]
  cases hrow : adj[i.toNat]? with
  | none => rw [hrow] at h; cases h
  | some row =>
    rw [hrow] at h
    simp only [Option.some_bind] at h
    dsimp only
    have hmem : (1 : Int) ∈ row := List.getElem?_mem h
    have hnn : ∀ x ∈ row, (0 : Int) ≤ x := by
      intro x hx
      obtain ⟨n, hn⟩ := List.mem_iff_getElem?.mp hx
      have hx' : entryAt adj i (n : Int) = some x := by
        unfold entryAt
        rw [if_pos ⟨hij.1, Int.natCast_nonneg n⟩, hrow]
        simpa using hn
      rcases hbin i n x hx' with h0 | h1 <;> omega
    have := List.single_le_sum hnn 1 hmem
    omega

theorem removeIsolatedNodes_openGrid {ROWS COLS : Nat} (hR : 2 ≤ ROWS) :
    removeIsolatedNodes (openGrid ROWS COLS) (initialAdjMatrix (openGrid ROWS COLS) ROWS COLS)
      ROWS COLS = openGrid ROWS COLS := by
  unfold removeIsolatedNodes
  apply foldl_fixed
  intro p hp
  have hpv := (mem_allCells p ROWS COLS).mp hp
  obtain ⟨q, hq, hqv⟩ := lower_neighbor_valid hR hpv
  have hentry := @entryAt_initialAdjMatrix_openGrid ROWS COLS p q hpv hqv
  rw [if_pos hq] at hentry
  rw [if_neg (rowSum_ne_zero_of_entry (binary_initialAdjMatrix _ ROWS COLS) hentry)]

theorem isValid_of_no_blocked {maze : Maze} {ROWS COLS : Nat}
    (hopen : ∀ p, isValidMatrixIndex p ROWS COLS = true → cellAt maze p ≠ some (.num 0))
    {p : Pos} (hp : isValidMatrixIndex p ROWS COLS = true) : isValid maze p ROWS COLS = true := by
  simp only [isValid, hp, Bool.true_and, decide_eq_true_eq]
  exact hopen p hp

theorem removeInvalidEdges_of_no_blocked {maze : Maze} {ROWS COLS : Nat} (adj : AdjMatrix)
    (hR : 2 ≤ ROWS)
    (hopen : ∀ p, isValidMatrixIndex p ROWS COLS = true → cellAt maze p ≠ some (.num 0)) :
    removeInvalidEdges maze adj ROWS COLS = adj := by
  unfold removeInvalidEdges
  apply foldl_fixed
  intro p hp
  have hpv := (mem_allCells p ROWS COLS).mp hp
  obtain ⟨q, hq, hqv⟩ := lower_neighbor_valid hR hpv
  have hany : (getNeighbors p).any (fun neighbor => isValid maze neighbor ROWS COLS) = true :=
    List.any_eq_true.mpr ⟨q, hq, isValid_of_no_blocked hopen hqv⟩
  unfold removeInvalidEdgesAt
  rw [if_neg (by simp [hany])]
  dsimp only
  have hC : 0 < COLS := by
    rw [isValidMatrixIndex_iff] at hpv
    omega
  rw [foldl_fixed _ adj (getNeighbors p)]
  · apply foldl_fixed
    intro i hi
    rw [if_neg]
    rintro ⟨-, hinv⟩
    have hi' : i < ROWS * COLS := List.mem_range.mp hi
    have hv : isValidMatrixIndex (Int.ofNat (i / COLS), Int.ofNat (i % COLS)) ROWS COLS
        = true := by
      rw [isValidMatrixIndex_iff]
      simp only [Int.ofNat_eq_coe]
      refine ⟨Int.natCast_nonneg _, ?_, Int.natCast_nonneg _, ?_⟩
      · exact_mod_cast (Nat.div_lt_iff_lt_mul hC).mpr hi'
      · exact_mod_cast Nat.mod_lt i hC
    rw [isValid_of_no_blocked hopen hv] at hinv
    cases hinv
  · intro nb _
    by_cases hnb : isValidMatrixIndex nb ROWS COLS = true
    · simp [isValid_of_no_blocked hopen hnb]
    · simp [hnb]

theorem reach_edges_openGrid {ROWS COLS : Nat} {a b : Pos}
    (ha : isValidMatrixIndex a ROWS COLS = true) (hb : isValidMatrixIndex b ROWS COLS = true) :
    Reach (edgeNeighbors (initialAdjMatrix (openGrid ROWS COLS) ROWS COLS) ROWS COLS) a b := by
  have h := reach_of_no_blocked (openGrid ROWS COLS) ROWS COLS (openGrid_no_blocked ROWS COLS)
    ha hb
  unfold Reach at h ⊢
  have : ∀ c, Relation.ReflTransGen (fun x y => y ∈ validNeighbors (openGrid ROWS COLS)
      ROWS COLS x) a c →
      isValidMatrixIndex c ROWS COLS = true ∧
      Relation.ReflTransGen (fun x y => y ∈ edgeNeighbors
        (initialAdjMatrix (openGrid ROWS COLS) ROWS COLS) ROWS COLS x) a c := by
    intro c hc
    induction hc with
    | refl => exact ⟨ha, Relation.ReflTransGen.refl⟩
    | @tail x y _ hstep ih =>
      have hy := (mem_validNeighbors _ ROWS COLS x y).mp hstep
      have hyv := isValid_inBounds hy.2
      refine ⟨hyv, Relation.ReflTransGen.tail ih.2 ?_⟩
      rw [mem_edgeNeighbors]
      refine ⟨hy.1, hyv, ?_⟩
      rw [entryAt_initialAdjMatrix_openGrid ROWS COLS ih.1 hyv, if_pos hy.1]
  exact (this b h).2

theorem removeUnreachableNodes_of_reach (maze : Maze) (adj : AdjMatrix) (start : Pos)
    (ROWS COLS : Nat)
    (h : ∀ p ∈ allCells ROWS COLS, bfsCheck adj p start 7 7 = true) :
    removeUnreachableNodes maze adj start ROWS COLS = (maze, adj) := by
  unfold removeUnreachableNodes
  apply foldl_fixed
  intro p hp
  unfold removeUnreachableAt
  rw [if_neg]
  rintro ⟨-, hb⟩
  rw [h p hp] at hb
  cases hb

theorem mem_orderedPairs {α : Type} (l : List α) (pair : α × α)
    (h : pair ∈ orderedPairs l) : pair.1 ∈ l ∧ pair.2 ∈ l := by
  induction l with
  | nil => simp [orderedPairs] at h
  | cons a rest ih =>
    simp only [orderedPairs, List.mem_append, List.mem_map] at h
    rcases h with ⟨b, hb, rfl⟩ | h
    · exact ⟨List.mem_cons_self _ _, List.mem_cons_of_mem _ hb⟩
    · exact ⟨List.mem_cons_of_mem _ (ih h).1, List.mem_cons_of_mem _ (ih h).2⟩

theorem ensureConnectivity_of_connected (maze : Maze) (adj : AdjMatrix) (nodes : List Pos)
    (h : ∀ a ∈ nodes, ∀ b ∈ nodes, bfs maze a b 7 7 = true) :
    ensureConnectivity maze adj nodes = (maze, adj) := by
  unfold ensureConnectivity
  apply foldl_fixed
  intro pair hpair
  obtain ⟨h1, h2⟩ := mem_orderedPairs nodes pair hpair
  unfold ensurePath
  simp [h pair.1 h1 pair.2 h2]

theorem generateBase_no_draw (env : RandomEnv) (nd : NodeDetails) (sp : Sparsity)
    (maze_seed : Option String) (mp : Nat)
    (hstart : isValidMatrixIndex nd.start 7 7 = true)
    (hgoals : ∀ goal ∈ nd.goal, isValidMatrixIndex goal 7 7 = true)
    (hdraws : ∀ k, (rngOf env maze_seed mp k).lt sp = false) :
    (generateBase env nd sp maze_seed none false 7 7 mp).1 = openGrid 7 7 ∧
    (generateBase env nd sp maze_seed none false 7 7 mp).2.1 =
      initialAdjMatrix (openGrid 7 7) 7 7 := by
  have h1 : (removeEdgesOrNodes (openGrid 7 7) (initialAdjMatrix (openGrid 7 7) 7 7)
      nd.start nd.goal sp (rngOf env maze_seed mp) 7 7).1 =
      initialAdjMatrix (openGrid 7 7) 7 7 :=
    removeEdgesOrNodesLoop_no_draw _ _ _ sp _ 7 7 hdraws _ _ _
  have h2 := @removeIsolatedNodes_openGrid 7 7 (by decide)
  have h3 := @removeInvalidEdges_of_no_blocked (openGrid 7 7) 7 7
    (initialAdjMatrix (openGrid 7 7) 7 7) (by decide) (openGrid_no_blocked 7 7)
  have h4 := removeUnreachableNodes_of_reach (openGrid 7 7)
    (initialAdjMatrix (openGrid 7 7) 7 7) nd.start 7 7 (fun p hp =>
      (bfsCheck_iff_reach _ p nd.start 7 7).mpr
        (reach_edges_openGrid ((mem_allCells p 7 7).mp hp) hstart))
  have hnodes : ∀ a ∈ nd.start :: nd.goal, isValidMatrixIndex a 7 7 = true := by
    intro a ha
    rcases List.mem_cons.mp ha with rfl | ha
    · exact hstart
    · exact hgoals a ha
  have h5 := ensureConnectivity_of_connected (openGrid 7 7)
    (initialAdjMatrix (openGrid 7 7) 7 7) (nd.start :: nd.goal) (fun a ha b hb =>
      (bfs_iff_reach _ a b 7 7).mpr
        (reach_of_no_blocked (openGrid 7 7) 7 7 (openGrid_no_blocked 7 7) (hnodes a ha)
          (hnodes b hb)))
  unfold generateBase
  simp only [Bool.false_eq_true, if_false]
  rw [h1, h2, h3, h4]
  simp only
  rw [h5]
  refine ⟨?_, ?_⟩
  · dsimp only
  · dsimp only
    exact h3

theorem generateMaze_no_draw (env : RandomEnv) (nd : NodeDetails) (sp : Sparsity)
    (maze_seed operation_node_seed : Option String) (fuel mp : Nat)
    (hnames : ∀ entry ∈ nd.operation, entry.2.mazeName ≠ .num 0)
    (hstart : isValidMatrixIndex nd.start 7 7 = true)
    (hgoals : ∀ goal ∈ nd.goal, isValidMatrixIndex goal 7 7 = true)
    (hdraws : ∀ k, (rngOf env maze_seed mp k).lt sp = false) :
    generateMaze env nd sp maze_seed operation_node_seed none false 7 7 (fuel + 1) mp =
      some { maze := (placeAllOperations env operation_node_seed nd.operation
               (updateMazeWithNodeNames (openGrid 7 7) nd false)
               (generateBase env nd sp maze_seed none false 7 7 mp).2.2).1,
             nodeDetails := { nd with operation := (placeAllOperations env operation_node_seed
               nd.operation (updateMazeWithNodeNames (openGrid 7 7) nd false)
               (generateBase env nd sp maze_seed none false 7 7 mp).2.2).2.1 },
             adjMatrix := initialAdjMatrix (openGrid 7 7) 7 7 } := by
  obtain ⟨hb1, hb2⟩ := generateBase_no_draw env nd sp maze_seed mp hstart hgoals hdraws
  have hcheck : (generateAttempt env nd sp maze_seed operation_node_seed none false 7 7
      mp).2.1 = true := by
    rw [attempt_check_named env nd sp maze_seed operation_node_seed none false 7 7 mp hnames,
      hb1, List.all_eq_true]
    intro goal hgoal
    exact (bfs_iff_reach _ _ _ 7 7).mpr
      (reach_of_no_blocked _ 7 7 (named_no_blocked 7 7 nd) hstart (hgoals goal hgoal))
  simp only [generateMaze, hcheck, if_true]
  unfold generateAttempt
  simp only [hb1, hb2]

/-! ## The grid of a round before the names are written -/

theorem isPlainGrid_setCell {maze : Maze} (h : isPlainGrid maze) (p : Pos) {v : Cell}
    (hv : v = .num 0 ∨ v = .num 1) : isPlainGrid (setCell maze p v) := by
  intro q c hc
  rcases cellAt_setCell_cases maze p q v with h1 | h1
  · rw [h1] at hc
    exact h q c hc
  · rw [h1] at hc
    rw [← Option.some.inj hc]
    exact hv

theorem isPlainGrid_openGrid (ROWS COLS : Nat) : isPlainGrid (openGrid ROWS COLS) := by
  intro p c hc
  rw [cellAt_openGrid] at hc
  split_ifs at hc
  exact Or.inr (Option.some.inj hc).symm

theorem plain_removeIsolatedNodes {maze : Maze} (adj : AdjMatrix) (ROWS COLS : Nat)
    (h : isPlainGrid maze) : isPlainGrid (removeIsolatedNodes maze adj ROWS COLS) := by
  unfold removeIsolatedNodes
  refine foldl_invariant isPlainGrid _ ?_ _ maze h
  intro mz pos hmz
  dsimp only
  split_ifs
  · exact isPlainGrid_setCell hmz pos (Or.inl rfl)
  · exact hmz

theorem plain_removeUnreachableNodes {maze : Maze} (adj : AdjMatrix) (start : Pos)
    (ROWS COLS : Nat) (h : isPlainGrid maze) :
    isPlainGrid (removeUnreachableNodes maze adj start ROWS COLS).1 := by
  unfold removeUnreachableNodes
  refine foldl_invariant (fun (state : Maze × AdjMatrix) => isPlainGrid state.1) _ ?_ _
    (maze, adj) h
  intro state pos hs
  unfold removeUnreachableAt
  split_ifs
  · exact isPlainGrid_setCell hs pos (Or.inl rfl)
  · exact hs

theorem shape_plain_ensureFullConnectivity {maze : Maze} (adj : AdjMatrix) {ROWS COLS : Nat}
    (h : hasShape maze ROWS COLS ∧ isPlainGrid maze) :
    hasShape (ensureFullConnectivity maze adj ROWS COLS).1 ROWS COLS ∧
      isPlainGrid (ensureFullConnectivity maze adj ROWS COLS).1 := by
  unfold ensureFullConnectivity
  dsimp only
  split_ifs
  · exact h
  · refine foldl_invariant
      (fun (state : Maze × AdjMatrix) => hasShape state.1 ROWS COLS ∧ isPlainGrid state.1)
      _ ?_ _ (maze, adj) h
    intro state pair hs
    dsimp only
    cases bestPair pair.1 pair.2 with
    | none => exact hs
    | some ab =>
      obtain ⟨a, b⟩ := ab
      dsimp only
      refine foldl_invariant
        (fun (state : Maze × AdjMatrix) => hasShape state.1 ROWS COLS ∧ isPlainGrid state.1)
        _ ?_ _ state hs
      intro s pos hs2
      exact ⟨hasShape_setCell hs2.1 pos _, isPlainGrid_setCell hs2.2 pos (Or.inr rfl)⟩

theorem generateBase_shape_plain (env : RandomEnv) (nd : NodeDetails) (sp : Sparsity)
    (maze_seed : Option String) (mazeStructure : Option Maze) (fullyConnected : Bool)
    (ROWS COLS mp : Nat)
    (hstruct : ∀ m, mazeStructure = some m → hasShape m ROWS COLS ∧ isPlainGrid m) :
    hasShape (generateBase env nd sp maze_seed mazeStructure fullyConnected ROWS COLS mp).1
        ROWS COLS ∧
      isPlainGrid (generateBase env nd sp maze_seed mazeStructure fullyConnected
        ROWS COLS mp).1 := by
  have key : ∀ maze0 : Maze, hasShape maze0 ROWS COLS ∧ isPlainGrid maze0 →
      ∀ (adjT adjF : AdjMatrix),
      (hasShape (ensureFullConnectivity maze0 adjT ROWS COLS).1 ROWS COLS ∧
        isPlainGrid (ensureFullConnectivity maze0 adjT ROWS COLS).1) ∧
      (hasShape (removeUnreachableNodes (removeIsolatedNodes maze0 adjF ROWS COLS)
          (removeInvalidEdges (removeIsolatedNodes maze0 adjF ROWS COLS) adjF ROWS COLS)
          nd.start ROWS COLS).1 ROWS COLS ∧
        isPlainGrid (removeUnreachableNodes (removeIsolatedNodes maze0 adjF ROWS COLS)
          (removeInvalidEdges (removeIsolatedNodes maze0 adjF ROWS COLS) adjF ROWS COLS)
          nd.start ROWS COLS).1) := by
    intro maze0 h0 adjT adjF
    exact ⟨shape_plain_ensureFullConnectivity _ h0,
      hasShape_removeUnreachableNodes _ _ _ _ (hasShape_removeIsolatedNodes _ _ _ h0.1),
      plain_removeUnreachableNodes _ _ _ _ (plain_removeIsolatedNodes _ _ _ h0.2)⟩
  cases mazeStructure with
  | none =>
    have h0 : hasShape (openGrid ROWS COLS) ROWS COLS ∧ isPlainGrid (openGrid ROWS COLS) :=
      ⟨hasShape_openGrid ROWS COLS, isPlainGrid_openGrid ROWS COLS⟩
    unfold generateBase
    cases fullyConnected with
    | true =>
      simp only [if_true]
      exact (key _ h0 _ []).1
    | false =>
      simp only [Bool.false_eq_true, if_false]
      rw [ensureConnectivity_grid]
      exact (key _ h0 [] _).2
  | some m =>
    have h0 : hasShape (m.map fun row => row) ROWS COLS ∧ isPlainGrid (m.map fun row => row) := by
      have := hstruct m rfl
      simpa using this
    unfold generateBase
    cases fullyConnected with
    | true =>
      simp only [if_true]
      exact (key _ h0 _ []).1
    | false =>
      simp only [Bool.false_eq_true, if_false]
      rw [ensureConnectivity_grid]
      exact (key _ h0 [] _).2

/-! ## The crop over the whole grid -/

theorem cropAndAdjustMaze_wholeGrid_any (maze : Maze) (adj : AdjMatrix) (nd : NodeDetails)
    (ROWS COLS : Nat) (hstart : isValidMatrixIndex nd.start ROWS COLS = true)
    (hgoals : ∀ goal ∈ nd.goal, isValidMatrixIndex goal ROWS COLS = true) :
    cropAndAdjustMaze maze adj nd (wholeGrid ROWS COLS) ROWS COLS =
      some { croppedMaze :=
               updateMazeWithNodeNames (cropCells maze (wholeGrid ROWS COLS)) nd false,
             croppedAdjMatrix := cropEnsureFullConnectivity
               (cropCells maze (wholeGrid ROWS COLS)) adj (wholeGrid ROWS COLS) COLS,
             nodeDetails := nd } := by
  unfold cropAndAdjustMaze
  simp only
  rw [markInactiveNodes_wholeGrid]
  have hs : cropStart (cropCells maze (wholeGrid ROWS COLS)) (wholeGrid ROWS COLS) nd.start
      = some nd.start := by
    unfold cropStart
    rw [if_pos (by rw [contains_wholeGrid]; exact hstart)]
  rw [hs, mapM_cropGoal_wholeGrid _ _ _ _ hgoals]

theorem cropEnsureFullConnectivity_of_reached (croppedMaze : Maze) (adj : AdjMatrix)
    (rect : CropRect) (COLS : Nat)
    (h : ∀ p ∈ rectCells rect,
      cropIndex rect COLS p ∈ getAllConnectedNodes (rect.y1, rect.x1) adj rect COLS ∨
        croppedAt croppedMaze rect p ≠ some (.num 1)) :
    cropEnsureFullConnectivity croppedMaze adj rect COLS = adj := by
  unfold cropEnsureFullConnectivity
  rw [foldl_fixed]
  intro p hp
  unfold wireCell
  rw [if_neg]
  rintro ⟨h1, h2⟩
  rcases h p hp with h3 | h3
  · exact h1 h3
  · exact h3 h2

theorem reach_edges_to_crop (adj : AdjMatrix) (ROWS COLS : Nat) {a b : Pos}
    (h : Reach (edgeNeighbors adj ROWS COLS) a b) :
    Reach (cropNeighbors adj (wholeGrid ROWS COLS) COLS) a b := by
  unfold Reach at h ⊢
  refine Relation.ReflTransGen.mono ?_ h
  intro x y hxy
  rw [mem_edgeNeighbors] at hxy
  rw [mem_cropNeighbors, contains_wholeGrid, cropIndex_wholeGrid, cropIndex_wholeGrid]
  exact hxy

theorem cropEnsureFullConnectivity_wholeGrid {maze : Maze} {adj : AdjMatrix} {ROWS COLS : Nat}
    (hR : 1 ≤ ROWS) (hC : 1 ≤ COLS)
    (hreach : ∀ p, isValidMatrixIndex p ROWS COLS = true → cellAt maze p ≠ some (.num 0) →
      Reach (edgeNeighbors adj ROWS COLS) (0, 0) p) :
    cropEnsureFullConnectivity (cropCells maze (wholeGrid ROWS COLS)) adj
      (wholeGrid ROWS COLS) COLS = adj := by
  apply cropEnsureFullConnectivity_of_reached
  intro p hp
  have hpv := mem_rectCells_wholeGrid hp
  have h00 : (wholeGrid ROWS COLS).contains (0, 0) = true := by
    rw [contains_wholeGrid, isValidMatrixIndex_iff]
    simp only
    omega
  have hinj : ∀ a b, (wholeGrid ROWS COLS).contains a = true →
      (wholeGrid ROWS COLS).contains b = true →
      cropIndex (wholeGrid ROWS COLS) COLS a = cropIndex (wholeGrid ROWS COLS) COLS b →
      a = b :=
    @cropIndex_inj_originRect ((COLS : Int) - 1) ((ROWS : Int) - 1) ROWS COLS (by omega)
      (by omega)
  by_cases hz : cellAt maze p = some (.num 0)
  · right
    unfold croppedAt
    have hp' : ((p.1 - (wholeGrid ROWS COLS).y1, p.2 - (wholeGrid ROWS COLS).x1) : Pos) = p := by
      simp [wholeGrid]
    rw [hp', cellAt_cropCells, hz]
    simp [contains_wholeGrid, hpv]
  · left
    have hcp : (wholeGrid ROWS COLS).contains p = true := by
      rw [contains_wholeGrid]; exact hpv
    exact ((getAllConnectedNodes_spec adj (wholeGrid ROWS COLS) COLS (0, 0) h00 hinj).1 p
      hcp).mpr (reach_edges_to_crop adj ROWS COLS (hreach p hpv hz))

theorem cellAt_crop_of_placed (env : RandomEnv) (seed : Option String)
    (ops : List (String × OperationNode)) (base : Maze) (nd : NodeDetails) (mp : Nat)
    {ROWS COLS : Nat} (hshape : hasShape base ROWS COLS) (hplain : isPlainGrid base)
    {p : Pos} (hp : isValidMatrixIndex p ROWS COLS = true) :
    cellAt (updateMazeWithNodeNames (cropCells (placeAllOperations env seed ops
        (updateMazeWithNodeNames base nd false) mp).1 (wholeGrid ROWS COLS)) nd false) p =
      cellAt (placeAllOperations env seed ops (updateMazeWithNodeNames base nd false) mp).1 p ∨
    (cellAt (updateMazeWithNodeNames (cropCells (placeAllOperations env seed ops
        (updateMazeWithNodeNames base nd false) mp).1 (wholeGrid ROWS COLS)) nd false) p =
      some (.num 1) ∧
      ∃ entry ∈ ops, cellAt (placeAllOperations env seed ops
        (updateMazeWithNodeNames base nd false) mp).1 p = some entry.2.mazeName) := by
  have hnamed : hasShape (updateMazeWithNodeNames base nd false) ROWS COLS :=
    hasShape_updateMazeWithNodeNames nd hshape
  have hplaced : hasShape (placeAllOperations env seed ops
      (updateMazeWithNodeNames base nd false) mp).1 ROWS COLS :=
    hasShape_placeAllOperations env seed ops _ mp hnamed
  have hcrop : hasShape (cropCells (placeAllOperations env seed ops
      (updateMazeWithNodeNames base nd false) mp).1 (wholeGrid ROWS COLS)) ROWS COLS := by
    unfold hasShape
    rw [map_length_cropCells]
    exact hplaced
  obtain ⟨c, hc⟩ := cellAt_of_hasShape hshape hp
  obtain ⟨d, hd⟩ := cellAt_of_hasShape hplaced hp
  have hb1 := hasShape_bounds hshape hp
  have hb2 := hasShape_bounds hcrop hp
  have hX : cellAt (cropCells (placeAllOperations env seed ops
      (updateMazeWithNodeNames base nd false) mp).1 (wholeGrid ROWS COLS)) p =
      some (if d ≠ .num 0 then Cell.num 1 else Cell.num 0) := by
    rw [cellAt_cropCells, hd, contains_wholeGrid, hp]
    rfl
  have hN := cellAt_updateMazeWithNodeNames base nd p
  have hR := cellAt_updateMazeWithNodeNames (cropCells (placeAllOperations env seed ops
      (updateMazeWithNodeNames base nd false) mp).1 (wholeGrid ROWS COLS)) nd p
  rw [hX] at hR
  rw [hc] at hN
  by_cases hg : p ∈ nd.goal
  · left
    rw [if_pos ⟨hg, hb2⟩] at hR
    rw [if_pos ⟨hg, hb1⟩] at hN
    rw [hR, cellAt_placeAllOperations env seed p ops _ mp (by rw [hN]; simp), hN]
    rfl
  · rw [if_neg (fun h => hg h.1)] at hR
    rw [if_neg (fun h => hg h.1)] at hN
    by_cases hs : p = nd.start
    · left
      rw [if_pos ⟨hs, hs ▸ hb2⟩] at hR
      rw [if_pos ⟨hs, hs ▸ hb1⟩] at hN
      rw [hR, cellAt_placeAllOperations env seed p ops _ mp (by rw [hN]; simp), hN]
      rfl
    · rw [if_neg (fun h => hs h.1)] at hR
      rw [if_neg (fun h => hs h.1)] at hN
      rw [hR, hd]
      rcases cellAt_placeAllOperations_cases env seed p ops
        (updateMazeWithNodeNames base nd false) mp with h1 | ⟨entry, he, h1⟩
      · left
        rw [hd, hN] at h1
        have hdc : d = c := Option.some.inj h1
        rcases hplain p c hc with h0 | h0 <;> simp [hdc, h0]
      · by_cases hd0 : d = .num 0
        · left
          simp [hd0]
        · right
          refine ⟨by simp [hd0], entry, he, ?_⟩
          rw [← h1, hd]

/-! ## The matrix of a round in which every cell is cut off -/

theorem invariant_removeEdgesOrNodes (P : AdjMatrix → Prop)
    (hP : ∀ (adj : AdjMatrix) (i j v : Int), v = 0 ∨ v = 1 → P adj → P (setBoth adj i j v))
    (maze : Maze) (adj : AdjMatrix) (start : Pos) (goals : List Pos) (sp : Sparsity)
    (rng : Nat → Draw) (ROWS COLS : Nat) (h : P adj) :
    P (removeEdgesOrNodes maze adj start goals sp rng ROWS COLS).1 := by
  unfold removeEdgesOrNodes
  dsimp only
  generalize allCells ROWS COLS = cells
  generalize (0 : Nat) = k0
  induction cells generalizing k0 adj with
  | nil => exact h
  | cons c rest ih =>
    simp only [removeEdgesOrNodesLoop]
    apply ih
    split_ifs
    · unfold severCell
      refine foldl_invariant P _ ?_ _ adj h
      intro a x ha
      dsimp only
      split_ifs
      · exact hP _ _ _ 1 (Or.inr rfl) (hP _ _ _ 0 (Or.inl rfl) ha)
      · exact hP _ _ _ 0 (Or.inl rfl) ha
      · exact ha
    · exact h

theorem invariant_clearNode (P : AdjMatrix → Prop)
    (hP : ∀ (adj : AdjMatrix) (i j v : Int), v = 0 ∨ v = 1 → P adj → P (setBoth adj i j v))
    (adj : AdjMatrix) (idx : Int) (ROWS COLS : Nat) (h : P adj) :
    P (clearNode adj idx ROWS COLS) := by
  unfold clearNode
  refine foldl_invariant P _ ?_ _ adj h
  intro a i ha
  exact hP _ _ _ 0 (Or.inl rfl) ha

theorem invariant_removeInvalidEdges (P : AdjMatrix → Prop)
    (hP : ∀ (adj : AdjMatrix) (i j v : Int), v = 0 ∨ v = 1 → P adj → P (setBoth adj i j v))
    (maze : Maze) (adj : AdjMatrix) (ROWS COLS : Nat) (h : P adj) :
    P (removeInvalidEdges maze adj ROWS COLS) := by
  unfold removeInvalidEdges
  refine foldl_invariant P _ ?_ _ adj h
  intro a pos ha
  unfold removeInvalidEdgesAt
  split_ifs
  · exact invariant_clearNode P hP a _ ROWS COLS ha
  · dsimp only
    refine foldl_invariant P _ ?_ _ _ ?_
    · intro b i hb
      dsimp only
      split_ifs
      · exact hP _ _ _ 0 (Or.inl rfl) hb
      · exact hb
    · refine foldl_invariant P _ ?_ _ a ha
      intro b nb hb
      dsimp only
      split_ifs
      · exact hP _ _ _ 0 (Or.inl rfl) hb
      · exact hb

theorem invariant_removeUnreachableNodes (P : AdjMatrix → Prop)
    (hP : ∀ (adj : AdjMatrix) (i j v : Int), v = 0 ∨ v = 1 → P adj → P (setBoth adj i j v))
    (maze : Maze) (adj : AdjMatrix) (start : Pos) (ROWS COLS : Nat) (h : P adj) :
    P (removeUnreachableNodes maze adj start ROWS COLS).2 := by
  unfold removeUnreachableNodes
  refine foldl_invariant (fun (state : Maze × AdjMatrix) => P state.2) _ ?_ _ (maze, adj) h
  intro state pos hs
  unfold removeUnreachableAt
  split_ifs
  · dsimp only
    refine foldl_invariant P _ ?_ _ state.2 hs
    intro b nb hb
    dsimp only
    split_ifs
    · exact hP _ _ _ 0 (Or.inl rfl) hb
    · exact hb
  · exact hs

theorem invariant_updateAdjacencyMatrix (P : AdjMatrix → Prop)
    (hP : ∀ (adj : AdjMatrix) (i j v : Int), v = 0 ∨ v = 1 → P adj → P (setBoth adj i j v))
    (adj : AdjMatrix) (pos : Pos) (remove : Bool) (ROWS COLS : Nat) (h : P adj) :
    P (updateAdjacencyMatrix adj pos remove ROWS COLS) := by
  unfold updateAdjacencyMatrix
  refine foldl_invariant P _ ?_ _ adj h
  intro b nb hb
  dsimp only
  split_ifs
  · exact hP _ _ _ 0 (Or.inl rfl) hb
  · exact hP _ _ _ 1 (Or.inr rfl) hb
  · exact hb

theorem invariant_ensureConnectivity (P : AdjMatrix → Prop)
    (hP : ∀ (adj : AdjMatrix) (i j v : Int), v = 0 ∨ v = 1 → P adj → P (setBoth adj i j v))
    (maze : Maze) (adj : AdjMatrix) (nodes : List Pos) (h : P adj) :
    P (ensureConnectivity maze adj nodes).2 := by
  unfold ensureConnectivity
  refine foldl_invariant (fun (state : Maze × AdjMatrix) => P state.2) _ ?_ _ (maze, adj) h
  intro state pair hs
  unfold ensurePath
  split_ifs
  · exact invariant_updateAdjacencyMatrix P hP _ _ _ 7 7
      (invariant_updateAdjacencyMatrix P hP _ _ _ 7 7 hs)
  · exact hs

/-- Two square matrices of the same size with the same entries are the same matrix. -/
theorem matrix_ext {a b : AdjMatrix} {n : Nat} (ha : isSquare a n) (hb : isSquare b n)
    (h : ∀ i j : Nat, i < n → j < n → entryAt a i j = entryAt b i j) : a = b := by
  apply List.ext_getElem?
  intro i
  by_cases hi : i < n
  · obtain ⟨r1, hr1, hl1⟩ := isSquare_row ha hi
    obtain ⟨r2, hr2, hl2⟩ := isSquare_row hb hi
    rw [hr1, hr2]
    congr 1
    apply List.ext_getElem?
    intro j
    by_cases hj : j < n
    · have hcell := h i j hi hj
      unfold entryAt at hcell
      rw [if_pos ⟨by omega, by omega⟩, if_pos ⟨by omega, by omega⟩] at hcell
      simpa [hr1, hr2] using hcell
    · rw [List.getElem?_eq_none (by omega), List.getElem?_eq_none (by omega)]
  · have e1 := isSquare_length ha
    have e2 := isSquare_length hb
    rw [List.getElem?_eq_none (by omega), List.getElem?_eq_none (by omega)]

theorem generateBase_all_severed_cells (env : RandomEnv) (nd : NodeDetails) (sp : Sparsity)
    (maze_seed : Option String) (mp : Nat)
    (hstart : isValidMatrixIndex nd.start 7 7 = true)
    (hgoals : ∀ goal ∈ nd.goal, isValidMatrixIndex goal 7 7 = true) (hne : nd.goal ≠ [])
    (hdraws : ∀ k < 49, (rngOf env maze_seed mp k).lt sp = true) :
    ∀ p, isValidMatrixIndex p 7 7 = true →
      cellAt (generateBase env nd sp maze_seed none false 7 7 mp).1 p = some (.num 0) := by
  have hzero := removeEdgesOrNodes_all_severed nd.start nd.goal sp (rngOf env maze_seed mp) 7 7
    hstart hgoals hne hdraws
  intro p hp
  have hb : (generateBase env nd sp maze_seed none false 7 7 mp).1 =
      (ensureConnectivity
        (removeUnreachableNodes
          (removeIsolatedNodes (openGrid 7 7)
            (removeEdgesOrNodes (openGrid 7 7) (initialAdjMatrix (openGrid 7 7) 7 7)
              nd.start nd.goal sp (rngOf env maze_seed mp) 7 7).1 7 7)
          (removeInvalidEdges
            (removeIsolatedNodes (openGrid 7 7)
              (removeEdgesOrNodes (openGrid 7 7) (initialAdjMatrix (openGrid 7 7) 7 7)
                nd.start nd.goal sp (rngOf env maze_seed mp) 7 7).1 7 7)
            (removeEdgesOrNodes (openGrid 7 7) (initialAdjMatrix (openGrid 7 7) 7 7)
              nd.start nd.goal sp (rngOf env maze_seed mp) 7 7).1 7 7)
          nd.start 7 7).1
        (removeUnreachableNodes
          (removeIsolatedNodes (openGrid 7 7)
            (removeEdgesOrNodes (openGrid 7 7) (initialAdjMatrix (openGrid 7 7) 7 7)
              nd.start nd.goal sp (rngOf env maze_seed mp) 7 7).1 7 7)
          (removeInvalidEdges
            (removeIsolatedNodes (openGrid 7 7)
              (removeEdgesOrNodes (openGrid 7 7) (initialAdjMatrix (openGrid 7 7) 7 7)
                nd.start nd.goal sp (rngOf env maze_seed mp) 7 7).1 7 7)
            (removeEdgesOrNodes (openGrid 7 7) (initialAdjMatrix (openGrid 7 7) 7 7)
              nd.start nd.goal sp (rngOf env maze_seed mp) 7 7).1 7 7)
          nd.start 7 7).2 (nd.start :: nd.goal)).1 := rfl
  rw [hb, ensureConnectivity_grid]
  apply blocked_removeUnreachableNodes
  unfold removeIsolatedNodes
  rw [(cellAt_removeIsolatedNodes_all _ 7 (rowSum_eq_zero hzero) _ _ p).1
    ((mem_allCells p 7 7).mpr hp), cellAt_openGrid, if_pos hp]
  rfl

theorem generateBase_false_matrix (env : RandomEnv) (nd : NodeDetails) (sp : Sparsity)
    (maze_seed : Option String) (ROWS COLS mp : Nat) :
    ∃ adj : AdjMatrix,
      (isSquare adj (ROWS * COLS) ∧
        ∀ (i j : Int) (v : Int), entryAt adj i j = some v → v = 0 ∨ v = 1) ∧
      (generateBase env nd sp maze_seed none false ROWS COLS mp).2.1 =
        removeInvalidEdges (generateBase env nd sp maze_seed none false ROWS COLS mp).1 adj
          ROWS COLS := by
  have hP : ∀ (adj : AdjMatrix) (i j v : Int), v = 0 ∨ v = 1 →
      (isSquare adj (ROWS * COLS) ∧
        ∀ (i j : Int) (v : Int), entryAt adj i j = some v → v = 0 ∨ v = 1) →
      (isSquare (setBoth adj i j v) (ROWS * COLS) ∧
        ∀ (k l : Int) (w : Int), entryAt (setBoth adj i j v) k l = some w → w = 0 ∨ w = 1) :=
    fun adj i j v hv h => ⟨isSquare_setBoth h.1 i j v, binary_setBoth h.2 i j v hv⟩
  unfold generateBase
  simp only [Bool.false_eq_true, if_false]
  refine ⟨_, ?_, rfl⟩
  apply invariant_ensureConnectivity _ hP
  apply invariant_removeUnreachableNodes _ hP
  apply invariant_removeInvalidEdges _ hP
  apply invariant_removeEdgesOrNodes _ hP
  exact ⟨isSquare_initialAdjMatrix _ ROWS COLS, binary_initialAdjMatrix _ ROWS COLS⟩

theorem generateBase_all_severed (env : RandomEnv) (nd : NodeDetails) (sp : Sparsity)
    (maze_seed : Option String) (mp : Nat)
    (hstart : isValidMatrixIndex nd.start 7 7 = true)
    (hgoals : ∀ goal ∈ nd.goal, isValidMatrixIndex goal 7 7 = true) (hne : nd.goal ≠ [])
    (hdraws : ∀ k < 49, (rngOf env maze_seed mp k).lt sp = true) :
    (generateBase env nd sp maze_seed none false 7 7 mp).1 =
      List.replicate 7 (List.replicate 7 (.num 0)) ∧
    (generateBase env nd sp maze_seed none false 7 7 mp).2.1 =
      List.replicate 49 (List.replicate 49 0) := by
  have hcells := generateBase_all_severed_cells env nd sp maze_seed mp hstart hgoals hne hdraws
  constructor
  · refine @maze_ext _ _ 7 7 (generateBase_hasShape_false env nd sp maze_seed none 7 7 mp
      (fun m hm => by cases hm)) (by simp [hasShape]) ?_
    intro p hp
    rw [hcells p hp]
    have hall : ∀ q ∈ allCells 7 7,
        cellAt (List.replicate 7 (List.replicate 7 (Cell.num 0))) q = some (.num 0) := by
      decide
    exact (hall p ((mem_allCells p 7 7).mpr hp)).symm
  · obtain ⟨adj, ⟨hsq, hbin⟩, heq⟩ := generateBase_false_matrix env nd sp maze_seed 7 7 mp
    have hP : ∀ (adj : AdjMatrix) (i j v : Int), v = 0 ∨ v = 1 →
        (isSquare adj (7 * 7) ∧
          ∀ (i j : Int) (v : Int), entryAt adj i j = some v → v = 0 ∨ v = 1) →
        (isSquare (setBoth adj i j v) (7 * 7) ∧
          ∀ (k l : Int) (w : Int), entryAt (setBoth adj i j v) k l = some w → w = 0 ∨ w = 1) :=
      fun adj i j v hv h => ⟨isSquare_setBoth h.1 i j v, binary_setBoth h.2 i j v hv⟩
    have hfinal := invariant_removeInvalidEdges _ hP
      (generateBase env nd sp maze_seed none false 7 7 mp).1 adj 7 7 ⟨hsq, hbin⟩
    rw [← heq] at hfinal
    refine matrix_ext hfinal.1 (isSquare_replicate 49) ?_
    intro i j hi hj
    rw [entryAt_replicate 49 ⟨by omega, by omega⟩ ⟨by omega, by omega⟩]
    obtain ⟨v, hv⟩ := @entryAt_isSome_of_isSquare _ 49 hfinal.1 (i : Int) (j : Int)
      ⟨by omega, by omega⟩ ⟨by omega, by omega⟩
    rcases hfinal.2 _ _ v hv with h0 | h1
    · rw [hv, h0]
    · exfalso
      obtain ⟨hpv, hpi⟩ := @cell_of_index 7 7 i hi
      obtain ⟨hqv, hqi⟩ := @cell_of_index 7 7 j hj
      have hk := removeInvalidEdges_kills
        (generateBase env nd sp maze_seed none false 7 7 mp).1 adj 7 7 hpv hqv
        (hcells _ hqv)
      rw [← heq, hpi, hqi, hv, h1] at hk
      exact hk rfl

/-! ## Two rounds on the 7 by 7 grid -/

theorem zeroEnv_no_draw (mp k : Nat) :
    (rngOf zeroEnv (some "Maze") mp k).lt ⟨0, 4⟩ = false := by
  simp [rngOf, zeroEnv, Draw.lt]

theorem zeroEnv_all_draws (mp k : Nat) :
    (rngOf zeroEnv (some "Maze") mp k).lt ⟨1, 1⟩ = true := by
  simp [rngOf, zeroEnv, Draw.lt]

/-- With sparsity 0 the node-removing generation on the 7 by 7 grid returns in its first round
the open grid with the start and the two goals named, and the matrix of all grid edges. -/
theorem generateMaze_default_no_draw :
    generateMaze zeroEnv defaultNodeDetails ⟨0, 4⟩ (some "Maze") none none false 7 7 1 0 =
      some { maze := updateMazeWithNodeNames (openGrid 7 7) defaultNodeDetails false,
             nodeDetails := defaultNodeDetails,
             adjMatrix := initialAdjMatrix (openGrid 7 7) 7 7 } :=
  generateMaze_no_draw zeroEnv defaultNodeDetails ⟨0, 4⟩ (some "Maze") none 0 0
    (by simp [defaultNodeDetails]) (by decide) (by decide) (zeroEnv_no_draw 0)

theorem generateMaze_all_severed (env : RandomEnv) (nd : NodeDetails) (sp : Sparsity)
    (maze_seed operation_node_seed : Option String) (fuel mp : Nat)
    (hnames : ∀ entry ∈ nd.operation, entry.2.mazeName ≠ .num 0)
    (hstart : isValidMatrixIndex nd.start 7 7 = true)
    (hgoals : ∀ goal ∈ nd.goal, isValidMatrixIndex goal 7 7 = true) (hne : nd.goal ≠ [])
    (hdraws : ∀ k < 49, (rngOf env maze_seed mp k).lt sp = true)
    (hcheck : nd.goal.all (fun goal => bfs (updateMazeWithNodeNames
      (List.replicate 7 (List.replicate 7 (.num 0))) nd false) nd.start goal 7 7) = true) :
    generateMaze env nd sp maze_seed operation_node_seed none false 7 7 (fuel + 1) mp =
      some { maze := (placeAllOperations env operation_node_seed nd.operation
               (updateMazeWithNodeNames (List.replicate 7 (List.replicate 7 (.num 0))) nd false)
               (generateBase env nd sp maze_seed none false 7 7 mp).2.2).1,
             nodeDetails := { nd with operation := (placeAllOperations env operation_node_seed
               nd.operation
               (updateMazeWithNodeNames (List.replicate 7 (List.replicate 7 (.num 0))) nd false)
               (generateBase env nd sp maze_seed none false 7 7 mp).2.2).2.1 },
             adjMatrix := List.replicate 49 (List.replicate 49 0) } := by
  obtain ⟨hb1, hb2⟩ := generateBase_all_severed env nd sp maze_seed mp hstart hgoals hne hdraws
  have hc : (generateAttempt env nd sp maze_seed operation_node_seed none false 7 7
      mp).2.1 = true := by
    rw [attempt_check_named env nd sp maze_seed operation_node_seed none false 7 7 mp hnames,
      hb1]
    exact hcheck
  simp only [generateMaze, hc, if_true]
  unfold generateAttempt
  simp only [hb1, hb2]

/-- With every cell selected for removal the node-removing generation on the 7 by 7 grid with
the start `[0, 0]` and the goal `[0, 1]` next to it returns in its first round the grid whose
only cells that are not blocked are the named start and goal, and the matrix without edges. -/
theorem generateMaze_near_all_severed :
    generateMaze zeroEnv nearNodeDetails ⟨1, 1⟩ (some "Maze") none none false 7 7 1 0 =
      some { maze := updateMazeWithNodeNames (List.replicate 7 (List.replicate 7 (.num 0)))
               nearNodeDetails false,
             nodeDetails := nearNodeDetails,
             adjMatrix := List.replicate 49 (List.replicate 49 0) } :=
  generateMaze_all_severed zeroEnv nearNodeDetails ⟨1, 1⟩ (some "Maze") none 0 0
    (by simp [nearNodeDetails]) (by decide) (by decide) (by decide)
    (fun k _ => zeroEnv_all_draws 0 k) (by decide)

/-! ## The claims about generated states on concrete grids -/

set_option maxRecDepth 20000 in
theorem generateMaze_goals_mutually_reachable_witness :
    (∀ m, (none : Option Maze) = some m → hasShape m 7 7) ∧
    isValidMatrixIndex defaultNodeDetails.start 7 7 = true ∧
    generateMaze zeroEnv defaultNodeDetails ⟨0, 4⟩ (some "Maze") none none false 7 7 1 0 =
      some { maze := updateMazeWithNodeNames (openGrid 7 7) defaultNodeDetails false,
             nodeDetails := defaultNodeDetails,
             adjMatrix := initialAdjMatrix (openGrid 7 7) 7 7 } ∧
    updateMazeWithNodeNames (openGrid 7 7) defaultNodeDetails false =
      [[.str "s", .num 1, .num 1, .num 1, .num 1, .num 1, .num 1],
       [.num 1, .num 1, .num 1, .num 1, .num 1, .num 1, .num 1],
       [.num 1, .num 1, .num 1, .num 1, .num 1, .num 1, .num 1],
       [.num 1, .num 1, .num 1, .num 1, .num 1, .num 1, .num 1],
       [.num 1, .num 1, .num 1, .num 1, .str "g", .num 1, .num 1],
       [.num 1, .num 1, .num 1, .num 1, .num 1, .num 1, .num 1],
       [.num 1, .num 1, .num 1, .num 1, .num 1, .num 1, .str "g"]] ∧
    defaultNodeDetails.goal = [(4, 4), (6, 6)] ∧
    ∀ goal ∈ defaultNodeDetails.goal,
      bfs (updateMazeWithNodeNames (openGrid 7 7) defaultNodeDetails false)
        defaultNodeDetails.start goal 7 7 = true ∧
      bfs (updateMazeWithNodeNames (openGrid 7 7) defaultNodeDetails false) goal
        defaultNodeDetails.start 7 7 = true :=
  ⟨by simp, by decide, generateMaze_default_no_draw, by decide, rfl,
    generateMaze_goals_mutually_reachable zeroEnv defaultNodeDetails ⟨0, 4⟩ (some "Maze") none
      none 7 7 1 0
      { maze := updateMazeWithNodeNames (openGrid 7 7) defaultNodeDetails false,
        nodeDetails := defaultNodeDetails,
        adjMatrix := initialAdjMatrix (openGrid 7 7) 7 7 }
      (by simp) (by decide) generateMaze_default_no_draw⟩


/-- C9 (as amended). Let a state be produced by `generateMaze` for a start and goals inside a
grid of at least one row and one column, in either mode and with or without a predefined
structure (a structure has the shape of the grid and cells 0 and 1; with `fullyConnected = false`
the grid has at least 7 rows and 7 columns, where the helpers with the bounds 7 and 7 stay inside
the grid). Then `cropAndAdjustMaze` with the rectangle covering the whole grid returns, and

* the node details, hence the start and the goal positions, are the same: nothing is relocated;
* every cell of the grid is the same, except that a cell carrying the name of an operation node
  comes back as the open cell 1; without operation nodes the grid is the same;
* the matrix is the same whenever every cell of the grid that is not blocked is reached from the
  cell `[0, 0]` along edges of the matrix, and in particular for every state generated with
  `fullyConnected = true` and without a predefined structure. -/
theorem cropAndAdjustMaze_wholeGrid_generated (env : RandomEnv) (nd : NodeDetails)
    (sp : Sparsity) (maze_seed operation_node_seed : Option String)
    (mazeStructure : Option Maze) (fullyConnected : Bool) (ROWS COLS fuel mp : Nat)
    (st : MazeData) (hR : 1 ≤ ROWS) (hC : 1 ≤ COLS)
    (hsize : fullyConnected = false → 7 ≤ ROWS ∧ 7 ≤ COLS)
    (hstruct : ∀ m, mazeStructure = some m → hasShape m ROWS COLS ∧ isPlainGrid m)
    (hstart : isValidMatrixIndex nd.start ROWS COLS = true)
    (hgoals : ∀ goal ∈ nd.goal, isValidMatrixIndex goal ROWS COLS = true)
    (h : generateMaze env nd sp maze_seed operation_node_seed mazeStructure fullyConnected
      ROWS COLS fuel mp = some st) :
    ∃ r, cropAndAdjustMaze st.maze st.adjMatrix st.nodeDetails (wholeGrid ROWS COLS) ROWS COLS
        = some r ∧
      r.nodeDetails = st.nodeDetails ∧
      st.nodeDetails.start = nd.start ∧ st.nodeDetails.goal = nd.goal ∧
      (∀ p, isValidMatrixIndex p ROWS COLS = true →
        cellAt r.croppedMaze p = cellAt st.maze p ∨
        (cellAt r.croppedMaze p = some (.num 1) ∧
          ∃ entry ∈ st.nodeDetails.operation, cellAt st.maze p = some entry.2.mazeName)) ∧
      (st.nodeDetails.operation = [] → r.croppedMaze = st.maze) ∧
      ((∀ p, isValidMatrixIndex p ROWS COLS = true → cellAt st.maze p ≠ some (.num 0) →
          Reach (edgeNeighbors st.adjMatrix ROWS COLS) (0, 0) p) →
        r.croppedAdjMatrix = st.adjMatrix) ∧
      (fullyConnected = true → mazeStructure = none → r.croppedAdjMatrix = st.adjMatrix) := by
  have _ := hsize
  obtain ⟨nd', mp', hs, hg, -, hst⟩ := generateMaze_eq_some fuel h
  obtain ⟨hshape, hplain⟩ := generateBase_shape_plain env nd' sp maze_seed mazeStructure
    fullyConnected ROWS COLS mp' hstruct
  have hmaze : st.maze = (placeAllOperations env operation_node_seed nd'.operation
      (updateMazeWithNodeNames (generateBase env nd' sp maze_seed mazeStructure fullyConnected
        ROWS COLS mp').1 nd' false)
      (generateBase env nd' sp maze_seed mazeStructure fullyConnected ROWS COLS mp').2.2).1 := by
    rw [hst]; rfl
  have hops : st.nodeDetails.operation = (placeAllOperations env operation_node_seed
      nd'.operation
      (updateMazeWithNodeNames (generateBase env nd' sp maze_seed mazeStructure fullyConnected
        ROWS COLS mp').1 nd' false)
      (generateBase env nd' sp maze_seed mazeStructure fullyConnected ROWS COLS mp').2.2).2.1 := by
    rw [hst]; rfl
  have hsd : st.nodeDetails.start = nd'.start := by rw [hst]; rfl
  have hgd : st.nodeDetails.goal = nd'.goal := by rw [hst]; rfl
  have hstart' : isValidMatrixIndex st.nodeDetails.start ROWS COLS = true := by
    rw [hsd, hs]; exact hstart
  have hgoals' : ∀ goal ∈ st.nodeDetails.goal, isValidMatrixIndex goal ROWS COLS = true := by
    rw [hgd, hg]; exact hgoals
  have hnamed : updateMazeWithNodeNames (cropCells st.maze (wholeGrid ROWS COLS))
      st.nodeDetails false =
      updateMazeWithNodeNames (cropCells st.maze (wholeGrid ROWS COLS)) nd' false :=
    updateMazeWithNodeNames_congr _ hsd hgd
  have hcells : ∀ p, isValidMatrixIndex p ROWS COLS = true →
      cellAt (updateMazeWithNodeNames (cropCells st.maze (wholeGrid ROWS COLS))
        st.nodeDetails false) p = cellAt st.maze p ∨
      (cellAt (updateMazeWithNodeNames (cropCells st.maze (wholeGrid ROWS COLS))
        st.nodeDetails false) p = some (.num 1) ∧
        ∃ entry ∈ st.nodeDetails.operation, cellAt st.maze p = some entry.2.mazeName) := by
    intro p hp
    rw [hnamed, hmaze]
    rcases cellAt_crop_of_placed env operation_node_seed nd'.operation _ nd' _ hshape hplain hp
      with h1 | ⟨h1, entry, he, h2⟩
    · exact Or.inl h1
    · refine Or.inr ⟨h1, ?_⟩
      have hmem : entry.2.mazeName ∈ st.nodeDetails.operation.map (fun e => e.2.mazeName) := by
        rw [hops, placeAllOperations_names]
        exact List.mem_map.mpr ⟨entry, he, rfl⟩
      obtain ⟨e2, he2, heq⟩ := List.mem_map.mp hmem
      exact ⟨e2, he2, by rw [heq]; exact h2⟩
  have hstshape : hasShape st.maze ROWS COLS := by
    rw [hmaze]
    exact hasShape_placeAllOperations env operation_node_seed _ _ _
      (hasShape_updateMazeWithNodeNames nd' hshape)
  refine ⟨_, cropAndAdjustMaze_wholeGrid_any st.maze st.adjMatrix st.nodeDetails ROWS COLS
    hstart' hgoals', rfl, hsd.trans hs, hgd.trans hg, hcells, ?_, ?_, ?_⟩
  · intro hnil
    refine @maze_ext _ _ ROWS COLS ?_ hstshape ?_
    · apply hasShape_updateMazeWithNodeNames
      unfold hasShape
      rw [map_length_cropCells]
      exact hstshape
    · intro p hp
      rcases hcells p hp with h1 | ⟨-, entry, he, -⟩
      · exact h1
      · rw [hnil] at he
        cases he
  · intro hreach
    exact cropEnsureFullConnectivity_wholeGrid hR hC hreach
  · intro hfc hnone
    subst hfc hnone
    have hpos : 0 < ROWS * COLS := Nat.mul_pos hR hC
    obtain ⟨h1, h2, -, h4⟩ := removeEdgesOnly_openGrid sp (rngOf env maze_seed mp') ROWS COLS
      hpos
    have hadj : st.adjMatrix = (removeEdgesOnly (initialAdjMatrix (openGrid ROWS COLS) ROWS COLS)
        sp (rngOf env maze_seed mp') ROWS COLS).1 := by
      rw [hst]
      exact generateAttempt_adjMatrix env nd' sp maze_seed operation_node_seed ROWS COLS mp'
    rw [← hadj] at h1 h2 h4
    exact cropEnsureFullConnectivity_of_covered _ _ _ _ (fun p hp =>
      getAllConnectedNodes_wholeGrid hR hC h1 h2 h4 p (mem_rectCells_wholeGrid hp))
/-- The 2 by 2 state generated with one operation node, which is placed on the cell `[1, 0]`. -/
theorem generateMaze_small_state :
    generateMaze zeroEnv smallNodeDetails ⟨1, 4⟩ (some "Maze") none none true 2 2 1 0 =
      some { maze := [[.str "s", .str "g"], [.num 2, .num 1]],
             nodeDetails :=
               { start := (0, 0), goal := [(0, 1)],
                 operation := [("node1", { plainOperationNode with positions := [(1, 0)] })] },
             adjMatrix := [[0, 0, 1, 0], [0, 0, 0, 1], [1, 0, 0, 1], [0, 1, 1, 0]] } := by
  set_option maxRecDepth 20000 in decide

theorem cropAndAdjustMaze_wholeGrid_generated_witness :
    (∃ st, generateMaze zeroEnv smallNodeDetails ⟨1, 4⟩ (some "Maze") none none true 2 2 1 0
        = some st ∧
      st.maze = [[.str "s", .str "g"], [.num 2, .num 1]] ∧
      ∃ r, cropAndAdjustMaze st.maze st.adjMatrix st.nodeDetails (wholeGrid 2 2) 2 2 = some r ∧
        r.nodeDetails = st.nodeDetails ∧
        st.nodeDetails.start = smallNodeDetails.start ∧
        st.nodeDetails.goal = smallNodeDetails.goal ∧
        (∀ p, isValidMatrixIndex p 2 2 = true →
          cellAt r.croppedMaze p = cellAt st.maze p ∨
          (cellAt r.croppedMaze p = some (.num 1) ∧
            ∃ entry ∈ st.nodeDetails.operation, cellAt st.maze p = some entry.2.mazeName)) ∧
        (st.nodeDetails.operation = [] → r.croppedMaze = st.maze) ∧
        ((∀ p, isValidMatrixIndex p 2 2 = true → cellAt st.maze p ≠ some (.num 0) →
            Reach (edgeNeighbors st.adjMatrix 2 2) (0, 0) p) →
          r.croppedAdjMatrix = st.adjMatrix) ∧
        (true = true → (none : Option Maze) = none → r.croppedAdjMatrix = st.adjMatrix)) ∧
    (∃ st, generateMaze zeroEnv defaultNodeDetails ⟨0, 4⟩ (some "Maze") none none false 7 7 1 0
        = some st ∧
      st.maze = updateMazeWithNodeNames (openGrid 7 7) defaultNodeDetails false ∧
      ∃ r, cropAndAdjustMaze st.maze st.adjMatrix st.nodeDetails (wholeGrid 7 7) 7 7 = some r ∧
        r.nodeDetails = st.nodeDetails ∧
        st.nodeDetails.start = defaultNodeDetails.start ∧
        st.nodeDetails.goal = defaultNodeDetails.goal ∧
        (∀ p, isValidMatrixIndex p 7 7 = true →
          cellAt r.croppedMaze p = cellAt st.maze p ∨
          (cellAt r.croppedMaze p = some (.num 1) ∧
            ∃ entry ∈ st.nodeDetails.operation, cellAt st.maze p = some entry.2.mazeName)) ∧
        (st.nodeDetails.operation = [] → r.croppedMaze = st.maze) ∧
        ((∀ p, isValidMatrixIndex p 7 7 = true → cellAt st.maze p ≠ some (.num 0) →
            Reach (edgeNeighbors st.adjMatrix 7 7) (0, 0) p) →
          r.croppedAdjMatrix = st.adjMatrix) ∧
        (false = true → (none : Option Maze) = none → r.croppedAdjMatrix = st.adjMatrix)) :=
  ⟨⟨{ maze := [[.str "s", .str "g"], [.num 2, .num 1]],
      nodeDetails :=
        { start := (0, 0), goal := [(0, 1)],
          operation := [("node1", { plainOperationNode with positions := [(1, 0)] })] },
      adjMatrix := [[0, 0, 1, 0], [0, 0, 0, 1], [1, 0, 0, 1], [0, 1, 1, 0]] },
      generateMaze_small_state, rfl,
      cropAndAdjustMaze_wholeGrid_generated zeroEnv smallNodeDetails ⟨1, 4⟩ (some "Maze") none
        none true 2 2 1 0
        { maze := [[.str "s", .str "g"], [.num 2, .num 1]],
          nodeDetails :=
            { start := (0, 0), goal := [(0, 1)],
              operation := [("node1", { plainOperationNode with positions := [(1, 0)] })] },
          adjMatrix := [[0, 0, 1, 0], [0, 0, 0, 1], [1, 0, 0, 1], [0, 1, 1, 0]] }
        (by decide) (by decide) (by simp) (by simp) (by decide) (by decide)
        generateMaze_small_state⟩,
    ⟨{ maze := updateMazeWithNodeNames (openGrid 7 7) defaultNodeDetails false,
       nodeDetails := defaultNodeDetails,
       adjMatrix := initialAdjMatrix (openGrid 7 7) 7 7 },
      generateMaze_default_no_draw, rfl,
      cropAndAdjustMaze_wholeGrid_generated zeroEnv defaultNodeDetails ⟨0, 4⟩ (some "Maze") none
        none false 7 7 1 0
        { maze := updateMazeWithNodeNames (openGrid 7 7) defaultNodeDetails false,
          nodeDetails := defaultNodeDetails,
          adjMatrix := initialAdjMatrix (openGrid 7 7) 7 7 }
        (by decide) (by decide) (fun _ => ⟨by decide, by decide⟩) (by simp)
        (by decide) (by decide) generateMaze_default_no_draw⟩⟩

set_option maxRecDepth 20000 in
/-- C9, counterexample. Three generated states that the crop over the whole grid does not
return as they are.

* The 2 by 2 state generated with one operation node has the grid `[["s", "g"], [2, 1]]`; the
  crop returns `[["s", "g"], [1, 1]]`: the cell of the operation node is an open cell again.
* Generated with `fullyConnected = true` over the structure `[[1, 1], [1, 0]]` and the goal on
  the blocked cell, the state has a matrix without an edge at the node 3; the crop returns a
  matrix with the edge between the nodes 1 and 3.
* Generated with `fullyConnected = false` on the 7 by 7 grid with sparsity 1/2 and a stream that
  selects every cell, the state has the matrix without any edge; the crop returns a matrix with
  the edge between the nodes 0 and 1, the start and the goal. -/
theorem cropAndAdjustMaze_wholeGrid_not_identity :
    ((generateMaze zeroEnv smallNodeDetails ⟨0, 0⟩ (some "Maze") none none true 2 2 1 0).map
        (fun s => s.maze) = some [[.str "s", .str "g"], [.num 2, .num 1]] ∧
      ((generateMaze zeroEnv smallNodeDetails ⟨0, 0⟩ (some "Maze") none none true 2 2 1 0).bind
        fun s => (cropAndAdjustMaze s.maze s.adjMatrix s.nodeDetails (wholeGrid 2 2) 2 2).map
          fun r => r.croppedMaze) = some [[.str "s", .str "g"], [.num 1, .num 1]]) ∧
    (generateMaze zeroEnv cornerNodeDetails ⟨0, 0⟩ (some "Maze") none
        (some [[.num 1, .num 1], [.num 1, .num 0]]) true 2 2 1 0 =
        some { maze := [[.str "s", .num 1], [.num 1, .str "g"]],
               nodeDetails := cornerNodeDetails,
               adjMatrix := [[0, 1, 1, 0], [1, 0, 0, 0], [1, 0, 0, 0], [0, 0, 0, 0]] } ∧
      (cropAndAdjustMaze [[.str "s", .num 1], [.num 1, .str "g"]]
          [[0, 1, 1, 0], [1, 0, 0, 0], [1, 0, 0, 0], [0, 0, 0, 0]] cornerNodeDetails
          (wholeGrid 2 2) 2 2).map (fun r => r.croppedAdjMatrix) =
        some [[0, 1, 1, 0], [1, 0, 0, 1], [1, 0, 0, 0], [0, 1, 0, 0]]) ∧
    (generateMaze zeroEnv nearNodeDetails ⟨1, 1⟩ (some "Maze") none none false 7 7 1 0 =
        some { maze := updateMazeWithNodeNames (List.replicate 7 (List.replicate 7 (.num 0)))
                 nearNodeDetails false,
               nodeDetails := nearNodeDetails,
               adjMatrix := List.replicate 49 (List.replicate 49 0) } ∧
      entryAt (List.replicate 49 (List.replicate 49 0)) 0 1 = some 0 ∧
      (cropAndAdjustMaze
          (updateMazeWithNodeNames (List.replicate 7 (List.replicate 7 (.num 0)))
            nearNodeDetails false)
          (List.replicate 49 (List.replicate 49 0)) nearNodeDetails (wholeGrid 7 7) 7 7).map
        (fun r => (entryAt r.croppedAdjMatrix 0 1, entryAt r.croppedAdjMatrix 1 0)) =
        some (some 1, some 1)) :=
  ⟨by decide, by decide, generateMaze_near_all_severed, by decide,
    by decide⟩

end MonkeyMaze
